import Mathlib

/-!
# Minesweeper: board logic, layout helpers and their properties

A shallow embedding of `app/src/main/cpp/Minesweeper.{h,cpp}`.

* C++ `int` values are mathematical integers (`Int`); no value of the program
  comes near the 32-bit range.
* C++ `float` values are modelled by exact rationals (`ℚ`); the conversion
  `(int) f` is truncation toward zero (`floatToInt`).
* `std::vector<std::vector<Cell>>` is a list of rows, each row a list of cells.
* `rand()` is modelled by an explicit list of the values it returns.
* Loops whose trip count is not fixed in advance (`PlaceMines`, the flood fill
  of `RevealCell`) are modelled with the list of draws, resp. a fuel counter,
  and return `none` when that resource is exhausted before the loop exits.
-/

set_option autoImplicit false

namespace Minesweeper

/-! ## Data model (`Minesweeper.h`) -/

/-- One grid position (`struct Cell`). -/
structure Cell where
  hasMine : Bool := false
  isRevealed : Bool := false
  isFlagged : Bool := false
  neighborMines : Int := 0
  deriving DecidableEq, Repr

instance : Inhabited Cell := ⟨{}⟩

/-- The game phase (`enum GameState`). -/
inductive GameState where
  | MENU
  | PLAYING
  | WON
  | LOST
  deriving DecidableEq, Repr

/-- The gesture recogniser state (`enum ActiveGesture`). -/
inductive ActiveGesture where
  | TOUCH_NONE
  | TAP_OR_HOLD
  | GESTURE_PAN
  | GESTURE_PINCH
  deriving DecidableEq, Repr

/-- The raylib `Vector2`, over exact rationals. -/
structure Vector2 where
  x : ℚ := 0
  y : ℚ := 0
  deriving DecidableEq

/-- The raylib `Camera2D`, over exact rationals. -/
structure Camera2D where
  offset : Vector2 := {}
  target : Vector2 := {}
  rotation : ℚ := 0
  zoom : ℚ := 0
  deriving DecidableEq

/-- The grid: a list of rows. -/
abbrev Board := List (List Cell)

/-- The private fields of `class Minesweeper`, with the initial values the
header gives them. -/
structure Game where
  board : Board := []
  rows : Int := 0
  cols : Int := 0
  totalMines : Int := 0
  revealedCount : Int := 0
  flagCount : Int := 0
  state : GameState := GameState.MENU
  firstClick : Bool := true
  timer : ℚ := 0
  cellSize : ℚ := 0
  offsetX : ℚ := 0
  offsetY : ℚ := 0
  headerHeight : ℚ := 0
  screenWidth : Int := 0
  screenHeight : Int := 0
  touchStart : Vector2 := {}
  touchTimer : ℚ := 0
  longPressTriggered : Bool := false
  camera : Camera2D := {}
  minZoom : ℚ := 1
  maxZoom : ℚ := 1
  pinchStartDist : ℚ := 0
  pinchStartZoom : ℚ := 0
  panStartPos : Vector2 := {}
  panStartTarget : Vector2 := {}
  gestureDecided : Bool := false
  activeGesture : ActiveGesture := ActiveGesture.TOUCH_NONE
  gestureMoveDist : ℚ := 0
  deriving DecidableEq

/-! ## Board access -/

/-- Read access `board[r][c]`.  Every read in the source is guarded by
`IsValidCell` or by loop bounds; out of range the model yields a clear cell. -/
def cellAt (b : Board) (r c : Int) : Cell :=
  (b.getD r.toNat []).getD c.toNat default

/-- Write access `board[r][c] = x`. -/
def setCell (b : Board) (r c : Int) (x : Cell) : Board :=
  b.set r.toNat ((b.getD r.toNat []).set c.toNat x)

/-- The helper `IsValidCell` of the source. -/
def IsValidCell (g : Game) (row col : Int) : Bool :=
  decide (row ≥ 0) && decide (row < g.rows) && decide (col ≥ 0) && decide (col < g.cols)

/-- The conversion `(int) f` of C++: the fractional part is discarded. -/
def floatToInt (q : ℚ) : Int :=
  if 0 ≤ q then ⌊q⌋ else -⌊-q⌋

/-! ## Layout (`CalculateLayout`, `InitCamera`) -/

/-- The method `CalculateLayout`.  With `rows = 0` or `cols = 0` the float
division of the source yields an infinity or NaN, which the rationals do not
model; no property below reads the layout of such a game. -/
def CalculateLayout (g : Game) : Game :=
  let availableWidth : ℚ := (g.screenWidth : ℚ)
  let availableHeight : ℚ := (g.screenHeight : ℚ) - g.headerHeight
  let cellW : ℚ := availableWidth / (g.cols : ℚ)
  let cellH : ℚ := availableHeight / (g.rows : ℚ)
  let cellSize : ℚ := if cellW < cellH then cellW else cellH
  let boardWidth : ℚ := cellSize * (g.cols : ℚ)
  let boardHeight : ℚ := cellSize * (g.rows : ℚ)
  { g with
    cellSize := cellSize
    offsetX := (availableWidth - boardWidth) / 2
    offsetY := g.headerHeight + (availableHeight - boardHeight) / 2 }

/-- The method `InitCamera`. -/
def InitCamera (g : Game) : Game :=
  let availH : ℚ := (g.screenHeight : ℚ) - g.headerHeight
  let minZoom : ℚ := 1
  { g with
    camera :=
      { offset := { x := (g.screenWidth : ℚ) / 2, y := g.headerHeight + availH / 2 }
        target := { x := g.offsetX + (g.cols : ℚ) * g.cellSize / 2,
                    y := g.offsetY + (g.rows : ℚ) * g.cellSize / 2 }
        rotation := 0
        zoom := 1 }
    minZoom := minZoom
    maxZoom := max (90 / g.cellSize) minZoom
    activeGesture := ActiveGesture.TOUCH_NONE
    gestureDecided := false
    longPressTriggered := false
    gestureMoveDist := 0 }

/-! ## Game logic -/

/-- The method `InitBoard`.  `board.assign(rows, std::vector<Cell>(cols))`
builds `rows` rows of `cols` clear cells; the sizes are meant to be
non-negative (a negative size makes the C++ call throw). -/
def InitBoard (g : Game) (r c mines : Int) : Game :=
  InitCamera (CalculateLayout
    { g with
      rows := r
      cols := c
      totalMines := mines
      revealedCount := 0
      flagCount := 0
      firstClick := true
      timer := 0
      state := GameState.PLAYING
      board := List.replicate r.toNat (List.replicate c.toNat default) })

/-- The method `CheckWinCondition`. -/
def CheckWinCondition (g : Game) : Bool :=
  decide (g.revealedCount = g.rows * g.cols - g.totalMines)

/-- The offsets `(dr, dc)` in the order the two nested loops
`for dr = -1..1`, `for dc = -1..1` enumerate them. -/
def deltas : List (Int × Int) :=
  [(-1, -1), (-1, 0), (-1, 1), (0, -1), (0, 0), (0, 1), (1, -1), (1, 0), (1, 1)]

/-- The inner two loops of `CountNeighborMines`: the value of `count` for the
cell `(r, c)`. -/
def countAround (g : Game) (b : Board) (r c : Int) : Int :=
  deltas.foldl
    (fun count d =>
      if IsValidCell g (r + d.1) (c + d.2) && (cellAt b (r + d.1) (c + d.2)).hasMine
      then count + 1 else count)
    0

/-- The body of the loops over `r` and `c` in `CountNeighborMines`. -/
def countCell (g : Game) (b : Board) (r c : Int) : Board :=
  if (cellAt b r c).hasMine then b
  else setCell b r c { cellAt b r c with neighborMines := countAround g b r c }

/-- The loop nest `for r in [0, rows)`, `for c in [0, cols)` around a body that
updates the board. -/
def forEachCell (rows cols : Int) (body : Board → Int → Int → Board) (b : Board) : Board :=
  (List.range rows.toNat).foldl
    (fun (b1 : Board) (r : Nat) =>
      (List.range cols.toNat).foldl (fun (b2 : Board) (c : Nat) => body b2 (r : Int) (c : Int)) b1)
    b

/-- The method `CountNeighborMines`. -/
def CountNeighborMines (g : Game) : Game :=
  { g with board := forEachCell g.rows g.cols (countCell g) g.board }

/-- The `while (placed < totalMines)` loop of `PlaceMines`.  Each iteration
consumes two values of `rand()`; `none` means the draws ran out before the loop
condition became false. -/
def placeLoop (g : Game) (safeRow safeCol : Int) : List Nat → Board → Int → Option Board
  | draws, b, placed =>
    if placed < g.totalMines then
      match draws with
      | d1 :: d2 :: rest =>
        let r := Int.tmod (d1 : Int) g.rows
        let c := Int.tmod (d2 : Int) g.cols
        if |r - safeRow| ≤ 1 ∧ |c - safeCol| ≤ 1 then placeLoop g safeRow safeCol rest b placed
        else if (cellAt b r c).hasMine then placeLoop g safeRow safeCol rest b placed
        else placeLoop g safeRow safeCol rest
          (setCell b r c { cellAt b r c with hasMine := true }) (placed + 1)
      | _ => none
    else some b

/-- The method `PlaceMines`, for the values `draws` that `rand()` returns. -/
def PlaceMines (g : Game) (safeRow safeCol : Int) (draws : List Nat) : Option Game :=
  (placeLoop g safeRow safeCol draws g.board 0).map
    (fun b => CountNeighborMines { g with board := b })

/-- The body of the loops in `RevealAllMines`. -/
def revealMine (b : Board) (r c : Int) : Board :=
  if (cellAt b r c).hasMine then setCell b r c { cellAt b r c with isRevealed := true } else b

/-- The method `RevealAllMines`. -/
def RevealAllMines (g : Game) : Game :=
  { g with board := forEachCell g.rows g.cols revealMine g.board }

/-- The body of the two inner loops of the flood fill in `RevealCell`, for the
dequeued cell `(cr, cc)` and the offset `d = (dr, dc)`; the state is the game
together with the queue. -/
def visitNeighbor (cr cc : Int) (s : Game × List (Int × Int)) (d : Int × Int) :
    Game × List (Int × Int) :=
  let nr := cr + d.1
  let nc := cc + d.2
  if !IsValidCell s.1 nr nc then s
  else
    let neighbor := cellAt s.1.board nr nc
    if neighbor.isRevealed || neighbor.isFlagged || neighbor.hasMine then s
    else
      let g1 : Game :=
        { s.1 with
          board := setCell s.1.board nr nc { neighbor with isRevealed := true }
          revealedCount := s.1.revealedCount + 1 }
      if neighbor.neighborMines = 0 then (g1, s.2 ++ [(nr, nc)]) else (g1, s.2)

/-- The loop `while (!q.empty())` of `RevealCell`; `none` means the fuel ran
out while the queue was not empty. -/
def floodFill : Nat → Game → List (Int × Int) → Option Game
  | _, g, [] => some g
  | 0, _, _ :: _ => none
  | fuel + 1, g, (cr, cc) :: rest =>
    let s := deltas.foldl (visitNeighbor cr cc) (g, rest)
    floodFill fuel s.1 s.2

/-- The method `RevealCell`.  The flood fill is run with one unit of fuel per
cell of the board (`RevealCell_total` shows that this always suffices). -/
def RevealCell (g : Game) (row col : Int) : Option Game :=
  if !IsValidCell g row col then some g
  else
    let cell := cellAt g.board row col
    if cell.isRevealed || cell.isFlagged then some g
    else
      let g1 : Game :=
        { g with
          board := setCell g.board row col { cell with isRevealed := true }
          revealedCount := g.revealedCount + 1 }
      if cell.hasMine then some { RevealAllMines g1 with state := GameState.LOST }
      else
        let flooded : Option Game :=
          if cell.neighborMines = 0 then floodFill (g.rows * g.cols).toNat g1 [(row, col)]
          else some g1
        flooded.map
          (fun g2 => if CheckWinCondition g2 then { g2 with state := GameState.WON } else g2)

/-- The method `ToggleFlag`. -/
def ToggleFlag (g : Game) (row col : Int) : Game :=
  if !IsValidCell g row col then g
  else
    let cell := cellAt g.board row col
    if cell.isRevealed then g
    else
      let flagged := !cell.isFlagged
      { g with
        board := setCell g.board row col { cell with isFlagged := flagged }
        flagCount := g.flagCount + (if flagged then 1 else -1) }

/-- The helper `GetCellRow`. -/
def GetCellRow (g : Game) (y : ℚ) : Int :=
  floatToInt ((y - g.offsetY) / g.cellSize)

/-- The helper `GetCellCol`. -/
def GetCellCol (g : Game) (x : ℚ) : Int :=
  floatToInt ((x - g.offsetX) / g.cellSize)

/-- The tap branch of `HandlePlayingInput` once the touch position has been
mapped to the cell index `(row, col)`: on a valid cell the first tap places
the mines and every tap reveals the cell. -/
def tapCell (g : Game) (row col : Int) (draws : List Nat) : Option Game :=
  if IsValidCell g row col then
    if g.firstClick then
      (PlaceMines { g with firstClick := false } row col draws).bind
        (fun g1 => RevealCell g1 row col)
    else RevealCell g row col
  else some g

/-! ## Specification vocabulary -/

/-- The board has `rows` rows of `cols` cells each: the shape
`board.assign(rows, std::vector<Cell>(cols))` establishes. -/
def BoardWF (b : Board) (rows cols : Int) : Prop :=
  b.length = rows.toNat ∧ ∀ row ∈ b, row.length = cols.toNat

/-- The class invariant relating `board` to `rows` and `cols`. -/
def Game.WF (g : Game) : Prop :=
  BoardWF g.board g.rows g.cols

/-- The positions of the grid. -/
def cells (g : Game) : Finset (Int × Int) :=
  Finset.Ico 0 g.rows ×ˢ Finset.Ico 0 g.cols

/-- The positions that hold a mine. -/
def mineCells (g : Game) : Finset (Int × Int) :=
  (cells g).filter (fun p => (cellAt g.board p.1 p.2).hasMine = true)

/-- Brute-force reference for `neighborMines`: the number of positions of the
grid at Chebyshev distance exactly 1 from `(r, c)` that hold a mine. -/
def refNeighborMines (g : Game) (r c : Int) : Nat :=
  ((cells g).filter
    (fun p => max |p.1 - r| |p.2 - c| = 1 ∧ (cellAt g.board p.1 p.2).hasMine = true)).card

/-! ## Concrete game states used as test inputs -/

/-- The object right after the constructor: phase `MENU`, empty board. -/
def initialGame : Game := {}

/-- A fresh Easy game, as `HandleMenuInput` starts it. -/
def easyGame : Game := InitBoard initialGame 9 9 10

/-- The Easy game after a long press on cell `(2, 3)`. -/
def flaggedGame : Game := ToggleFlag easyGame 2 3

/-- A fresh Easy game on a 900 x 2000 screen whose header is 160 high. -/
def phoneGame : Game :=
  InitBoard { screenWidth := 900, screenHeight := 2000, headerHeight := 160 } 9 9 10

/-- Values of `rand()` that place the ten mines of an Easy game on
`(8, 0) .. (8, 7)`, `(7, 7)` and `(7, 8)` after a first tap on `(0, 0)`; the
draws `0, 0` and `1, 1` fall into the safe zone and the second `8, 5` hits a
mine, so the loop draws again. -/
def easyDraws : List Nat :=
  [8, 0, 8, 1, 8, 2, 8, 3, 0, 0, 1, 1, 8, 4, 8, 5, 8, 5, 8, 6, 8, 7, 7, 7, 7, 8]

/-- The Easy game after the first tap, on `(0, 0)`, with the draws `easyDraws`:
70 cells are revealed, the safe cell `(8, 8)` is not. -/
def minedGame : Game := (tapCell easyGame 0 0 easyDraws).getD easyGame

/-- The game `minedGame` after a long press on the mine `(8, 1)`. -/
def minedFlaggedGame : Game := ToggleFlag minedGame 8 1

/-- The Easy game right after `PlaceMines(0, 0)` with the draws `easyDraws`. -/
def placedGame : Game := (PlaceMines easyGame 0 0 easyDraws).getD easyGame

/-! ## Vocabulary of the flood fill -/

/-- The cell at a position given as a pair. -/
def cellOf (g : Game) (p : Int × Int) : Cell :=
  cellAt g.board p.1 p.2

/-- Two positions are at Chebyshev distance at most 1: equal or 8-adjacent. -/
def adjacent (p q : Int × Int) : Prop :=
  |q.1 - p.1| ≤ 1 ∧ |q.2 - p.2| ≤ 1

instance (p q : Int × Int) : Decidable (adjacent p q) := by
  unfold adjacent; infer_instance

/-- A cell the flood fill may reveal: in bounds, unrevealed, unflagged and
without a mine. -/
def eligible (g : Game) (p : Int × Int) : Prop :=
  IsValidCell g p.1 p.2 = true ∧ (cellOf g p).isRevealed = false ∧
    (cellOf g p).isFlagged = false ∧ (cellOf g p).hasMine = false

instance (g : Game) (p : Int × Int) : Decidable (eligible g p) := by
  unfold eligible; infer_instance

/-- An eligible cell with `neighborMines = 0`. -/
def zeroCell (g : Game) (p : Int × Int) : Prop :=
  eligible g p ∧ (cellOf g p).neighborMines = 0

instance (g : Game) (p : Int × Int) : Decidable (zeroCell g p) := by
  unfold zeroCell; infer_instance

/-- The positions `z` joined to `s` by a chain `s = c0, c1, .., ck = z` of
adjacent positions in which every `c1, .., ck` is a zero cell. -/
def zeroRegion (g : Game) (s : Int × Int) (z : Int × Int) : Prop :=
  Relation.ReflTransGen (fun x y => adjacent x y ∧ zeroCell g y) s z

/-- The reference set of the flood fill started at `s`: the eligible cells
that are equal or adjacent to a position of the zero region of `s`. -/
def floodTarget (g : Game) (s : Int × Int) (p : Int × Int) : Prop :=
  eligible g p ∧ ∃ z : Int × Int, zeroRegion g s z ∧ adjacent z p

/-- The positions revealed in `g` that were not revealed in `g0`. -/
def newCells (g0 g : Game) : Finset (Int × Int) :=
  (cells g0).filter
    (fun p => (cellOf g p).isRevealed = true ∧ (cellOf g0 p).isRevealed = false)

/-- The positions of the grid of `g0` whose cell in `g` is unrevealed,
unflagged and without a mine. -/
def eligibleCells (g0 g : Game) : Finset (Int × Int) :=
  (cells g0).filter
    (fun p => (cellOf g p).isRevealed = false ∧ (cellOf g p).isFlagged = false ∧
      (cellOf g p).hasMine = false)

/-- The invariant of the flood-fill loop of `RevealCell`, relative to the game
`g0` before the call and the start position `s`: `g` is the current game, `q`
the queue, `cur` the dequeued position whose neighbours are being visited (if
any) and `M` a bound on the iterations still to come. -/
structure FloodInv (g0 : Game) (s : Int × Int) (M : Nat) (cur : List (Int × Int))
    (g : Game) (q : List (Int × Int)) : Prop where
  frame : { g with board := g0.board, revealedCount := g0.revealedCount } = g0
  wf : BoardWF g.board g0.rows g0.cols
  other : ∀ p ∈ cells g0, (cellOf g p).hasMine = (cellOf g0 p).hasMine ∧
    (cellOf g p).isFlagged = (cellOf g0 p).isFlagged ∧
    (cellOf g p).neighborMines = (cellOf g0 p).neighborMines
  mono : ∀ p ∈ cells g0, (cellOf g0 p).isRevealed = true → (cellOf g p).isRevealed = true
  fresh : ∀ p ∈ cells g0, (cellOf g p).isRevealed = true → (cellOf g0 p).isRevealed = false →
    floodTarget g0 s p
  count : g.revealedCount = g0.revealedCount + ((newCells g0 g).card : Int)
  queue : ∀ z ∈ q, zeroRegion g0 s z
  smem : s ∈ cells g0
  start : (cellOf g s).isRevealed = true
  done : ∀ z, zeroRegion g0 s z → (cellOf g z).isRevealed = true →
    z ∈ cur ∨ z ∈ q ∨ ∀ n, adjacent z n → eligible g0 n → (cellOf g n).isRevealed = true
  fuel : q.length + (eligibleCells g0 g).card ≤ M

/-- The effect of a call of `RevealCell` that reveals no mine, before the win
check: from `g0` to `g` only `isRevealed` of cells and `revealedCount` change,
no cell is hidden again, every newly revealed cell was eligible and
`revealedCount` grows by the number of newly revealed cells. -/
structure RevealEffect (g0 g : Game) : Prop where
  frame : { g with board := g0.board, revealedCount := g0.revealedCount } = g0
  wf : BoardWF g.board g0.rows g0.cols
  other : ∀ p ∈ cells g0, (cellOf g p).hasMine = (cellOf g0 p).hasMine ∧
    (cellOf g p).isFlagged = (cellOf g0 p).isFlagged ∧
    (cellOf g p).neighborMines = (cellOf g0 p).neighborMines
  mono : ∀ p ∈ cells g0, (cellOf g0 p).isRevealed = true → (cellOf g p).isRevealed = true
  fresh : ∀ p ∈ cells g0, (cellOf g p).isRevealed = true → (cellOf g0 p).isRevealed = false →
    eligible g0 p
  count : g.revealedCount = g0.revealedCount + ((newCells g0 g).card : Int)

/-! ## Reachable game states -/

/-- The three difficulty presets `(rows, cols, mines)` of `HandleMenuInput`. -/
def presets : List (Int × Int × Int) :=
  [(9, 9, 10), (16, 16, 40), (16, 30, 99)]

/-- The games `g` and `g'` agree on the board and on every game-logic field;
they may differ in layout, camera, timer and gesture fields. -/
def sameLogic (g g' : Game) : Prop :=
  g'.board = g.board ∧ g'.rows = g.rows ∧ g'.cols = g.cols ∧
  g'.totalMines = g.totalMines ∧ g'.revealedCount = g.revealedCount ∧
  g'.flagCount = g.flagCount ∧ g'.state = g.state ∧ g'.firstClick = g.firstClick

/-- The game states the program can reach.  `HandleMenuInput` starts one of the
three presets with `InitBoard`; in the phase `PLAYING` a tap runs `tapCell`
and a long press runs `ToggleFlag` at the cell index of the touch position
(`HandlePlayingInput`); the restart button and `HandleGameOverInput` set the
phase to `MENU`; everything else the handlers do changes layout, camera,
timer and gesture fields only. -/
inductive Reachable : Game → Prop
  | start (g0 : Game) (r c m : Int) (h : (r, c, m) ∈ presets) : Reachable (InitBoard g0 r c m)
  | tap {g g' : Game} (row col : Int) (draws : List Nat) (hg : Reachable g)
      (hs : g.state = GameState.PLAYING) (ht : tapCell g row col draws = some g') :
      Reachable g'
  | longPress {g : Game} (row col : Int) (hg : Reachable g)
      (hs : g.state = GameState.PLAYING) : Reachable (ToggleFlag g row col)
  | toMenu {g : Game} (hg : Reachable g) : Reachable { g with state := GameState.MENU }
  | view {g g' : Game} (hg : Reachable g) (h : sameLogic g g') : Reachable g'

/-- The positions whose cell is revealed. -/
def revealedCells (g : Game) : Finset (Int × Int) :=
  (cells g).filter (fun p => (cellOf g p).isRevealed = true)

/-- No mine of the grid is revealed. -/
def noMineRevealed (g : Game) : Prop :=
  ∀ p ∈ cells g, (cellOf g p).hasMine = true → (cellOf g p).isRevealed = false

/-- Every cell of the grid without a mine is revealed. -/
def allSafeRevealed (g : Game) : Prop :=
  ∀ p ∈ cells g, (cellOf g p).hasMine = false → (cellOf g p).isRevealed = true

/-- The invariant of the reachable game states. -/
structure GameInv (g : Game) : Prop where
  wf : g.WF
  dims : 0 < g.rows ∧ 0 < g.cols
  total : 0 ≤ g.totalMines
  clear : g.firstClick = true →
    (∀ p ∈ cells g, (cellOf g p).hasMine = false ∧ (cellOf g p).isRevealed = false) ∧
      g.revealedCount = 0
  mines : g.firstClick = false → ((mineCells g).card : Int) = g.totalMines
  counted : noMineRevealed g → g.revealedCount = ((revealedCells g).card : Int)
  alive : g.state = GameState.PLAYING ∨ g.state = GameState.WON → noMineRevealed g
  unfinished : g.state = GameState.PLAYING → g.firstClick = false →
    g.revealedCount ≠ g.rows * g.cols - g.totalMines

/-- The Easy game `minedGame` after a second tap, on the mine `(8, 0)`. -/
def lostGame : Game := (tapCell minedGame 8 0 []).getD minedGame

/-! ## The reference set of the flood fill, in the words of the specification -/

/-- Two positions are 8-adjacent: at Chebyshev distance exactly 1. -/
def adjacent8 (p q : Int × Int) : Prop :=
  max |q.1 - p.1| |q.2 - p.2| = 1

instance (p q : Int × Int) : Decidable (adjacent8 p q) := by
  unfold adjacent8; infer_instance

/-- The set `Z` of a start position `s`: the positions reachable from `s` by
8-adjacent steps through zero cells (unrevealed, unflagged, mine-free cells of
the grid with `neighborMines = 0`). -/
def zeroChain8 (g : Game) (s : Int × Int) (z : Int × Int) : Prop :=
  Relation.ReflTransGen (fun x y => adjacent8 x y ∧ zeroCell g y) s z

/-- The reference set of `RevealCell` started at `s`: the start position, plus
every eligible (unrevealed, unflagged, mine-free) cell of the grid that is
8-adjacent to a position of `Z`. -/
def floodRef (g : Game) (s : Int × Int) (p : Int × Int) : Prop :=
  p = s ∨ (eligible g p ∧ ∃ z : Int × Int, zeroChain8 g s z ∧ adjacent8 z p)

/-! ## The flood-fill loop with its queue traffic recorded -/

/-- The loop `while (!q.empty())` of `RevealCell` as in `floodFill`, returning
in addition the positions it dequeues, one per run of the loop body, and the
positions the loop bodies push, both in order of time.  A run of the loop
body leaves the queue as `rest ++ added`, and `added` is what it pushed. -/
def floodFillTrace : Nat → Game → List (Int × Int) →
    Option (Game × List (Int × Int) × List (Int × Int))
  | _, g, [] => some (g, [], [])
  | 0, _, _ :: _ => none
  | fuel + 1, g, (cr, cc) :: rest =>
    let s := deltas.foldl (visitNeighbor cr cc) (g, rest)
    (floodFillTrace fuel s.1 s.2).map
      (fun r => (r.1, (cr, cc) :: r.2.1, s.2.drop rest.length ++ r.2.2))

/-- The invariant of the queue traffic: `pre` are the positions dequeued so
far, `q` is the queue; no position occurs twice in `pre ++ q`, and all of them
are revealed cells of the grid of `g0`. -/
def QueueInv (g0 g : Game) (pre q : List (Int × Int)) : Prop :=
  (pre ++ q).Nodup ∧ ∀ p ∈ pre ++ q, p ∈ cells g0 ∧ (cellOf g p).isRevealed = true

/-- The game `minedFlaggedGame` (mine `(8, 1)` flagged) after a tap on the mine
`(8, 0)`: the game is lost and `RevealAllMines` has run. -/
def lostFlaggedGame : Game := (tapCell minedFlaggedGame 8 0 []).getD minedFlaggedGame

/-- A cell that is both flagged and revealed holds a mine. -/
def FlagInv (g : Game) : Prop :=
  ∀ p ∈ cells g, (cellOf g p).isFlagged = true → (cellOf g p).isRevealed = true →
    (cellOf g p).hasMine = true

/-! ## Input handling (`Update`, `Handle*Input`) and the camera

The raylib and raymath functions the handlers call are not part of the
repository.  `Clamp` and `GetScreenToWorld2D` are written out after their
library sources; `Vector2Distance`, a square root, is a parameter `dist` of
the handlers; the values the input functions return in a frame are collected
in a `Frame`.  Floats are exact rationals: constants such as `0.08f` are the
exact decimals, and `touchTimer += GetFrameTime()` adds without rounding, so a
statement about accumulated time is a statement over exact arithmetic (the
float32 sum of the code can differ from the exact sum in its last bits). -/

/-- What raylib reports during one frame. -/
structure Frame where
  /-- The value of `GetScreenWidth()`. -/
  screenWidth : Int := 0
  /-- The value of `GetScreenHeight()`. -/
  screenHeight : Int := 0
  /-- The value of `GetTouchPointCount()`. -/
  touchCount : Int := 0
  /-- The value of `GetTouchPosition(0)`. -/
  touch0 : Vector2 := {}
  /-- The value of `GetTouchPosition(1)`. -/
  touch1 : Vector2 := {}
  /-- The value of `GetFrameTime()`. -/
  frameTime : ℚ := 0
  /-- The value of `IsGestureDetected(GESTURE_TAP)`. -/
  tapGesture : Bool := false
  /-- The values `rand()` returns if it is called in this frame. -/
  draws : List Nat := []

/-- The things a frame of `HandlePlayingInput` does to the game logic, recorded
in the order in which they happen. -/
inductive Event where
  /-- The long-press branch is entered (`longPressTriggered = true`). -/
  | longPress
  /-- A call `ToggleFlag(row, col)`. -/
  | toggleFlag (row col : Int)
  /-- The tap branch of the release block is entered. -/
  | tap
  /-- The tap hit the restart button: `state = MENU`. -/
  | restart
  /-- A call `PlaceMines(row, col)`. -/
  | placeMines (row col : Int)
  /-- A call `RevealCell(row, col)`. -/
  | revealCell (row col : Int)
  deriving DecidableEq, Repr

/-- The raymath function `Clamp`. -/
def Clamp (value min max : ℚ) : ℚ :=
  let result := if value < min then min else value
  if result > max then max else result

/-- The raylib function `GetScreenToWorld2D` for a camera without rotation
(`InitCamera` sets `rotation = 0` and nothing else writes it): the inverse of
`screen = (world - target) * zoom + offset`. -/
def GetScreenToWorld2D (position : Vector2) (camera : Camera2D) : Vector2 :=
  { x := (position.x - camera.offset.x) / camera.zoom + camera.target.x
    y := (position.y - camera.offset.y) / camera.zoom + camera.target.y }

/-- The helper `ScreenToBoard`. -/
def ScreenToBoard (g : Game) (screenPos : Vector2) : Vector2 :=
  GetScreenToWorld2D screenPos g.camera

/-- The method `ClampCamera`. -/
def ClampCamera (g : Game) : Game :=
  let boardW : ℚ := (g.cols : ℚ) * g.cellSize
  let boardH : ℚ := (g.rows : ℚ) * g.cellSize
  let boardCenterX : ℚ := g.offsetX + boardW / 2
  let boardCenterY : ℚ := g.offsetY + boardH / 2
  let availH : ℚ := (g.screenHeight : ℚ) - g.headerHeight
  let visibleW : ℚ := (g.screenWidth : ℚ) / g.camera.zoom
  let visibleH : ℚ := availH / g.camera.zoom
  let x : ℚ :=
    if boardW > visibleW then
      Clamp g.camera.target.x (g.offsetX + visibleW / 2) (g.offsetX + boardW - visibleW / 2)
    else boardCenterX
  let y : ℚ :=
    if boardH > visibleH then
      Clamp g.camera.target.y (g.offsetY + visibleH / 2) (g.offsetY + boardH - visibleH / 2)
    else boardCenterY
  { g with camera := { g.camera with target := { x := x, y := y } } }

/-- The pinch branch of `HandleCameraInput` without its final `ClampCamera`:
with two contacts and `pinchStartDist > 1` the zoom follows the ratio of the
contact distances and the target keeps the midpoint of the contacts in place. -/
def pinchUpdate (dist : Vector2 → Vector2 → ℚ) (g : Game) (f : Frame) : Game :=
  if f.touchCount ≥ 2 then
    let currentDist : ℚ := dist f.touch0 f.touch1
    if g.pinchStartDist > 1 then
      let midpoint : Vector2 :=
        { x := (f.touch0.x + f.touch1.x) / 2, y := (f.touch0.y + f.touch1.y) / 2 }
      let worldBefore := GetScreenToWorld2D midpoint g.camera
      let newZoom : ℚ := g.pinchStartZoom * (currentDist / g.pinchStartDist)
      let cam1 : Camera2D := { g.camera with zoom := Clamp newZoom g.minZoom g.maxZoom }
      let worldAfter := GetScreenToWorld2D midpoint cam1
      { g with
        camera :=
          { cam1 with
            target :=
              { x := cam1.target.x + (worldBefore.x - worldAfter.x)
                y := cam1.target.y + (worldBefore.y - worldAfter.y) } } }
    else g
  else g

/-- The method `HandleCameraInput`. -/
def HandleCameraInput (dist : Vector2 → Vector2 → ℚ) (g : Game) (f : Frame) : Game :=
  let g1 : Game :=
    if g.activeGesture = ActiveGesture.GESTURE_PINCH then ClampCamera (pinchUpdate dist g f)
    else g
  if g1.activeGesture = ActiveGesture.GESTURE_PAN then
    let pos := f.touch0
    ClampCamera
      { g1 with
        camera :=
          { g1.camera with
            target :=
              { x := g1.panStartTarget.x - (pos.x - g1.panStartPos.x) / g1.camera.zoom
                y := g1.panStartTarget.y - (pos.y - g1.panStartPos.y) / g1.camera.zoom } } }
  else g1

/-- The block `// Touch start` of `HandlePlayingInput`. -/
def handleTouchStart (dist : Vector2 → Vector2 → ℚ) (g : Game) (f : Frame) : Game :=
  if f.touchCount > 0 ∧ g.activeGesture = ActiveGesture.TOUCH_NONE then
    let g1 : Game :=
      { g with
        touchStart := f.touch0
        touchTimer := 0
        longPressTriggered := false
        gestureDecided := false
        gestureMoveDist := 0
        activeGesture := ActiveGesture.TAP_OR_HOLD }
    if f.touchCount ≥ 2 then
      { g1 with
        activeGesture := ActiveGesture.GESTURE_PINCH
        gestureDecided := true
        pinchStartDist := dist f.touch0 f.touch1
        pinchStartZoom := g1.camera.zoom }
    else g1
  else g

/-- The first part of the block `// Touch held`: the timer (added in exact
arithmetic), the distance from the start position, the transitions to pinch
and to pan, and the camera. -/
def heldMotion (dist : Vector2 → Vector2 → ℚ) (g : Game) (f : Frame) : Game :=
  let g1 : Game :=
    { g with
      touchTimer := g.touchTimer + f.frameTime
      gestureMoveDist := dist f.touch0 g.touchStart }
  let g2 : Game :=
    if g1.activeGesture ≠ ActiveGesture.GESTURE_PINCH ∧ f.touchCount ≥ 2 then
      { g1 with
        activeGesture := ActiveGesture.GESTURE_PINCH
        gestureDecided := true
        pinchStartDist := dist f.touch0 f.touch1
        pinchStartZoom := g1.camera.zoom }
    else g1
  let g3 : Game :=
    if g2.gestureDecided = false ∧ f.touchCount = 1 ∧ g2.gestureMoveDist > 12 ∧
        g2.camera.zoom > g2.minZoom + 1 / 100 then
      { g2 with
        activeGesture := ActiveGesture.GESTURE_PAN
        gestureDecided := true
        panStartPos := f.touch0
        panStartTarget := g2.camera.target }
    else g2
  HandleCameraInput dist g3 f

/-- The second part of the block `// Touch held`: long press detection. -/
def longPressDetect (g : Game) : Game × List Event :=
  if g.activeGesture = ActiveGesture.TAP_OR_HOLD ∧ g.longPressTriggered = false ∧
      g.touchTimer ≥ 1 / 2 ∧ g.gestureMoveDist < 15 then
    let g1 : Game := { g with longPressTriggered := true, gestureDecided := true }
    let worldPos := ScreenToBoard g1 g1.touchStart
    let row := GetCellRow g1 worldPos.y
    let col := GetCellCol g1 worldPos.x
    if IsValidCell g1 row col then
      (ToggleFlag g1 row col, [Event.longPress, Event.toggleFlag row col])
    else (g1, [Event.longPress])
  else (g, [])

/-- The block `// Touch held` of `HandlePlayingInput`. -/
def handleTouchHeld (dist : Vector2 → Vector2 → ℚ) (g : Game) (f : Frame) :
    Game × List Event :=
  if f.touchCount > 0 ∧ g.activeGesture ≠ ActiveGesture.TOUCH_NONE then
    longPressDetect (heldMotion dist g f)
  else (g, [])

/-- The calls the tap branch makes on the cell index `(row, col)`. -/
def tapEvents (g : Game) (row col : Int) : List Event :=
  if IsValidCell g row col then
    (if g.firstClick then [Event.placeMines row col] else []) ++ [Event.revealCell row col]
  else []

/-- The tap branch of the block `// Touch released`: a tap on the restart
button returns to the menu, any other tap goes to the cell under the start
position. -/
def tapAction (g : Game) (f : Frame) : Option (Game × List Event) :=
  let btnSize : ℚ := g.headerHeight * (7 / 10)
  let btnX : ℚ := ((g.screenWidth : ℚ) - btnSize) / 2
  let btnY : ℚ := (g.headerHeight - btnSize) / 2
  if g.touchStart.x ≥ btnX ∧ g.touchStart.x ≤ btnX + btnSize ∧
      g.touchStart.y ≥ btnY ∧ g.touchStart.y ≤ btnY + btnSize then
    some ({ g with state := GameState.MENU }, [Event.tap, Event.restart])
  else
    let worldPos := ScreenToBoard g g.touchStart
    let row := GetCellRow g worldPos.y
    let col := GetCellCol g worldPos.x
    (tapCell g row col f.draws).map (fun g1 => (g1, Event.tap :: tapEvents g row col))

/-- The block `// Touch released` of `HandlePlayingInput`. -/
def handleTouchReleased (g : Game) (f : Frame) : Option (Game × List Event) :=
  if f.touchCount = 0 ∧ g.activeGesture ≠ ActiveGesture.TOUCH_NONE then
    let r : Option (Game × List Event) :=
      if g.activeGesture = ActiveGesture.TAP_OR_HOLD ∧ g.longPressTriggered = false ∧
          g.gestureMoveDist < 12 then
        tapAction g f
      else some (g, [])
    r.map
      (fun p =>
        ({ p.1 with
            activeGesture := ActiveGesture.TOUCH_NONE
            gestureDecided := false
            longPressTriggered := false },
          p.2))
  else some (g, [])

/-- The method `HandlePlayingInput`, with the events of the frame. -/
def HandlePlayingInput (dist : Vector2 → Vector2 → ℚ) (g : Game) (f : Frame) :
    Option (Game × List Event) :=
  let g1 := handleTouchStart dist g f
  let held := handleTouchHeld dist g1 f
  (handleTouchReleased held.1 f).map (fun p => (p.1, held.2 ++ p.2))

/-- The method `HandleMenuInput`. -/
def HandleMenuInput (g : Game) (f : Frame) : Game :=
  if f.tapGesture then
    let pos := f.touch0
    let btnWidth : ℚ := (g.screenWidth : ℚ) * (6 / 10)
    let btnHeight : ℚ := (g.screenHeight : ℚ) * (7 / 100)
    let btnX : ℚ := ((g.screenWidth : ℚ) - btnWidth) / 2
    let startY : ℚ := (g.screenHeight : ℚ) * (35 / 100)
    let spacing : ℚ := btnHeight * (3 / 2)
    let g1 : Game :=
      if pos.x ≥ btnX ∧ pos.x ≤ btnX + btnWidth ∧ pos.y ≥ startY ∧ pos.y ≤ startY + btnHeight
      then InitBoard g 9 9 10 else g
    let medY : ℚ := startY + spacing
    let g2 : Game :=
      if pos.x ≥ btnX ∧ pos.x ≤ btnX + btnWidth ∧ pos.y ≥ medY ∧ pos.y ≤ medY + btnHeight
      then InitBoard g1 16 16 40 else g1
    let hardY : ℚ := startY + spacing * 2
    if pos.x ≥ btnX ∧ pos.x ≤ btnX + btnWidth ∧ pos.y ≥ hardY ∧ pos.y ≤ hardY + btnHeight
    then InitBoard g2 16 30 99 else g2
  else g

/-- The method `HandleGameOverInput`. -/
def HandleGameOverInput (g : Game) (f : Frame) : Game :=
  if f.tapGesture then { g with state := GameState.MENU } else g

/-- The first part of `Update`: a change of the screen size is taken over and,
outside the menu, the layout and the camera are computed anew. -/
def updateScreen (g : Game) (f : Frame) : Game :=
  if f.screenWidth ≠ g.screenWidth ∨ f.screenHeight ≠ g.screenHeight then
    let g1 : Game :=
      { g with
        screenWidth := f.screenWidth
        screenHeight := f.screenHeight
        headerHeight := (f.screenHeight : ℚ) * (8 / 100) }
    if g1.state = GameState.PLAYING ∨ g1.state = GameState.WON ∨ g1.state = GameState.LOST then
      InitCamera (CalculateLayout g1)
    else g1
  else g

/-- The method `Update`, with the events of the frame. -/
def Update (dist : Vector2 → Vector2 → ℚ) (g : Game) (f : Frame) :
    Option (Game × List Event) :=
  let g1 := updateScreen g f
  match g1.state with
  | GameState.MENU => some (HandleMenuInput g1 f, [])
  | GameState.PLAYING =>
    HandlePlayingInput dist { g1 with timer := g1.timer + f.frameTime } f
  | GameState.WON => some (HandleGameOverInput g1 f, [])
  | GameState.LOST => some (HandleGameOverInput g1 f, [])

/-- Consecutive frames of `HandlePlayingInput`, with the events of all of
them; `none` if one of the frames has no result. -/
def runFrames (dist : Vector2 → Vector2 → ℚ) : Game → List Frame → Option (Game × List Event)
  | g, [] => some (g, [])
  | g, f :: fs =>
    (HandlePlayingInput dist g f).bind
      (fun p => (runFrames dist p.1 fs).map (fun q => (q.1, p.2 ++ q.2)))

/-- The game `g` with its game-logic fields cleared: what is left are the
layout, camera, timer and gesture fields. -/
def eraseLogic (g : Game) : Game :=
  { g with
    board := []
    revealedCount := 0
    flagCount := 0
    state := GameState.MENU
    firstClick := true }

/-- The phone game zoomed in by a factor of two with the camera target moved to
the origin, far to the upper left of the board. -/
def zoomedGame : Game :=
  { phoneGame with
    camera := { phoneGame.camera with zoom := 2, target := { x := 0, y := 0 } }
    maxZoom := 2 }

/-- Consecutive calls of `Update`, with the events of all of them; `none` if
one of the frames has no result. -/
def runUpdates (dist : Vector2 → Vector2 → ℚ) : Game → List Frame → Option (Game × List Event)
  | g, [] => some (g, [])
  | g, f :: fs =>
    (Update dist g f).bind
      (fun p => (runUpdates dist p.1 fs).map (fun q => (q.1, p.2 ++ q.2)))

/-- The zoom lies between its bounds. -/
def zoomInRange (g : Game) : Prop :=
  g.minZoom ≤ g.camera.zoom ∧ g.camera.zoom ≤ g.maxZoom

/-- A fresh Hard game on a 900 x 2000 screen whose header is 160 high: 30
columns of width 30, `maxZoom = 3`. -/
def hardPhoneGame : Game :=
  InitBoard { screenWidth := 900, screenHeight := 2000, headerHeight := 160 } 16 30 99

/-- A distance for the test sessions: the sum of the coordinate differences,
which is `Vector2Distance` for two points on a common horizontal or vertical
line; the test sessions only measure such pairs. -/
def axisDist (a b : Vector2) : ℚ :=
  |a.x - b.x| + |a.y - b.y|

/-- The Hard phone game in a pinch that started at zoom 1 with the contacts 100
apart. -/
def pinchGame : Game :=
  { hardPhoneGame with
    activeGesture := ActiveGesture.GESTURE_PINCH
    gestureDecided := true
    pinchStartDist := 100
    pinchStartZoom := 1 }

/-- A frame with two contacts 500 apart on a horizontal line. -/
def pinchFrame : Frame :=
  { screenWidth := 900, screenHeight := 2000, touchCount := 2,
    touch0 := { x := 200, y := 1000 }, touch1 := { x := 700, y := 1000 }, frameTime := 1 / 60 }

/-- The function `π` does not read the gesture fields. -/
def GestureBlind {α : Type} (π : Game → α) : Prop :=
  ∀ (g : Game) (ts : Vector2) (tt : ℚ) (lp gd : Bool) (md : ℚ) (ag : ActiveGesture)
    (psd psz : ℚ) (pp pt : Vector2),
    π { g with
        touchStart := ts, touchTimer := tt, longPressTriggered := lp, gestureDecided := gd,
        gestureMoveDist := md, activeGesture := ag, pinchStartDist := psd, pinchStartZoom := psz,
        panStartPos := pp, panStartTarget := pt } = π g

/-- The function `π` does not read the camera. -/
def CameraBlind {α : Type} (π : Game → α) : Prop :=
  ∀ (g : Game) (c : Camera2D), π { g with camera := c } = π g

/-- The function `π` does not read the board, the two counters or
`firstClick`. -/
def BoardBlind {α : Type} (π : Game → α) : Prop :=
  ∀ (g : Game) (b : Board) (rc fc : Int) (fcl : Bool),
    π { g with board := b, revealedCount := rc, flagCount := fc, firstClick := fcl } = π g

/-- The function `π` does not read the phase. -/
def PhaseBlind {α : Type} (π : Game → α) : Prop :=
  ∀ (g : Game) (s : GameState), π { g with state := s } = π g

/-- A frame on the 0 x 0 screen of `initialGame` in which raylib reports a tap
gesture at the origin. -/
def tapFrame : Frame := { tapGesture := true }

/-- A pan or a pinch is a decided gesture: the code sets `gestureDecided` in
the assignments that set `activeGesture` to `GESTURE_PAN` or `GESTURE_PINCH`. -/
def gestureLatched (g : Game) : Prop :=
  (g.activeGesture = ActiveGesture.GESTURE_PAN ∨ g.activeGesture = ActiveGesture.GESTURE_PINCH) →
    g.gestureDecided = true

/-- The Hard phone game zoomed in by a factor of two, with one contact down at
`(450, 1000)` and no gesture decided yet. -/
def holdGame : Game :=
  { hardPhoneGame with
    camera := { hardPhoneGame.camera with zoom := 2 }
    touchStart := { x := 450, y := 1000 }
    activeGesture := ActiveGesture.TAP_OR_HOLD }

/-- A frame with one contact at `(480, 1000)`. -/
def dragFrame : Frame :=
  { screenWidth := 900, screenHeight := 2000, touchCount := 1,
    touch0 := { x := 480, y := 1000 }, frameTime := 1 / 60 }

/-- The cell index the handlers derive from the start position of the touch:
`ScreenToBoard(touchStart)` followed by `GetCellRow` and `GetCellCol`. -/
def startCell (g : Game) : Int × Int :=
  let worldPos := ScreenToBoard g g.touchStart
  (GetCellRow g worldPos.y, GetCellCol g worldPos.x)

/-- The tap test of the release block. -/
def tapCondition (g : Game) : Prop :=
  g.activeGesture = ActiveGesture.TAP_OR_HOLD ∧ g.longPressTriggered = false ∧
    g.gestureMoveDist < 12

/-- The hit test of the restart button in the release block. -/
def restartHit (g : Game) : Prop :=
  g.touchStart.x ≥ ((g.screenWidth : ℚ) - g.headerHeight * (7 / 10)) / 2 ∧
    g.touchStart.x ≤
      ((g.screenWidth : ℚ) - g.headerHeight * (7 / 10)) / 2 + g.headerHeight * (7 / 10) ∧
    g.touchStart.y ≥ (g.headerHeight - g.headerHeight * (7 / 10)) / 2 ∧
    g.touchStart.y ≤
      (g.headerHeight - g.headerHeight * (7 / 10)) / 2 + g.headerHeight * (7 / 10)

/-- A session on the phone game: the contact goes down on the restart button
at `(450, 80)`. -/
def wiggleFrame1 : Frame :=
  { screenWidth := 900, screenHeight := 2000, touchCount := 1,
    touch0 := { x := 450, y := 80 }, frameTime := 1 / 60 }

/-- The contact is lifted. -/
def releaseFrame : Frame :=
  { screenWidth := 900, screenHeight := 2000, touchCount := 0, frameTime := 1 / 60 }

/-- A single contact is down and nothing is decided: neither a long press nor
a pan has happened in the session. -/
def holdPhase (g : Game) : Prop :=
  g.activeGesture = ActiveGesture.TAP_OR_HOLD ∧ g.longPressTriggered = false ∧
    g.gestureDecided = false

/-- The long press of the session has fired. -/
def pressedPhase (g : Game) : Prop :=
  g.activeGesture = ActiveGesture.TAP_OR_HOLD ∧ g.longPressTriggered = true ∧
    g.gestureDecided = true

/-- The test of the long press detection. -/
def longPressCondition (g : Game) : Prop :=
  g.activeGesture = ActiveGesture.TAP_OR_HOLD ∧ g.longPressTriggered = false ∧
    g.touchTimer ≥ 1 / 2 ∧ g.gestureMoveDist < 15

/-- What a long press does in a session with the start position of `g`: the
cell index of the start position gets `ToggleFlag` if it is valid. -/
def longPressEvents (g : Game) : List Event :=
  if IsValidCell g (startCell g).1 (startCell g).2 then
    [Event.longPress, Event.toggleFlag (startCell g).1 (startCell g).2]
  else [Event.longPress]

/-- A frame in which a single contact at `(450, 1000)` has been down for half
a second. -/
def pressFrame : Frame :=
  { screenWidth := 900, screenHeight := 2000, touchCount := 1,
    touch0 := { x := 450, y := 1000 }, frameTime := 1 / 2 }

/-- The positions whose cell carries a flag. -/
def flaggedCells (g : Game) : Finset (Int × Int) :=
  (cells g).filter (fun p => (cellOf g p).isFlagged = true)

/-- The board has its shape, the sizes are not negative, and `flagCount` is the
number of flagged cells. -/
def FlagCountInv (g : Game) : Prop :=
  g.WF ∧ 0 ≤ g.rows ∧ 0 ≤ g.cols ∧ g.flagCount = ((flaggedCells g).card : Int)

/-- The game states reachable from `InitBoard` through calls of `PlaceMines`,
`RevealCell` and `ToggleFlag` with any arguments, in any order.  `InitBoard`
gets sizes that are not negative (`board.assign` throws otherwise) and
`PlaceMines` runs on a grid with cells (it computes `rand() % rows` and
`rand() % cols`). -/
inductive CallReachable : Game → Prop
  | init (g0 : Game) (r c m : Int) (hr : 0 ≤ r) (hc : 0 ≤ c) : CallReachable (InitBoard g0 r c m)
  | placeMines {g g' : Game} (row col : Int) (draws : List Nat) (hg : CallReachable g)
      (hrows : 0 < g.rows) (hcols : 0 < g.cols)
      (h : PlaceMines g row col draws = some g') : CallReachable g'
  | revealCell {g g' : Game} (row col : Int) (hg : CallReachable g)
      (h : RevealCell g row col = some g') : CallReachable g'
  | toggleFlag {g : Game} (row col : Int) (hg : CallReachable g) :
      CallReachable (ToggleFlag g row col)

/-- The game with another value of the clock `timer`.  `Update` advances the
clock before it calls `HandlePlayingInput`, which never reads it. -/
def withTimer (g : Game) (t : ℚ) : Game :=
  { g with timer := t }

/-- The screen is 900 x 2100 now (it was 900 x 2000); a single contact at
`(450, 1000)` has been down for half a second. -/
def resizedPressFrame : Frame :=
  { screenWidth := 900, screenHeight := 2100, touchCount := 1,
    touch0 := { x := 450, y := 1000 }, frameTime := 1 / 2 }

/-- The screen is 900 x 2100; the contact is lifted. -/
def resizedReleaseFrame : Frame :=
  { screenWidth := 900, screenHeight := 2100, touchCount := 0, frameTime := 1 / 60 }

/-- Two contacts go down on the 900 x 2000 screen, the first one on the
restart button. -/
def twoFingerFrame : Frame :=
  { screenWidth := 900, screenHeight := 2000, touchCount := 2,
    touch0 := { x := 450, y := 80 }, touch1 := { x := 650, y := 80 }, frameTime := 1 / 60 }

/-- The screen is 900 x 2100 now and only the first contact is still down. -/
def resizedTouchFrame : Frame :=
  { screenWidth := 900, screenHeight := 2100, touchCount := 1,
    touch0 := { x := 450, y := 80 }, frameTime := 1 / 60 }

/-! ## Properties -/

/-! ### Board access -/

theorem IsValidCell_iff (g : Game) (r c : Int) :
    IsValidCell g r c = true ↔ 0 ≤ r ∧ r < g.rows ∧ 0 ≤ c ∧ c < g.cols := by
  simp [IsValidCell, and_assoc]

theorem mem_cells (g : Game) (p : Int × Int) :
    p ∈ cells g ↔ IsValidCell g p.1 p.2 = true := by
  simp [cells, IsValidCell_iff, and_assoc]

theorem getD_set_grid (b : Board) (i j i' j' : Nat) (x : Cell) :
    ((b.set i ((b.getD i []).set j x)).getD i' []).getD j' default =
      if i' = i ∧ j' = j ∧ i < b.length ∧ j < (b.getD i []).length
      then x else (b.getD i' []).getD j' default := by
  simp only [List.getD_eq_getElem?_getD, List.getElem?_set]
  by_cases hr : i = i'
  · subst hr
    by_cases hlt : i < b.length
    · by_cases hc : j = j'
      · subst hc
        have e : b[i]?.getD [] = b[i] := by simp [List.getElem?_eq_getElem hlt]
        by_cases hlc : j < b[i].length
        · simp [hlt, hlc, e, List.getElem?_set]
        · simp [hlt, hlc, e, List.getElem?_set, List.getElem?_eq_none (Nat.le_of_not_lt hlc)]
      · have hc' : ¬ j' = j := fun h => hc h.symm
        simp [hc, hc', hlt, List.getElem?_set]
    · simp [hlt, List.getElem?_eq_none (Nat.le_of_not_lt hlt)]
  · have hr' : ¬ i' = i := fun h => hr h.symm
    simp [hr, hr']

theorem cellAt_setCell_nat (b : Board) (r c r' c' : Int) (x : Cell) :
    cellAt (setCell b r c x) r' c' =
      if r'.toNat = r.toNat ∧ c'.toNat = c.toNat ∧ r.toNat < b.length ∧
          c.toNat < (b.getD r.toNat []).length
      then x else cellAt b r' c' := by
  unfold cellAt setCell
  exact getD_set_grid b _ _ _ _ x

theorem BoardWF.getD_length {b : Board} {rows cols : Int} (h : BoardWF b rows cols)
    {i : Nat} (hi : i < rows.toNat) : (b.getD i []).length = cols.toNat := by
  have hi' : i < b.length := by rw [h.1]; exact hi
  rw [List.getD_eq_getElem?_getD, List.getElem?_eq_getElem hi']
  exact h.2 _ (List.getElem_mem _)

theorem BoardWF.of_setCell {b : Board} {rows cols : Int} (h : BoardWF b rows cols)
    (r c : Int) (x : Cell) : BoardWF (setCell b r c x) rows cols := by
  refine ⟨by simp [Minesweeper.setCell, h.1], ?_⟩
  intro row hrow
  unfold Minesweeper.setCell at hrow
  by_cases hi : r.toNat < b.length
  · rcases List.mem_or_eq_of_mem_set hrow with hmem | heq
    · exact h.2 row hmem
    · subst heq
      rw [List.length_set, List.getD_eq_getElem?_getD, List.getElem?_eq_getElem hi]
      exact h.2 _ (List.getElem_mem _)
  · rw [List.set_eq_of_length_le (Nat.le_of_not_lt hi)] at hrow
    exact h.2 row hrow

/-- Writing a cell of the grid changes exactly that cell. -/
theorem cellAt_setCell {b : Board} {rows cols : Int} (h : BoardWF b rows cols)
    {r c : Int} (hr : 0 ≤ r ∧ r < rows) (hc : 0 ≤ c ∧ c < cols)
    {r' c' : Int} (hr' : 0 ≤ r') (hc' : 0 ≤ c') (x : Cell) :
    cellAt (setCell b r c x) r' c' = if r' = r ∧ c' = c then x else cellAt b r' c' := by
  rw [cellAt_setCell_nat]
  have h1 : r.toNat < rows.toNat := by omega
  have h2 : r.toNat < b.length := by rw [h.1]; exact h1
  have h3 : c.toNat < (b.getD r.toNat []).length := by rw [h.getD_length h1]; omega
  have e1 : r'.toNat = r.toNat ↔ r' = r := by omega
  have e2 : c'.toNat = c.toNat ↔ c' = c := by omega
  by_cases hrr : r' = r
  · by_cases hcc : c' = c
    · subst hrr hcc
      rw [if_pos ⟨rfl, rfl, h2, h3⟩, if_pos ⟨rfl, rfl⟩]
    · have : ¬ c'.toNat = c.toNat := fun hh => hcc (e2.mp hh)
      simp [hcc, this]
  · have : ¬ r'.toNat = r.toNat := fun hh => hrr (e1.mp hh)
    simp [hrr, this]

/-- A write never changes a cell at another position, whatever the shape. -/
theorem cellAt_setCell_same_field (b : Board) (r c r' c' : Int) (x : Cell) (f : Cell → Bool)
    (hx : f x = f (cellAt b r c)) :
    f (cellAt (setCell b r c x) r' c') = f (cellAt b r' c') := by
  rw [cellAt_setCell_nat]
  split
  · rename_i hh
    have e : cellAt b r' c' = cellAt b r c := by
      unfold cellAt
      rw [hh.1, hh.2.1]
    rw [hx, e]
  · rfl

/-! ### `RevealCell` on a cell it must not touch -/

/-- The two early returns of `RevealCell`. -/
theorem RevealCell_skip (g : Game) (row col : Int)
    (h : IsValidCell g row col = false ∨ (cellAt g.board row col).isRevealed = true ∨
      (cellAt g.board row col).isFlagged = true) :
    RevealCell g row col = some g := by
  unfold RevealCell
  rcases h with h | h | h <;> simp [h]

/-- C9: `RevealCell` on a position that is out of bounds, or whose cell is
already revealed, or whose cell is flagged, returns the game unchanged: every
cell, `revealedCount`, `flagCount` and the phase are as before the call. -/
theorem RevealCell_noop (g : Game) (row col : Int)
    (h : IsValidCell g row col = false ∨ (cellAt g.board row col).isRevealed = true ∨
      (cellAt g.board row col).isFlagged = true) :
    RevealCell g row col = some g := by
  unfold RevealCell
  rcases h with h | h | h
  · simp [h]
  · simp [h]
  · simp [h]

theorem RevealCell_noop_witness :
    (IsValidCell flaggedGame 2 3 = false ∨ (cellAt flaggedGame.board 2 3).isRevealed = true ∨
      (cellAt flaggedGame.board 2 3).isFlagged = true) ∧
    RevealCell flaggedGame 2 3 = some flaggedGame :=
  ⟨by decide, RevealCell_noop flaggedGame 2 3 (by decide)⟩

/-! ### Screen position to cell index -/

theorem floatToInt_of_nonneg {q : ℚ} (h : 0 ≤ q) : floatToInt q = ⌊q⌋ := by
  simp [floatToInt, h]

theorem floatToInt_of_neg {q : ℚ} (h : q < 0) : floatToInt q = ⌈q⌉ := by
  simp [floatToInt, not_le.mpr h, Int.ceil_eq_iff, Int.floor_neg]

theorem phoneGame_layout :
    phoneGame.offsetY = 630 ∧ phoneGame.cellSize = 100 ∧ phoneGame.offsetX = 0 := by
  norm_num [phoneGame, InitBoard, InitCamera, CalculateLayout]

/-- C7: on a 900 x 2000 screen the Easy board starts at `offsetY = 630` with
`cellSize = 100`; the point `(450, 600)` lies above the board, its floor index
is `-1`, yet `GetCellRow` maps it to row `0`, a valid cell together with
`GetCellCol 450 = 4`. -/
theorem GetCellRow_above_board :
    (600 : ℚ) < phoneGame.offsetY ∧ GetCellRow phoneGame 600 = 0 ∧
    GetCellCol phoneGame 450 = 4 ∧
    IsValidCell phoneGame (GetCellRow phoneGame 600) (GetCellCol phoneGame 450) = true ∧
    ⌊((600 : ℚ) - phoneGame.offsetY) / phoneGame.cellSize⌋ = -1 := by
  obtain ⟨h1, h2, h3⟩ := phoneGame_layout
  have hr : GetCellRow phoneGame 600 = 0 := by
    unfold GetCellRow floatToInt; rw [h1, h2]; norm_num
  have hc : GetCellCol phoneGame 450 = 4 := by
    unfold GetCellCol floatToInt; rw [h3, h2]; norm_num
  refine ⟨by rw [h1]; norm_num, hr, hc, ?_, by rw [h1, h2]; norm_num⟩
  rw [hr, hc]; decide

/-! ### `InitBoard` -/

theorem InitBoard_fields (g : Game) (r c mines : Int) :
    (InitBoard g r c mines).rows = r ∧ (InitBoard g r c mines).cols = c ∧
    (InitBoard g r c mines).totalMines = mines ∧ (InitBoard g r c mines).revealedCount = 0 ∧
    (InitBoard g r c mines).flagCount = 0 ∧ (InitBoard g r c mines).firstClick = true ∧
    (InitBoard g r c mines).state = GameState.PLAYING ∧
    (InitBoard g r c mines).board = List.replicate r.toNat (List.replicate c.toNat default) :=
  ⟨rfl, rfl, rfl, rfl, rfl, rfl, rfl, rfl⟩

theorem cellAt_replicate (n m : Nat) (r c : Int) :
    cellAt (List.replicate n (List.replicate m default)) r c = default := by
  unfold cellAt
  simp only [List.getD_eq_getElem?_getD, List.getElem?_replicate]
  by_cases h1 : r.toNat < n
  · by_cases h2 : c.toNat < m
    · simp [h1, h2]
    · simp [h1, h2]
  · simp [h1]

theorem InitBoard_WF (g : Game) (r c mines : Int) : (InitBoard g r c mines).WF := by
  unfold Game.WF BoardWF
  obtain ⟨h1, h2, -, -, -, -, -, h3⟩ := InitBoard_fields g r c mines
  rw [h1, h2, h3]
  refine ⟨by simp, ?_⟩
  intro row hrow
  rw [List.eq_of_mem_replicate hrow]
  simp

theorem InitBoard_cellAt (g : Game) (r c mines : Int) (r' c' : Int) :
    cellAt (InitBoard g r c mines).board r' c' = default := by
  rw [(InitBoard_fields g r c mines).2.2.2.2.2.2.2]
  exact cellAt_replicate _ _ _ _

/-- C8 (counterexample): `InitBoard 1 1 1` has `mineCount >= rows * cols`, yet
the call goes through and changes the game: the phase becomes `PLAYING` and
`totalMines` becomes 1. -/
theorem InitBoard_unguarded :
    (1 : Int) ≥ 1 * 1 ∧ InitBoard initialGame 1 1 1 ≠ initialGame ∧
    initialGame.state = GameState.MENU ∧
    (InitBoard initialGame 1 1 1).state = GameState.PLAYING ∧
    (InitBoard initialGame 1 1 1).totalMines = 1 := by
  refine ⟨by decide, ?_, rfl, rfl, rfl⟩
  intro h
  have h2 : (InitBoard initialGame 1 1 1).state = initialGame.state := by rw [h]
  exact absurd h2 (by decide)

/-- C8 (amended): `InitBoard` has no failure outcome.  For every `rows >= 0`,
`cols >= 0` and every `mineCount`, also one with `mineCount >= rows * cols`, it
stores the three arguments, resets `revealedCount` and `flagCount` to 0, sets
`firstClick`, enters the phase `PLAYING` and installs a grid of `rows` by
`cols` clear cells. -/
theorem InitBoard_total (g : Game) (r c mines : Int) (hr : 0 ≤ r) (hc : 0 ≤ c) :
    (InitBoard g r c mines).rows = r ∧ (InitBoard g r c mines).cols = c ∧
    (InitBoard g r c mines).totalMines = mines ∧ (InitBoard g r c mines).revealedCount = 0 ∧
    (InitBoard g r c mines).flagCount = 0 ∧ (InitBoard g r c mines).firstClick = true ∧
    (InitBoard g r c mines).state = GameState.PLAYING ∧
    ((InitBoard g r c mines).board.length : Int) = r ∧
    (∀ row ∈ (InitBoard g r c mines).board, (row.length : Int) = c) ∧
    (∀ r' c' : Int, cellAt (InitBoard g r c mines).board r' c' = {}) := by
  obtain ⟨h1, h2, h3, h4, h5, h6, h7, h8⟩ := InitBoard_fields g r c mines
  refine ⟨h1, h2, h3, h4, h5, h6, h7, ?_, ?_, fun r' c' => InitBoard_cellAt g r c mines r' c'⟩
  · rw [h8]; simp [Int.toNat_of_nonneg hr]
  · intro row hrow
    rw [h8] at hrow
    rw [List.eq_of_mem_replicate hrow]
    simp [Int.toNat_of_nonneg hc]

theorem InitBoard_total_witness :
    (0 : Int) ≤ 1 ∧ (0 : Int) ≤ 1 ∧ (InitBoard initialGame 1 1 1).state = GameState.PLAYING ∧
    ((InitBoard initialGame 1 1 1).board.length : Int) = 1 :=
  have h := InitBoard_total initialGame 1 1 1 (by decide) (by decide)
  ⟨by decide, by decide, h.2.2.2.2.2.2.1, h.2.2.2.2.2.2.2.1⟩

/-! ### `ToggleFlag` -/

/-- C10: if the position is out of bounds or the cell is revealed,
`ToggleFlag` returns the game unchanged; otherwise it negates that cell's
`isFlagged`, changes `flagCount` by +1 when the cell becomes flagged and by -1
when it becomes unflagged, keeps the cell's `hasMine`, `isRevealed` and
`neighborMines`, keeps every other cell, and keeps every field of the game
other than `board` and `flagCount`, among them `revealedCount` and the phase. -/
theorem ToggleFlag_frame (g : Game) (hwf : g.WF) (row col : Int) :
    ((IsValidCell g row col = false ∨ (cellAt g.board row col).isRevealed = true) →
      ToggleFlag g row col = g) ∧
    (IsValidCell g row col = true → (cellAt g.board row col).isRevealed = false →
      (cellAt (ToggleFlag g row col).board row col).isFlagged
        = !(cellAt g.board row col).isFlagged ∧
      (ToggleFlag g row col).flagCount = g.flagCount +
        (if (cellAt (ToggleFlag g row col).board row col).isFlagged = true then 1 else -1) ∧
      (cellAt (ToggleFlag g row col).board row col).hasMine = (cellAt g.board row col).hasMine ∧
      (cellAt (ToggleFlag g row col).board row col).isRevealed
        = (cellAt g.board row col).isRevealed ∧
      (cellAt (ToggleFlag g row col).board row col).neighborMines
        = (cellAt g.board row col).neighborMines ∧
      (∀ r c : Int, IsValidCell g r c = true → (r, c) ≠ (row, col) →
        cellAt (ToggleFlag g row col).board r c = cellAt g.board r c) ∧
      (ToggleFlag g row col).revealedCount = g.revealedCount ∧
      (ToggleFlag g row col).state = g.state ∧
      { ToggleFlag g row col with board := g.board, flagCount := g.flagCount } = g) := by
  constructor
  · intro h
    unfold ToggleFlag
    rcases h with h | h
    · simp [h]
    · simp [h]
  · intro hv hrev
    have hv' := (IsValidCell_iff g row col).mp hv
    have hset : ∀ x : Cell, cellAt (setCell g.board row col x) row col = x := by
      intro x
      rw [cellAt_setCell hwf ⟨hv'.1, hv'.2.1⟩ ⟨hv'.2.2.1, hv'.2.2.2⟩ hv'.1 hv'.2.2.1]
      simp
    have hT : ToggleFlag g row col =
        { g with
          board := setCell g.board row col
            { cellAt g.board row col with isFlagged := !(cellAt g.board row col).isFlagged }
          flagCount := g.flagCount +
            (if (!(cellAt g.board row col).isFlagged) = true then 1 else -1) } := by
      unfold ToggleFlag
      simp [hv, hrev]
    rw [hT]
    simp only [hset]
    refine ⟨trivial, trivial, trivial, trivial, trivial, ?_, trivial, trivial, trivial⟩
    intro r c hrc hne
    have hrc' := (IsValidCell_iff g r c).mp hrc
    rw [cellAt_setCell hwf ⟨hv'.1, hv'.2.1⟩ ⟨hv'.2.2.1, hv'.2.2.2⟩ hrc'.1 hrc'.2.2.1]
    have : ¬ (r = row ∧ c = col) := fun hh => hne (by rw [hh.1, hh.2])
    simp [this]

theorem ToggleFlag_frame_witness :
    easyGame.WF ∧ IsValidCell easyGame 2 3 = true ∧
    (cellAt easyGame.board 2 3).isRevealed = false ∧
    (cellAt (ToggleFlag easyGame 2 3).board 2 3).isFlagged = !(cellAt easyGame.board 2 3).isFlagged ∧
    (ToggleFlag easyGame 2 3).flagCount = easyGame.flagCount +
        (if (cellAt (ToggleFlag easyGame 2 3).board 2 3).isFlagged = true then 1 else -1) :=
  have h := (ToggleFlag_frame easyGame (InitBoard_WF _ _ _ _) 2 3).2 (by decide) (by decide)
  ⟨InitBoard_WF _ _ _ _, by decide, by decide, h.1, h.2.1⟩

/-! ### The loop nest over all cells -/

/-- One row of the loop nest: columns `0 .. n-1` of row `r`. -/
theorem forEachCell_row (rows cols : Int) (body : Board → Int → Int → Board)
    (Inv : Board → Prop) (upd : Int → Int → Cell → Cell)
    (hInv : ∀ b r c, Inv b → 0 ≤ r → r < rows → 0 ≤ c → c < cols → Inv (body b r c))
    (hbody : ∀ b r c, Inv b → 0 ≤ r → r < rows → 0 ≤ c → c < cols →
      ∀ r' c' : Int, 0 ≤ r' → 0 ≤ c' → cellAt (body b r c) r' c' =
        if r' = r ∧ c' = c then upd r c (cellAt b r c) else cellAt b r' c')
    (r : Int) (hr : 0 ≤ r ∧ r < rows) (b : Board) (hb : Inv b) (n : Nat) (hn : n ≤ cols.toNat) :
    Inv ((List.range n).foldl (fun (b2 : Board) (c : Nat) => body b2 r (c : Int)) b) ∧
    ∀ r' c' : Int, 0 ≤ r' → 0 ≤ c' →
      cellAt ((List.range n).foldl (fun (b2 : Board) (c : Nat) => body b2 r (c : Int)) b) r' c' =
        if r' = r ∧ c' < n then upd r c' (cellAt b r' c') else cellAt b r' c' := by
  induction n with
  | zero =>
    refine ⟨hb, fun r' c' _ hc' => ?_⟩
    simp only [List.range_zero, List.foldl_nil]
    rw [if_neg (by omega)]
  | succ n ih =>
    obtain ⟨ihI, ihC⟩ := ih (by omega)
    rw [List.range_succ, List.foldl_append]
    simp only [List.foldl_cons, List.foldl_nil]
    refine ⟨hInv _ r n ihI hr.1 hr.2 (by omega) (by omega), fun r' c' hr' hc' => ?_⟩
    rw [hbody _ r n ihI hr.1 hr.2 (by omega) (by omega) r' c' hr' hc']
    by_cases h1 : r' = r ∧ c' = (n : Int)
    · obtain ⟨e1, e2⟩ := h1
      subst e1 e2
      rw [if_pos ⟨rfl, rfl⟩, ihC r' n hr' hc', if_neg (by omega), if_pos ⟨rfl, by omega⟩]
    · rw [if_neg h1, ihC r' c' hr' hc']
      by_cases h2 : r' = r ∧ c' < (n : Int)
      · rw [if_pos h2, if_pos ⟨h2.1, by omega⟩]
      · rw [if_neg h2, if_neg (by omega)]

/-- The loop nest applies `upd` to every cell of the grid, once. -/
theorem forEachCell_spec (rows cols : Int) (body : Board → Int → Int → Board)
    (Inv : Board → Prop) (upd : Int → Int → Cell → Cell)
    (hInv : ∀ b r c, Inv b → 0 ≤ r → r < rows → 0 ≤ c → c < cols → Inv (body b r c))
    (hbody : ∀ b r c, Inv b → 0 ≤ r → r < rows → 0 ≤ c → c < cols →
      ∀ r' c' : Int, 0 ≤ r' → 0 ≤ c' → cellAt (body b r c) r' c' =
        if r' = r ∧ c' = c then upd r c (cellAt b r c) else cellAt b r' c')
    (b : Board) (hb : Inv b) :
    Inv (forEachCell rows cols body b) ∧
    ∀ r' c' : Int, 0 ≤ r' → 0 ≤ c' →
      cellAt (forEachCell rows cols body b) r' c' =
        if r' < rows ∧ c' < cols then upd r' c' (cellAt b r' c') else cellAt b r' c' := by
  have key : ∀ m : Nat, m ≤ rows.toNat →
      Inv ((List.range m).foldl
        (fun (b1 : Board) (r : Nat) => (List.range cols.toNat).foldl
          (fun (b2 : Board) (c : Nat) => body b2 (r : Int) (c : Int)) b1) b) ∧
      ∀ r' c' : Int, 0 ≤ r' → 0 ≤ c' →
        cellAt ((List.range m).foldl
          (fun (b1 : Board) (r : Nat) => (List.range cols.toNat).foldl
          (fun (b2 : Board) (c : Nat) => body b2 (r : Int) (c : Int)) b1) b)
          r' c' =
        if r' < m ∧ c' < cols then upd r' c' (cellAt b r' c') else cellAt b r' c' := by
    intro m
    induction m with
    | zero =>
      intro _
      refine ⟨hb, fun r' c' hr' _ => ?_⟩
      simp only [List.range_zero, List.foldl_nil]
      rw [if_neg (by omega)]
    | succ m ih =>
      intro hm
      obtain ⟨ihI, ihC⟩ := ih (by omega)
      rw [List.range_succ, List.foldl_append]
      simp only [List.foldl_cons, List.foldl_nil]
      have hm' : (0 : Int) ≤ m ∧ (m : Int) < rows := by omega
      obtain ⟨rI, rC⟩ := forEachCell_row rows cols body Inv upd hInv hbody (m : Int) hm' _ ihI
        cols.toNat le_rfl
      refine ⟨rI, fun r' c' hr' hc' => ?_⟩
      rw [rC r' c' hr' hc', ihC r' c' hr' hc']
      by_cases h1 : r' = (m : Int) ∧ c' < (cols.toNat : Int)
      · rw [if_pos h1, if_neg (by omega), if_pos (by omega), h1.1]
      · rw [if_neg h1]
        by_cases h2 : r' < (m : Int) ∧ c' < cols
        · rw [if_pos h2, if_pos (by omega)]
        · rw [if_neg h2, if_neg (by omega)]
  unfold forEachCell
  obtain ⟨kI, kC⟩ := key rows.toNat le_rfl
  refine ⟨kI, fun r' c' hr' hc' => ?_⟩
  rw [kC r' c' hr' hc']
  by_cases h : r' < rows ∧ c' < cols
  · rw [if_pos h, if_pos (by omega)]
  · rw [if_neg h, if_neg (by omega)]

/-! ### `RevealAllMines` and revealing a mine -/

theorem cellAt_default_of_out (b : Board) (r c : Int)
    (h : ¬ (r.toNat < b.length ∧ c.toNat < (b.getD r.toNat []).length)) :
    cellAt b r c = default := by
  unfold cellAt
  by_cases h1 : r.toNat < b.length
  · have h2 : ¬ c.toNat < (b.getD r.toNat []).length := fun hh => h ⟨h1, hh⟩
    exact List.getD_eq_default _ _ (Nat.le_of_not_lt h2)
  · rw [List.getD_eq_default b [] (Nat.le_of_not_lt h1)]
    simp

/-- Writing a position whose cell differs from the clear cell (so that it lies
in the stored grid) changes exactly that cell. -/
theorem cellAt_setCell_of_ne_default (b : Board) {r c : Int} (hr : 0 ≤ r) (hc : 0 ≤ c)
    (hne : cellAt b r c ≠ default) {r' c' : Int} (hr' : 0 ≤ r') (hc' : 0 ≤ c') (x : Cell) :
    cellAt (setCell b r c x) r' c' = if r' = r ∧ c' = c then x else cellAt b r' c' := by
  rw [cellAt_setCell_nat]
  have hin : r.toNat < b.length ∧ c.toNat < (b.getD r.toNat []).length := by
    by_contra hout
    exact hne (cellAt_default_of_out b r c hout)
  have e1 : r'.toNat = r.toNat ↔ r' = r := by omega
  have e2 : c'.toNat = c.toNat ↔ c' = c := by omega
  by_cases hrr : r' = r
  · by_cases hcc : c' = c
    · subst hrr hcc
      rw [if_pos ⟨rfl, rfl, hin.1, hin.2⟩, if_pos ⟨rfl, rfl⟩]
    · have : ¬ c'.toNat = c.toNat := fun hh => hcc (e2.mp hh)
      simp [hcc, this]
  · have : ¬ r'.toNat = r.toNat := fun hh => hrr (e1.mp hh)
    simp [hrr, this]

theorem ne_default_of_hasMine {x : Cell} (h : x.hasMine = true) : x ≠ default := by
  intro e
  rw [e] at h
  exact absurd h (by decide)

/-- The effect of `RevealAllMines` on each cell. -/
theorem RevealAllMines_cellAt (g : Game) (r c : Int) (hr : 0 ≤ r) (hc : 0 ≤ c) :
    cellAt (RevealAllMines g).board r c =
      if r < g.rows ∧ c < g.cols ∧ (cellAt g.board r c).hasMine = true
      then { cellAt g.board r c with isRevealed := true } else cellAt g.board r c := by
  have h := (forEachCell_spec g.rows g.cols revealMine (fun _ => True)
    (fun _ _ x => if x.hasMine = true then { x with isRevealed := true } else x)
    (fun _ _ _ _ _ _ _ _ => trivial)
    (by
      intro b r c _ hr0 _ hc0 _ r' c' hr' hc'
      unfold revealMine
      beta_reduce
      by_cases hm : (cellAt b r c).hasMine = true
      · rw [if_pos hm, if_pos hm,
          cellAt_setCell_of_ne_default b hr0 hc0 (ne_default_of_hasMine hm) hr' hc']
      · rw [if_neg hm, if_neg hm]
        by_cases hh : r' = r ∧ c' = c
        · rw [if_pos hh, hh.1, hh.2]
        · rw [if_neg hh])
    g.board trivial).2 r c hr hc
  show cellAt (forEachCell g.rows g.cols revealMine g.board) r c = _
  rw [h]
  by_cases h1 : r < g.rows ∧ c < g.cols
  · rw [if_pos h1]
    by_cases hm : (cellAt g.board r c).hasMine = true
    · rw [if_pos hm, if_pos ⟨h1.1, h1.2, hm⟩]
    · rw [if_neg hm, if_neg (fun hh => hm hh.2.2)]
  · rw [if_neg h1, if_neg (fun hh => h1 ⟨hh.1, hh.2.1⟩)]

theorem RevealCell_mine_eq (g : Game) (row col : Int)
    (hv : IsValidCell g row col = true)
    (hrev : (cellAt g.board row col).isRevealed = false)
    (hflag : (cellAt g.board row col).isFlagged = false)
    (hmine : (cellAt g.board row col).hasMine = true) :
    RevealCell g row col = some
      { RevealAllMines
          { g with
            board := setCell g.board row col { cellAt g.board row col with isRevealed := true }
            revealedCount := g.revealedCount + 1 } with
        state := GameState.LOST } := by
  unfold RevealCell
  simp [hv, hrev, hflag, hmine]

theorem RevealCell_mine_cellAt (g g' : Game) (row col : Int)
    (hv : IsValidCell g row col = true)
    (hrev : (cellAt g.board row col).isRevealed = false)
    (hflag : (cellAt g.board row col).isFlagged = false)
    (hmine : (cellAt g.board row col).hasMine = true)
    (hg' : RevealCell g row col = some g') (r c : Int) (hr : 0 ≤ r) (hc : 0 ≤ c) :
    cellAt g'.board r c =
      if r < g.rows ∧ c < g.cols ∧ (cellAt g.board r c).hasMine = true
      then { cellAt g.board r c with isRevealed := true } else cellAt g.board r c := by
  rw [RevealCell_mine_eq g row col hv hrev hflag hmine] at hg'
  have hv' := (IsValidCell_iff g row col).mp hv
  injection hg' with hg'
  subst hg'
  show cellAt (RevealAllMines _).board r c = _
  rw [RevealAllMines_cellAt _ r c hr hc]
  show (if r < g.rows ∧ c < g.cols ∧ (cellAt (setCell g.board row col _) r c).hasMine = true
    then { cellAt (setCell g.board row col _) r c with isRevealed := true }
    else cellAt (setCell g.board row col _) r c) = _
  rw [cellAt_setCell_of_ne_default g.board hv'.1 hv'.2.2.1 (ne_default_of_hasMine hmine) hr hc]
  by_cases h : r = row ∧ c = col
  · obtain ⟨e1, e2⟩ := h
    subst e1 e2
    simp [hmine, hv'.2.1, hv'.2.2.2]
  · simp [h]


/-- C2: `RevealCell` on an in-bounds, unrevealed, unflagged cell that holds a
mine ends in the phase `LOST` (not `WON`); the mines stay where they are and
every mine cell is revealed afterwards; every cell's `isFlagged` and the
`flagCount` are unchanged; the `isRevealed` value of every cell without a mine
is unchanged. -/
theorem RevealCell_mine (g : Game) (row col : Int)
    (hv : IsValidCell g row col = true)
    (hrev : (cellAt g.board row col).isRevealed = false)
    (hflag : (cellAt g.board row col).isFlagged = false)
    (hmine : (cellAt g.board row col).hasMine = true) :
    ∃ g' : Game, RevealCell g row col = some g' ∧
      g'.state = GameState.LOST ∧ g'.state ≠ GameState.WON ∧
      (∀ r c : Int, IsValidCell g r c = true →
        (cellAt g'.board r c).hasMine = (cellAt g.board r c).hasMine) ∧
      (∀ r c : Int, IsValidCell g r c = true → (cellAt g'.board r c).hasMine = true →
        (cellAt g'.board r c).isRevealed = true) ∧
      (∀ r c : Int, IsValidCell g r c = true →
        (cellAt g'.board r c).isFlagged = (cellAt g.board r c).isFlagged) ∧
      g'.flagCount = g.flagCount ∧
      (∀ r c : Int, IsValidCell g r c = true → (cellAt g'.board r c).hasMine = false →
        (cellAt g'.board r c).isRevealed = (cellAt g.board r c).isRevealed) := by
  have heq := RevealCell_mine_eq g row col hv hrev hflag hmine
  refine ⟨_, heq, rfl, by simp, ?_, ?_, ?_, rfl, ?_⟩
  · intro r c hrc
    have hrc' := (IsValidCell_iff g r c).mp hrc
    rw [RevealCell_mine_cellAt g _ row col hv hrev hflag hmine heq r c hrc'.1 hrc'.2.2.1]
    split <;> rfl
  · intro r c hrc
    have hrc' := (IsValidCell_iff g r c).mp hrc
    rw [RevealCell_mine_cellAt g _ row col hv hrev hflag hmine heq r c hrc'.1 hrc'.2.2.1]
    split
    · intro _; rfl
    · rename_i hn
      intro hm
      exact absurd ⟨hrc'.2.1, hrc'.2.2.2, hm⟩ hn
  · intro r c hrc
    have hrc' := (IsValidCell_iff g r c).mp hrc
    rw [RevealCell_mine_cellAt g _ row col hv hrev hflag hmine heq r c hrc'.1 hrc'.2.2.1]
    split <;> rfl
  · intro r c hrc
    have hrc' := (IsValidCell_iff g r c).mp hrc
    rw [RevealCell_mine_cellAt g _ row col hv hrev hflag hmine heq r c hrc'.1 hrc'.2.2.1]
    split
    · rename_i hn
      intro hm
      rw [hn.2.2] at hm
      exact absurd hm (by decide)
    · intro _; rfl

set_option maxRecDepth 100000 in
theorem RevealCell_mine_witness :
    IsValidCell minedFlaggedGame 8 0 = true ∧
    (cellAt minedFlaggedGame.board 8 0).isRevealed = false ∧
    (cellAt minedFlaggedGame.board 8 0).isFlagged = false ∧
    (cellAt minedFlaggedGame.board 8 0).hasMine = true ∧
    ∃ g' : Game, RevealCell minedFlaggedGame 8 0 = some g' ∧ g'.state = GameState.LOST ∧
      g'.flagCount = minedFlaggedGame.flagCount :=
  have h := RevealCell_mine minedFlaggedGame 8 0 (by decide) (by decide) (by decide) (by decide)
  ⟨by decide, by decide, by decide, by decide,
    h.elim (fun g' hg' => ⟨g', hg'.1, hg'.2.1, hg'.2.2.2.2.2.2.1⟩)⟩

/-! ### `CountNeighborMines` -/

theorem mem_deltas (d : Int × Int) : d ∈ deltas ↔ |d.1| ≤ 1 ∧ |d.2| ≤ 1 := by
  obtain ⟨a, b⟩ := d
  constructor
  · intro h
    simp only [deltas, List.mem_cons, Prod.mk.injEq, List.mem_singleton, List.not_mem_nil,
      or_false] at h
    simp only [abs_eq_max_neg]
    omega
  · intro h
    simp only [abs_eq_max_neg] at h
    have h1 : -1 ≤ a ∧ a ≤ 1 := by omega
    have h2 : -1 ≤ b ∧ b ≤ 1 := by omega
    obtain ⟨h1a, h1b⟩ := h1
    obtain ⟨h2a, h2b⟩ := h2
    interval_cases a <;> interval_cases b <;> simp [deltas]

theorem deltas_nodup : deltas.Nodup := by decide

theorem foldl_count_eq {α : Type} (p : α → Bool) (l : List α) (init : Int) :
    l.foldl (fun count d => if p d = true then count + 1 else count) init
      = init + (l.countP p : Int) := by
  induction l generalizing init with
  | nil => simp
  | cons a l ih =>
    rw [List.foldl_cons, ih, List.countP_cons]
    by_cases h : p a = true
    · simp [h]; ring
    · simp [h]

theorem countAround_eq_countP (g : Game) (b : Board) (r c : Int) :
    countAround g b r c = (deltas.countP
      (fun d => IsValidCell g (r + d.1) (c + d.2) && (cellAt b (r + d.1) (c + d.2)).hasMine) : Int) := by
  unfold countAround
  rw [foldl_count_eq (fun d : Int × Int =>
    IsValidCell g (r + d.1) (c + d.2) && (cellAt b (r + d.1) (c + d.2)).hasMine)]
  simp

/-- The count of `CountNeighborMines` depends on the board only through the
positions of the mines. -/
theorem countAround_congr (g : Game) (b b' : Board) (r c : Int)
    (h : ∀ r' c' : Int, (cellAt b r' c').hasMine = (cellAt b' r' c').hasMine) :
    countAround g b r c = countAround g b' r c := by
  rw [countAround_eq_countP, countAround_eq_countP]
  simp only [h]

/-- The nine-offset count of the code agrees with the brute-force reference at
every position that holds no mine. -/
theorem countAround_eq_ref (g : Game) (r c : Int)
    (hc : (cellAt g.board r c).hasMine = false) :
    countAround g g.board r c = (refNeighborMines g r c : Int) := by
  rw [countAround_eq_countP]
  congr 1
  rw [List.countP_eq_length_filter, ← List.toFinset_card_of_nodup (deltas_nodup.filter _),
    ← Finset.card_image_of_injective _
      (show Function.Injective (fun d : Int × Int => (r + d.1, c + d.2)) from by
        intro d1 d2 h
        simp only [Prod.mk.injEq] at h
        ext <;> omega)]
  unfold refNeighborMines
  congr 1
  ext p
  simp only [Finset.mem_image, List.mem_toFinset, List.mem_filter, Finset.mem_filter, mem_cells,
    Bool.and_eq_true, mem_deltas]
  constructor
  · rintro ⟨d, ⟨⟨hd1, hd2⟩, hv, hm⟩, rfl⟩
    refine ⟨hv, ?_, hm⟩
    have hne : ¬ (d.1 = 0 ∧ d.2 = 0) := by
      rintro ⟨e1, e2⟩
      rw [e1, e2, add_zero, add_zero, hc] at hm
      exact absurd hm (by decide)
    simp only [abs_eq_max_neg] at hd1 hd2 ⊢
    omega
  · rintro ⟨hv, hd, hm⟩
    refine ⟨(p.1 - r, p.2 - c), ⟨⟨?_, ?_⟩, ?_, ?_⟩, ?_⟩
    · simp only [abs_eq_max_neg] at hd ⊢; omega
    · simp only [abs_eq_max_neg] at hd ⊢; omega
    · simpa using hv
    · simpa using hm
    · ext <;> simp

/-- The effect of `CountNeighborMines` on each cell of the grid. -/
theorem CountNeighborMines_spec (g : Game) (hwf : g.WF) :
    BoardWF (CountNeighborMines g).board g.rows g.cols ∧
    (∀ r c : Int, (cellAt (CountNeighborMines g).board r c).hasMine
      = (cellAt g.board r c).hasMine) ∧
    ∀ r c : Int, IsValidCell g r c = true →
      cellAt (CountNeighborMines g).board r c =
        if (cellAt g.board r c).hasMine = true then cellAt g.board r c
        else { cellAt g.board r c with neighborMines := countAround g g.board r c } := by
  have h := forEachCell_spec g.rows g.cols (countCell g)
    (fun b => BoardWF b g.rows g.cols ∧
      ∀ r c : Int, (cellAt b r c).hasMine = (cellAt g.board r c).hasMine)
    (fun r c x => if x.hasMine = true then x
      else { x with neighborMines := countAround g g.board r c })
    (by
      intro b r c hb _ _ _ _
      unfold countCell
      split
      · exact hb
      · refine ⟨hb.1.of_setCell _ _ _, fun r' c' => ?_⟩
        exact (cellAt_setCell_same_field b r c r' c'
          { cellAt b r c with neighborMines := countAround g b r c } Cell.hasMine rfl).trans
          (hb.2 r' c'))
    (by
      intro b r c hb hr0 hr1 hc0 hc1 r' c' hr' hc'
      unfold countCell
      beta_reduce
      by_cases hm : (cellAt b r c).hasMine = true
      · rw [if_pos hm, if_pos hm]
        by_cases hh : r' = r ∧ c' = c
        · rw [if_pos hh, hh.1, hh.2]
        · rw [if_neg hh]
      · rw [if_neg hm, if_neg hm, cellAt_setCell hb.1 ⟨hr0, hr1⟩ ⟨hc0, hc1⟩ hr' hc',
          countAround_congr g b g.board r c hb.2])
    g.board ⟨hwf, fun _ _ => rfl⟩
  refine ⟨h.1.1, h.1.2, fun r c hv => ?_⟩
  have hv' := (IsValidCell_iff g r c).mp hv
  show cellAt (forEachCell g.rows g.cols (countCell g) g.board) r c = _
  rw [h.2 r c hv'.1 hv'.2.2.1, if_pos ⟨hv'.2.1, hv'.2.2.2⟩]

/-- An invariant of the loop of `PlaceMines` that holds before the loop and is
kept by every placement holds when the loop exits, together with the negated
loop condition. -/
theorem placeLoop_invariant (g : Game) (safeRow safeCol : Int) (I : Board → Int → Prop)
    (hstep : ∀ (b : Board) (placed : Int) (d1 d2 : Nat), I b placed → placed < g.totalMines →
      ¬ (|Int.tmod (d1 : Int) g.rows - safeRow| ≤ 1 ∧ |Int.tmod (d2 : Int) g.cols - safeCol| ≤ 1) →
      (cellAt b (Int.tmod (d1 : Int) g.rows) (Int.tmod (d2 : Int) g.cols)).hasMine = false →
      I (setCell b (Int.tmod (d1 : Int) g.rows) (Int.tmod (d2 : Int) g.cols)
          { cellAt b (Int.tmod (d1 : Int) g.rows) (Int.tmod (d2 : Int) g.cols) with
            hasMine := true }) (placed + 1)) :
    ∀ (draws : List Nat) (b : Board) (placed : Int) (b' : Board), I b placed →
      placeLoop g safeRow safeCol draws b placed = some b' →
      ∃ placed' : Int, I b' placed' ∧ ¬ placed' < g.totalMines
  | [], b, placed, b', hI, h => by
    unfold placeLoop at h
    by_cases hp : placed < g.totalMines
    · simp [hp] at h
    · simp only [hp, if_false, Option.some.injEq] at h
      exact ⟨placed, h ▸ hI, hp⟩
  | [_], b, placed, b', hI, h => by
    unfold placeLoop at h
    by_cases hp : placed < g.totalMines
    · simp [hp] at h
    · simp only [hp, if_false, Option.some.injEq] at h
      exact ⟨placed, h ▸ hI, hp⟩
  | d1 :: d2 :: rest, b, placed, b', hI, h => by
    unfold placeLoop at h
    by_cases hp : placed < g.totalMines
    · simp only [hp, if_true] at h
      by_cases hz : |Int.tmod (d1 : Int) g.rows - safeRow| ≤ 1 ∧
          |Int.tmod (d2 : Int) g.cols - safeCol| ≤ 1
      · simp only [hz, and_self, if_true] at h
        exact placeLoop_invariant g safeRow safeCol I hstep rest b placed b' hI h
      · simp only [hz, if_false] at h
        by_cases hm : (cellAt b (Int.tmod (d1 : Int) g.rows) (Int.tmod (d2 : Int) g.cols)).hasMine
            = true
        · simp only [hm, if_true] at h
          exact placeLoop_invariant g safeRow safeCol I hstep rest b placed b' hI h
        · simp only [hm, if_false] at h
          exact placeLoop_invariant g safeRow safeCol I hstep rest _ _ b'
            (hstep b placed d1 d2 hI hp hz (by simpa using hm)) h
    · simp only [hp, if_false, Option.some.injEq] at h
      exact ⟨placed, h ▸ hI, hp⟩

/-! ### `PlaceMines` -/

theorem mineCells_setMine (g : Game) (b : Board) (hb : BoardWF b g.rows g.cols) (r c : Int)
    (hr : 0 ≤ r ∧ r < g.rows) (hc : 0 ≤ c ∧ c < g.cols)
    (hm : (cellAt b r c).hasMine = false) :
    (mineCells { g with board := setCell b r c { cellAt b r c with hasMine := true } }).card
      = (mineCells { g with board := b }).card + 1 := by
  have hins : mineCells { g with board := setCell b r c { cellAt b r c with hasMine := true } }
      = insert (r, c) (mineCells { g with board := b }) := by
    ext p
    simp only [mineCells, Finset.mem_filter, Finset.mem_insert]
    have hcells : ∀ b' : Board, p ∈ cells { g with board := b' } ↔
        0 ≤ p.1 ∧ p.1 < g.rows ∧ 0 ≤ p.2 ∧ p.2 < g.cols := by
      intro b'
      rw [mem_cells, IsValidCell_iff]
    rw [hcells, hcells]
    constructor
    · rintro ⟨hp, hmine⟩
      rw [cellAt_setCell hb hr hc hp.1 hp.2.2.1] at hmine
      by_cases he : p.1 = r ∧ p.2 = c
      · left; ext <;> simp [he.1, he.2]
      · rw [if_neg he] at hmine
        exact Or.inr ⟨hp, hmine⟩
    · rintro (rfl | ⟨hp, hmine⟩)
      · refine ⟨⟨hr.1, hr.2, hc.1, hc.2⟩, ?_⟩
        rw [cellAt_setCell hb hr hc hr.1 hc.1, if_pos ⟨rfl, rfl⟩]
      · refine ⟨hp, ?_⟩
        rw [cellAt_setCell hb hr hc hp.1 hp.2.2.1]
        split
        · rfl
        · exact hmine
  rw [hins, Finset.card_insert_of_not_mem]
  simp [mineCells, hm]

theorem mineCells_congr (g g' : Game) (hr : g'.rows = g.rows) (hc : g'.cols = g.cols)
    (h : ∀ r c : Int, (cellAt g'.board r c).hasMine = (cellAt g.board r c).hasMine) :
    mineCells g' = mineCells g := by
  unfold mineCells cells
  rw [hr, hc]
  simp only [h]

/-- What the loop of `PlaceMines` establishes on a grid without mines. -/
theorem placeLoop_spec (g : Game) (hwf : g.WF) (hrows : 0 < g.rows) (hcols : 0 < g.cols)
    (hmines : 0 ≤ g.totalMines)
    (hclear : ∀ r c : Int, IsValidCell g r c = true → (cellAt g.board r c).hasMine = false)
    (safeRow safeCol : Int) (draws : List Nat) (b' : Board)
    (h : placeLoop g safeRow safeCol draws g.board 0 = some b') :
    BoardWF b' g.rows g.cols ∧
    (∀ r c : Int, IsValidCell g r c = true → |r - safeRow| ≤ 1 → |c - safeCol| ≤ 1 →
      (cellAt b' r c).hasMine = false) ∧
    ((mineCells { g with board := b' }).card : Int) = g.totalMines := by
  obtain ⟨placed', ⟨h1, h2, h3, h4⟩, hexit⟩ := placeLoop_invariant g safeRow safeCol
    (fun b placed => BoardWF b g.rows g.cols ∧
      (∀ r c : Int, IsValidCell g r c = true → |r - safeRow| ≤ 1 → |c - safeCol| ≤ 1 →
        (cellAt b r c).hasMine = false) ∧
      ((mineCells { g with board := b }).card : Int) = placed ∧ placed ≤ g.totalMines)
    (by
      intro b placed d1 d2 ⟨i1, i2, i3, i4⟩ hlt hzone hm
      have hr : 0 ≤ Int.tmod (d1 : Int) g.rows ∧ Int.tmod (d1 : Int) g.rows < g.rows :=
        ⟨Int.tmod_nonneg _ (Int.ofNat_nonneg d1), Int.tmod_lt_of_pos _ hrows⟩
      have hc : 0 ≤ Int.tmod (d2 : Int) g.cols ∧ Int.tmod (d2 : Int) g.cols < g.cols :=
        ⟨Int.tmod_nonneg _ (Int.ofNat_nonneg d2), Int.tmod_lt_of_pos _ hcols⟩
      refine ⟨i1.of_setCell _ _ _, ?_, ?_, by omega⟩
      · intro r c hv hzr hzc
        have hv' := (IsValidCell_iff g r c).mp hv
        rw [cellAt_setCell i1 hr hc hv'.1 hv'.2.2.1]
        by_cases he : r = Int.tmod (d1 : Int) g.rows ∧ c = Int.tmod (d2 : Int) g.cols
        · exact absurd ⟨he.1 ▸ hzr, he.2 ▸ hzc⟩ hzone
        · rw [if_neg he]
          exact i2 r c hv hzr hzc
      · rw [mineCells_setMine g b i1 _ _ hr hc hm]
        push_cast
        omega)
    draws g.board 0 b'
    ⟨hwf, fun r c hv _ _ => hclear r c hv,
      by
        have : mineCells { g with board := g.board } = ∅ := by
          apply Finset.filter_eq_empty_iff.mpr
          intro p hp
          rw [hclear p.1 p.2 ((mem_cells _ p).mp hp)]
          decide
        rw [this]; simp,
      hmines⟩ h
  exact ⟨h1, h2, by omega⟩

theorem eq_some_getD {α : Type} {x : Option α} (h : x.isSome = true) (d : α) :
    x = some (x.getD d) := by
  cases x with
  | none => simp at h
  | some a => rfl

theorem placeLoop_WF (g : Game) (hwf : g.WF) (safeRow safeCol : Int) (draws : List Nat)
    (b' : Board) (h : placeLoop g safeRow safeCol draws g.board 0 = some b') :
    BoardWF b' g.rows g.cols := by
  obtain ⟨_, h1, _⟩ := placeLoop_invariant g safeRow safeCol
    (fun b _ => BoardWF b g.rows g.cols)
    (fun b _ _ _ hb _ _ _ => hb.of_setCell _ _ _) draws g.board 0 b' hwf h
  exact h1

theorem PlaceMines_eq_some (g : Game) (safeRow safeCol : Int) (draws : List Nat) (g' : Game)
    (h : PlaceMines g safeRow safeCol draws = some g') :
    ∃ b' : Board, placeLoop g safeRow safeCol draws g.board 0 = some b' ∧
      g' = CountNeighborMines { g with board := b' } := by
  unfold PlaceMines at h
  cases hb : placeLoop g safeRow safeCol draws g.board 0 with
  | none => rw [hb] at h; simp at h
  | some b' =>
    rw [hb] at h
    simp only [Option.map_some', Option.some.injEq] at h
    exact ⟨b', rfl, h.symm⟩

theorem refNeighborMines_congr (g g' : Game) (hr : g'.rows = g.rows) (hc : g'.cols = g.cols)
    (h : ∀ r c : Int, (cellAt g'.board r c).hasMine = (cellAt g.board r c).hasMine)
    (r c : Int) : refNeighborMines g' r c = refNeighborMines g r c := by
  unfold refNeighborMines cells
  rw [hr, hc]
  simp only [h]

/-- After `CountNeighborMines`, every cell without a mine carries the reference
count. -/
theorem CountNeighborMines_ref (g : Game) (hwf : g.WF) (r c : Int)
    (hv : IsValidCell g r c = true)
    (hm : (cellAt (CountNeighborMines g).board r c).hasMine = false) :
    (cellAt (CountNeighborMines g).board r c).neighborMines
      = (refNeighborMines (CountNeighborMines g) r c : Int) := by
  obtain ⟨_, h2, h3⟩ := CountNeighborMines_spec g hwf
  rw [h2] at hm
  rw [h3 r c hv, refNeighborMines_congr g (CountNeighborMines g) rfl rfl h2,
    ← countAround_eq_ref g r c hm]
  simp [hm]

/-- C6: after `PlaceMines`, every cell of the grid without a mine has
`neighborMines` equal to the brute-force reference count, the number of cells
of the grid at Chebyshev distance 1 from it that have `hasMine = true`. -/
theorem PlaceMines_neighborMines (g : Game) (hwf : g.WF) (safeRow safeCol : Int)
    (draws : List Nat) (g' : Game) (h : PlaceMines g safeRow safeCol draws = some g')
    (r c : Int) (hv : IsValidCell g' r c = true)
    (hm : (cellAt g'.board r c).hasMine = false) :
    (cellAt g'.board r c).neighborMines = (refNeighborMines g' r c : Int) := by
  obtain ⟨b', hb', rfl⟩ := PlaceMines_eq_some g safeRow safeCol draws g' h
  exact CountNeighborMines_ref { g with board := b' }
    (placeLoop_WF g hwf safeRow safeCol draws b' hb') r c hv hm

set_option maxRecDepth 100000 in
theorem PlaceMines_neighborMines_witness :
    easyGame.WF ∧ PlaceMines easyGame 0 0 easyDraws = some placedGame ∧
    IsValidCell placedGame 7 6 = true ∧ (cellAt placedGame.board 7 6).hasMine = false ∧
    (cellAt placedGame.board 7 6).neighborMines = (refNeighborMines placedGame 7 6 : Int) ∧
    (cellAt placedGame.board 7 6).neighborMines = 4 :=
  ⟨InitBoard_WF _ _ _ _, eq_some_getD (by decide) _, by decide, by decide,
    PlaceMines_neighborMines easyGame (InitBoard_WF _ _ _ _) 0 0 easyDraws placedGame
      (eq_some_getD (by decide) _) 7 6 (by decide) (by decide),
    by decide⟩

/-- C1: on a grid of `rows` by `cols` cells without mines, with `rows > 0`,
`cols > 0` and `totalMines >= 0` (the state `InitBoard` leaves), for every
`(safeRow, safeCol)`, in bounds or not, and every sequence of draws for which
the loop of `PlaceMines` finishes: afterwards no cell `(r, c)` of the grid
with `|r - safeRow| <= 1` and `|c - safeCol| <= 1` holds a mine, and exactly
`totalMines` cells of the grid hold a mine. -/
theorem PlaceMines_safe_zone_and_count (g : Game) (hwf : g.WF) (hrows : 0 < g.rows)
    (hcols : 0 < g.cols) (hmines : 0 ≤ g.totalMines)
    (hclear : ∀ r c : Int, IsValidCell g r c = true → (cellAt g.board r c).hasMine = false)
    (safeRow safeCol : Int) (draws : List Nat) (g' : Game)
    (h : PlaceMines g safeRow safeCol draws = some g') :
    (∀ r c : Int, IsValidCell g' r c = true → |r - safeRow| ≤ 1 → |c - safeCol| ≤ 1 →
      (cellAt g'.board r c).hasMine = false) ∧
    ((mineCells g').card : Int) = g'.totalMines := by
  obtain ⟨b', hb', rfl⟩ := PlaceMines_eq_some g safeRow safeCol draws g' h
  obtain ⟨h1, h2, h3⟩ := placeLoop_spec g hwf hrows hcols hmines hclear safeRow safeCol draws b' hb'
  obtain ⟨_, c2, _⟩ := CountNeighborMines_spec { g with board := b' } h1
  refine ⟨fun r c hv hr hc => ?_, ?_⟩
  · rw [c2]
    exact h2 r c hv hr hc
  · rw [mineCells_congr { g with board := b' } (CountNeighborMines { g with board := b' })
      rfl rfl c2]
    exact h3

set_option maxRecDepth 100000 in
theorem PlaceMines_safe_zone_and_count_witness :
    easyGame.WF ∧ 0 < easyGame.rows ∧ 0 < easyGame.cols ∧ 0 ≤ easyGame.totalMines ∧
    (∀ r c : Int, IsValidCell easyGame r c = true →
      (cellAt easyGame.board r c).hasMine = false) ∧
    PlaceMines easyGame 0 0 easyDraws = some placedGame ∧
    (∀ r c : Int, IsValidCell placedGame r c = true → |r - 0| ≤ 1 → |c - 0| ≤ 1 →
      (cellAt placedGame.board r c).hasMine = false) ∧
    ((mineCells placedGame).card : Int) = 10 :=
  ⟨InitBoard_WF _ _ _ _, by decide, by decide, by decide,
    fun r c _ => by rw [easyGame, InitBoard_cellAt]; rfl, eq_some_getD (by decide) _,
    PlaceMines_safe_zone_and_count easyGame (InitBoard_WF _ _ _ _) (by decide) (by decide)
      (by decide) (fun r c _ => by rw [easyGame, InitBoard_cellAt]; rfl) 0 0
      easyDraws placedGame (eq_some_getD (by decide) _)⟩

/-! ### The flood fill of `RevealCell` -/

theorem FloodInv.rows_eq {g0 : Game} {s : Int × Int} {M : Nat} {cur : List (Int × Int)}
    {g : Game} {q : List (Int × Int)} (h : FloodInv g0 s M cur g q) : g.rows = g0.rows := by
  have := congrArg Game.rows h.frame
  exact this

theorem FloodInv.cols_eq {g0 : Game} {s : Int × Int} {M : Nat} {cur : List (Int × Int)}
    {g : Game} {q : List (Int × Int)} (h : FloodInv g0 s M cur g q) : g.cols = g0.cols := by
  have := congrArg Game.cols h.frame
  exact this

theorem zeroRegion_cases {g : Game} {s z : Int × Int} (h : zeroRegion g s z) :
    z = s ∨ zeroCell g z := by
  unfold zeroRegion at h
  rcases Relation.ReflTransGen.cases_tail h with h1 | ⟨_, _, h2⟩
  · exact Or.inl h1
  · exact Or.inr h2.2

theorem adjacent_add_delta (z d : Int × Int) (hd : d ∈ deltas) :
    adjacent z (z.1 + d.1, z.2 + d.2) := by
  have := (mem_deltas d).mp hd
  unfold adjacent
  simpa using this

theorem adjacent_delta_mem {z n : Int × Int} (h : adjacent z n) :
    (n.1 - z.1, n.2 - z.2) ∈ deltas :=
  (mem_deltas _).mpr h

/-- The offset loop skips the neighbour: nothing changes. -/
theorem visitNeighbor_skip (cr cc : Int) (g : Game) (q : List (Int × Int)) (d : Int × Int)
    (h : IsValidCell g (cr + d.1) (cc + d.2) = false ∨
      (cellAt g.board (cr + d.1) (cc + d.2)).isRevealed = true ∨
      (cellAt g.board (cr + d.1) (cc + d.2)).isFlagged = true ∨
      (cellAt g.board (cr + d.1) (cc + d.2)).hasMine = true) :
    visitNeighbor cr cc (g, q) d = (g, q) := by
  unfold visitNeighbor
  rcases h with h | h | h | h <;> simp [h]

/-- The offset loop reveals the neighbour and enqueues it when its count is 0. -/
theorem visitNeighbor_reveal (cr cc : Int) (g : Game) (q : List (Int × Int)) (d : Int × Int)
    (hv : IsValidCell g (cr + d.1) (cc + d.2) = true)
    (hr : (cellAt g.board (cr + d.1) (cc + d.2)).isRevealed = false)
    (hf : (cellAt g.board (cr + d.1) (cc + d.2)).isFlagged = false)
    (hm : (cellAt g.board (cr + d.1) (cc + d.2)).hasMine = false) :
    visitNeighbor cr cc (g, q) d =
      ({ g with
          board := setCell g.board (cr + d.1) (cc + d.2)
            { cellAt g.board (cr + d.1) (cc + d.2) with isRevealed := true }
          revealedCount := g.revealedCount + 1 },
        if (cellAt g.board (cr + d.1) (cc + d.2)).neighborMines = 0
        then q ++ [(cr + d.1, cc + d.2)] else q) := by
  unfold visitNeighbor
  dsimp only
  rw [if_neg (by simp [hv]), if_neg (by simp [hr, hf, hm])]
  split <;> rfl

theorem cellOf_reveal {g0 g : Game} (hwf : BoardWF g.board g0.rows g0.cols) {n : Int × Int}
    (hn : n ∈ cells g0) (x : Cell) (c : Int) {p : Int × Int} (hp : p ∈ cells g0) :
    cellOf { g with board := setCell g.board n.1 n.2 x, revealedCount := c } p
      = if p = n then x else cellOf g p := by
  have hn' := (IsValidCell_iff g0 n.1 n.2).mp ((mem_cells g0 n).mp hn)
  have hp' := (IsValidCell_iff g0 p.1 p.2).mp ((mem_cells g0 p).mp hp)
  show cellAt (setCell g.board n.1 n.2 x) p.1 p.2 = _
  rw [cellAt_setCell hwf ⟨hn'.1, hn'.2.1⟩ ⟨hn'.2.2.1, hn'.2.2.2⟩ hp'.1 hp'.2.2.1]
  by_cases he : p = n
  · rw [if_pos he, if_pos ⟨by rw [he], by rw [he]⟩]
  · rw [if_neg he, if_neg]
    · rfl
    · rintro ⟨e1, e2⟩
      exact he (Prod.ext e1 e2)

theorem visitNeighbor_inv {g0 : Game} {s : Int × Int} {M : Nat} {z : Int × Int} {g : Game}
    {q : List (Int × Int)} (d : Int × Int) (hd : d ∈ deltas) (hz : zeroRegion g0 s z)
    (h : FloodInv g0 s M [z] g q) :
    FloodInv g0 s M [z] (visitNeighbor z.1 z.2 (g, q) d).1 (visitNeighbor z.1 z.2 (g, q) d).2 ∧
    (∀ p ∈ cells g0, (cellOf g p).isRevealed = true →
      (cellOf (visitNeighbor z.1 z.2 (g, q) d).1 p).isRevealed = true) ∧
    (eligible g0 (z.1 + d.1, z.2 + d.2) →
      (cellOf (visitNeighbor z.1 z.2 (g, q) d).1 (z.1 + d.1, z.2 + d.2)).isRevealed = true) := by
  have hvalid : ∀ r c : Int, IsValidCell g r c = IsValidCell g0 r c := by
    intro r c
    unfold IsValidCell
    rw [h.rows_eq, h.cols_eq]
  by_cases hskip : IsValidCell g (z.1 + d.1) (z.2 + d.2) = false ∨
      (cellAt g.board (z.1 + d.1) (z.2 + d.2)).isRevealed = true ∨
      (cellAt g.board (z.1 + d.1) (z.2 + d.2)).isFlagged = true ∨
      (cellAt g.board (z.1 + d.1) (z.2 + d.2)).hasMine = true
  · rw [visitNeighbor_skip _ _ _ _ _ hskip]
    refine ⟨h, fun _ _ hx => hx, fun he => ?_⟩
    obtain ⟨e1, e2, e3, e4⟩ := he
    have hmem : (z.1 + d.1, z.2 + d.2) ∈ cells g0 := (mem_cells g0 _).mpr e1
    obtain ⟨o1, o2, _⟩ := h.other _ hmem
    rcases hskip with hs | hs | hs | hs
    · rw [hvalid] at hs
      rw [hs] at e1
      exact absurd e1 (by decide)
    · exact hs
    · have : (cellOf g (z.1 + d.1, z.2 + d.2)).isFlagged = true := hs
      rw [o2, e3] at this
      exact absurd this (by decide)
    · have : (cellOf g (z.1 + d.1, z.2 + d.2)).hasMine = true := hs
      rw [o1, e4] at this
      exact absurd this (by decide)
  · have hv : IsValidCell g (z.1 + d.1) (z.2 + d.2) = true := by
      cases hh : IsValidCell g (z.1 + d.1) (z.2 + d.2)
      · exact absurd (Or.inl hh) hskip
      · rfl
    have hr : (cellAt g.board (z.1 + d.1) (z.2 + d.2)).isRevealed = false := by
      cases hh : (cellAt g.board (z.1 + d.1) (z.2 + d.2)).isRevealed
      · rfl
      · exact absurd (Or.inr (Or.inl hh)) hskip
    have hf : (cellAt g.board (z.1 + d.1) (z.2 + d.2)).isFlagged = false := by
      cases hh : (cellAt g.board (z.1 + d.1) (z.2 + d.2)).isFlagged
      · rfl
      · exact absurd (Or.inr (Or.inr (Or.inl hh))) hskip
    have hm : (cellAt g.board (z.1 + d.1) (z.2 + d.2)).hasMine = false := by
      cases hh : (cellAt g.board (z.1 + d.1) (z.2 + d.2)).hasMine
      · rfl
      · exact absurd (Or.inr (Or.inr (Or.inr hh))) hskip
    rw [visitNeighbor_reveal _ _ _ _ _ hv hr hf hm]
    generalize hn : ((z.1 + d.1, z.2 + d.2) : Int × Int) = n at *
    have hn1 : z.1 + d.1 = n.1 := by rw [← hn]
    have hn2 : z.2 + d.2 = n.2 := by rw [← hn]
    rw [hn1, hn2] at hv hr hf hm ⊢
    have hr' : (cellOf g n).isRevealed = false := hr
    have hf' : (cellOf g n).isFlagged = false := hf
    have hm' : (cellOf g n).hasMine = false := hm
    have hmem : n ∈ cells g0 := (mem_cells g0 n).mpr (by rw [← hvalid]; exact hv)
    have hadj : adjacent z n := by
      rw [← hn]; exact adjacent_add_delta z d hd
    obtain ⟨o1, o2, o3⟩ := h.other n hmem
    have hr0 : (cellOf g0 n).isRevealed = false := by
      cases hh : (cellOf g0 n).isRevealed
      · rfl
      · have := h.mono n hmem hh
        rw [hr'] at this
        exact absurd this (by decide)
    have helig : eligible g0 n :=
      ⟨(mem_cells g0 n).mp hmem, hr0, by rw [← o2]; exact hf', by rw [← o1]; exact hm'⟩
    have hcell : ∀ p ∈ cells g0,
        cellOf { g with
            board := setCell g.board n.1 n.2 { cellAt g.board n.1 n.2 with isRevealed := true }
            revealedCount := g.revealedCount + 1 } p
          = if p = n then { cellOf g n with isRevealed := true } else cellOf g p :=
      fun p hp => cellOf_reveal h.wf hmem _ _ hp
    have hmonostep : ∀ p ∈ cells g0, (cellOf g p).isRevealed = true →
        (cellOf { g with
            board := setCell g.board n.1 n.2 { cellAt g.board n.1 n.2 with isRevealed := true }
            revealedCount := g.revealedCount + 1 } p).isRevealed = true := by
      intro p hp hx
      rw [hcell p hp]
      split
      · rfl
      · exact hx
    have hnrev : (cellOf { g with
            board := setCell g.board n.1 n.2 { cellAt g.board n.1 n.2 with isRevealed := true }
            revealedCount := g.revealedCount + 1 } n).isRevealed = true := by
      rw [hcell n hmem, if_pos rfl]
    refine ⟨?_, hmonostep, fun _ => hnrev⟩
    refine
      { frame := h.frame
        wf := h.wf.of_setCell _ _ _
        other := ?_
        mono := fun p hp hx => hmonostep p hp (h.mono p hp hx)
        fresh := ?_
        count := ?_
        queue := ?_
        smem := h.smem
        start := hmonostep s h.smem h.start
        done := ?_
        fuel := ?_ }
    · intro p hp
      rw [hcell p hp]
      by_cases he : p = n
      · rw [if_pos he, he]
        exact ⟨o1, o2, o3⟩
      · rw [if_neg he]
        exact h.other p hp
    · intro p hp hx hx0
      by_cases he : p = n
      · rw [he]
        exact ⟨helig, z, hz, hadj⟩
      · rw [hcell p hp, if_neg he] at hx
        exact h.fresh p hp hx hx0
    · have hins : newCells g0 { g with
            board := setCell g.board n.1 n.2 { cellAt g.board n.1 n.2 with isRevealed := true }
            revealedCount := g.revealedCount + 1 } = insert n (newCells g0 g) := by
        ext p
        simp only [newCells, Finset.mem_filter, Finset.mem_insert]
        constructor
        · rintro ⟨hp, hx, hx0⟩
          by_cases he : p = n
          · exact Or.inl he
          · rw [hcell p hp, if_neg he] at hx
            exact Or.inr ⟨hp, hx, hx0⟩
        · rintro (he | ⟨hp, hx, hx0⟩)
          · rw [he]
            exact ⟨hmem, hnrev, hr0⟩
          · exact ⟨hp, hmonostep p hp hx, hx0⟩
      have hnot : n ∉ newCells g0 g := by
        simp [newCells, hr']
      rw [hins, Finset.card_insert_of_not_mem hnot]
      show g.revealedCount + 1 = _
      rw [h.count]
      push_cast
      ring
    · intro z' hz'
      split at hz'
      · rcases List.mem_append.mp hz' with hq | hq
        · exact h.queue z' hq
        · rw [List.mem_singleton.mp hq]
          rename_i hzero
          exact Relation.ReflTransGen.tail hz ⟨hadj, helig, by rw [← o3]; exact hzero⟩
      · exact h.queue z' hz'
    · intro z' hz' hx
      have hz'mem : z' ∈ cells g0 := by
        rcases zeroRegion_cases hz' with e | e
        · rw [e]; exact h.smem
        · exact (mem_cells g0 z').mpr e.1.1
      by_cases he : z' = n
      · rcases zeroRegion_cases hz' with e | e
        · have hs := h.start
          rw [← e, he, hr'] at hs
          exact absurd hs (by decide)
        · have hzero : (cellAt g.board n.1 n.2).neighborMines = 0 := by
            have := e.2
            rw [he, ← o3] at this
            exact this
          rw [if_pos hzero]
          exact Or.inr (Or.inl (List.mem_append.mpr (Or.inr (by rw [he]; simp))))
      · rw [hcell z' hz'mem, if_neg he] at hx
        rcases h.done z' hz' hx with hc | hc | hc
        · exact Or.inl hc
        · refine Or.inr (Or.inl ?_)
          split
          · exact List.mem_append.mpr (Or.inl hc)
          · exact hc
        · exact Or.inr (Or.inr (fun n' ha he' =>
            hmonostep n' ((mem_cells g0 n').mpr he'.1) (hc n' ha he')))
    · have hers : eligibleCells g0 { g with
            board := setCell g.board n.1 n.2 { cellAt g.board n.1 n.2 with isRevealed := true }
            revealedCount := g.revealedCount + 1 } = (eligibleCells g0 g).erase n := by
        ext p
        simp only [eligibleCells, Finset.mem_filter, Finset.mem_erase]
        constructor
        · rintro ⟨hp, hx⟩
          by_cases he : p = n
          · rw [hcell p hp, if_pos he] at hx
            exact absurd hx.1 (by simp)
          · rw [hcell p hp, if_neg he] at hx
            exact ⟨he, hp, hx⟩
        · rintro ⟨he, hp, hx⟩
          rw [hcell p hp, if_neg he]
          exact ⟨hp, hx⟩
      have hin : n ∈ eligibleCells g0 g := by
        simp only [eligibleCells, Finset.mem_filter]
        exact ⟨hmem, hr', hf', hm'⟩
      have hpos : 0 < (eligibleCells g0 g).card := Finset.card_pos.mpr ⟨n, hin⟩
      have hlen : (if (cellAt g.board n.1 n.2).neighborMines = 0 then q ++ [n] else q).length
          ≤ q.length + 1 := by
        split
        · simp
        · omega
      have hfuel := h.fuel
      have key : ∀ (l : List (Int × Int)) (E : Finset (Int × Int)), l.length ≤ q.length + 1 →
          E.card = (eligibleCells g0 g).card - 1 → l.length + E.card ≤ M := by
        intro l E h1 h2
        omega
      exact key _ _ hlen (by rw [hers, Finset.card_erase_of_mem hin])

/-- The offset loop for one dequeued position `z`, over a list of offsets. -/
theorem visitAll_inv {g0 : Game} {s : Int × Int} {M : Nat} {z : Int × Int}
    (hz : zeroRegion g0 s z) (l : List (Int × Int)) (hl : ∀ d ∈ l, d ∈ deltas) :
    ∀ (g : Game) (q : List (Int × Int)), FloodInv g0 s M [z] g q →
      FloodInv g0 s M [z] (l.foldl (visitNeighbor z.1 z.2) (g, q)).1
        (l.foldl (visitNeighbor z.1 z.2) (g, q)).2 ∧
      (∀ p ∈ cells g0, (cellOf g p).isRevealed = true →
        (cellOf (l.foldl (visitNeighbor z.1 z.2) (g, q)).1 p).isRevealed = true) ∧
      (∀ d ∈ l, eligible g0 (z.1 + d.1, z.2 + d.2) →
        (cellOf (l.foldl (visitNeighbor z.1 z.2) (g, q)).1 (z.1 + d.1, z.2 + d.2)).isRevealed
          = true) := by
  induction l with
  | nil =>
    intro g q h
    exact ⟨h, fun _ _ hx => hx, fun d hd => absurd hd (List.not_mem_nil d)⟩
  | cons d l ih =>
    intro g q h
    obtain ⟨s1, s2, s3⟩ := visitNeighbor_inv d (hl d (List.mem_cons_self d l)) hz h
    obtain ⟨i1, i2, i3⟩ := ih (fun d' hd' => hl d' (List.mem_cons_of_mem d hd'))
      (visitNeighbor z.1 z.2 (g, q) d).1 (visitNeighbor z.1 z.2 (g, q) d).2 s1
    rw [List.foldl_cons]
    refine ⟨i1, fun p hp hx => i2 p hp (s2 p hp hx), fun d' hd' he => ?_⟩
    rcases List.mem_cons.mp hd' with e | e
    · subst e
      exact i2 _ ((mem_cells g0 _).mpr he.1) (s3 he)
    · exact i3 d' e he

/-- One iteration of the `while` loop keeps the invariant and uses up one unit
of the bound. -/
theorem floodFill_iteration {g0 : Game} {s : Int × Int} {M : Nat} {z : Int × Int} {g : Game}
    {rest : List (Int × Int)} (h : FloodInv g0 s (M + 1) [] g (z :: rest)) :
    FloodInv g0 s M [] (deltas.foldl (visitNeighbor z.1 z.2) (g, rest)).1
      (deltas.foldl (visitNeighbor z.1 z.2) (g, rest)).2 := by
  have hz : zeroRegion g0 s z := h.queue z (List.mem_cons_self z rest)
  have h0 : FloodInv g0 s M [z] g rest :=
    { frame := h.frame
      wf := h.wf
      other := h.other
      mono := h.mono
      fresh := h.fresh
      count := h.count
      queue := fun z' hz' => h.queue z' (List.mem_cons_of_mem z hz')
      smem := h.smem
      start := h.start
      done := by
        intro z' hz' hx
        rcases h.done z' hz' hx with hc | hc | hc
        · exact absurd hc (List.not_mem_nil z')
        · rcases List.mem_cons.mp hc with e | e
          · exact Or.inl (by rw [e]; simp)
          · exact Or.inr (Or.inl e)
        · exact Or.inr (Or.inr hc)
      fuel := by
        have := h.fuel
        simp only [List.length_cons] at this
        omega }
  obtain ⟨i1, _, i3⟩ := visitAll_inv hz deltas (fun d hd => hd) g rest h0
  exact
    { frame := i1.frame
      wf := i1.wf
      other := i1.other
      mono := i1.mono
      fresh := i1.fresh
      count := i1.count
      queue := i1.queue
      smem := i1.smem
      start := i1.start
      done := by
        intro z' hz' hx
        rcases i1.done z' hz' hx with hc | hc | hc
        · have e : z' = z := by simpa using hc
          refine Or.inr (Or.inr (fun n ha he => ?_))
          rw [e] at ha
          have hd := adjacent_delta_mem ha
          have := i3 _ hd (by simpa using he)
          simpa using this
        · exact Or.inr (Or.inl hc)
        · exact Or.inr (Or.inr hc)
      fuel := i1.fuel }

/-- The `while` loop terminates within the bound and ends with an empty
queue and the invariant. -/
theorem floodFill_inv {g0 : Game} {s : Int × Int} :
    ∀ (M : Nat) (g : Game) (q : List (Int × Int)), FloodInv g0 s M [] g q →
      ∃ (g' : Game) (M' : Nat), floodFill M g q = some g' ∧ FloodInv g0 s M' [] g' []
  | M, g, [], h => ⟨g, M, by cases M <;> rfl, h⟩
  | 0, g, z :: rest, h => by
    have := h.fuel
    simp at this
  | M + 1, g, z :: rest, h => by
    obtain ⟨g', M', hg', hinv⟩ := floodFill_inv M _ _ (floodFill_iteration h)
    exact ⟨g', M', hg', hinv⟩

theorem card_cells (g : Game) : (cells g).card = g.rows.toNat * g.cols.toNat := by
  simp [cells, Finset.card_product]

theorem toNat_mul_of_pos {a b : Int} (ha : 0 < a) (hb : 0 < b) :
    (a * b).toNat = a.toNat * b.toNat := by
  have h1 : ((a * b).toNat : Int) = a * b := Int.toNat_of_nonneg (by positivity)
  have h2 : ((a.toNat * b.toNat : Nat) : Int) = a * b := by
    push_cast
    rw [Int.toNat_of_nonneg ha.le, Int.toNat_of_nonneg hb.le]
  exact_mod_cast h1.trans h2.symm

theorem adjacent_refl (p : Int × Int) : adjacent p p := by
  simp [adjacent]

theorem adjacent_symm {p q : Int × Int} (h : adjacent p q) : adjacent q p := by
  unfold adjacent at *
  simp only [abs_eq_max_neg] at *
  omega

/-- The state in which `RevealCell` enters its `while` loop satisfies the
invariant, with one unit of fuel per cell of the grid. -/
theorem floodFill_init (g : Game) (hwf : g.WF) (s : Int × Int) (hs : zeroCell g s) :
    FloodInv g s (g.rows * g.cols).toNat []
      { g with
        board := setCell g.board s.1 s.2 { cellAt g.board s.1 s.2 with isRevealed := true }
        revealedCount := g.revealedCount + 1 } [s] := by
  have hmem : s ∈ cells g := (mem_cells g s).mpr hs.1.1
  have hcell : ∀ p ∈ cells g,
      cellOf { g with
          board := setCell g.board s.1 s.2 { cellAt g.board s.1 s.2 with isRevealed := true }
          revealedCount := g.revealedCount + 1 } p
        = if p = s then { cellOf g s with isRevealed := true } else cellOf g p :=
    fun p hp => cellOf_reveal hwf hmem _ _ hp
  have hsrev : (cellOf { g with
          board := setCell g.board s.1 s.2 { cellAt g.board s.1 s.2 with isRevealed := true }
          revealedCount := g.revealedCount + 1 } s).isRevealed = true := by
    rw [hcell s hmem, if_pos rfl]
  refine
    { frame := rfl
      wf := hwf.of_setCell _ _ _
      other := ?_
      mono := ?_
      fresh := ?_
      count := ?_
      queue := ?_
      smem := hmem
      start := hsrev
      done := ?_
      fuel := ?_ }
  · intro p hp
    rw [hcell p hp]
    by_cases he : p = s
    · rw [if_pos he, he]; exact ⟨rfl, rfl, rfl⟩
    · rw [if_neg he]; exact ⟨rfl, rfl, rfl⟩
  · intro p hp hx
    rw [hcell p hp]
    split
    · rfl
    · exact hx
  · intro p hp hx hx0
    by_cases he : p = s
    · rw [he]
      exact ⟨hs.1, s, Relation.ReflTransGen.refl, adjacent_refl s⟩
    · rw [hcell p hp, if_neg he, hx0] at hx
      exact absurd hx (by decide)
  · have hnew : newCells g { g with
          board := setCell g.board s.1 s.2 { cellAt g.board s.1 s.2 with isRevealed := true }
          revealedCount := g.revealedCount + 1 } = {s} := by
      ext p
      simp only [newCells, Finset.mem_filter, Finset.mem_singleton]
      constructor
      · rintro ⟨hp, hx, hx0⟩
        by_contra he
        rw [hcell p hp, if_neg he, hx0] at hx
        exact absurd hx (by decide)
      · intro he
        rw [he]
        exact ⟨hmem, hsrev, hs.1.2.1⟩
    rw [hnew]
    simp
  · intro z hz
    rw [List.mem_singleton.mp hz]
    exact Relation.ReflTransGen.refl
  · intro z hz hx
    by_cases he : z = s
    · exact Or.inr (Or.inl (by rw [he]; simp))
    · rcases zeroRegion_cases hz with e | e
      · exact absurd e he
      · rw [hcell z ((mem_cells g z).mpr e.1.1), if_neg he, e.1.2.1] at hx
        exact absurd hx (by decide)
  · have hv := (IsValidCell_iff g s.1 s.2).mp hs.1.1
    have hsub : eligibleCells g { g with
          board := setCell g.board s.1 s.2 { cellAt g.board s.1 s.2 with isRevealed := true }
          revealedCount := g.revealedCount + 1 } ⊆ (cells g).erase s := by
      intro p hp
      simp only [eligibleCells, Finset.mem_filter] at hp
      refine Finset.mem_erase.mpr ⟨?_, hp.1⟩
      intro he
      have := hp.2.1
      rw [he, hsrev] at this
      exact absurd this (by decide)
    have hcard := Finset.card_le_card hsub
    rw [Finset.card_erase_of_mem hmem, card_cells] at hcard
    rw [toNat_mul_of_pos (by omega) (by omega)]
    have hpos : 0 < g.rows.toNat * g.cols.toNat :=
      Nat.mul_pos (by omega) (by omega)
    have key : ∀ E : Finset (Int × Int), E.card ≤ g.rows.toNat * g.cols.toNat - 1 →
        [s].length + E.card ≤ g.rows.toNat * g.cols.toNat := by
      intro E hE
      simp only [List.length_singleton]
      omega
    exact key _ hcard

/-- When the loop has ended, every position of the zero region is revealed. -/
theorem FloodInv.region_revealed {g0 : Game} {s : Int × Int} {M : Nat} {g : Game}
    (h : FloodInv g0 s M [] g []) (z : Int × Int) (hz : zeroRegion g0 s z) :
    (cellOf g z).isRevealed = true := by
  unfold zeroRegion at hz
  induction hz with
  | refl => exact h.start
  | tail hxy hstep ih =>
    rcases h.done _ hxy ih with hc | hc | hc
    · exact absurd hc (List.not_mem_nil _)
    · exact absurd hc (List.not_mem_nil _)
    · exact hc _ hstep.1 hstep.2.1

/-- When the loop has ended, the revealed cells are the cells revealed before
together with the reference set of the flood fill. -/
theorem FloodInv.revealed_iff {g0 : Game} {s : Int × Int} {M : Nat} {g : Game}
    (h : FloodInv g0 s M [] g []) (p : Int × Int) (hp : p ∈ cells g0) :
    (cellOf g p).isRevealed = true ↔
      ((cellOf g0 p).isRevealed = true ∨ floodTarget g0 s p) := by
  constructor
  · intro hx
    by_cases hx0 : (cellOf g0 p).isRevealed = true
    · exact Or.inl hx0
    · exact Or.inr (h.fresh p hp hx (by simpa using hx0))
  · rintro (hx0 | ⟨he, z, hz, ha⟩)
    · exact h.mono p hp hx0
    · rcases h.done z hz (h.region_revealed z hz) with hc | hc | hc
      · exact absurd hc (List.not_mem_nil _)
      · exact absurd hc (List.not_mem_nil _)
      · exact hc p ha he

theorem FloodInv.toEffect {g0 : Game} {s : Int × Int} {M : Nat} {cur : List (Int × Int)}
    {g : Game} {q : List (Int × Int)} (h : FloodInv g0 s M cur g q) : RevealEffect g0 g :=
  { frame := h.frame
    wf := h.wf
    other := h.other
    mono := h.mono
    fresh := fun p hp hx hx0 => (h.fresh p hp hx hx0).1
    count := h.count }

/-- `RevealCell` on an eligible cell: the code path after the mine check. -/
theorem RevealCell_eligible_eq (g : Game) (s : Int × Int) (he : eligible g s) :
    RevealCell g s.1 s.2 =
      (if (cellAt g.board s.1 s.2).neighborMines = 0 then
        floodFill (g.rows * g.cols).toNat
          { g with
            board := setCell g.board s.1 s.2 { cellAt g.board s.1 s.2 with isRevealed := true }
            revealedCount := g.revealedCount + 1 } [s]
      else some
          { g with
            board := setCell g.board s.1 s.2 { cellAt g.board s.1 s.2 with isRevealed := true }
            revealedCount := g.revealedCount + 1 }).map
        (fun g2 => if CheckWinCondition g2 = true then { g2 with state := GameState.WON } else g2) := by
  obtain ⟨h1, h2, h3, h4⟩ := he
  have h2' : (cellAt g.board s.1 s.2).isRevealed = false := h2
  have h3' : (cellAt g.board s.1 s.2).isFlagged = false := h3
  have h4' : (cellAt g.board s.1 s.2).hasMine = false := h4
  unfold RevealCell
  dsimp only
  rw [if_neg (by simp [h1]), if_neg (by simp [h2', h3']), if_neg (by simp [h4'])]

/-- `RevealCell` on a zero cell: the loop ends, with its invariant. -/
theorem RevealCell_zero (g : Game) (hwf : g.WF) (s : Int × Int) (hs : zeroCell g s) :
    ∃ (g2 : Game) (M : Nat), FloodInv g s M [] g2 [] ∧
      RevealCell g s.1 s.2 =
        some (if CheckWinCondition g2 = true then { g2 with state := GameState.WON } else g2) := by
  obtain ⟨g2, M, hfill, hinv⟩ := floodFill_inv _ _ _ (floodFill_init g hwf s hs)
  refine ⟨g2, M, hinv, ?_⟩
  have hz : (cellAt g.board s.1 s.2).neighborMines = 0 := hs.2
  rw [RevealCell_eligible_eq g s hs.1, if_pos hz, hfill]
  rfl

/-- `RevealCell` on an eligible cell whose count is not 0 reveals that cell
only. -/
theorem RevealCell_nonzero (g : Game) (hwf : g.WF) (s : Int × Int) (he : eligible g s)
    (hnz : (cellOf g s).neighborMines ≠ 0) :
    ∃ g2 : Game, RevealEffect g g2 ∧
      (∀ p ∈ cells g, (cellOf g2 p).isRevealed = true ↔
        ((cellOf g p).isRevealed = true ∨ p = s)) ∧
      RevealCell g s.1 s.2 =
        some (if CheckWinCondition g2 = true then { g2 with state := GameState.WON } else g2) := by
  have hmem : s ∈ cells g := (mem_cells g s).mpr he.1
  have hcell : ∀ p ∈ cells g,
      cellOf { g with
          board := setCell g.board s.1 s.2 { cellAt g.board s.1 s.2 with isRevealed := true }
          revealedCount := g.revealedCount + 1 } p
        = if p = s then { cellOf g s with isRevealed := true } else cellOf g p :=
    fun p hp => cellOf_reveal hwf hmem _ _ hp
  have hiff : ∀ p ∈ cells g, (cellOf { g with
          board := setCell g.board s.1 s.2 { cellAt g.board s.1 s.2 with isRevealed := true }
          revealedCount := g.revealedCount + 1 } p).isRevealed = true ↔
        ((cellOf g p).isRevealed = true ∨ p = s) := by
    intro p hp
    rw [hcell p hp]
    by_cases e : p = s
    · simp [e]
    · simp [e]
  refine ⟨_, ?_, hiff, ?_⟩
  · refine
      { frame := rfl
        wf := hwf.of_setCell _ _ _
        other := ?_
        mono := fun p hp hx => (hiff p hp).mpr (Or.inl hx)
        fresh := ?_
        count := ?_ }
    · intro p hp
      rw [hcell p hp]
      by_cases e : p = s
      · rw [if_pos e, e]; exact ⟨rfl, rfl, rfl⟩
      · rw [if_neg e]; exact ⟨rfl, rfl, rfl⟩
    · intro p hp hx hx0
      rcases (hiff p hp).mp hx with h1 | h1
      · rw [hx0] at h1; exact absurd h1 (by decide)
      · rw [h1]; exact he
    · have hnew : newCells g { g with
            board := setCell g.board s.1 s.2 { cellAt g.board s.1 s.2 with isRevealed := true }
            revealedCount := g.revealedCount + 1 } = {s} := by
        ext p
        simp only [newCells, Finset.mem_filter, Finset.mem_singleton]
        constructor
        · rintro ⟨hp, hx, hx0⟩
          rcases (hiff p hp).mp hx with h1 | h1
          · rw [hx0] at h1; exact absurd h1 (by decide)
          · exact h1
        · intro e
          rw [e]
          exact ⟨hmem, (hiff s hmem).mpr (Or.inr rfl), he.2.1⟩
      rw [hnew]
      simp
  · have hz : ¬ (cellAt g.board s.1 s.2).neighborMines = 0 := hnz
    rw [RevealCell_eligible_eq g s he, if_neg hz]
    rfl

/-- `RevealCell` on an eligible cell, zero or not: it returns, the start cell
is revealed, and the effect before the win check is a `RevealEffect`. -/
theorem RevealCell_safe (g : Game) (hwf : g.WF) (s : Int × Int) (he : eligible g s) :
    ∃ g2 : Game, RevealEffect g g2 ∧ (cellOf g2 s).isRevealed = true ∧
      RevealCell g s.1 s.2 =
        some (if CheckWinCondition g2 = true then { g2 with state := GameState.WON } else g2) := by
  by_cases hz : (cellOf g s).neighborMines = 0
  · obtain ⟨g2, M, hinv, heq⟩ := RevealCell_zero g hwf s ⟨he, hz⟩
    exact ⟨g2, hinv.toEffect, hinv.start, heq⟩
  · obtain ⟨g2, heff, hiff, heq⟩ := RevealCell_nonzero g hwf s he hz
    exact ⟨g2, heff, (hiff s ((mem_cells g s).mpr he.1)).mpr (Or.inr rfl), heq⟩

/-! ### Order independence of the flood fill -/

theorem cellAt_eq_getElem (b : Board) (i j : Nat) (hi : i < b.length) (hj : j < b[i].length) :
    cellAt b (i : Int) (j : Int) = b[i][j] := by
  unfold cellAt
  simp [List.getD_eq_getElem?_getD, List.getElem?_eq_getElem hi, List.getElem?_eq_getElem hj]

/-- Two grids of the same shape with the same cells are equal. -/
theorem board_ext {b1 b2 : Board} {rows cols : Int} (h1 : BoardWF b1 rows cols)
    (h2 : BoardWF b2 rows cols)
    (h : ∀ r c : Int, 0 ≤ r → r < rows → 0 ≤ c → c < cols → cellAt b1 r c = cellAt b2 r c) :
    b1 = b2 := by
  apply List.ext_getElem (by rw [h1.1, h2.1])
  intro i hi1 hi2
  have hl1 : b1[i].length = cols.toNat := h1.2 _ (List.getElem_mem _)
  have hl2 : b2[i].length = cols.toNat := h2.2 _ (List.getElem_mem _)
  apply List.ext_getElem (by rw [hl1, hl2])
  intro j hj1 hj2
  rw [← cellAt_eq_getElem b1 i j hi1 hj1, ← cellAt_eq_getElem b2 i j hi2 hj2]
  have hi' : i < rows.toNat := by rw [← h1.1]; exact hi1
  have hj' : j < cols.toNat := by rw [← hl1]; exact hj1
  exact h i j (by omega) (by omega) (by omega) (by omega)

theorem Cell.eq_of_fields {x y : Cell} (h1 : x.hasMine = y.hasMine)
    (h2 : x.isRevealed = y.isRevealed) (h3 : x.isFlagged = y.isFlagged)
    (h4 : x.neighborMines = y.neighborMines) : x = y := by
  cases x; cases y
  simp only [Cell.mk.injEq]
  exact ⟨h1, h2, h3, h4⟩

theorem zeroRegion_trans {g : Game} {a b c : Int × Int} (h1 : zeroRegion g a b)
    (h2 : zeroRegion g b c) : zeroRegion g a c :=
  Relation.ReflTransGen.trans h1 h2

/-- The chain relation is symmetric between zero cells. -/
theorem zeroRegion_symm {g : Game} {a b : Int × Int} (ha : zeroCell g a)
    (h : zeroRegion g a b) : zeroRegion g b a := by
  unfold zeroRegion at h ⊢
  induction h with
  | refl => exact Relation.ReflTransGen.refl
  | tail hxy hstep ih =>
    rename_i x y
    have hx : zeroCell g x := by
      rcases zeroRegion_cases hxy with e | e
      · rw [e]; exact ha
      · exact e
    exact Relation.ReflTransGen.head ⟨adjacent_symm hstep.1, hx⟩ ih

theorem floodTarget_congr {g : Game} {a b : Int × Int} (ha : zeroCell g a)
    (h : zeroRegion g a b) (p : Int × Int) : floodTarget g a p ↔ floodTarget g b p := by
  have hba := zeroRegion_symm ha h
  constructor
  · rintro ⟨he, z, hz, hadj⟩
    exact ⟨he, z, zeroRegion_trans hba hz, hadj⟩
  · rintro ⟨he, z, hz, hadj⟩
    exact ⟨he, z, zeroRegion_trans h hz, hadj⟩

theorem Game.eq_of_frame {g0 g1 g2 : Game}
    (h1 : { g1 with board := g0.board, revealedCount := g0.revealedCount } = g0)
    (h2 : { g2 with board := g0.board, revealedCount := g0.revealedCount } = g0)
    (hb : g1.board = g2.board) (hc : g1.revealedCount = g2.revealedCount) : g1 = g2 := by
  cases g0; cases g1; cases g2
  simp only [Game.mk.injEq] at h1 h2 hb hc ⊢
  obtain ⟨-, a1, a2, a3, -, a4, a5, a6, a7, a8, a9, a10, a11, a12, a13, a14, a15, a16, a17, a18,
    a19, a20, a21, a22, a23, a24, a25, a26⟩ := h1
  obtain ⟨-, b1, b2, b3, -, b4, b5, b6, b7, b8, b9, b10, b11, b12, b13, b14, b15, b16, b17, b18,
    b19, b20, b21, b22, b23, b24, b25, b26⟩ := h2
  subst a1 a2 a3 a4 a5 a6 a7 a8 a9 a10 a11 a12 a13 a14 a15 a16 a17 a18 a19 a20 a21 a22 a23 a24
    a25 a26
  subst b1 b2 b3 b4 b5 b6 b7 b8 b9 b10 b11 b12 b13 b14 b15 b16 b17 b18 b19 b20 b21 b22 b23 b24
    b25 b26
  exact ⟨hb, rfl, rfl, rfl, hc, rfl, rfl, rfl, rfl, rfl, rfl, rfl, rfl, rfl, rfl, rfl, rfl, rfl,
    rfl, rfl, rfl, rfl, rfl, rfl, rfl, rfl, rfl, rfl⟩

/-- Two completed flood fills of the same game with interchangeable reference
sets end in the same game. -/
theorem FloodInv.result_unique {g : Game} {a b : Int × Int} {Ma Mb : Nat} {ga gb : Game}
    (ha : FloodInv g a Ma [] ga []) (hb : FloodInv g b Mb [] gb [])
    (hT : ∀ p, floodTarget g a p ↔ floodTarget g b p) : ga = gb := by
  have hcellrev : ∀ p ∈ cells g, (cellOf ga p).isRevealed = (cellOf gb p).isRevealed := by
    intro p hp
    have h1 := ha.revealed_iff p hp
    have h2 := hb.revealed_iff p hp
    rw [hT p] at h1
    have h3 := h1.trans h2.symm
    cases hx : (cellOf ga p).isRevealed <;> cases hy : (cellOf gb p).isRevealed <;>
      simp [hx, hy] at h3 ⊢
  have hboard : ga.board = gb.board := by
    apply board_ext ha.wf hb.wf
    intro r c hr0 hr1 hc0 hc1
    have hp : (r, c) ∈ cells g := (mem_cells g (r, c)).mpr
      ((IsValidCell_iff g r c).mpr ⟨hr0, hr1, hc0, hc1⟩)
    obtain ⟨a1, a2, a3⟩ := ha.other (r, c) hp
    obtain ⟨b1, b2, b3⟩ := hb.other (r, c) hp
    exact Cell.eq_of_fields (a1.trans b1.symm) (hcellrev (r, c) hp) (a2.trans b2.symm)
      (a3.trans b3.symm)
  have hnew : newCells g ga = newCells g gb := by
    unfold newCells cellOf
    rw [hboard]
  exact Game.eq_of_frame ha.frame hb.frame hboard (by rw [ha.count, hb.count, hnew])

/-- C5: the flood fill is order-independent and idempotent.  For two zero
cells `a` and `b` (unrevealed, unflagged, mine-free, `neighborMines = 0`)
joined by a chain of adjacent zero cells, `RevealCell` on `a` and `RevealCell`
on `b` return the same game, hence the same set of revealed cells and the same
`revealedCount`; a further `RevealCell` on any position of that zero region
returns the game unchanged. -/
theorem RevealCell_order_independent (g : Game) (hwf : g.WF) (a b : Int × Int)
    (ha : zeroCell g a) (hb : zeroCell g b) (hchain : zeroRegion g a b) :
    ∃ g' : Game, RevealCell g a.1 a.2 = some g' ∧ RevealCell g b.1 b.2 = some g' ∧
      (∀ p ∈ cells g, (cellOf g' p).isRevealed = true ↔
        ((cellOf g p).isRevealed = true ∨ floodTarget g a p)) ∧
      ∀ z : Int × Int, zeroRegion g a z → RevealCell g' z.1 z.2 = some g' := by
  obtain ⟨ga, Ma, hia, hra⟩ := RevealCell_zero g hwf a ha
  obtain ⟨gb, Mb, hib, hrb⟩ := RevealCell_zero g hwf b hb
  have heq : ga = gb := hia.result_unique hib (floodTarget_congr ha hchain)
  subst heq
  refine ⟨_, hra, hrb, ?_, ?_⟩
  · intro p hp
    have h1 := hia.revealed_iff p hp
    split
    · exact h1
    · exact h1
  · intro z hz
    apply RevealCell_skip
    refine Or.inr (Or.inl ?_)
    have h1 : (cellOf ga z).isRevealed = true := hia.region_revealed z hz
    split
    · exact h1
    · exact h1

theorem PlaceMines_WF (g : Game) (hwf : g.WF) (safeRow safeCol : Int) (draws : List Nat)
    (g' : Game) (h : PlaceMines g safeRow safeCol draws = some g') :
    g'.WF ∧ { g' with board := g.board } = g := by
  obtain ⟨b', hb', rfl⟩ := PlaceMines_eq_some g safeRow safeCol draws g' h
  exact ⟨(CountNeighborMines_spec { g with board := b' }
    (placeLoop_WF g hwf safeRow safeCol draws b' hb')).1, rfl⟩

theorem placedGame_WF : placedGame.WF :=
  (PlaceMines_WF easyGame (InitBoard_WF _ _ _ _) 0 0 easyDraws placedGame
    (eq_some_getD (by decide) _)).1

set_option maxRecDepth 100000 in
theorem RevealCell_order_independent_witness :
    placedGame.WF ∧ zeroCell placedGame (0, 0) ∧ zeroCell placedGame (3, 4) ∧
    zeroRegion placedGame (0, 0) (3, 4) ∧
    ∃ g' : Game, RevealCell placedGame 0 0 = some g' ∧ RevealCell placedGame 3 4 = some g' :=
  have ha : zeroCell placedGame (0, 0) := by decide
  have hb : zeroCell placedGame (3, 4) := by decide
  have hstep : ∀ p q : Int × Int, adjacent p q → zeroCell placedGame q →
      zeroRegion placedGame (0, 0) p → zeroRegion placedGame (0, 0) q :=
    fun p q h1 h2 h3 => Relation.ReflTransGen.tail h3 ⟨h1, h2⟩
  have hchain : zeroRegion placedGame (0, 0) (3, 4) :=
    hstep (3, 3) (3, 4) (by decide) hb
      (hstep (2, 2) (3, 3) (by decide)
        (by decide)
        (hstep (1, 1) (2, 2) (by decide)
          (by decide)
          (hstep (0, 0) (1, 1) (by decide)
            (by decide) Relation.ReflTransGen.refl)))
  have h := RevealCell_order_independent placedGame placedGame_WF (0, 0) (3, 4) ha hb hchain
  ⟨placedGame_WF, ha, hb, hchain, h.elim (fun g' hg' => ⟨g', hg'.1, hg'.2.1⟩)⟩

/-! ### The invariant of the reachable states -/

theorem card_cells_int (g : Game) (hr : 0 ≤ g.rows) (hc : 0 ≤ g.cols) :
    ((cells g).card : Int) = g.rows * g.cols := by
  rw [card_cells]
  push_cast
  rw [Int.toNat_of_nonneg hr, Int.toNat_of_nonneg hc]

/-- The number of cells without a mine. -/
theorem card_safe (g : Game) (hr : 0 ≤ g.rows) (hc : 0 ≤ g.cols) :
    (((cells g).filter (fun p => (cellOf g p).hasMine = false)).card : Int)
      = g.rows * g.cols - ((mineCells g).card : Int) := by
  have h := Finset.filter_card_add_filter_neg_card_eq_card (s := cells g)
    (fun p => (cellOf g p).hasMine = true)
  have hneg : (cells g).filter (fun p => ¬ (cellOf g p).hasMine = true)
      = (cells g).filter (fun p => (cellOf g p).hasMine = false) := by
    apply Finset.filter_congr
    intro p _
    simp
  rw [hneg] at h
  have h2 := card_cells_int g hr hc
  have h3 : mineCells g = (cells g).filter (fun p => (cellOf g p).hasMine = true) := rfl
  rw [h3]
  omega

/-- With the mines placed and none of them revealed, the win check holds
exactly when every cell without a mine is revealed. -/
theorem GameInv.win_iff {g : Game} (h : GameInv g) (hfc : g.firstClick = false)
    (hnm : noMineRevealed g) : CheckWinCondition g = true ↔ allSafeRevealed g := by
  have hsub : revealedCells g ⊆ (cells g).filter (fun p => (cellOf g p).hasMine = false) := by
    intro p hp
    simp only [revealedCells, Finset.mem_filter] at hp ⊢
    refine ⟨hp.1, ?_⟩
    cases hm : (cellOf g p).hasMine
    · rfl
    · have := hnm p hp.1 hm
      rw [hp.2] at this
      exact absurd this (by decide)
  have hsafe := card_safe g h.dims.1.le h.dims.2.le
  rw [h.mines hfc] at hsafe
  have hcount := h.counted hnm
  unfold CheckWinCondition
  rw [decide_eq_true_iff]
  constructor
  · intro hw
    have hle : ((cells g).filter (fun p => (cellOf g p).hasMine = false)).card
        ≤ (revealedCells g).card := by
      have : (((cells g).filter (fun p => (cellOf g p).hasMine = false)).card : Int)
          = ((revealedCells g).card : Int) := by rw [hsafe, ← hw, hcount]
      omega
    have heq := Finset.eq_of_subset_of_card_le hsub hle
    intro p hp hm
    have : p ∈ revealedCells g := by
      rw [heq]
      exact Finset.mem_filter.mpr ⟨hp, hm⟩
    exact (Finset.mem_filter.mp this).2
  · intro hall
    have heq : revealedCells g = (cells g).filter (fun p => (cellOf g p).hasMine = false) := by
      apply Finset.Subset.antisymm hsub
      intro p hp
      have hp' := Finset.mem_filter.mp hp
      exact Finset.mem_filter.mpr ⟨hp'.1, hall p hp'.1 hp'.2⟩
    rw [hcount, heq, hsafe]

/-- The invariant carries over to a game with the same dimensions, counters
and first-click flag whose cells have the same `hasMine` and `isRevealed`, and
whose phase is the same or `MENU`. -/
theorem GameInv.transfer {g g' : Game} (h : GameInv g) (hwf : g'.WF)
    (hr : g'.rows = g.rows) (hc : g'.cols = g.cols) (ht : g'.totalMines = g.totalMines)
    (hrc : g'.revealedCount = g.revealedCount) (hfc : g'.firstClick = g.firstClick)
    (hst : g'.state = g.state ∨ g'.state = GameState.MENU)
    (hcell : ∀ p : Int × Int, (cellOf g' p).hasMine = (cellOf g p).hasMine ∧
      (cellOf g' p).isRevealed = (cellOf g p).isRevealed) : GameInv g' := by
  have hcells : cells g' = cells g := by unfold cells; rw [hr, hc]
  have hmines : mineCells g' = mineCells g :=
    mineCells_congr g g' hr hc (fun r c => (hcell (r, c)).1)
  have hrev : revealedCells g' = revealedCells g := by
    unfold revealedCells
    rw [hcells]
    apply Finset.filter_congr
    intro p _
    rw [(hcell p).2]
  have hnm : noMineRevealed g' ↔ noMineRevealed g := by
    unfold noMineRevealed
    rw [hcells]
    constructor
    · intro hh p hp hm
      rw [← (hcell p).2]
      exact hh p hp (by rw [(hcell p).1]; exact hm)
    · intro hh p hp hm
      rw [(hcell p).2]
      exact hh p hp (by rw [← (hcell p).1]; exact hm)
  refine
    { wf := hwf
      dims := by rw [hr, hc]; exact h.dims
      total := by rw [ht]; exact h.total
      clear := ?_
      mines := ?_
      counted := ?_
      alive := ?_
      unfinished := ?_ }
  · intro hf
    rw [hfc] at hf
    obtain ⟨h1, h2⟩ := h.clear hf
    rw [hcells, hrc]
    refine ⟨fun p hp => ?_, h2⟩
    rw [(hcell p).1, (hcell p).2]
    exact h1 p hp
  · intro hf
    rw [hfc] at hf
    rw [hmines, ht]
    exact h.mines hf
  · intro hh
    rw [hrc, hrev]
    exact h.counted (hnm.mp hh)
  · intro hs
    rcases hst with e | e
    · rw [e] at hs
      exact hnm.mpr (h.alive hs)
    · rw [e] at hs
      rcases hs with hs | hs <;> exact absurd hs (by decide)
  · intro hs hf
    rcases hst with e | e
    · rw [e] at hs
      rw [hfc] at hf
      rw [hrc, hr, hc, ht]
      exact h.unfinished hs hf
    · rw [e] at hs
      exact absurd hs (by decide)

theorem GameInv.of_sameLogic {g g' : Game} (h : GameInv g) (hs : sameLogic g g') :
    GameInv g' := by
  obtain ⟨hb, hr, hc, ht, hrc, _, hst, hfc⟩ := hs
  refine h.transfer ?_ hr hc ht hrc hfc (Or.inl hst) ?_
  · unfold Game.WF
    rw [hb, hr, hc]
    exact h.wf
  · intro p
    unfold cellOf
    rw [hb]
    exact ⟨rfl, rfl⟩

theorem GameInv.toMenu {g : Game} (h : GameInv g) :
    GameInv { g with state := GameState.MENU } :=
  h.transfer h.wf rfl rfl rfl rfl rfl (Or.inr rfl) (fun _ => ⟨rfl, rfl⟩)

theorem GameInv.of_InitBoard (g0 : Game) (r c m : Int) (hr : 0 < r) (hc : 0 < c) (hm : 0 ≤ m) :
    GameInv (InitBoard g0 r c m) := by
  obtain ⟨f1, f2, f3, f4, _, f6, _, _⟩ := InitBoard_fields g0 r c m
  have hcell : ∀ p : Int × Int, cellOf (Minesweeper.InitBoard g0 r c m) p = default :=
    fun p => InitBoard_cellAt g0 r c m p.1 p.2
  have hnone : revealedCells (Minesweeper.InitBoard g0 r c m) = ∅ := by
    apply Finset.filter_eq_empty_iff.mpr
    intro p _
    rw [hcell p]
    decide
  refine
    { wf := InitBoard_WF g0 r c m
      dims := by rw [f1, f2]; exact ⟨hr, hc⟩
      total := by rw [f3]; exact hm
      clear := fun _ => ⟨fun p _ => by rw [hcell p]; exact ⟨rfl, rfl⟩, f4⟩
      mines := fun hf => by rw [f6] at hf; exact absurd hf (by decide)
      counted := fun _ => by rw [f4, hnone]; rfl
      alive := fun _ p _ _ => by rw [hcell p]; rfl
      unfinished := fun _ hf => by rw [f6] at hf; exact absurd hf (by decide) }

theorem presets_pos {r c m : Int} (h : (r, c, m) ∈ presets) : 0 < r ∧ 0 < c ∧ 0 ≤ m := by
  simp only [presets, List.mem_cons, Prod.mk.injEq, List.mem_singleton, List.not_mem_nil,
    or_false] at h
  omega

/-- The two outcomes of `ToggleFlag`. -/
theorem ToggleFlag_cases (g : Game) (row col : Int) :
    ToggleFlag g row col = g ∨
    (IsValidCell g row col = true ∧ (cellAt g.board row col).isRevealed = false ∧
      ToggleFlag g row col =
        { g with
          board := setCell g.board row col
            { cellAt g.board row col with isFlagged := !(cellAt g.board row col).isFlagged }
          flagCount := g.flagCount +
            (if (!(cellAt g.board row col).isFlagged) = true then 1 else -1) }) := by
  by_cases hv : IsValidCell g row col = true
  · by_cases hr : (cellAt g.board row col).isRevealed = true
    · left; unfold ToggleFlag; simp [hr]
    · right
      have hr' : (cellAt g.board row col).isRevealed = false := by simpa using hr
      refine ⟨hv, hr', ?_⟩
      unfold ToggleFlag
      simp [hv, hr']
  · left; unfold ToggleFlag; simp [hv]

theorem GameInv.of_ToggleFlag {g : Game} (h : GameInv g) (row col : Int) :
    GameInv (ToggleFlag g row col) := by
  rcases ToggleFlag_cases g row col with e | ⟨_, _, e⟩
  · rw [e]; exact h
  · rw [e]
    refine h.transfer (h.wf.of_setCell _ _ _) rfl rfl rfl rfl rfl (Or.inl rfl) (fun p => ⟨?_, ?_⟩)
    · exact cellAt_setCell_same_field g.board row col p.1 p.2 _ Cell.hasMine rfl
    · exact cellAt_setCell_same_field g.board row col p.1 p.2 _ Cell.isRevealed rfl

theorem mineCells_congr_valid (g g' : Game) (hr : g'.rows = g.rows) (hc : g'.cols = g.cols)
    (h : ∀ p ∈ cells g, (cellOf g' p).hasMine = (cellOf g p).hasMine) :
    mineCells g' = mineCells g := by
  have hcells : cells g' = cells g := by unfold cells; rw [hr, hc]
  unfold mineCells
  rw [hcells]
  apply Finset.filter_congr
  intro p hp
  have := h p hp
  unfold cellOf at this
  rw [this]

theorem RevealAllMines_WF (g : Game) (hwf : g.WF) : (RevealAllMines g).WF := by
  have h := (forEachCell_spec g.rows g.cols revealMine (fun b => BoardWF b g.rows g.cols)
    (fun _ _ x => if x.hasMine = true then { x with isRevealed := true } else x)
    (by
      intro b r c hb _ _ _ _
      unfold revealMine
      split
      · exact hb.of_setCell _ _ _
      · exact hb)
    (by
      intro b r c hb hr0 hr1 hc0 hc1 r' c' hr' hc'
      unfold revealMine
      beta_reduce
      by_cases hm : (cellAt b r c).hasMine = true
      · rw [if_pos hm, if_pos hm, cellAt_setCell hb ⟨hr0, hr1⟩ ⟨hc0, hc1⟩ hr' hc']
      · rw [if_neg hm, if_neg hm]
        by_cases hh : r' = r ∧ c' = c
        · rw [if_pos hh, hh.1, hh.2]
        · rw [if_neg hh])
    g.board hwf).1
  exact h

/-- What `PlaceMines` does to a grid without mines: the shape and all other
fields stay, `isRevealed` and `isFlagged` of every cell stay, the 3 x 3 zone
around the safe position is free of mines and `totalMines` mines are placed. -/
theorem PlaceMines_spec (g : Game) (hwf : g.WF) (hrows : 0 < g.rows) (hcols : 0 < g.cols)
    (hmines : 0 ≤ g.totalMines)
    (hclear : ∀ r c : Int, IsValidCell g r c = true → (cellAt g.board r c).hasMine = false)
    (safeRow safeCol : Int) (draws : List Nat) (g' : Game)
    (h : PlaceMines g safeRow safeCol draws = some g') :
    g'.WF ∧ { g' with board := g.board } = g ∧
    (∀ p ∈ cells g, (cellOf g' p).isRevealed = (cellOf g p).isRevealed ∧
      (cellOf g' p).isFlagged = (cellOf g p).isFlagged) ∧
    (∀ r c : Int, IsValidCell g r c = true → |r - safeRow| ≤ 1 → |c - safeCol| ≤ 1 →
      (cellAt g'.board r c).hasMine = false) ∧
    ((mineCells g').card : Int) = g.totalMines := by
  obtain ⟨b', hb', rfl⟩ := PlaceMines_eq_some g safeRow safeCol draws g' h
  obtain ⟨h1, h2, h3⟩ := placeLoop_spec g hwf hrows hcols hmines hclear safeRow safeCol draws b' hb'
  obtain ⟨c1, c2, c3⟩ := CountNeighborMines_spec { g with board := b' } h1
  obtain ⟨_, hkeep, _⟩ := placeLoop_invariant g safeRow safeCol
    (fun b _ => ∀ r c : Int, (cellAt b r c).isRevealed = (cellAt g.board r c).isRevealed ∧
      (cellAt b r c).isFlagged = (cellAt g.board r c).isFlagged)
    (fun b _ d1 d2 hb _ _ _ r c =>
      ⟨(cellAt_setCell_same_field b _ _ r c
          { cellAt b (Int.tmod (d1 : Int) g.rows) (Int.tmod (d2 : Int) g.cols) with
            hasMine := true } Cell.isRevealed rfl).trans (hb r c).1,
        (cellAt_setCell_same_field b _ _ r c
          { cellAt b (Int.tmod (d1 : Int) g.rows) (Int.tmod (d2 : Int) g.cols) with
            hasMine := true } Cell.isFlagged rfl).trans (hb r c).2⟩)
    draws g.board 0 b' (fun _ _ => ⟨rfl, rfl⟩) hb'
  refine ⟨c1, rfl, ?_, ?_, ?_⟩
  · intro p hp
    have hv : IsValidCell { g with board := b' } p.1 p.2 = true := (mem_cells g p).mp hp
    have e := c3 p.1 p.2 hv
    have k := hkeep p.1 p.2
    unfold cellOf
    rw [e]
    split
    · exact k
    · exact k
  · intro r c hv hr hc
    rw [c2]
    exact h2 r c hv hr hc
  · rw [mineCells_congr { g with board := b' } (CountNeighborMines { g with board := b' })
      rfl rfl c2]
    exact h3

/-- The three outcomes of `RevealCell`: nothing happens, a mine is revealed, or
cells without a mine are revealed. -/
theorem RevealCell_cases (g : Game) (hwf : g.WF) (row col : Int) :
    ((IsValidCell g row col = false ∨ (cellAt g.board row col).isRevealed = true ∨
        (cellAt g.board row col).isFlagged = true) ∧ RevealCell g row col = some g) ∨
    (IsValidCell g row col = true ∧ (cellAt g.board row col).isRevealed = false ∧
      (cellAt g.board row col).isFlagged = false ∧ (cellAt g.board row col).hasMine = true ∧
      RevealCell g row col = some
        { RevealAllMines
            { g with
              board := setCell g.board row col { cellAt g.board row col with isRevealed := true }
              revealedCount := g.revealedCount + 1 } with
          state := GameState.LOST }) ∨
    (eligible g (row, col) ∧ ∃ g2 : Game, RevealEffect g g2 ∧
      (cellOf g2 (row, col)).isRevealed = true ∧
      RevealCell g row col =
        some (if CheckWinCondition g2 = true then { g2 with state := GameState.WON } else g2)) := by
  by_cases hv : IsValidCell g row col = true
  · by_cases hr : (cellAt g.board row col).isRevealed = true
    · left
      exact ⟨Or.inr (Or.inl hr), RevealCell_skip g row col (Or.inr (Or.inl hr))⟩
    · by_cases hf : (cellAt g.board row col).isFlagged = true
      · left
        exact ⟨Or.inr (Or.inr hf), RevealCell_skip g row col (Or.inr (Or.inr hf))⟩
      · have hr' : (cellAt g.board row col).isRevealed = false := by simpa using hr
        have hf' : (cellAt g.board row col).isFlagged = false := by simpa using hf
        by_cases hm : (cellAt g.board row col).hasMine = true
        · right; left
          exact ⟨hv, hr', hf', hm, RevealCell_mine_eq g row col hv hr' hf' hm⟩
        · right; right
          have hm' : (cellAt g.board row col).hasMine = false := by simpa using hm
          have he : eligible g (row, col) := ⟨hv, hr', hf', hm'⟩
          exact ⟨he, RevealCell_safe g hwf (row, col) he⟩
  · left
    have hv' : IsValidCell g row col = false := by simpa using hv
    exact ⟨Or.inl hv', RevealCell_skip g row col (Or.inl hv')⟩

/-- `RevealCell` returns on every game whose board has `rows` by `cols` cells:
the flood fill never runs out of its `rows * cols` units of fuel. -/
theorem RevealCell_total (g : Game) (hwf : g.WF) (row col : Int) :
    ∃ g' : Game, RevealCell g row col = some g' := by
  rcases RevealCell_cases g hwf row col with ⟨_, e⟩ | ⟨_, _, _, _, e⟩ | ⟨_, g2, _, _, e⟩
  · exact ⟨_, e⟩
  · exact ⟨_, e⟩
  · exact ⟨_, e⟩

theorem RevealEffect.eff_rows_eq {g g2 : Game} (h : RevealEffect g g2) : g2.rows = g.rows := by
  have := congrArg Game.rows h.frame
  exact this

theorem RevealEffect.eff_cols_eq {g g2 : Game} (h : RevealEffect g g2) : g2.cols = g.cols := by
  have := congrArg Game.cols h.frame
  exact this

theorem RevealEffect.totalMines_eq {g g2 : Game} (h : RevealEffect g g2) :
    g2.totalMines = g.totalMines := by
  have := congrArg Game.totalMines h.frame
  exact this

theorem RevealEffect.firstClick_eq {g g2 : Game} (h : RevealEffect g g2) :
    g2.firstClick = g.firstClick := by
  have := congrArg Game.firstClick h.frame
  exact this

theorem RevealEffect.state_eq {g g2 : Game} (h : RevealEffect g g2) : g2.state = g.state := by
  have := congrArg Game.state h.frame
  exact this

theorem RevealEffect.flagCount_eq {g g2 : Game} (h : RevealEffect g g2) :
    g2.flagCount = g.flagCount := by
  have := congrArg Game.flagCount h.frame
  exact this

/-- After a reveal without a mine, in any phase `st` chosen by the win check,
the invariant holds again and still no mine is revealed. -/
theorem GameInv.of_effect {g g2 : Game} (h : GameInv g) (hs : g.state = GameState.PLAYING)
    (hfc : g.firstClick = false) (he : RevealEffect g g2) (st : GameState)
    (hst : st = GameState.PLAYING → CheckWinCondition g2 = false) :
    GameInv { g2 with state := st } ∧ noMineRevealed { g2 with state := st } := by
  have hcells : cells g2 = cells g := by unfold cells; rw [he.eff_rows_eq, he.eff_cols_eq]
  have hnm0 : noMineRevealed g := h.alive (Or.inl hs)
  have hnm : noMineRevealed { g2 with state := st } := by
    intro p hp hm
    have hp' : p ∈ cells g := hcells ▸ hp
    have hm' : (cellOf g p).hasMine = true := by
      rw [← (he.other p hp').1]; exact hm
    cases hx : (cellOf g2 p).isRevealed
    · exact hx
    · have := (he.fresh p hp' hx (hnm0 p hp' hm')).2.2.2
      rw [hm'] at this
      exact absurd this (by decide)
  have hrev : revealedCells g2 = revealedCells g ∪ newCells g g2 := by
    ext p
    simp only [revealedCells, newCells, Finset.mem_union, Finset.mem_filter, hcells]
    constructor
    · rintro ⟨hp, hx⟩
      cases hx0 : (cellOf g p).isRevealed
      · exact Or.inr ⟨hp, hx, rfl⟩
      · exact Or.inl ⟨hp, rfl⟩
    · rintro (⟨hp, hx⟩ | ⟨hp, hx, _⟩)
      · exact ⟨hp, he.mono p hp hx⟩
      · exact ⟨hp, hx⟩
  have hdisj : Disjoint (revealedCells g) (newCells g g2) := by
    rw [Finset.disjoint_left]
    intro p h1 h2
    have a := (Finset.mem_filter.mp h1).2
    have b := (Finset.mem_filter.mp h2).2.2
    rw [a] at b
    exact absurd b (by decide)
  have hcount : g2.revealedCount = ((revealedCells g2).card : Int) := by
    rw [hrev, Finset.card_union_of_disjoint hdisj, he.count, h.counted hnm0]
    push_cast
    rfl
  refine ⟨?_, hnm⟩
  exact
    { wf := by
        have := he.wf
        unfold Game.WF
        show BoardWF g2.board g2.rows g2.cols
        rw [he.eff_rows_eq, he.eff_cols_eq]
        exact this
      dims := by
        show 0 < g2.rows ∧ 0 < g2.cols
        rw [he.eff_rows_eq, he.eff_cols_eq]; exact h.dims
      total := by
        show 0 ≤ g2.totalMines
        rw [he.totalMines_eq]; exact h.total
      clear := by
        intro hf
        have : g2.firstClick = true := hf
        rw [he.firstClick_eq, hfc] at this
        exact absurd this (by decide)
      mines := by
        intro _
        have e : mineCells { g2 with state := st } = mineCells g :=
          mineCells_congr_valid g { g2 with state := st } he.eff_rows_eq he.eff_cols_eq
            (fun p hp => (he.other p hp).1)
        rw [e]
        show _ = g2.totalMines
        rw [he.totalMines_eq]
        exact h.mines hfc
      counted := fun _ => hcount
      alive := fun _ => hnm
      unfinished := by
        intro hs' _
        have hw := hst hs'
        unfold CheckWinCondition at hw
        simpa using hw }

/-- After a mine has been revealed the invariant holds again (in the phase
`LOST` it says little: the mines are where they were). -/
theorem GameInv.of_mine {g g' : Game} (h : GameInv g) (hfc : g.firstClick = false)
    (row col : Int) (hv : IsValidCell g row col = true)
    (hrev : (cellAt g.board row col).isRevealed = false)
    (hflag : (cellAt g.board row col).isFlagged = false)
    (hmine : (cellAt g.board row col).hasMine = true)
    (hg' : RevealCell g row col = some g') :
    GameInv g' ∧ g'.state = GameState.LOST ∧ g'.firstClick = false := by
  have hcellAt := RevealCell_mine_cellAt g g' row col hv hrev hflag hmine hg'
  have heq := RevealCell_mine_eq g row col hv hrev hflag hmine
  rw [heq] at hg'
  injection hg' with hg'
  have hrows : g'.rows = g.rows := by rw [← hg']; rfl
  have hcols : g'.cols = g.cols := by rw [← hg']; rfl
  have htot : g'.totalMines = g.totalMines := by rw [← hg']; rfl
  have hfc' : g'.firstClick = g.firstClick := by rw [← hg']; rfl
  have hst : g'.state = GameState.LOST := by rw [← hg']
  have hcells : cells g' = cells g := by unfold cells; rw [hrows, hcols]
  have hwf : g'.WF := by
    rw [← hg']
    exact RevealAllMines_WF _ (h.wf.of_setCell _ _ _)
  have hmineEq : ∀ p ∈ cells g, (cellOf g' p).hasMine = (cellOf g p).hasMine := by
    intro p hp
    have hp' := (IsValidCell_iff g p.1 p.2).mp ((mem_cells g p).mp hp)
    unfold cellOf
    rw [hcellAt p.1 p.2 hp'.1 hp'.2.2.1]
    split <;> rfl
  have htarget : (cellOf g' (row, col)).hasMine = true ∧
      (cellOf g' (row, col)).isRevealed = true := by
    have hv' := (IsValidCell_iff g row col).mp hv
    unfold cellOf
    rw [hcellAt row col hv'.1 hv'.2.2.1, if_pos ⟨hv'.2.1, hv'.2.2.2, hmine⟩]
    exact ⟨hmine, rfl⟩
  have hnot : ¬ noMineRevealed g' := by
    intro hh
    have := hh (row, col) (by rw [hcells]; exact (mem_cells g _).mpr hv) htarget.1
    rw [htarget.2] at this
    exact absurd this (by decide)
  refine ⟨?_, hst, by rw [hfc', hfc]⟩
  exact
    { wf := hwf
      dims := by rw [hrows, hcols]; exact h.dims
      total := by rw [htot]; exact h.total
      clear := fun hf => by rw [hfc', hfc] at hf; exact absurd hf (by decide)
      mines := fun _ => by
        rw [mineCells_congr_valid g g' hrows hcols hmineEq, htot]
        exact h.mines hfc
      counted := fun hh => absurd hh hnot
      alive := fun hs => by
        rw [hst] at hs
        rcases hs with hs | hs <;> exact absurd hs (by decide)
      unfinished := fun hs => by rw [hst] at hs; exact absurd hs (by decide) }

/-- The outcomes of `RevealCell` in a reachable `PLAYING` state with the mines
placed: the call returns, the invariant holds afterwards, and either nothing
changed, or a mine was hit and the game is lost, or no mine is revealed and
the phase is `WON` exactly when the win check holds. -/
theorem GameInv.RevealCell_outcome {g : Game} (h : GameInv g)
    (hs : g.state = GameState.PLAYING) (hfc : g.firstClick = false) (row col : Int) :
    ∃ g' : Game, RevealCell g row col = some g' ∧ GameInv g' ∧ g'.firstClick = false ∧
      cells g' = cells g ∧
      (g' = g ∨
       (IsValidCell g row col = true ∧ (cellAt g.board row col).hasMine = true ∧
          g'.state = GameState.LOST) ∨
       (eligible g (row, col) ∧ noMineRevealed g' ∧
          ((g'.state = GameState.WON ∧ CheckWinCondition g' = true) ∨
           (g'.state = GameState.PLAYING ∧ CheckWinCondition g' = false)))) := by
  rcases RevealCell_cases g h.wf row col with ⟨_, e⟩ | ⟨hv, hr, hf, hm, e⟩ | ⟨he, g2, heff, _, e⟩
  · exact ⟨g, e, h, hfc, rfl, Or.inl rfl⟩
  · obtain ⟨i1, i2, i3⟩ := h.of_mine hfc row col hv hr hf hm e
    refine ⟨_, e, i1, i3, ?_, Or.inr (Or.inl ⟨hv, hm, i2⟩)⟩
    rfl
  · have hcells : cells g2 = cells g := by unfold cells; rw [heff.eff_rows_eq, heff.eff_cols_eq]
    by_cases hw : CheckWinCondition g2 = true
    · rw [if_pos hw] at e
      obtain ⟨i1, i2⟩ := h.of_effect hs hfc heff GameState.WON (fun hh => absurd hh (by decide))
      exact ⟨_, e, i1, by show g2.firstClick = false; rw [heff.firstClick_eq, hfc], hcells,
        Or.inr (Or.inr ⟨he, i2, Or.inl ⟨rfl, hw⟩⟩)⟩
    · rw [if_neg hw] at e
      have hw' : CheckWinCondition g2 = false := by simpa using hw
      obtain ⟨i1, i2⟩ := h.of_effect hs hfc heff g2.state (fun _ => hw')
      exact ⟨g2, e, i1, by rw [heff.firstClick_eq, hfc], hcells,
        Or.inr (Or.inr ⟨he, i2, Or.inr ⟨by rw [heff.state_eq, hs], hw'⟩⟩)⟩

/-- The invariant holds after the first tap has placed the mines, before the
tapped cell is revealed. -/
theorem GameInv.of_PlaceMines {g g1 : Game} (h : GameInv g) (hfc : g.firstClick = true)
    (row col : Int) (hv : IsValidCell g row col = true) (draws : List Nat)
    (hp : PlaceMines { g with firstClick := false } row col draws = some g1) :
    GameInv g1 ∧ g1.state = g.state ∧ g1.firstClick = false ∧ g1.rows = g.rows ∧
      g1.cols = g.cols := by
  obtain ⟨hclr, hzero⟩ := h.clear hfc
  obtain ⟨p1, p2, p3, p4, p5⟩ := PlaceMines_spec { g with firstClick := false } h.wf
    h.dims.1 h.dims.2 h.total
    (fun r c hrc => (hclr (r, c) ((mem_cells g (r, c)).mpr hrc)).1) row col draws g1 hp
  have hrows : g1.rows = g.rows := by
    have := congrArg Game.rows p2
    exact this
  have hcols : g1.cols = g.cols := by
    have := congrArg Game.cols p2
    exact this
  have htot : g1.totalMines = g.totalMines := by
    have := congrArg Game.totalMines p2
    exact this
  have hrc : g1.revealedCount = g.revealedCount := by
    have := congrArg Game.revealedCount p2
    exact this
  have hst : g1.state = g.state := by
    have := congrArg Game.state p2
    exact this
  have hfc1 : g1.firstClick = false := by
    have := congrArg Game.firstClick p2
    exact this
  have hcells : cells g1 = cells g := by unfold cells; rw [hrows, hcols]
  have hunrev : ∀ p ∈ cells g1, (cellOf g1 p).isRevealed = false := by
    intro p hp'
    rw [hcells] at hp'
    rw [(p3 p hp').1]
    exact (hclr p hp').2
  have hnone : revealedCells g1 = ∅ := by
    apply Finset.filter_eq_empty_iff.mpr
    intro p hp'
    rw [hunrev p hp']
    decide
  have hsafe := card_safe g1 (by rw [hrows]; exact h.dims.1.le) (by rw [hcols]; exact h.dims.2.le)
  have hmem : (row, col) ∈ (cells g1).filter (fun p => (cellOf g1 p).hasMine = false) := by
    refine Finset.mem_filter.mpr ⟨by rw [hcells]; exact (mem_cells g _).mpr hv, ?_⟩
    exact p4 row col hv (by simp) (by simp)
  have hpos : 0 < ((cells g1).filter (fun p => (cellOf g1 p).hasMine = false)).card :=
    Finset.card_pos.mpr ⟨_, hmem⟩
  refine ⟨?_, hst, hfc1, hrows, hcols⟩
  exact
    { wf := p1
      dims := by rw [hrows, hcols]; exact h.dims
      total := by rw [htot]; exact h.total
      clear := fun hf => by rw [hfc1] at hf; exact absurd hf (by decide)
      mines := fun _ => by rw [p5, htot]
      counted := fun _ => by rw [hrc, hzero, hnone]; rfl
      alive := fun _ p hp' _ => hunrev p hp'
      unfinished := fun _ _ => by
        rw [hrc, hzero]
        have e : ((mineCells g1).card : Int) = g1.totalMines := by rw [p5, htot]
        rw [e] at hsafe
        omega }

/-- A tap on a valid cell in the phase `PLAYING` keeps the invariant. -/
theorem GameInv.of_tapCell {g g' : Game} (h : GameInv g) (hs : g.state = GameState.PLAYING)
    (row col : Int) (hv : IsValidCell g row col = true) (draws : List Nat)
    (ht : tapCell g row col draws = some g') : GameInv g' ∧ g'.firstClick = false := by
  unfold Minesweeper.tapCell at ht
  rw [if_pos hv] at ht
  by_cases hfc : g.firstClick = true
  · rw [if_pos hfc] at ht
    cases hp : PlaceMines { g with firstClick := false } row col draws with
    | none => rw [hp] at ht; simp at ht
    | some g1 =>
      rw [hp] at ht
      simp only [Option.some_bind] at ht
      obtain ⟨i1, i2, i3, _, _⟩ := h.of_PlaceMines hfc row col hv draws hp
      obtain ⟨g'', e, j1, j2, _⟩ := i1.RevealCell_outcome (by rw [i2, hs]) i3 row col
      rw [e] at ht
      injection ht with ht
      rw [← ht]
      exact ⟨j1, j2⟩
  · rw [if_neg hfc] at ht
    have hfc' : g.firstClick = false := by simpa using hfc
    obtain ⟨g'', e, j1, j2, _⟩ := h.RevealCell_outcome hs hfc' row col
    rw [e] at ht
    injection ht with ht
    rw [← ht]
    exact ⟨j1, j2⟩

/-- Every reachable game state satisfies the invariant. -/
theorem Reachable.inv {g : Game} (h : Reachable g) : GameInv g := by
  induction h with
  | start g0 r c m hp =>
    obtain ⟨h1, h2, h3⟩ := presets_pos hp
    exact GameInv.of_InitBoard g0 r c m h1 h2 h3
  | @tap g g' row col draws _ hs ht ih =>
    by_cases hv : IsValidCell g row col = true
    · exact (ih.of_tapCell hs row col hv draws ht).1
    · unfold tapCell at ht
      rw [if_neg hv] at ht
      injection ht with ht
      rw [← ht]
      exact ih
  | longPress row col _ _ ih => exact ih.of_ToggleFlag row col
  | toMenu _ ih => exact ih.toMenu
  | view _ hl ih => exact ih.of_sameLogic hl

/-! ### Winning -/

theorem easyGame_reachable : Reachable easyGame :=
  Reachable.start initialGame 9 9 10 (by simp [presets])

set_option maxRecDepth 100000 in
theorem minedGame_reachable : Reachable minedGame :=
  Reachable.tap 0 0 easyDraws easyGame_reachable rfl (eq_some_getD (by decide) _)

set_option maxRecDepth 100000 in
theorem lostGame_reachable : Reachable lostGame :=
  Reachable.tap 8 0 [] minedGame_reachable (by decide) (eq_some_getD (by decide) _)

/-- C3: in a reachable state in the phase `PLAYING` with the mines placed,
`RevealCell` at any position returns, and afterwards the phase is `WON` if and
only if the targeted cell was not a mine and every cell without a mine is
revealed; when the phase is not `WON` it is `PLAYING` or `LOST`. -/
theorem RevealCell_won_iff (g : Game) (hreach : Reachable g)
    (hs : g.state = GameState.PLAYING) (hfc : g.firstClick = false) (row col : Int) :
    ∃ g' : Game, RevealCell g row col = some g' ∧
      (g'.state = GameState.WON ↔
        (¬ (IsValidCell g row col = true ∧ (cellAt g.board row col).hasMine = true) ∧
          ∀ p ∈ cells g', (cellOf g' p).hasMine = false → (cellOf g' p).isRevealed = true)) ∧
      (g'.state ≠ GameState.WON →
        g'.state = GameState.PLAYING ∨ g'.state = GameState.LOST) := by
  have h := hreach.inv
  obtain ⟨g', e, hinv, hfc', _, hcase⟩ := h.RevealCell_outcome hs hfc row col
  refine ⟨g', e, ?_, ?_⟩
  · rcases hcase with rfl | ⟨hv, hm, hl⟩ | ⟨he, hnm, (⟨hw, hc⟩ | ⟨hp, hc⟩)⟩
    · constructor
      · intro hw
        rw [hs] at hw
        exact absurd hw (by decide)
      · rintro ⟨_, hall⟩
        have hc := (h.win_iff hfc (h.alive (Or.inl hs))).mpr hall
        have hu := h.unfinished hs hfc
        unfold CheckWinCondition at hc
        exact absurd (of_decide_eq_true hc) hu
    · constructor
      · intro hw
        rw [hl] at hw
        exact absurd hw (by decide)
      · rintro ⟨hn, _⟩
        exact absurd ⟨hv, hm⟩ hn
    · constructor
      · intro _
        refine ⟨fun hh => ?_, (hinv.win_iff hfc' hnm).mp hc⟩
        have := he.2.2.2
        unfold cellOf at this
        rw [hh.2] at this
        exact absurd this (by decide)
      · intro _
        exact hw
    · constructor
      · intro hw
        rw [hp] at hw
        exact absurd hw (by decide)
      · rintro ⟨_, hall⟩
        have := (hinv.win_iff hfc' hnm).mpr hall
        rw [hc] at this
        exact absurd this (by decide)
  · intro hne
    rcases hcase with rfl | ⟨_, _, hl⟩ | ⟨_, _, (⟨hw, _⟩ | ⟨hp, _⟩)⟩
    · exact Or.inl hs
    · exact Or.inr hl
    · exact absurd hw hne
    · exact Or.inl hp

set_option maxRecDepth 100000 in
theorem RevealCell_won_iff_witness :
    Reachable minedGame ∧ minedGame.state = GameState.PLAYING ∧ minedGame.firstClick = false ∧
    ∃ g' : Game, RevealCell minedGame 8 8 = some g' ∧
      (g'.state = GameState.WON ↔
        (¬ (IsValidCell minedGame 8 8 = true ∧ (cellAt minedGame.board 8 8).hasMine = true) ∧
          ∀ p ∈ cells g', (cellOf g' p).hasMine = false → (cellOf g' p).isRevealed = true)) :=
  have h := RevealCell_won_iff minedGame minedGame_reachable (by decide) (by decide) 8 8
  ⟨minedGame_reachable, by decide, by decide, h.elim (fun g' hg' => ⟨g', hg'.1, hg'.2.1⟩)⟩

set_option maxRecDepth 100000 in
/-- C4 (counterexample): the Easy game lost by tapping the mine `(8, 0)` while
only the safe cell `(8, 8)` was still hidden is reachable, has its mines
placed, and `CheckWinCondition` returns true in it although the cell `(8, 8)`
holds no mine and is not revealed. -/
theorem CheckWinCondition_after_loss :
    Reachable lostGame ∧ lostGame.firstClick = false ∧ lostGame.state = GameState.LOST ∧
    CheckWinCondition lostGame = true ∧ (8, 8) ∈ cells lostGame ∧
    (cellOf lostGame (8, 8)).hasMine = false ∧ (cellOf lostGame (8, 8)).isRevealed = false ∧
    ¬ (CheckWinCondition lostGame = true ↔
      ∀ p ∈ cells lostGame, (cellOf lostGame p).hasMine = false →
        (cellOf lostGame p).isRevealed = true) := by
  have hmem : ((8, 8) : Int × Int) ∈ cells lostGame :=
    (mem_cells lostGame (8, 8)).mpr (by decide)
  have h1 : CheckWinCondition lostGame = true := by decide
  have h2 : (cellOf lostGame (8, 8)).hasMine = false := by unfold cellOf; decide
  have h3 : (cellOf lostGame (8, 8)).isRevealed = false := by unfold cellOf; decide
  refine ⟨lostGame_reachable, by decide, by decide, h1, hmem, h2, h3, ?_⟩
  intro hiff
  have := hiff.mp h1 (8, 8) hmem h2
  rw [h3] at this
  exact absurd this (by decide)

/-- C4 (amended): in every reachable state with the mines placed, no mine is
revealed while the phase is `PLAYING` or `WON`; and whenever no mine is
revealed, `CheckWinCondition` returns true if and only if every cell without a
mine has `isRevealed = true`. -/
theorem CheckWinCondition_iff (g : Game) (hreach : Reachable g) (hfc : g.firstClick = false) :
    ((g.state = GameState.PLAYING ∨ g.state = GameState.WON) →
      ∀ p ∈ cells g, (cellOf g p).hasMine = true → (cellOf g p).isRevealed = false) ∧
    ((∀ p ∈ cells g, (cellOf g p).hasMine = true → (cellOf g p).isRevealed = false) →
      (CheckWinCondition g = true ↔
        ∀ p ∈ cells g, (cellOf g p).hasMine = false → (cellOf g p).isRevealed = true)) := by
  have h := hreach.inv
  exact ⟨fun hs => h.alive hs, fun hnm => h.win_iff hfc hnm⟩

set_option maxRecDepth 100000 in
theorem CheckWinCondition_iff_witness :
    Reachable minedGame ∧ minedGame.firstClick = false ∧
    (minedGame.state = GameState.PLAYING ∨ minedGame.state = GameState.WON) ∧
    (∀ p ∈ cells minedGame, (cellOf minedGame p).hasMine = true →
      (cellOf minedGame p).isRevealed = false) ∧
    (CheckWinCondition minedGame = true ↔
      ∀ p ∈ cells minedGame, (cellOf minedGame p).hasMine = false →
        (cellOf minedGame p).isRevealed = true) :=
  have h := CheckWinCondition_iff minedGame minedGame_reachable (by decide)
  ⟨minedGame_reachable, by decide, Or.inl (by decide), h.1 (Or.inl (by decide)),
    h.2 (h.1 (Or.inl (by decide)))⟩

/-! ### Toggling a flag twice -/

/-- Writing a cell and then writing back its old value restores the grid. -/
theorem setCell_setCell_restore {b : Board} {rows cols : Int} (h : BoardWF b rows cols)
    (r c : Int) (hr : 0 ≤ r ∧ r < rows) (hc : 0 ≤ c ∧ c < cols) (x : Cell) :
    setCell (setCell b r c x) r c (cellAt b r c) = b := by
  apply board_ext ((h.of_setCell r c x).of_setCell r c _) h
  intro r' c' hr0 _ hc0 _
  rw [cellAt_setCell (h.of_setCell r c x) hr hc hr0 hc0]
  by_cases he : r' = r ∧ c' = c
  · rw [if_pos he, he.1, he.2]
  · rw [if_neg he, cellAt_setCell h hr hc hr0 hc0, if_neg he]

/-- C11: on an in-bounds unrevealed cell, applying `ToggleFlag` twice returns
the whole game state, in particular `flagCount` and the cell's `isFlagged`
(`false` for a cell that started unflagged), to what it was. -/
theorem ToggleFlag_twice (g : Game) (hwf : g.WF) (row col : Int)
    (hv : IsValidCell g row col = true)
    (hrev : (cellAt g.board row col).isRevealed = false) :
    ToggleFlag (ToggleFlag g row col) row col = g ∧
    (ToggleFlag (ToggleFlag g row col) row col).flagCount = g.flagCount ∧
    (cellAt (ToggleFlag (ToggleFlag g row col) row col).board row col).isFlagged
      = (cellAt g.board row col).isFlagged ∧
    ((cellAt g.board row col).isFlagged = false →
      (cellAt (ToggleFlag g row col).board row col).isFlagged = true ∧
      (cellAt (ToggleFlag (ToggleFlag g row col) row col).board row col).isFlagged = false) := by
  have hv' := (IsValidCell_iff g row col).mp hv
  have hr : 0 ≤ row ∧ row < g.rows := ⟨hv'.1, hv'.2.1⟩
  have hc : 0 ≤ col ∧ col < g.cols := ⟨hv'.2.2.1, hv'.2.2.2⟩
  have h1 : ToggleFlag g row col =
      { g with
        board := setCell g.board row col
          { cellAt g.board row col with isFlagged := !(cellAt g.board row col).isFlagged }
        flagCount := g.flagCount +
          (if (!(cellAt g.board row col).isFlagged) = true then 1 else -1) } := by
    unfold ToggleFlag
    simp [hv, hrev]
  have hcell1 : cellAt (ToggleFlag g row col).board row col =
      { cellAt g.board row col with isFlagged := !(cellAt g.board row col).isFlagged } := by
    rw [h1]
    show cellAt (setCell g.board row col _) row col = _
    rw [cellAt_setCell hwf hr hc hr.1 hc.1, if_pos ⟨rfl, rfl⟩]
  have hv1 : IsValidCell (ToggleFlag g row col) row col = true := by
    rw [h1]; exact hv
  have hrev1 : (cellAt (ToggleFlag g row col).board row col).isRevealed = false := by
    rw [hcell1]; exact hrev
  have h2 : ToggleFlag (ToggleFlag g row col) row col = g := by
    have e : ToggleFlag (ToggleFlag g row col) row col =
        { ToggleFlag g row col with
          board := setCell (ToggleFlag g row col).board row col
            { cellAt (ToggleFlag g row col).board row col with
              isFlagged := !(cellAt (ToggleFlag g row col).board row col).isFlagged }
          flagCount := (ToggleFlag g row col).flagCount +
            (if (!(cellAt (ToggleFlag g row col).board row col).isFlagged) = true
              then 1 else -1) } := by
      generalize ToggleFlag g row col = g1 at hv1 hrev1 ⊢
      unfold ToggleFlag
      simp [hv1, hrev1]
    rw [e, hcell1]
    have hb : setCell (ToggleFlag g row col).board row col
        { hasMine := (cellAt g.board row col).hasMine
          isRevealed := (cellAt g.board row col).isRevealed
          isFlagged := !!(cellAt g.board row col).isFlagged
          neighborMines := (cellAt g.board row col).neighborMines } = g.board := by
      rw [h1, Bool.not_not]
      exact setCell_setCell_restore hwf row col hr hc _
    have hf : (ToggleFlag g row col).flagCount +
        (if (!!(cellAt g.board row col).isFlagged) = true then 1 else -1) = g.flagCount := by
      rw [h1]
      show g.flagCount + _ + _ = g.flagCount
      cases (cellAt g.board row col).isFlagged <;> simp
    show ({ ToggleFlag g row col with board := _, flagCount := _ } : Game) = g
    rw [hb, hf, h1]
  refine ⟨h2, by rw [h2], by rw [h2], fun hf => ⟨?_, by rw [h2]; exact hf⟩⟩
  rw [hcell1]
  show (!(cellAt g.board row col).isFlagged) = true
  rw [hf]
  rfl

theorem ToggleFlag_twice_witness :
    easyGame.WF ∧ IsValidCell easyGame 2 3 = true ∧
    (cellAt easyGame.board 2 3).isRevealed = false ∧
    ToggleFlag (ToggleFlag easyGame 2 3) 2 3 = easyGame :=
  ⟨InitBoard_WF _ _ _ _, by decide, by decide,
    (ToggleFlag_twice easyGame (InitBoard_WF _ _ _ _) 2 3 (by decide) (by decide)).1⟩

/-! ### The reference set of the flood fill -/

theorem adjacent8_adjacent {p q : Int × Int} (h : adjacent8 p q) : adjacent p q := by
  unfold adjacent8 at h
  unfold adjacent
  simp only [abs_eq_max_neg] at *
  omega

theorem adjacent8_of_ne {p q : Int × Int} (h : adjacent p q) (hne : p ≠ q) : adjacent8 p q := by
  unfold adjacent at h
  unfold adjacent8
  have hne' : ¬ (q.1 = p.1 ∧ q.2 = p.2) := fun e => hne (Prod.ext e.1.symm e.2.symm)
  simp only [abs_eq_max_neg] at *
  omega

/-- Chains of adjacent-or-equal steps and chains of 8-adjacent steps reach the
same positions. -/
theorem zeroRegion_iff_chain8 (g : Game) (s z : Int × Int) :
    zeroRegion g s z ↔ zeroChain8 g s z := by
  unfold zeroRegion zeroChain8
  constructor
  · intro h
    induction h with
    | refl => exact Relation.ReflTransGen.refl
    | @tail x y _ hstep ih =>
      by_cases e : x = y
      · rw [← e]; exact ih
      · exact Relation.ReflTransGen.tail ih ⟨adjacent8_of_ne hstep.1 e, hstep.2⟩
  · intro h
    exact Relation.ReflTransGen.mono (fun x y hxy => ⟨adjacent8_adjacent hxy.1, hxy.2⟩) h

/-- The loop's reference set `floodTarget` is the reference set `floodRef`
of the specification. -/
theorem floodTarget_iff_ref (g : Game) (s : Int × Int) (hs : eligible g s) (p : Int × Int) :
    floodTarget g s p ↔ floodRef g s p := by
  unfold floodTarget floodRef
  constructor
  · rintro ⟨he, z, hz, ha⟩
    by_cases e : p = s
    · exact Or.inl e
    · right
      refine ⟨he, ?_⟩
      by_cases ezp : z = p
      · have hz8 := (zeroRegion_iff_chain8 g s z).mp hz
        rw [ezp] at hz8
        unfold zeroChain8 at hz8
        rcases Relation.ReflTransGen.cases_tail hz8 with h1 | ⟨z', hz', hstep⟩
        · exact absurd h1 e
        · exact ⟨z', hz', hstep.1⟩
      · exact ⟨z, (zeroRegion_iff_chain8 g s z).mp hz, adjacent8_of_ne ha ezp⟩
  · rintro (e | ⟨he, z, hz, ha⟩)
    · rw [e]
      exact ⟨hs, s, Relation.ReflTransGen.refl, adjacent_refl s⟩
    · exact ⟨he, z, (zeroRegion_iff_chain8 g s z).mpr hz, adjacent8_adjacent ha⟩

/-- C18: `RevealCell` on an in-bounds, unrevealed, unflagged, mine-free start
cell with `neighborMines = 0` returns, and the cells it newly reveals are
exactly the reference set `floodRef`: the start cell plus every unrevealed,
unflagged, mine-free cell 8-adjacent to a cell of `Z`.  No mine and no flagged
cell becomes revealed, every cell outside the reference set keeps its state,
every cell keeps `hasMine`, `isFlagged` and `neighborMines`, and
`revealedCount` grows by the number of newly revealed cells. -/
theorem RevealCell_flood_reference (g : Game) (hwf : g.WF) (s : Int × Int)
    (hs : zeroCell g s) :
    ∃ g' : Game, RevealCell g s.1 s.2 = some g' ∧
      (∀ p ∈ cells g, ((cellOf g' p).isRevealed = true ∧ (cellOf g p).isRevealed = false) ↔
        floodRef g s p) ∧
      (∀ p ∈ cells g, (cellOf g' p).isRevealed = true → (cellOf g p).isRevealed = false →
        (cellOf g' p).hasMine = false ∧ (cellOf g' p).isFlagged = false) ∧
      (∀ p ∈ cells g, ¬ floodRef g s p → cellOf g' p = cellOf g p) ∧
      (∀ p ∈ cells g, (cellOf g' p).hasMine = (cellOf g p).hasMine ∧
        (cellOf g' p).isFlagged = (cellOf g p).isFlagged ∧
        (cellOf g' p).neighborMines = (cellOf g p).neighborMines) ∧
      g'.revealedCount = g.revealedCount + ((newCells g g').card : Int) := by
  obtain ⟨g2, M, hinv, heq⟩ := RevealCell_zero g hwf s hs
  have hboard : ∀ p, cellOf
      (if CheckWinCondition g2 = true then { g2 with state := GameState.WON } else g2) p
        = cellOf g2 p := by
    intro p
    split <;> rfl
  have hcount : (if CheckWinCondition g2 = true then { g2 with state := GameState.WON }
      else g2).revealedCount = g2.revealedCount := by
    split <;> rfl
  have hnew : newCells g
      (if CheckWinCondition g2 = true then { g2 with state := GameState.WON } else g2)
        = newCells g g2 := by
    unfold newCells
    apply Finset.filter_congr
    intro p _
    rw [hboard p]
  have hiff : ∀ p ∈ cells g, ((cellOf g2 p).isRevealed = true ∧
      (cellOf g p).isRevealed = false) ↔ floodRef g s p := by
    intro p hp
    rw [← floodTarget_iff_ref g s hs.1 p]
    constructor
    · rintro ⟨h1, h2⟩
      exact hinv.fresh p hp h1 h2
    · intro ht
      exact ⟨(hinv.revealed_iff p hp).mpr (Or.inr ht), ht.1.2.1⟩
  refine ⟨_, heq, ?_, ?_, ?_, ?_, ?_⟩
  · intro p hp
    rw [hboard p]
    exact hiff p hp
  · intro p hp h1 h2
    rw [hboard p] at h1 ⊢
    have he := (hinv.fresh p hp h1 h2).1
    obtain ⟨o1, o2, _⟩ := hinv.other p hp
    exact ⟨by rw [o1]; exact he.2.2.2, by rw [o2]; exact he.2.2.1⟩
  · intro p hp hn
    rw [hboard p]
    obtain ⟨o1, o2, o3⟩ := hinv.other p hp
    refine Cell.eq_of_fields o1 ?_ o2 o3
    cases h0 : (cellOf g p).isRevealed
    · cases h1 : (cellOf g2 p).isRevealed
      · rfl
      · exact absurd ((hiff p hp).mp ⟨h1, h0⟩) hn
    · exact hinv.mono p hp h0
  · intro p hp
    rw [hboard p]
    exact hinv.other p hp
  · rw [hcount, hnew]
    exact hinv.count

set_option maxRecDepth 100000 in
theorem RevealCell_flood_reference_witness :
    placedGame.WF ∧ zeroCell placedGame (0, 0) ∧
    ∃ g' : Game, RevealCell placedGame 0 0 = some g' ∧
      (∀ p ∈ cells placedGame,
        ((cellOf g' p).isRevealed = true ∧ (cellOf placedGame p).isRevealed = false) ↔
          floodRef placedGame (0, 0) p) ∧
      g'.revealedCount = placedGame.revealedCount + ((newCells placedGame g').card : Int) :=
  have hs : zeroCell placedGame (0, 0) := by decide
  have h := RevealCell_flood_reference placedGame placedGame_WF (0, 0) hs
  ⟨placedGame_WF, hs, h.elim (fun g' hg' => ⟨g', hg'.1, hg'.2.1, hg'.2.2.2.2.2⟩)⟩

/-! ### Queue traffic of the flood fill -/

/-- The recorded loop computes the same game as `floodFill`. -/
theorem floodFillTrace_fst : ∀ (fuel : Nat) (g : Game) (q : List (Int × Int)),
    (floodFillTrace fuel g q).map (fun r => r.1) = floodFill fuel g q
  | 0, g, [] => rfl
  | _ + 1, g, [] => rfl
  | 0, g, _ :: _ => rfl
  | fuel + 1, g, (cr, cc) :: rest => by
    unfold floodFillTrace floodFill
    simp only [Option.map_map]
    rw [← floodFillTrace_fst fuel]
    rfl

/-- Dequeuing turns the invariant between iterations into the invariant of
the offset loop and frees one unit of the bound. -/
theorem FloodInv.pop {g0 : Game} {s : Int × Int} {M : Nat} {z : Int × Int} {g : Game}
    {rest : List (Int × Int)} (h : FloodInv g0 s (M + 1) [] g (z :: rest)) :
    FloodInv g0 s M [z] g rest :=
  { frame := h.frame
    wf := h.wf
    other := h.other
    mono := h.mono
    fresh := h.fresh
    count := h.count
    queue := fun z' hz' => h.queue z' (List.mem_cons_of_mem z hz')
    smem := h.smem
    start := h.start
    done := by
      intro z' hz' hx
      rcases h.done z' hz' hx with hc | hc | hc
      · exact absurd hc (List.not_mem_nil z')
      · rcases List.mem_cons.mp hc with e | e
        · exact Or.inl (by rw [e]; simp)
        · exact Or.inr (Or.inl e)
      · exact Or.inr (Or.inr hc)
    fuel := by
      have := h.fuel
      simp only [List.length_cons] at this
      omega }

/-- One offset of the offset loop either leaves the queue alone or pushes one
position that was unrevealed and is revealed now. -/
theorem visitNeighbor_queue {g0 : Game} {s : Int × Int} {M : Nat} {z : Int × Int} {g : Game}
    {q : List (Int × Int)} (d : Int × Int) (h : FloodInv g0 s M [z] g q) :
    (visitNeighbor z.1 z.2 (g, q) d).2 = q ∨
    ((visitNeighbor z.1 z.2 (g, q) d).2 = q ++ [(z.1 + d.1, z.2 + d.2)] ∧
      (z.1 + d.1, z.2 + d.2) ∈ cells g0 ∧
      (cellOf g (z.1 + d.1, z.2 + d.2)).isRevealed = false ∧
      (cellOf (visitNeighbor z.1 z.2 (g, q) d).1 (z.1 + d.1, z.2 + d.2)).isRevealed = true) := by
  have hvalid : ∀ r c : Int, IsValidCell g r c = IsValidCell g0 r c := by
    intro r c
    unfold IsValidCell
    rw [h.rows_eq, h.cols_eq]
  by_cases hskip : IsValidCell g (z.1 + d.1) (z.2 + d.2) = false ∨
      (cellAt g.board (z.1 + d.1) (z.2 + d.2)).isRevealed = true ∨
      (cellAt g.board (z.1 + d.1) (z.2 + d.2)).isFlagged = true ∨
      (cellAt g.board (z.1 + d.1) (z.2 + d.2)).hasMine = true
  · left
    rw [visitNeighbor_skip _ _ _ _ _ hskip]
  · have hv : IsValidCell g (z.1 + d.1) (z.2 + d.2) = true := by
      by_contra hh
      exact hskip (Or.inl (by simpa using hh))
    have hr : (cellAt g.board (z.1 + d.1) (z.2 + d.2)).isRevealed = false := by
      by_contra hh
      exact hskip (Or.inr (Or.inl (by simpa using hh)))
    have hf : (cellAt g.board (z.1 + d.1) (z.2 + d.2)).isFlagged = false := by
      by_contra hh
      exact hskip (Or.inr (Or.inr (Or.inl (by simpa using hh))))
    have hm : (cellAt g.board (z.1 + d.1) (z.2 + d.2)).hasMine = false := by
      by_contra hh
      exact hskip (Or.inr (Or.inr (Or.inr (by simpa using hh))))
    have hmem : (z.1 + d.1, z.2 + d.2) ∈ cells g0 :=
      (mem_cells g0 _).mpr (by rw [← hvalid]; exact hv)
    rw [visitNeighbor_reveal _ _ _ _ _ hv hr hf hm]
    by_cases hz : (cellAt g.board (z.1 + d.1) (z.2 + d.2)).neighborMines = 0
    · right
      refine ⟨by simp [hz], hmem, hr, ?_⟩
      rw [cellOf_reveal h.wf hmem _ _ hmem, if_pos rfl]
    · left
      simp [hz]

/-- The offset loop keeps the invariant of the queue traffic and only appends
to the queue. -/
theorem visitAll_queue {g0 : Game} {s : Int × Int} {M : Nat} {z : Int × Int}
    (hz : zeroRegion g0 s z) (pre : List (Int × Int)) (l : List (Int × Int))
    (hl : ∀ d ∈ l, d ∈ deltas) :
    ∀ (g : Game) (q : List (Int × Int)), FloodInv g0 s M [z] g q → QueueInv g0 g pre q →
      QueueInv g0 (l.foldl (visitNeighbor z.1 z.2) (g, q)).1 pre
        (l.foldl (visitNeighbor z.1 z.2) (g, q)).2 ∧
      ∃ added : List (Int × Int), (l.foldl (visitNeighbor z.1 z.2) (g, q)).2 = q ++ added := by
  induction l with
  | nil =>
    intro g q _ hq
    exact ⟨hq, [], by simp⟩
  | cons d l ih =>
    intro g q h hq
    obtain ⟨s1, s2, _⟩ := visitNeighbor_inv d (hl d (List.mem_cons_self d l)) hz h
    have hq1 : QueueInv g0 (visitNeighbor z.1 z.2 (g, q) d).1 pre
        (visitNeighbor z.1 z.2 (g, q) d).2 ∧
        ∃ a1 : List (Int × Int), (visitNeighbor z.1 z.2 (g, q) d).2 = q ++ a1 := by
      rcases visitNeighbor_queue d h with e | ⟨e, hmem, hr, hr'⟩
      · rw [e]
        exact ⟨⟨hq.1, fun p hp => ⟨(hq.2 p hp).1, s2 p (hq.2 p hp).1 (hq.2 p hp).2⟩⟩, [], by simp⟩
      · rw [e]
        refine ⟨⟨?_, ?_⟩, _, rfl⟩
        · rw [← List.append_assoc]
          apply List.Nodup.append hq.1 (List.nodup_singleton _)
          intro p hp1 hp2
          rw [List.mem_singleton] at hp2
          have := (hq.2 p hp1).2
          rw [hp2, hr] at this
          exact absurd this (by decide)
        · intro p hp
          rw [← List.append_assoc, List.mem_append, List.mem_singleton] at hp
          rcases hp with hp | hp
          · exact ⟨(hq.2 p hp).1, s2 p (hq.2 p hp).1 (hq.2 p hp).2⟩
          · rw [hp]
            exact ⟨hmem, hr'⟩
    obtain ⟨a1, ha1⟩ := hq1.2
    obtain ⟨i1, a2, ha2⟩ := ih (fun d' hd' => hl d' (List.mem_cons_of_mem d hd'))
      (visitNeighbor z.1 z.2 (g, q) d).1 (visitNeighbor z.1 z.2 (g, q) d).2 s1 hq1.1
    rw [List.foldl_cons]
    refine ⟨i1, a1 ++ a2, ?_⟩
    rw [ha2, ha1, List.append_assoc]

/-- The recorded loop ends within the bound; what it dequeued is the initial
queue followed by what it pushed, without repetition, inside the grid. -/
theorem floodFillTrace_inv {g0 : Game} {s : Int × Int} :
    ∀ (M : Nat) (g : Game) (q pre : List (Int × Int)), FloodInv g0 s M [] g q →
      QueueInv g0 g pre q →
      ∃ (g' : Game) (pops pushed : List (Int × Int)),
        floodFillTrace M g q = some (g', pops, pushed) ∧ pops = q ++ pushed ∧
        (pre ++ pops).Nodup ∧ ∀ p ∈ pre ++ pops, p ∈ cells g0
  | M, g, [], pre, _, hq =>
    ⟨g, [], [], by cases M <;> rfl, rfl, hq.1, fun p hp => (hq.2 p hp).1⟩
  | 0, g, z :: rest, pre, h, _ => by
    have := h.fuel
    simp at this
  | M + 1, g, z :: rest, pre, h, hq => by
    have hz : zeroRegion g0 s z := h.queue z (List.mem_cons_self z rest)
    have hq0 : QueueInv g0 g (pre ++ [z]) rest := by
      unfold QueueInv at hq ⊢
      simpa [List.append_assoc] using hq
    obtain ⟨q1, added, hadd⟩ := visitAll_queue hz (pre ++ [z]) deltas (fun d hd => hd) g rest
      h.pop hq0
    obtain ⟨g', pops, pushed, e, hp, hn, hc⟩ := floodFillTrace_inv M _ _ (pre ++ [z])
      (floodFill_iteration h) q1
    refine ⟨g', z :: pops, added ++ pushed, ?_, ?_, ?_, ?_⟩
    · show (floodFillTrace M _ _).map _ = _
      rw [e]
      simp only [Option.map_some', hadd, List.drop_left]
    · rw [hp, hadd]
      simp
    · simpa [List.append_assoc] using hn
    · intro p hp'
      apply hc p
      simpa [List.append_assoc] using hp'

/-- C20: `RevealCell` returns for every start position.  When it enters its
breadth-first loop (the start cell is an eligible cell with
`neighborMines = 0`), the loop ends with an empty queue within `rows * cols`
runs of its body: the positions it dequeues are the start position followed
by the positions it pushes, no position is pushed twice, all lie in the grid,
and so there are at most `rows * cols` of them. -/
theorem RevealCell_loop_bound (g : Game) (hwf : g.WF) (row col : Int) :
    (∃ g' : Game, RevealCell g row col = some g') ∧
    (zeroCell g (row, col) →
      ∃ (g2 : Game) (pops pushed : List (Int × Int)),
        floodFillTrace (g.rows * g.cols).toNat
          { g with
            board := setCell g.board row col { cellAt g.board row col with isRevealed := true }
            revealedCount := g.revealedCount + 1 } [(row, col)] = some (g2, pops, pushed) ∧
        floodFill (g.rows * g.cols).toNat
          { g with
            board := setCell g.board row col { cellAt g.board row col with isRevealed := true }
            revealedCount := g.revealedCount + 1 } [(row, col)] = some g2 ∧
        pops = (row, col) :: pushed ∧ pops.Nodup ∧ (∀ p ∈ pops, p ∈ cells g) ∧
        (pops.length : Int) ≤ g.rows * g.cols) := by
  refine ⟨RevealCell_total g hwf row col, fun hs => ?_⟩
  have hinit := floodFill_init g hwf (row, col) hs
  have hq : QueueInv g
      { g with
        board := setCell g.board row col { cellAt g.board row col with isRevealed := true }
        revealedCount := g.revealedCount + 1 } [] [(row, col)] := by
    refine ⟨by simp, fun p hp => ?_⟩
    have e : p = (row, col) := by simpa using hp
    rw [e]
    exact ⟨hinit.smem, hinit.start⟩
  obtain ⟨g2, pops, pushed, e, hp, hn, hc⟩ := floodFillTrace_inv _ _ _ [] hinit hq
  have hfst := floodFillTrace_fst (g.rows * g.cols).toNat
    { g with
      board := setCell g.board row col { cellAt g.board row col with isRevealed := true }
      revealedCount := g.revealedCount + 1 } [(row, col)]
  have e' := e
  rw [e'] at hfst
  have hv := (IsValidCell_iff g row col).mp hs.1.1
  have hn' : pops.Nodup := by simpa using hn
  have hc' : ∀ p ∈ pops, p ∈ cells g := fun p hp' => hc p (by simpa using hp')
  refine ⟨g2, pops, pushed, e, hfst.symm, by rw [hp]; rfl, hn', hc', ?_⟩
  have hsub : pops.toFinset ⊆ cells g := fun p hp' => hc' p (List.mem_toFinset.mp hp')
  have hcard := Finset.card_le_card hsub
  rw [List.toFinset_card_of_nodup hn', card_cells] at hcard
  have : (pops.length : Int) ≤ ((g.rows.toNat * g.cols.toNat : Nat) : Int) := by
    exact_mod_cast hcard
  rw [Nat.cast_mul, Int.toNat_of_nonneg (by omega), Int.toNat_of_nonneg (by omega)] at this
  exact this

set_option maxRecDepth 100000 in
theorem RevealCell_loop_bound_witness :
    placedGame.WF ∧ (∃ g' : Game, RevealCell placedGame 0 0 = some g') ∧
    zeroCell placedGame (0, 0) ∧
    ∃ (g2 : Game) (pops pushed : List (Int × Int)),
      floodFillTrace (placedGame.rows * placedGame.cols).toNat
        { placedGame with
          board := setCell placedGame.board 0 0
            { cellAt placedGame.board 0 0 with isRevealed := true }
          revealedCount := placedGame.revealedCount + 1 } [(0, 0)] = some (g2, pops, pushed) ∧
      pops.Nodup ∧ (pops.length : Int) ≤ placedGame.rows * placedGame.cols :=
  have h := RevealCell_loop_bound placedGame placedGame_WF 0 0
  have hs : zeroCell placedGame (0, 0) := by decide
  ⟨placedGame_WF, h.1, hs,
    (h.2 hs).elim (fun g2 h2 => h2.elim (fun pops h3 => h3.elim (fun pushed h4 =>
      ⟨g2, pops, pushed, h4.1, h4.2.2.2.1, h4.2.2.2.2.2⟩)))⟩

/-! ### Flags and revealed cells -/

theorem FlagInv.of_RevealCell {g g' : Game} (h : FlagInv g) (hwf : g.WF) (row col : Int)
    (hg' : RevealCell g row col = some g') : FlagInv g' := by
  rcases RevealCell_cases g hwf row col with ⟨_, e⟩ | ⟨hv, hr, hf, hm, e⟩ | ⟨_, g2, heff, _, e⟩
  · rw [e] at hg'
    injection hg' with hg'
    rw [← hg']
    exact h
  · have hcell := RevealCell_mine_cellAt g g' row col hv hr hf hm hg'
    rw [e] at hg'
    injection hg' with hg'
    have hcells : cells g' = cells g := by rw [← hg']; rfl
    intro p hp hfl hrv
    rw [hcells] at hp
    have hp' := (IsValidCell_iff g p.1 p.2).mp ((mem_cells g p).mp hp)
    unfold cellOf at hfl hrv ⊢
    rw [hcell p.1 p.2 hp'.1 hp'.2.2.1] at hfl hrv ⊢
    by_cases hc : p.1 < g.rows ∧ p.2 < g.cols ∧ (cellAt g.board p.1 p.2).hasMine = true
    · rw [if_pos hc]
      exact hc.2.2
    · rw [if_neg hc] at hfl hrv ⊢
      exact h p hp hfl hrv
  · rw [e] at hg'
    injection hg' with hg'
    have hcells : cells g' = cells g := by
      rw [← hg']
      unfold cells
      split <;> (show Finset.Ico 0 g2.rows ×ˢ Finset.Ico 0 g2.cols = _;
                 rw [heff.eff_rows_eq, heff.eff_cols_eq])
    have hboard : ∀ p, cellOf g' p = cellOf g2 p := by
      intro p
      rw [← hg']
      split <;> rfl
    intro p hp hfl hrv
    rw [hcells] at hp
    rw [hboard p] at hfl hrv ⊢
    obtain ⟨o1, o2, _⟩ := heff.other p hp
    rw [o1]
    rw [o2] at hfl
    cases h0 : (cellOf g p).isRevealed
    · have := (heff.fresh p hp hrv h0).2.2.1
      rw [hfl] at this
      exact absurd this (by decide)
    · exact h p hp hfl h0

theorem FlagInv.of_toggle {g : Game} (h : FlagInv g) (hwf : g.WF) (row col : Int) :
    FlagInv (ToggleFlag g row col) := by
  rcases ToggleFlag_cases g row col with e | ⟨hv, hr, e⟩
  · rw [e]; exact h
  · rw [e]
    have hv' := (IsValidCell_iff g row col).mp hv
    intro p hp hfl hrv
    have hp' : p ∈ cells g := hp
    have hpv := (IsValidCell_iff g p.1 p.2).mp ((mem_cells g p).mp hp')
    unfold cellOf at hfl hrv ⊢
    have hc := cellAt_setCell hwf ⟨hv'.1, hv'.2.1⟩ ⟨hv'.2.2.1, hv'.2.2.2⟩ hpv.1 hpv.2.2.1
      { cellAt g.board row col with isFlagged := !(cellAt g.board row col).isFlagged }
    change (cellAt (setCell g.board row col _) p.1 p.2).isFlagged = true at hfl
    change (cellAt (setCell g.board row col _) p.1 p.2).isRevealed = true at hrv
    change (cellAt (setCell g.board row col _) p.1 p.2).hasMine = true
    rw [hc] at hfl hrv ⊢
    by_cases he : p.1 = row ∧ p.2 = col
    · rw [if_pos he] at hrv
      have : (cellAt g.board row col).isRevealed = true := hrv
      rw [hr] at this
      exact absurd this (by decide)
    · rw [if_neg he] at hfl hrv ⊢
      exact h p hp' hfl hrv

/-- In every reachable state a cell that is both flagged and revealed holds a
mine. -/
theorem Reachable.flagInv {g : Game} (h : Reachable g) : FlagInv g := by
  induction h with
  | start g0 r c m hp =>
    intro p _ hfl _
    have : cellOf (InitBoard g0 r c m) p = default := InitBoard_cellAt g0 r c m p.1 p.2
    rw [this] at hfl
    exact absurd hfl (by decide)
  | @tap g g' row col draws hg _ ht ih =>
    have hinv := hg.inv
    unfold tapCell at ht
    by_cases hv : IsValidCell g row col = true
    · rw [if_pos hv] at ht
      by_cases hfc : g.firstClick = true
      · rw [if_pos hfc] at ht
        cases hp : PlaceMines { g with firstClick := false } row col draws with
        | none => rw [hp] at ht; simp at ht
        | some g1 =>
          rw [hp] at ht
          simp only [Option.some_bind] at ht
          obtain ⟨i1, _, _, hr1, hc1⟩ := hinv.of_PlaceMines hfc row col hv draws hp
          have hf1 : FlagInv g1 := by
            intro p hp1 _ hrv
            obtain ⟨hclr, _⟩ := hinv.clear hfc
            obtain ⟨_, _, p3, _, _⟩ := PlaceMines_spec { g with firstClick := false } hinv.wf
              hinv.dims.1 hinv.dims.2 hinv.total
              (fun r c hrc => (hclr (r, c) ((mem_cells g (r, c)).mpr hrc)).1) row col draws g1 hp
            have hp0 : p ∈ cells g := by
              unfold cells at hp1 ⊢
              rw [hr1, hc1] at hp1
              exact hp1
            have e := (p3 p hp0).1
            have e0 : (cellOf g p).isRevealed = false := (hclr p hp0).2
            have e1 : (cellOf g1 p).isRevealed = false := by
              rw [e]; exact e0
            rw [e1] at hrv
            exact absurd hrv (by decide)
          exact hf1.of_RevealCell i1.wf row col ht
      · rw [if_neg hfc] at ht
        exact ih.of_RevealCell hinv.wf row col ht
    · rw [if_neg hv] at ht
      injection ht with ht
      rw [← ht]
      exact ih
  | longPress row col hg _ ih => exact ih.of_toggle hg.inv.wf row col
  | toMenu _ ih => exact ih
  | view _ hl ih =>
    obtain ⟨hb, hr, hc, _⟩ := hl
    intro p hp hfl hrv
    unfold cells at hp
    rw [hr, hc] at hp
    unfold cellOf at hfl hrv ⊢
    rw [hb] at hfl hrv ⊢
    exact ih p hp hfl hrv


set_option maxRecDepth 100000 in
theorem minedFlaggedGame_reachable : Reachable minedFlaggedGame :=
  Reachable.longPress 8 1 minedGame_reachable (by decide)

set_option maxRecDepth 100000 in
theorem lostFlaggedGame_reachable : Reachable lostFlaggedGame :=
  Reachable.tap 8 0 [] minedFlaggedGame_reachable (by decide) (eq_some_getD (by decide) _)

set_option maxRecDepth 100000 in
/-- C19 (counterexample): in the Easy game lost by a tap on the mine `(8, 0)`
after the mine `(8, 1)` had been flagged, a reachable state, the cell `(8, 1)`
has both `isFlagged = true` and `isRevealed = true`. -/
theorem flagged_mine_revealed_after_loss :
    Reachable lostFlaggedGame ∧ lostFlaggedGame.state = GameState.LOST ∧
    (8, 1) ∈ cells lostFlaggedGame ∧
    (cellOf lostFlaggedGame (8, 1)).isFlagged = true ∧
    (cellOf lostFlaggedGame (8, 1)).isRevealed = true ∧
    ¬ (∀ p ∈ cells lostFlaggedGame,
      ¬ ((cellOf lostFlaggedGame p).isFlagged = true ∧
        (cellOf lostFlaggedGame p).isRevealed = true)) := by
  have hmem : ((8, 1) : Int × Int) ∈ cells lostFlaggedGame :=
    (mem_cells lostFlaggedGame (8, 1)).mpr (by decide)
  have h1 : (cellOf lostFlaggedGame (8, 1)).isFlagged = true := by unfold cellOf; decide
  have h2 : (cellOf lostFlaggedGame (8, 1)).isRevealed = true := by unfold cellOf; decide
  exact ⟨lostFlaggedGame_reachable, by decide, hmem, h1, h2, fun hall => hall _ hmem ⟨h1, h2⟩⟩

/-- C19 (amended): in every reachable state a cell with both
`isFlagged = true` and `isRevealed = true` holds a mine, and while the phase
is `PLAYING` or `WON` no cell has both. -/
theorem flagged_revealed_only_mines (g : Game) (h : Reachable g) :
    (∀ p ∈ cells g, (cellOf g p).isFlagged = true → (cellOf g p).isRevealed = true →
      (cellOf g p).hasMine = true) ∧
    ((g.state = GameState.PLAYING ∨ g.state = GameState.WON) →
      ∀ p ∈ cells g, ¬ ((cellOf g p).isFlagged = true ∧ (cellOf g p).isRevealed = true)) := by
  refine ⟨h.flagInv, fun hs p hp hboth => ?_⟩
  have hm := h.flagInv p hp hboth.1 hboth.2
  have hu := h.inv.alive hs p hp hm
  rw [hboth.2] at hu
  exact absurd hu (by decide)

set_option maxRecDepth 100000 in
theorem flagged_revealed_only_mines_witness :
    Reachable lostFlaggedGame ∧
    ∀ p ∈ cells lostFlaggedGame, (cellOf lostFlaggedGame p).isFlagged = true →
      (cellOf lostFlaggedGame p).isRevealed = true → (cellOf lostFlaggedGame p).hasMine = true :=
  ⟨lostFlaggedGame_reachable,
    (flagged_revealed_only_mines lostFlaggedGame lostFlaggedGame_reachable).1⟩

/-! ### The camera -/

theorem Clamp_bounds {v a b : ℚ} (h : a ≤ b) : a ≤ Clamp v a b ∧ Clamp v a b ≤ b := by
  unfold Clamp
  dsimp only
  split_ifs <;> constructor <;> linarith

theorem Clamp_of_mem {v a b : ℚ} (h1 : a ≤ v) (h2 : v ≤ b) : Clamp v a b = v := by
  unfold Clamp
  dsimp only
  rw [if_neg (not_lt.mpr h1), if_neg (not_lt.mpr h2)]

theorem Clamp_of_lt {v a b : ℚ} (h : a ≤ b) (h1 : v < a) : Clamp v a b = a := by
  unfold Clamp
  dsimp only
  rw [if_pos h1, if_neg (by linarith)]

theorem Clamp_of_gt {v a b : ℚ} (h : a ≤ b) (h1 : b < v) : Clamp v a b = b := by
  unfold Clamp
  dsimp only
  rw [if_neg (not_lt.mpr (le_trans h h1.le)), if_pos h1]

theorem ClampCamera_target_x (g : Game) :
    (ClampCamera g).camera.target.x =
      if (g.cols : ℚ) * g.cellSize > (g.screenWidth : ℚ) / g.camera.zoom then
        Clamp g.camera.target.x (g.offsetX + (g.screenWidth : ℚ) / g.camera.zoom / 2)
          (g.offsetX + (g.cols : ℚ) * g.cellSize - (g.screenWidth : ℚ) / g.camera.zoom / 2)
      else g.offsetX + (g.cols : ℚ) * g.cellSize / 2 := rfl

theorem ClampCamera_target_y (g : Game) :
    (ClampCamera g).camera.target.y =
      if (g.rows : ℚ) * g.cellSize >
          ((g.screenHeight : ℚ) - g.headerHeight) / g.camera.zoom then
        Clamp g.camera.target.y
          (g.offsetY + ((g.screenHeight : ℚ) - g.headerHeight) / g.camera.zoom / 2)
          (g.offsetY + (g.rows : ℚ) * g.cellSize -
            ((g.screenHeight : ℚ) - g.headerHeight) / g.camera.zoom / 2)
      else g.offsetY + (g.rows : ℚ) * g.cellSize / 2 := rfl

/-- `ClampCamera` writes the camera target only. -/
theorem ClampCamera_frame (g : Game) :
    ClampCamera g =
      { g with
        camera :=
          { g.camera with
            target :=
              { x := (ClampCamera g).camera.target.x, y := (ClampCamera g).camera.target.y } } } :=
  rfl

theorem ClampCamera_idem (g : Game) : ClampCamera (ClampCamera g) = ClampCamera g := by
  have hx : (ClampCamera (ClampCamera g)).camera.target.x = (ClampCamera g).camera.target.x := by
    have e1 := ClampCamera_target_x (ClampCamera g)
    have e2 := ClampCamera_target_x g
    change _ = (if (g.cols : ℚ) * g.cellSize > (g.screenWidth : ℚ) / g.camera.zoom then
        Clamp (ClampCamera g).camera.target.x
          (g.offsetX + (g.screenWidth : ℚ) / g.camera.zoom / 2)
          (g.offsetX + (g.cols : ℚ) * g.cellSize - (g.screenWidth : ℚ) / g.camera.zoom / 2)
      else g.offsetX + (g.cols : ℚ) * g.cellSize / 2) at e1
    by_cases h : (g.cols : ℚ) * g.cellSize > (g.screenWidth : ℚ) / g.camera.zoom
    · rw [if_pos h] at e1 e2
      have hb := Clamp_bounds (v := g.camera.target.x)
        (a := g.offsetX + (g.screenWidth : ℚ) / g.camera.zoom / 2)
        (b := g.offsetX + (g.cols : ℚ) * g.cellSize - (g.screenWidth : ℚ) / g.camera.zoom / 2)
        (by linarith)
      rw [← e2] at hb
      rw [e1]
      exact Clamp_of_mem hb.1 hb.2
    · rw [if_neg h] at e1 e2
      rw [e1, e2]
  have hy : (ClampCamera (ClampCamera g)).camera.target.y = (ClampCamera g).camera.target.y := by
    have e1 := ClampCamera_target_y (ClampCamera g)
    have e2 := ClampCamera_target_y g
    change _ = (if (g.rows : ℚ) * g.cellSize >
          ((g.screenHeight : ℚ) - g.headerHeight) / g.camera.zoom then
        Clamp (ClampCamera g).camera.target.y
          (g.offsetY + ((g.screenHeight : ℚ) - g.headerHeight) / g.camera.zoom / 2)
          (g.offsetY + (g.rows : ℚ) * g.cellSize -
            ((g.screenHeight : ℚ) - g.headerHeight) / g.camera.zoom / 2)
      else g.offsetY + (g.rows : ℚ) * g.cellSize / 2) at e1
    by_cases h : (g.rows : ℚ) * g.cellSize >
        ((g.screenHeight : ℚ) - g.headerHeight) / g.camera.zoom
    · rw [if_pos h] at e1 e2
      have hb := Clamp_bounds (v := g.camera.target.y)
        (a := g.offsetY + ((g.screenHeight : ℚ) - g.headerHeight) / g.camera.zoom / 2)
        (b := g.offsetY + (g.rows : ℚ) * g.cellSize -
          ((g.screenHeight : ℚ) - g.headerHeight) / g.camera.zoom / 2)
        (by linarith)
      rw [← e2] at hb
      rw [e1]
      exact Clamp_of_mem hb.1 hb.2
    · rw [if_neg h] at e1 e2
      rw [e1, e2]
  rw [ClampCamera_frame (ClampCamera g), hx, hy]

/-- C16: after `ClampCamera`, on each axis by itself: if the extent of the
board (`cols * cellSize`, resp. `rows * cellSize`) is larger than the visible
extent (`screenWidth / zoom`, resp. `(screenHeight - headerHeight) / zoom`),
the visible interval `[target - visible / 2, target + visible / 2]` lies
inside the board interval `[offset, offset + extent]`, and the target is
unchanged when it already did; otherwise the target is the centre of the
board on that axis.  `ClampCamera` applied twice is `ClampCamera` applied
once.  All of this holds for every zoom, in particular for `zoom > 0`. -/
theorem ClampCamera_spec (g : Game) :
    ((g.cols : ℚ) * g.cellSize > (g.screenWidth : ℚ) / g.camera.zoom →
      g.offsetX ≤ (ClampCamera g).camera.target.x - (g.screenWidth : ℚ) / g.camera.zoom / 2 ∧
      (ClampCamera g).camera.target.x + (g.screenWidth : ℚ) / g.camera.zoom / 2
        ≤ g.offsetX + (g.cols : ℚ) * g.cellSize ∧
      (g.offsetX ≤ g.camera.target.x - (g.screenWidth : ℚ) / g.camera.zoom / 2 ∧
        g.camera.target.x + (g.screenWidth : ℚ) / g.camera.zoom / 2
          ≤ g.offsetX + (g.cols : ℚ) * g.cellSize →
        (ClampCamera g).camera.target.x = g.camera.target.x)) ∧
    (¬ (g.cols : ℚ) * g.cellSize > (g.screenWidth : ℚ) / g.camera.zoom →
      (ClampCamera g).camera.target.x = g.offsetX + (g.cols : ℚ) * g.cellSize / 2) ∧
    ((g.rows : ℚ) * g.cellSize > ((g.screenHeight : ℚ) - g.headerHeight) / g.camera.zoom →
      g.offsetY ≤ (ClampCamera g).camera.target.y -
        ((g.screenHeight : ℚ) - g.headerHeight) / g.camera.zoom / 2 ∧
      (ClampCamera g).camera.target.y +
          ((g.screenHeight : ℚ) - g.headerHeight) / g.camera.zoom / 2
        ≤ g.offsetY + (g.rows : ℚ) * g.cellSize ∧
      (g.offsetY ≤ g.camera.target.y -
          ((g.screenHeight : ℚ) - g.headerHeight) / g.camera.zoom / 2 ∧
        g.camera.target.y + ((g.screenHeight : ℚ) - g.headerHeight) / g.camera.zoom / 2
          ≤ g.offsetY + (g.rows : ℚ) * g.cellSize →
        (ClampCamera g).camera.target.y = g.camera.target.y)) ∧
    (¬ (g.rows : ℚ) * g.cellSize > ((g.screenHeight : ℚ) - g.headerHeight) / g.camera.zoom →
      (ClampCamera g).camera.target.y = g.offsetY + (g.rows : ℚ) * g.cellSize / 2) ∧
    (ClampCamera g).camera.zoom = g.camera.zoom ∧
    ClampCamera (ClampCamera g) = ClampCamera g := by
  refine ⟨fun h => ?_, fun h => ?_, fun h => ?_, fun h => ?_, rfl, ClampCamera_idem g⟩
  · rw [ClampCamera_target_x, if_pos h]
    have hb := Clamp_bounds (v := g.camera.target.x)
      (a := g.offsetX + (g.screenWidth : ℚ) / g.camera.zoom / 2)
      (b := g.offsetX + (g.cols : ℚ) * g.cellSize - (g.screenWidth : ℚ) / g.camera.zoom / 2)
      (by linarith)
    refine ⟨by linarith [hb.1], by linarith [hb.2], fun hin => ?_⟩
    exact Clamp_of_mem (by linarith [hin.1]) (by linarith [hin.2])
  · rw [ClampCamera_target_x, if_neg h]
  · rw [ClampCamera_target_y, if_pos h]
    have hb := Clamp_bounds (v := g.camera.target.y)
      (a := g.offsetY + ((g.screenHeight : ℚ) - g.headerHeight) / g.camera.zoom / 2)
      (b := g.offsetY + (g.rows : ℚ) * g.cellSize -
        ((g.screenHeight : ℚ) - g.headerHeight) / g.camera.zoom / 2)
      (by linarith)
    refine ⟨by linarith [hb.1], by linarith [hb.2], fun hin => ?_⟩
    exact Clamp_of_mem (by linarith [hin.1]) (by linarith [hin.2])
  · rw [ClampCamera_target_y, if_neg h]

theorem ClampCamera_spec_witness :
    (zoomedGame.cols : ℚ) * zoomedGame.cellSize
        > (zoomedGame.screenWidth : ℚ) / zoomedGame.camera.zoom ∧
      (ClampCamera zoomedGame).camera.target.x = 225 := by
  have h := (ClampCamera_spec zoomedGame).1
  have hc : zoomedGame.cellSize = 100 := by
    norm_num [zoomedGame, phoneGame, InitBoard, InitCamera, CalculateLayout]
  have ho : zoomedGame.offsetX = 0 := by
    norm_num [zoomedGame, phoneGame, InitBoard, InitCamera, CalculateLayout]
  have hcols : zoomedGame.cols = 9 := rfl
  have hw : zoomedGame.screenWidth = 900 := rfl
  have hz : zoomedGame.camera.zoom = 2 := rfl
  have ht : zoomedGame.camera.target.x = 0 := rfl
  have hgt : (zoomedGame.cols : ℚ) * zoomedGame.cellSize
        > (zoomedGame.screenWidth : ℚ) / zoomedGame.camera.zoom := by
    rw [hc, hcols, hw, hz]; norm_num
  refine ⟨hgt, ?_⟩
  have h1 := (h hgt).1
  rw [ClampCamera_target_x, if_pos hgt, ho, hw, hz, ht, hc, hcols]
  norm_num [Clamp]

/-! ### Fields the game logic leaves alone -/

theorem visitNeighbor_proj {α : Type} (π : Game → α)
    (hπ : ∀ (g : Game) (b : Board) (n : Int), π { g with board := b, revealedCount := n } = π g)
    (cr cc : Int) (s : Game × List (Int × Int)) (d : Int × Int) :
    π (visitNeighbor cr cc s d).1 = π s.1 := by
  unfold visitNeighbor
  dsimp only
  split_ifs <;> first | rfl | exact hπ _ _ _

theorem visitAll_proj {α : Type} (π : Game → α)
    (hπ : ∀ (g : Game) (b : Board) (n : Int), π { g with board := b, revealedCount := n } = π g)
    (cr cc : Int) (ds : List (Int × Int)) (s : Game × List (Int × Int)) :
    π (ds.foldl (visitNeighbor cr cc) s).1 = π s.1 := by
  induction ds generalizing s with
  | nil => rfl
  | cons d ds ih => rw [List.foldl_cons, ih, visitNeighbor_proj π hπ]

theorem floodFill_proj {α : Type} (π : Game → α)
    (hπ : ∀ (g : Game) (b : Board) (n : Int), π { g with board := b, revealedCount := n } = π g)
    (fuel : Nat) (g : Game) (q : List (Int × Int)) (g' : Game)
    (h : floodFill fuel g q = some g') : π g' = π g := by
  induction fuel generalizing g q with
  | zero =>
    cases q with
    | nil => simp only [floodFill, Option.some.injEq] at h; rw [← h]
    | cons p rest => simp [floodFill] at h
  | succ n ih =>
    cases q with
    | nil => simp only [floodFill, Option.some.injEq] at h; rw [← h]
    | cons p rest =>
      obtain ⟨cr, cc⟩ := p
      simp only [floodFill] at h
      rw [ih _ _ h, visitAll_proj π hπ]

/-- What `RevealCell` leaves alone: every function of the game that does not
read the board, `revealedCount` or the phase. -/
theorem RevealCell_proj {α : Type} (π : Game → α)
    (hπ : ∀ (g : Game) (b : Board) (n : Int), π { g with board := b, revealedCount := n } = π g)
    (hs : ∀ (g : Game) (s : GameState), π { g with state := s } = π g)
    (g : Game) (row col : Int) (g' : Game) (h : RevealCell g row col = some g') :
    π g' = π g := by
  have key : ∀ (b : Board) (n : Int) (s : GameState),
      π { g with board := b, revealedCount := n, state := s } = π g :=
    fun b n s => (hs { g with board := b, revealedCount := n } s).trans (hπ g b n)
  unfold RevealCell at h
  dsimp only at h
  split_ifs at h with h1 h2 h3 h4
  · simp only [Option.some.injEq] at h; rw [← h]
  · simp only [Option.some.injEq] at h; rw [← h]
  · simp only [Option.some.injEq] at h; rw [← h]
    exact key _ _ _
  · simp only [Option.map_eq_some'] at h
    obtain ⟨g2, hg2, rfl⟩ := h
    have := floodFill_proj π hπ _ _ _ _ hg2
    split_ifs
    · exact (hs g2 _).trans (this.trans (hπ g _ _))
    · exact this.trans (hπ g _ _)
  · simp only [Option.map_some', Option.some.injEq] at h
    rw [← h]
    split_ifs
    · exact key _ _ _
    · exact hπ g _ _

/-- The phase after `RevealCell` is the phase before, `WON` or `LOST`. -/
theorem RevealCell_state (g : Game) (row col : Int) (g' : Game)
    (h : RevealCell g row col = some g') :
    g'.state = g.state ∨ g'.state = GameState.WON ∨ g'.state = GameState.LOST := by
  unfold RevealCell at h
  dsimp only at h
  split_ifs at h with h1 h2 h3 h4
  · simp only [Option.some.injEq] at h; rw [← h]; exact Or.inl rfl
  · simp only [Option.some.injEq] at h; rw [← h]; exact Or.inl rfl
  · simp only [Option.some.injEq] at h; rw [← h]; exact Or.inr (Or.inr rfl)
  · simp only [Option.map_eq_some'] at h
    obtain ⟨g2, hg2, rfl⟩ := h
    have := floodFill_proj Game.state (fun _ _ _ => rfl) _ _ _ _ hg2
    split_ifs
    · exact Or.inr (Or.inl rfl)
    · exact Or.inl this
  · simp only [Option.map_some', Option.some.injEq] at h
    rw [← h]
    split_ifs
    · exact Or.inr (Or.inl rfl)
    · exact Or.inl rfl

theorem PlaceMines_proj {α : Type} (π : Game → α)
    (hπ : ∀ (g : Game) (b : Board), π { g with board := b } = π g)
    (g : Game) (row col : Int) (draws : List Nat) (g' : Game)
    (h : PlaceMines g row col draws = some g') : π g' = π g := by
  unfold PlaceMines at h
  simp only [Option.map_eq_some'] at h
  obtain ⟨b, -, rfl⟩ := h
  unfold CountNeighborMines
  exact (hπ _ _).trans (hπ g _)

theorem ToggleFlag_proj {α : Type} (π : Game → α)
    (hπ : ∀ (g : Game) (b : Board) (n : Int), π { g with board := b, flagCount := n } = π g)
    (g : Game) (row col : Int) : π (ToggleFlag g row col) = π g := by
  unfold ToggleFlag
  dsimp only
  split_ifs <;> first | rfl | exact hπ _ _ _

theorem eraseLogic_RevealCell (g : Game) (row col : Int) (g' : Game)
    (h : RevealCell g row col = some g') : eraseLogic g' = eraseLogic g :=
  RevealCell_proj eraseLogic (fun _ _ _ => rfl) (fun _ _ => rfl) g row col g' h

theorem eraseLogic_ToggleFlag (g : Game) (row col : Int) :
    eraseLogic (ToggleFlag g row col) = eraseLogic g :=
  ToggleFlag_proj eraseLogic (fun _ _ _ => rfl) g row col

theorem ToggleFlag_state (g : Game) (row col : Int) :
    (ToggleFlag g row col).state = g.state :=
  ToggleFlag_proj Game.state (fun _ _ _ => rfl) g row col

theorem eraseLogic_tapCell (g : Game) (row col : Int) (draws : List Nat) (g' : Game)
    (h : tapCell g row col draws = some g') : eraseLogic g' = eraseLogic g := by
  unfold tapCell at h
  split_ifs at h with h1 h2
  · simp only [Option.bind_eq_some] at h
    obtain ⟨g1, hp, hr⟩ := h
    rw [eraseLogic_RevealCell _ _ _ _ hr,
      PlaceMines_proj eraseLogic (fun _ _ => rfl) _ _ _ _ _ hp]
    rfl
  · exact eraseLogic_RevealCell _ _ _ _ h
  · simp only [Option.some.injEq] at h; rw [← h]

theorem tapCell_state (g : Game) (row col : Int) (draws : List Nat) (g' : Game)
    (h : tapCell g row col draws = some g') :
    g'.state = g.state ∨ g'.state = GameState.WON ∨ g'.state = GameState.LOST := by
  unfold tapCell at h
  split_ifs at h with h1 h2
  · simp only [Option.bind_eq_some] at h
    obtain ⟨g1, hp, hr⟩ := h
    have h1 := RevealCell_state _ _ _ _ hr
    have h2 : g1.state = g.state :=
      PlaceMines_proj Game.state (fun _ _ => rfl) { g with firstClick := false } _ _ _ _ hp
    rw [h2] at h1
    exact h1
  · exact RevealCell_state _ _ _ _ h
  · simp only [Option.some.injEq] at h; rw [← h]; exact Or.inl rfl

/-! ### The zoom -/

/-- The three fields the zoom invariant reads. -/
theorem zoomInRange_congr {g g' : Game} (hz : g'.camera.zoom = g.camera.zoom)
    (hmin : g'.minZoom = g.minZoom) (hmax : g'.maxZoom = g.maxZoom) (h : zoomInRange g) :
    zoomInRange g' := by
  unfold zoomInRange at h ⊢
  rw [hz, hmin, hmax]
  exact h

theorem zoomInRange_of_eraseLogic {g g' : Game} (he : eraseLogic g' = eraseLogic g)
    (h : zoomInRange g) : zoomInRange g' :=
  zoomInRange_congr (by have := congrArg (fun x => x.camera.zoom) he; exact this)
    (by have := congrArg Game.minZoom he; exact this)
    (by have := congrArg Game.maxZoom he; exact this) h

theorem zoomInRange_InitCamera (g : Game) : zoomInRange (InitCamera g) := by
  unfold zoomInRange InitCamera
  dsimp only
  exact ⟨le_refl _, le_max_right _ _⟩

theorem zoomInRange_InitBoard (g : Game) (r c m : Int) : zoomInRange (InitBoard g r c m) :=
  zoomInRange_InitCamera _

theorem pinchUpdate_zoom (dist : Vector2 → Vector2 → ℚ) (g : Game) (f : Frame) :
    (pinchUpdate dist g f).camera.zoom =
      if f.touchCount ≥ 2 ∧ g.pinchStartDist > 1 then
        Clamp (g.pinchStartZoom * (dist f.touch0 f.touch1 / g.pinchStartDist)) g.minZoom g.maxZoom
      else g.camera.zoom := by
  unfold pinchUpdate
  dsimp only
  by_cases h1 : f.touchCount ≥ 2
  · by_cases h2 : g.pinchStartDist > 1
    · rw [if_pos h1, if_pos h2, if_pos ⟨h1, h2⟩]
    · rw [if_pos h1, if_neg h2, if_neg (fun h => h2 h.2)]
  · rw [if_neg h1, if_neg (fun h => h1 h.1)]

theorem pinchUpdate_proj {α : Type} (π : Game → α)
    (hπ : ∀ (g : Game) (c : Camera2D), π { g with camera := c } = π g)
    (dist : Vector2 → Vector2 → ℚ) (g : Game) (f : Frame) :
    π (pinchUpdate dist g f) = π g := by
  unfold pinchUpdate
  dsimp only
  split_ifs <;> first | rfl | exact hπ g _

theorem ClampCamera_proj {α : Type} (π : Game → α)
    (hπ : ∀ (g : Game) (c : Camera2D), π { g with camera := c } = π g) (g : Game) :
    π (ClampCamera g) = π g :=
  hπ g _

/-- What `HandleCameraInput` leaves alone: every function of the game that
does not read the camera. -/
theorem HandleCameraInput_proj {α : Type} (π : Game → α)
    (hπ : ∀ (g : Game) (c : Camera2D), π { g with camera := c } = π g)
    (dist : Vector2 → Vector2 → ℚ) (g : Game) (f : Frame) :
    π (HandleCameraInput dist g f) = π g := by
  have h1 : π (if g.activeGesture = ActiveGesture.GESTURE_PINCH
      then ClampCamera (pinchUpdate dist g f) else g) = π g := by
    split_ifs
    · exact (ClampCamera_proj π hπ _).trans (pinchUpdate_proj π hπ dist g f)
    · rfl
  unfold HandleCameraInput
  dsimp only
  split_ifs with h2 h3 h3
  · exact (ClampCamera_proj π hπ _).trans ((hπ _ _).trans (by rw [if_pos h2] at h1; exact h1))
  · rw [if_pos h2] at h1; exact h1
  · exact (ClampCamera_proj π hπ _).trans (hπ g _)
  · rfl

theorem HandleCameraInput_zoom (dist : Vector2 → Vector2 → ℚ) (g : Game) (f : Frame) :
    (HandleCameraInput dist g f).camera.zoom =
      if g.activeGesture = ActiveGesture.GESTURE_PINCH then (pinchUpdate dist g f).camera.zoom
      else g.camera.zoom := by
  unfold HandleCameraInput
  dsimp only
  split_ifs <;> rfl

theorem zoomInRange_HandleCameraInput (dist : Vector2 → Vector2 → ℚ) (g : Game) (f : Frame)
    (h : zoomInRange g) : zoomInRange (HandleCameraInput dist g f) := by
  have hmin : (HandleCameraInput dist g f).minZoom = g.minZoom :=
    HandleCameraInput_proj Game.minZoom (fun _ _ => rfl) dist g f
  have hmax : (HandleCameraInput dist g f).maxZoom = g.maxZoom :=
    HandleCameraInput_proj Game.maxZoom (fun _ _ => rfl) dist g f
  unfold zoomInRange at h ⊢
  rw [hmin, hmax, HandleCameraInput_zoom, pinchUpdate_zoom]
  split_ifs
  · exact Clamp_bounds (h.1.trans h.2)
  · exact h
  · exact h

/-! ### Fields the handlers leave alone -/

theorem handleTouchStart_proj {α : Type} (π : Game → α) (hg : GestureBlind π)
    (dist : Vector2 → Vector2 → ℚ) (g : Game) (f : Frame) :
    π (handleTouchStart dist g f) = π g := by
  unfold handleTouchStart
  dsimp only
  split_ifs
  · exact hg g _ _ _ _ _ _ _ _ _ _
  · exact hg g _ _ _ _ _ _ _ _ _ _
  · rfl

theorem heldMotion_proj {α : Type} (π : Game → α) (hg : GestureBlind π) (hc : CameraBlind π)
    (dist : Vector2 → Vector2 → ℚ) (g : Game) (f : Frame) :
    π (heldMotion dist g f) = π g := by
  unfold heldMotion
  dsimp only
  rw [HandleCameraInput_proj π hc]
  split_ifs <;> exact hg g _ _ _ _ _ _ _ _ _ _

theorem tapCell_proj {α : Type} (π : Game → α) (hl : BoardBlind π) (hs : PhaseBlind π)
    (g : Game) (row col : Int) (draws : List Nat) (g' : Game)
    (h : tapCell g row col draws = some g') : π g' = π g := by
  have hb : ∀ (g : Game) (b : Board) (n : Int),
      π { g with board := b, revealedCount := n } = π g := fun g b n => hl g b n _ _
  unfold tapCell at h
  split_ifs at h with h1 h2
  · simp only [Option.bind_eq_some] at h
    obtain ⟨g1, hp, hr⟩ := h
    rw [RevealCell_proj π hb hs _ _ _ _ hr,
      PlaceMines_proj π (fun g b => hl g b _ _ _) { g with firstClick := false } _ _ _ _ hp]
    exact hl g _ _ _ _
  · exact RevealCell_proj π hb hs _ _ _ _ h
  · simp only [Option.some.injEq] at h; rw [← h]

theorem longPressDetect_proj {α : Type} (π : Game → α) (hg : GestureBlind π)
    (hl : BoardBlind π) (g : Game) : π (longPressDetect g).1 = π g := by
  unfold longPressDetect
  dsimp only
  split_ifs
  · exact (ToggleFlag_proj π (fun g b n => hl g b _ n _) _ _ _).trans (hg g _ _ _ _ _ _ _ _ _ _)
  · exact hg g _ _ _ _ _ _ _ _ _ _
  · rfl

theorem handleTouchHeld_proj {α : Type} (π : Game → α) (hg : GestureBlind π)
    (hc : CameraBlind π) (hl : BoardBlind π)
    (dist : Vector2 → Vector2 → ℚ) (g : Game) (f : Frame) :
    π (handleTouchHeld dist g f).1 = π g := by
  unfold handleTouchHeld
  split_ifs
  · exact (longPressDetect_proj π hg hl _).trans (heldMotion_proj π hg hc dist g f)
  · rfl

theorem tapAction_proj {α : Type} (π : Game → α) (hl : BoardBlind π) (hs : PhaseBlind π)
    (g : Game) (f : Frame) (p : Game × List Event) (h : tapAction g f = some p) :
    π p.1 = π g := by
  unfold tapAction at h
  dsimp only at h
  split_ifs at h
  · simp only [Option.some.injEq] at h; rw [← h]; exact hs g _
  · simp only [Option.map_eq_some'] at h
    obtain ⟨g1, h1, rfl⟩ := h
    exact tapCell_proj π hl hs _ _ _ _ _ h1

theorem handleTouchReleased_proj {α : Type} (π : Game → α) (hg : GestureBlind π)
    (hl : BoardBlind π) (hs : PhaseBlind π)
    (g : Game) (f : Frame) (p : Game × List Event) (h : handleTouchReleased g f = some p) :
    π p.1 = π g := by
  unfold handleTouchReleased at h
  dsimp only at h
  split_ifs at h
  · simp only [Option.map_eq_some'] at h
    obtain ⟨q, hq, rfl⟩ := h
    exact (hg q.1 _ _ _ _ _ _ _ _ _ _).trans (tapAction_proj π hl hs g f q hq)
  · simp only [Option.map_some', Option.some.injEq] at h
    rw [← h]
    exact hg g _ _ _ _ _ _ _ _ _ _
  · simp only [Option.some.injEq] at h; rw [← h]

theorem HandlePlayingInput_split (dist : Vector2 → Vector2 → ℚ) (g : Game) (f : Frame)
    (g' : Game) (ev : List Event) (h : HandlePlayingInput dist g f = some (g', ev)) :
    ∃ ev2, handleTouchReleased (handleTouchHeld dist (handleTouchStart dist g f) f).1 f
        = some (g', ev2) ∧
      ev = (handleTouchHeld dist (handleTouchStart dist g f) f).2 ++ ev2 := by
  unfold HandlePlayingInput at h
  dsimp only at h
  simp only [Option.map_eq_some'] at h
  obtain ⟨p, hp, he⟩ := h
  simp only [Prod.mk.injEq] at he
  exact ⟨p.2, by rw [hp, ← he.1], he.2.symm⟩

/-- What a frame of `HandlePlayingInput` leaves alone: every function of the
game that reads neither gesture fields nor the camera nor the game logic. -/
theorem HandlePlayingInput_proj {α : Type} (π : Game → α) (hg : GestureBlind π)
    (hc : CameraBlind π) (hl : BoardBlind π) (hs : PhaseBlind π)
    (dist : Vector2 → Vector2 → ℚ) (g : Game) (f : Frame)
    (g' : Game) (ev : List Event) (h : HandlePlayingInput dist g f = some (g', ev)) :
    π g' = π g := by
  obtain ⟨ev2, h2, -⟩ := HandlePlayingInput_split dist g f g' ev h
  rw [handleTouchReleased_proj π hg hl hs _ f _ h2, handleTouchHeld_proj π hg hc hl,
    handleTouchStart_proj π hg]

theorem zoom_GestureBlind : GestureBlind (fun g => g.camera.zoom) := fun _ _ _ _ _ _ _ _ _ _ _ => rfl
theorem zoom_BoardBlind : BoardBlind (fun g => g.camera.zoom) := fun _ _ _ _ _ => rfl
theorem zoom_PhaseBlind : PhaseBlind (fun g => g.camera.zoom) := fun _ _ => rfl
theorem minZoom_GestureBlind : GestureBlind Game.minZoom := fun _ _ _ _ _ _ _ _ _ _ _ => rfl
theorem minZoom_BoardBlind : BoardBlind Game.minZoom := fun _ _ _ _ _ => rfl
theorem minZoom_PhaseBlind : PhaseBlind Game.minZoom := fun _ _ => rfl
theorem minZoom_CameraBlind : CameraBlind Game.minZoom := fun _ _ => rfl
theorem maxZoom_GestureBlind : GestureBlind Game.maxZoom := fun _ _ _ _ _ _ _ _ _ _ _ => rfl
theorem maxZoom_BoardBlind : BoardBlind Game.maxZoom := fun _ _ _ _ _ => rfl
theorem maxZoom_PhaseBlind : PhaseBlind Game.maxZoom := fun _ _ => rfl
theorem maxZoom_CameraBlind : CameraBlind Game.maxZoom := fun _ _ => rfl

theorem zoomInRange_handleTouchStart (dist : Vector2 → Vector2 → ℚ) (g : Game) (f : Frame)
    (h : zoomInRange g) : zoomInRange (handleTouchStart dist g f) :=
  zoomInRange_congr (handleTouchStart_proj (fun g => g.camera.zoom) zoom_GestureBlind dist g f)
    (handleTouchStart_proj Game.minZoom minZoom_GestureBlind dist g f)
    (handleTouchStart_proj Game.maxZoom maxZoom_GestureBlind dist g f) h

theorem zoomInRange_heldMotion (dist : Vector2 → Vector2 → ℚ) (g : Game) (f : Frame)
    (h : zoomInRange g) : zoomInRange (heldMotion dist g f) := by
  unfold heldMotion
  dsimp only
  apply zoomInRange_HandleCameraInput
  split_ifs <;> exact h

theorem zoomInRange_longPressDetect (g : Game) (h : zoomInRange g) :
    zoomInRange (longPressDetect g).1 :=
  zoomInRange_congr (longPressDetect_proj (fun g => g.camera.zoom) zoom_GestureBlind zoom_BoardBlind g)
    (longPressDetect_proj Game.minZoom minZoom_GestureBlind minZoom_BoardBlind g)
    (longPressDetect_proj Game.maxZoom maxZoom_GestureBlind maxZoom_BoardBlind g) h

theorem zoomInRange_handleTouchHeld (dist : Vector2 → Vector2 → ℚ) (g : Game) (f : Frame)
    (h : zoomInRange g) : zoomInRange (handleTouchHeld dist g f).1 := by
  unfold handleTouchHeld
  split_ifs
  · exact zoomInRange_longPressDetect _ (zoomInRange_heldMotion dist g f h)
  · exact h

theorem zoomInRange_handleTouchReleased (g : Game) (f : Frame) (p : Game × List Event)
    (hp : handleTouchReleased g f = some p) (h : zoomInRange g) : zoomInRange p.1 :=
  zoomInRange_congr
    (handleTouchReleased_proj (fun g => g.camera.zoom) zoom_GestureBlind zoom_BoardBlind
      zoom_PhaseBlind g f p hp)
    (handleTouchReleased_proj Game.minZoom minZoom_GestureBlind minZoom_BoardBlind
      minZoom_PhaseBlind g f p hp)
    (handleTouchReleased_proj Game.maxZoom maxZoom_GestureBlind maxZoom_BoardBlind
      maxZoom_PhaseBlind g f p hp) h

theorem zoomInRange_HandlePlayingInput (dist : Vector2 → Vector2 → ℚ) (g : Game) (f : Frame)
    (g' : Game) (ev : List Event) (hp : HandlePlayingInput dist g f = some (g', ev))
    (h : zoomInRange g) : zoomInRange g' := by
  obtain ⟨ev2, h2, -⟩ := HandlePlayingInput_split dist g f g' ev hp
  exact zoomInRange_handleTouchReleased _ f _ h2
    (zoomInRange_handleTouchHeld dist _ f (zoomInRange_handleTouchStart dist g f h))

theorem zoomInRange_HandleMenuInput (g : Game) (f : Frame) (h : zoomInRange g) :
    zoomInRange (HandleMenuInput g f) := by
  unfold HandleMenuInput
  dsimp only
  split_ifs <;> first | exact h | exact zoomInRange_InitBoard _ _ _ _

theorem zoomInRange_updateScreen (g : Game) (f : Frame) (h : zoomInRange g) :
    zoomInRange (updateScreen g f) := by
  unfold updateScreen
  dsimp only
  split_ifs <;> first | exact h | exact zoomInRange_InitCamera _

theorem zoomInRange_Update (dist : Vector2 → Vector2 → ℚ) (g : Game) (f : Frame)
    (g' : Game) (ev : List Event) (hp : Update dist g f = some (g', ev))
    (h : zoomInRange g) : zoomInRange g' := by
  have h1 := zoomInRange_updateScreen g f h
  unfold Update at hp
  dsimp only at hp
  split at hp
  · simp only [Option.some.injEq, Prod.mk.injEq] at hp
    rw [← hp.1]; exact zoomInRange_HandleMenuInput _ f h1
  · exact zoomInRange_HandlePlayingInput dist _ f g' ev hp h1
  · simp only [Option.some.injEq, Prod.mk.injEq] at hp
    rw [← hp.1]; unfold HandleGameOverInput; split_ifs <;> exact h1
  · simp only [Option.some.injEq, Prod.mk.injEq] at hp
    rw [← hp.1]; unfold HandleGameOverInput; split_ifs <;> exact h1

theorem zoomInRange_runUpdates (dist : Vector2 → Vector2 → ℚ) (fs : List Frame) (g : Game)
    (g' : Game) (ev : List Event) (hp : runUpdates dist g fs = some (g', ev))
    (h : zoomInRange g) : zoomInRange g' := by
  induction fs generalizing g ev with
  | nil =>
    simp only [runUpdates, Option.some.injEq, Prod.mk.injEq] at hp
    rw [← hp.1]; exact h
  | cons f fs ih =>
    simp only [runUpdates, Option.bind_eq_some, Option.map_eq_some', Prod.mk.injEq] at hp
    obtain ⟨p, hp1, q, hq, hq1, -⟩ := hp
    subst hq1
    exact ih p.1 q.2 hq (zoomInRange_Update dist g f p.1 p.2 hp1 h)

/-- C15: `InitCamera` gives `minZoom = 1 ≤ maxZoom = max (90 / cellSize) 1`
(for every `cellSize`, in particular for `cellSize > 0`) and zoom 1.  A
pinch update, that is `HandleCameraInput` during a pinch with two contacts
and `pinchStartDist > 1`, sets `camera.zoom` to the requested zoom
`pinchStartZoom * (currentDist / pinchStartDist)` clamped to
`[minZoom, maxZoom]`: a request below `minZoom` lands on `minZoom`, a request
above `maxZoom` lands on `maxZoom`, a request in between is taken as it is.
In every state reached from a state after `InitCamera` by frames of `Update`,
`minZoom ≤ camera.zoom ≤ maxZoom`.  Stated over exact arithmetic, for every
distance function. -/
theorem zoom_clamped (dist : Vector2 → Vector2 → ℚ) :
    (∀ g : Game, (InitCamera g).minZoom = 1 ∧
      (InitCamera g).maxZoom = max (90 / g.cellSize) 1 ∧
      (InitCamera g).minZoom ≤ (InitCamera g).maxZoom ∧ (InitCamera g).camera.zoom = 1) ∧
    (∀ (g : Game) (f : Frame), g.activeGesture = ActiveGesture.GESTURE_PINCH →
      f.touchCount ≥ 2 → g.pinchStartDist > 1 → g.minZoom ≤ g.maxZoom →
      (HandleCameraInput dist g f).camera.zoom =
          Clamp (g.pinchStartZoom * (dist f.touch0 f.touch1 / g.pinchStartDist))
            g.minZoom g.maxZoom ∧
        (g.pinchStartZoom * (dist f.touch0 f.touch1 / g.pinchStartDist) < g.minZoom →
          (HandleCameraInput dist g f).camera.zoom = g.minZoom) ∧
        (g.pinchStartZoom * (dist f.touch0 f.touch1 / g.pinchStartDist) > g.maxZoom →
          (HandleCameraInput dist g f).camera.zoom = g.maxZoom) ∧
        (g.minZoom ≤ g.pinchStartZoom * (dist f.touch0 f.touch1 / g.pinchStartDist) →
          g.pinchStartZoom * (dist f.touch0 f.touch1 / g.pinchStartDist) ≤ g.maxZoom →
          (HandleCameraInput dist g f).camera.zoom =
            g.pinchStartZoom * (dist f.touch0 f.touch1 / g.pinchStartDist)) ∧
        (HandleCameraInput dist g f).minZoom = g.minZoom ∧
        (HandleCameraInput dist g f).maxZoom = g.maxZoom) ∧
    (∀ (g : Game) (fs : List Frame) (g' : Game) (ev : List Event),
      runUpdates dist (InitCamera g) fs = some (g', ev) →
      g'.minZoom ≤ g'.camera.zoom ∧ g'.camera.zoom ≤ g'.maxZoom) := by
  refine ⟨fun g => ⟨rfl, rfl, le_max_right _ _, rfl⟩, ?_, ?_⟩
  · intro g f hpinch htc hpsd hle
    have hz : (HandleCameraInput dist g f).camera.zoom =
        Clamp (g.pinchStartZoom * (dist f.touch0 f.touch1 / g.pinchStartDist))
          g.minZoom g.maxZoom := by
      rw [HandleCameraInput_zoom, if_pos hpinch, pinchUpdate_zoom, if_pos ⟨htc, hpsd⟩]
    refine ⟨hz, fun h => ?_, fun h => ?_, fun h1 h2 => ?_,
      HandleCameraInput_proj Game.minZoom minZoom_CameraBlind dist g f,
      HandleCameraInput_proj Game.maxZoom maxZoom_CameraBlind dist g f⟩
    · rw [hz]; exact Clamp_of_lt hle h
    · rw [hz]; exact Clamp_of_gt hle h
    · rw [hz]; exact Clamp_of_mem h1 h2
  · intro g fs g' ev h
    exact zoomInRange_runUpdates dist fs _ g' ev h (zoomInRange_InitCamera g)

theorem zoom_clamped_witness :
    pinchGame.activeGesture = ActiveGesture.GESTURE_PINCH ∧ pinchFrame.touchCount ≥ 2 ∧
      pinchGame.pinchStartDist > 1 ∧ pinchGame.minZoom ≤ pinchGame.maxZoom ∧
      pinchGame.pinchStartZoom *
          (axisDist pinchFrame.touch0 pinchFrame.touch1 / pinchGame.pinchStartDist)
        > pinchGame.maxZoom ∧
      (HandleCameraInput axisDist pinchGame pinchFrame).camera.zoom = 3 := by
  have hmax : pinchGame.maxZoom = 3 := by
    norm_num [pinchGame, hardPhoneGame, InitBoard, InitCamera, CalculateLayout]
  have hmin : pinchGame.minZoom = 1 := rfl
  have hle : pinchGame.minZoom ≤ pinchGame.maxZoom := by rw [hmax, hmin]; norm_num
  have hreq : pinchGame.pinchStartZoom *
      (axisDist pinchFrame.touch0 pinchFrame.touch1 / pinchGame.pinchStartDist) = 5 := by
    norm_num [pinchGame, pinchFrame, axisDist]
  have hgt : pinchGame.pinchStartZoom *
      (axisDist pinchFrame.touch0 pinchFrame.touch1 / pinchGame.pinchStartDist)
        > pinchGame.maxZoom := by rw [hreq, hmax]; norm_num
  have hpsd : pinchGame.pinchStartDist > 1 := by norm_num [pinchGame]
  have h := ((zoom_clamped axisDist).2.1 pinchGame pinchFrame rfl (by decide) hpsd hle).2.2.1 hgt
  exact ⟨rfl, by decide, hpsd, hle, hgt, h.trans hmax⟩

/-! ### The phase -/

theorem state_GestureBlind : GestureBlind Game.state := fun _ _ _ _ _ _ _ _ _ _ _ => rfl
theorem state_CameraBlind : CameraBlind Game.state := fun _ _ => rfl
theorem state_BoardBlind : BoardBlind Game.state := fun _ _ _ _ _ => rfl

theorem handleTouchHeld_state (dist : Vector2 → Vector2 → ℚ) (g : Game) (f : Frame) :
    (handleTouchHeld dist g f).1.state = g.state :=
  handleTouchHeld_proj Game.state state_GestureBlind state_CameraBlind state_BoardBlind dist g f

/-- The held block records no tap. -/
theorem longPressDetect_events (g : Game) :
    (longPressDetect g).2 = [] ∨ (longPressDetect g).2 = [Event.longPress] ∨
      ∃ row col, (longPressDetect g).2 = [Event.longPress, Event.toggleFlag row col] := by
  unfold longPressDetect
  dsimp only
  split_ifs
  · exact Or.inr (Or.inr ⟨_, _, rfl⟩)
  · exact Or.inr (Or.inl rfl)
  · exact Or.inl rfl

theorem handleTouchHeld_events (dist : Vector2 → Vector2 → ℚ) (g : Game) (f : Frame) :
    (handleTouchHeld dist g f).2 = [] ∨ (handleTouchHeld dist g f).2 = [Event.longPress] ∨
      ∃ row col, (handleTouchHeld dist g f).2 = [Event.longPress, Event.toggleFlag row col] := by
  unfold handleTouchHeld
  split_ifs
  · exact longPressDetect_events _
  · exact Or.inl rfl

/-- The tap branch: a hit of the restart button goes to the menu and records
`restart`; any other tap keeps the phase or ends the game. -/
theorem tapAction_state (g : Game) (f : Frame) (p : Game × List Event)
    (h : tapAction g f = some p) :
    (p.1.state = GameState.MENU ∧ p.2 = [Event.tap, Event.restart]) ∨
      (Event.restart ∉ p.2 ∧
        (p.1.state = g.state ∨ p.1.state = GameState.WON ∨ p.1.state = GameState.LOST)) := by
  unfold tapAction at h
  dsimp only at h
  split_ifs at h
  · simp only [Option.some.injEq] at h; rw [← h]; exact Or.inl ⟨rfl, rfl⟩
  · simp only [Option.map_eq_some'] at h
    obtain ⟨g1, h1, rfl⟩ := h
    refine Or.inr ⟨?_, tapCell_state _ _ _ _ _ h1⟩
    unfold tapEvents
    split_ifs <;> simp

theorem handleTouchReleased_state (g : Game) (f : Frame) (p : Game × List Event)
    (h : handleTouchReleased g f = some p) :
    (p.1.state = GameState.MENU ∧ p.2 = [Event.tap, Event.restart]) ∨
      (Event.restart ∉ p.2 ∧
        (p.1.state = g.state ∨ p.1.state = GameState.WON ∨ p.1.state = GameState.LOST)) := by
  unfold handleTouchReleased at h
  dsimp only at h
  split_ifs at h
  · simp only [Option.map_eq_some'] at h
    obtain ⟨q, hq, rfl⟩ := h
    exact tapAction_state g f q hq
  · simp only [Option.map_some', Option.some.injEq] at h
    rw [← h]
    exact Or.inr ⟨by simp, Or.inl rfl⟩
  · simp only [Option.some.injEq] at h; rw [← h]
    exact Or.inr ⟨by simp, Or.inl rfl⟩

theorem HandlePlayingInput_state (dist : Vector2 → Vector2 → ℚ) (g : Game) (f : Frame)
    (g' : Game) (ev : List Event) (h : HandlePlayingInput dist g f = some (g', ev)) :
    (g'.state = GameState.MENU ∧ Event.restart ∈ ev) ∨
      (Event.restart ∉ ev ∧
        (g'.state = g.state ∨ g'.state = GameState.WON ∨ g'.state = GameState.LOST)) := by
  obtain ⟨ev2, h2, rfl⟩ := HandlePlayingInput_split dist g f g' ev h
  have hs : (handleTouchHeld dist (handleTouchStart dist g f) f).1.state = g.state :=
    (handleTouchHeld_state dist _ f).trans
      (handleTouchStart_proj Game.state state_GestureBlind dist g f)
  have hev := handleTouchHeld_events dist (handleTouchStart dist g f) f
  have hno : Event.restart ∉ (handleTouchHeld dist (handleTouchStart dist g f) f).2 := by
    rcases hev with h | h | ⟨r, c, h⟩ <;> rw [h] <;> simp
  rcases handleTouchReleased_state _ f _ h2 with ⟨h3, h4⟩ | ⟨h3, h4⟩
  · exact Or.inl ⟨h3, by simp only [List.mem_append]; right; simp only at h4; rw [h4]; simp⟩
  · refine Or.inr ⟨?_, ?_⟩
    · simp only [List.mem_append, not_or]; exact ⟨hno, h3⟩
    · rw [← hs]; exact h4

theorem updateScreen_state (g : Game) (f : Frame) : (updateScreen g f).state = g.state := by
  unfold updateScreen
  dsimp only
  split_ifs <;> rfl

theorem HandleMenuInput_state (g : Game) (f : Frame) :
    (HandleMenuInput g f = g ∧ (HandleMenuInput g f).state = g.state) ∨
      (f.tapGesture = true ∧ (HandleMenuInput g f).state = GameState.PLAYING ∧
        ∃ g0 r c m, (r, c, m) ∈ presets ∧ HandleMenuInput g f = InitBoard g0 r c m) := by
  unfold HandleMenuInput
  dsimp only
  by_cases ht : f.tapGesture = true
  · rw [if_pos ht]
    split_ifs
    all_goals first
      | exact Or.inl ⟨rfl, rfl⟩
      | exact Or.inr ⟨ht, rfl, _, 16, 30, 99, by simp [presets], rfl⟩
      | exact Or.inr ⟨ht, rfl, _, 16, 16, 40, by simp [presets], rfl⟩
      | exact Or.inr ⟨ht, rfl, _, 9, 9, 10, by simp [presets], rfl⟩
  · rw [if_neg ht]
    exact Or.inl ⟨rfl, rfl⟩

theorem Update_gameOver (dist : Vector2 → Vector2 → ℚ) (g : Game) (f : Frame)
    (h : g.state = GameState.WON ∨ g.state = GameState.LOST) :
    Update dist g f = some (HandleGameOverInput (updateScreen g f) f, []) := by
  have hs := updateScreen_state g f
  unfold Update
  dsimp only
  split
  · rename_i h1; rw [hs] at h1; rcases h with h | h <;> rw [h] at h1 <;> cases h1
  · rename_i h1; rw [hs] at h1; rcases h with h | h <;> rw [h] at h1 <;> cases h1
  · rfl
  · rfl

theorem Update_menu (dist : Vector2 → Vector2 → ℚ) (g : Game) (f : Frame)
    (h : g.state = GameState.MENU) :
    Update dist g f = some (HandleMenuInput (updateScreen g f) f, []) := by
  have hs := updateScreen_state g f
  unfold Update
  dsimp only
  split
  · rfl
  · rename_i h1; rw [hs, h] at h1; cases h1
  · rename_i h1; rw [hs, h] at h1; cases h1
  · rename_i h1; rw [hs, h] at h1; cases h1

theorem Update_playing (dist : Vector2 → Vector2 → ℚ) (g : Game) (f : Frame)
    (h : g.state = GameState.PLAYING) :
    Update dist g f =
      HandlePlayingInput dist
        { updateScreen g f with timer := (updateScreen g f).timer + f.frameTime } f := by
  have hs := updateScreen_state g f
  unfold Update
  dsimp only
  split
  · rename_i h1; rw [hs, h] at h1; cases h1
  · rfl
  · rename_i h1; rw [hs, h] at h1; cases h1
  · rename_i h1; rw [hs, h] at h1; cases h1

theorem HandleGameOverInput_state (g : Game) (f : Frame) :
    (HandleGameOverInput g f).state = if f.tapGesture = true then GameState.MENU else g.state := by
  unfold HandleGameOverInput
  split_ifs <;> rfl

/-- C17: one step of `Update` changes the phase only along the transitions
`MENU -> PLAYING` (a tap is reported and the step ends in the result of an
`InitBoard` with one of the three presets, that is a difficulty button is
hit), `PLAYING -> WON`, `PLAYING -> LOST`, `PLAYING -> MENU` (the tap branch hit
the restart button: the event `restart`), `WON -> MENU` and `LOST -> MENU`
(a tap is reported).  Outside the phase `PLAYING` the step always has a
result. -/
theorem Update_phase (dist : Vector2 → Vector2 → ℚ) (g : Game) (f : Frame) :
    (g.state ≠ GameState.PLAYING → ∃ g', Update dist g f = some (g', [])) ∧
    ∀ (g' : Game) (ev : List Event), Update dist g f = some (g', ev) →
      (g.state = GameState.MENU →
        g'.state = GameState.MENU ∨
          (g'.state = GameState.PLAYING ∧ f.tapGesture = true ∧
            ∃ g0 r c m, (r, c, m) ∈ presets ∧ g' = InitBoard g0 r c m)) ∧
      (g.state = GameState.PLAYING →
        g'.state = GameState.PLAYING ∨ g'.state = GameState.WON ∨ g'.state = GameState.LOST ∨
          (g'.state = GameState.MENU ∧ Event.restart ∈ ev)) ∧
      (g.state = GameState.WON →
        g'.state = GameState.WON ∨ (g'.state = GameState.MENU ∧ f.tapGesture = true)) ∧
      (g.state = GameState.LOST →
        g'.state = GameState.LOST ∨ (g'.state = GameState.MENU ∧ f.tapGesture = true)) := by
  have hover : ∀ (g' : Game) (ev : List Event), Update dist g f = some (g', ev) →
      (g.state = GameState.WON ∨ g.state = GameState.LOST) →
      g'.state = g.state ∨ (g'.state = GameState.MENU ∧ f.tapGesture = true) := by
    intro g' ev h hs
    rw [Update_gameOver dist g f hs] at h
    simp only [Option.some.injEq, Prod.mk.injEq] at h
    rw [← h.1, HandleGameOverInput_state]
    by_cases ht : f.tapGesture = true
    · rw [if_pos ht]; exact Or.inr ⟨rfl, ht⟩
    · rw [if_neg ht]; exact Or.inl (updateScreen_state g f)
  refine ⟨fun hne => ?_, fun g' ev h => ⟨fun hs => ?_, fun hs => ?_, fun hs => ?_, fun hs => ?_⟩⟩
  · cases hs : g.state with
    | MENU => exact ⟨_, Update_menu dist g f hs⟩
    | PLAYING => exact absurd hs hne
    | WON => exact ⟨_, Update_gameOver dist g f (Or.inl hs)⟩
    | LOST => exact ⟨_, Update_gameOver dist g f (Or.inr hs)⟩
  · rw [Update_menu dist g f hs] at h
    simp only [Option.some.injEq, Prod.mk.injEq] at h
    rw [← h.1]
    rcases HandleMenuInput_state (updateScreen g f) f with ⟨-, h2⟩ | ⟨ht, h2, h3⟩
    · left; rw [h2, updateScreen_state, hs]
    · right; exact ⟨h2, ht, h3⟩
  · rw [Update_playing dist g f hs] at h
    rcases HandlePlayingInput_state dist _ f g' ev h with ⟨h1, h2⟩ | ⟨-, h1 | h1 | h1⟩
    · exact Or.inr (Or.inr (Or.inr ⟨h1, h2⟩))
    · left; rw [h1]; exact (updateScreen_state g f).trans hs
    · exact Or.inr (Or.inl h1)
    · exact Or.inr (Or.inr (Or.inl h1))
  · have := hover g' ev h (Or.inl hs)
    rw [hs] at this; exact this
  · have := hover g' ev h (Or.inr hs)
    rw [hs] at this; exact this

set_option maxRecDepth 100000 in
theorem Update_phase_witness :
    lostGame.state = GameState.LOST ∧
      ∃ g', Update axisDist lostGame tapFrame = some (g', []) ∧ g'.state = GameState.MENU := by
  have hs : lostGame.state = GameState.LOST := by decide
  have hu := Update_gameOver axisDist lostGame tapFrame (Or.inr hs)
  refine ⟨hs, _, hu, ?_⟩
  rcases ((Update_phase axisDist lostGame tapFrame).2 _ _ hu).2.2.2 hs with h | h
  · rw [HandleGameOverInput_state] at h
    have ht : tapFrame.tapGesture = true := rfl
    rw [if_pos ht] at h
    cases h
  · exact h.1

/-! ### Gestures -/

theorem handleTouchStart_of_active (dist : Vector2 → Vector2 → ℚ) (g : Game) (f : Frame)
    (h : g.activeGesture ≠ ActiveGesture.TOUCH_NONE) : handleTouchStart dist g f = g := by
  unfold handleTouchStart
  rw [if_neg (fun hc => h hc.2)]

theorem handleTouchStart_of_released (dist : Vector2 → Vector2 → ℚ) (g : Game) (f : Frame)
    (h : f.touchCount = 0) : handleTouchStart dist g f = g := by
  unfold handleTouchStart
  rw [if_neg (fun hc => by have := hc.1; omega)]

theorem heldMotion_activeGesture (dist : Vector2 → Vector2 → ℚ) (g : Game) (f : Frame) :
    (heldMotion dist g f).activeGesture =
      if g.activeGesture ≠ ActiveGesture.GESTURE_PINCH ∧ f.touchCount ≥ 2 then
        ActiveGesture.GESTURE_PINCH
      else if g.gestureDecided = false ∧ f.touchCount = 1 ∧
          dist f.touch0 g.touchStart > 12 ∧ g.camera.zoom > g.minZoom + 1 / 100 then
        ActiveGesture.GESTURE_PAN
      else g.activeGesture := by
  unfold heldMotion
  dsimp only
  rw [HandleCameraInput_proj Game.activeGesture (fun _ _ => rfl)]
  by_cases h1 : g.activeGesture ≠ ActiveGesture.GESTURE_PINCH ∧ f.touchCount ≥ 2
  · rw [if_pos h1, if_pos h1]
    rw [if_neg (by simp)]
  · rw [if_neg h1, if_neg h1]
    by_cases h2 : g.gestureDecided = false ∧ f.touchCount = 1 ∧
        dist f.touch0 g.touchStart > 12 ∧ g.camera.zoom > g.minZoom + 1 / 100
    · rw [if_pos h2, if_pos h2]
    · rw [if_neg h2, if_neg h2]

theorem heldMotion_gestureDecided (dist : Vector2 → Vector2 → ℚ) (g : Game) (f : Frame) :
    (heldMotion dist g f).gestureDecided =
      if g.activeGesture ≠ ActiveGesture.GESTURE_PINCH ∧ f.touchCount ≥ 2 then true
      else if g.gestureDecided = false ∧ f.touchCount = 1 ∧
          dist f.touch0 g.touchStart > 12 ∧ g.camera.zoom > g.minZoom + 1 / 100 then true
      else g.gestureDecided := by
  unfold heldMotion
  dsimp only
  rw [HandleCameraInput_proj Game.gestureDecided (fun _ _ => rfl)]
  by_cases h1 : g.activeGesture ≠ ActiveGesture.GESTURE_PINCH ∧ f.touchCount ≥ 2
  · rw [if_pos h1, if_pos h1]
    rw [if_neg (by simp)]
  · rw [if_neg h1, if_neg h1]
    by_cases h2 : g.gestureDecided = false ∧ f.touchCount = 1 ∧
        dist f.touch0 g.touchStart > 12 ∧ g.camera.zoom > g.minZoom + 1 / 100
    · rw [if_pos h2, if_pos h2]
    · rw [if_neg h2, if_neg h2]

theorem longPressDetect_activeGesture (g : Game) :
    (longPressDetect g).1.activeGesture = g.activeGesture := by
  unfold longPressDetect
  dsimp only
  split_ifs
  · exact ToggleFlag_proj Game.activeGesture (fun _ _ _ => rfl) _ _ _
  · rfl
  · rfl

theorem longPressDetect_of_not_hold (g : Game)
    (h : g.activeGesture ≠ ActiveGesture.TAP_OR_HOLD) : longPressDetect g = (g, []) := by
  unfold longPressDetect
  rw [if_neg (fun hc => h hc.1)]

theorem longPressDetect_gestureDecided (g : Game) (h : g.gestureDecided = true) :
    (longPressDetect g).1.gestureDecided = true := by
  unfold longPressDetect
  dsimp only
  split_ifs
  · exact ToggleFlag_proj Game.gestureDecided (fun _ _ _ => rfl) _ _ _
  · rfl
  · exact h

theorem handleTouchReleased_of_touch (g : Game) (f : Frame) (h : f.touchCount ≥ 1) :
    handleTouchReleased g f = some (g, []) := by
  unfold handleTouchReleased
  rw [if_neg (fun hc => by have := hc.1; omega)]

/-- A frame with a contact during a pan or a pinch: only the first part of
the held block acts, and nothing is recorded. -/
theorem HandlePlayingInput_decided (dist : Vector2 → Vector2 → ℚ) (g : Game) (f : Frame)
    (hg : g.activeGesture = ActiveGesture.GESTURE_PAN ∨
      g.activeGesture = ActiveGesture.GESTURE_PINCH)
    (hf : f.touchCount ≥ 1) :
    HandlePlayingInput dist g f = some (heldMotion dist g f, []) := by
  have hne : g.activeGesture ≠ ActiveGesture.TOUCH_NONE := by
    rcases hg with h | h <;> rw [h] <;> decide
  have hh : (heldMotion dist g f).activeGesture ≠ ActiveGesture.TAP_OR_HOLD := by
    rw [heldMotion_activeGesture]
    split_ifs
    · decide
    · decide
    · rcases hg with h | h <;> rw [h] <;> decide
  unfold HandlePlayingInput
  dsimp only
  rw [handleTouchStart_of_active dist g f hne]
  unfold handleTouchHeld
  rw [if_pos ⟨by omega, hne⟩, longPressDetect_of_not_hold _ hh,
    handleTouchReleased_of_touch _ f hf]
  rfl

theorem HandlePlayingInput_pinch (dist : Vector2 → Vector2 → ℚ) (g : Game) (f : Frame)
    (g' : Game) (ev : List Event) (h : HandlePlayingInput dist g f = some (g', ev))
    (hg : g.activeGesture = ActiveGesture.GESTURE_PINCH) (hd : g.gestureDecided = true)
    (hf : f.touchCount ≥ 1) :
    g'.activeGesture = ActiveGesture.GESTURE_PINCH ∧ g'.gestureDecided = true ∧ ev = [] := by
  rw [HandlePlayingInput_decided dist g f (Or.inr hg) hf] at h
  simp only [Option.some.injEq, Prod.mk.injEq] at h
  obtain ⟨rfl, rfl⟩ := h
  refine ⟨?_, ?_, rfl⟩
  · rw [heldMotion_activeGesture, if_neg (fun hc => hc.1 hg), if_neg (fun hc => by simp [hd] at hc)]
    exact hg
  · rw [heldMotion_gestureDecided, if_neg (fun hc => hc.1 hg),
      if_neg (fun hc => by simp [hd] at hc)]
    exact hd

theorem HandlePlayingInput_pan (dist : Vector2 → Vector2 → ℚ) (g : Game) (f : Frame)
    (g' : Game) (ev : List Event) (h : HandlePlayingInput dist g f = some (g', ev))
    (hg : g.activeGesture = ActiveGesture.GESTURE_PAN) (hd : g.gestureDecided = true)
    (hf : f.touchCount ≥ 1) :
    (g'.activeGesture = ActiveGesture.GESTURE_PAN ∨
        g'.activeGesture = ActiveGesture.GESTURE_PINCH) ∧
      g'.gestureDecided = true ∧ ev = [] := by
  rw [HandlePlayingInput_decided dist g f (Or.inl hg) hf] at h
  simp only [Option.some.injEq, Prod.mk.injEq] at h
  obtain ⟨rfl, rfl⟩ := h
  refine ⟨?_, ?_, rfl⟩
  · rw [heldMotion_activeGesture]
    split_ifs with h1 h2
    · exact Or.inr rfl
    · exact Or.inl rfl
    · exact Or.inl hg
  · rw [heldMotion_gestureDecided]
    split_ifs with h1 h2
    · rfl
    · rfl
    · exact hd

theorem gestureLatched_handleTouchStart (dist : Vector2 → Vector2 → ℚ) (g : Game) (f : Frame)
    (h : gestureLatched g) : gestureLatched (handleTouchStart dist g f) := by
  unfold handleTouchStart
  dsimp only
  split_ifs
  · intro _; rfl
  · intro hc; rcases hc with hc | hc <;> cases hc
  · exact h

theorem gestureLatched_heldMotion (dist : Vector2 → Vector2 → ℚ) (g : Game) (f : Frame)
    (h : gestureLatched g) : gestureLatched (heldMotion dist g f) := by
  unfold gestureLatched at h ⊢
  rw [heldMotion_activeGesture, heldMotion_gestureDecided]
  split_ifs
  · intro _; rfl
  · intro _; rfl
  · exact h

theorem gestureLatched_longPressDetect (g : Game) (h : gestureLatched g) :
    gestureLatched (longPressDetect g).1 := by
  unfold gestureLatched at h ⊢
  rw [longPressDetect_activeGesture]
  intro hc
  exact longPressDetect_gestureDecided g (h hc)

theorem gestureLatched_handleTouchReleased (g : Game) (f : Frame) (p : Game × List Event)
    (hp : handleTouchReleased g f = some p) (h : gestureLatched g) : gestureLatched p.1 := by
  unfold handleTouchReleased at hp
  dsimp only at hp
  split_ifs at hp
  · simp only [Option.map_eq_some'] at hp
    obtain ⟨q, -, rfl⟩ := hp
    intro hc; rcases hc with hc | hc <;> cases hc
  · simp only [Option.map_some', Option.some.injEq] at hp
    rw [← hp]
    intro hc; rcases hc with hc | hc <;> cases hc
  · simp only [Option.some.injEq] at hp; rw [← hp]; exact h

theorem gestureLatched_HandlePlayingInput (dist : Vector2 → Vector2 → ℚ) (g : Game) (f : Frame)
    (g' : Game) (ev : List Event) (hp : HandlePlayingInput dist g f = some (g', ev))
    (h : gestureLatched g) : gestureLatched g' := by
  obtain ⟨ev2, h2, -⟩ := HandlePlayingInput_split dist g f g' ev hp
  refine gestureLatched_handleTouchReleased _ f _ h2 ?_
  unfold handleTouchHeld
  split_ifs
  · exact gestureLatched_longPressDetect _
      (gestureLatched_heldMotion dist _ f (gestureLatched_handleTouchStart dist g f h))
  · exact gestureLatched_handleTouchStart dist g f h

theorem runFrames_cons (dist : Vector2 → Vector2 → ℚ) (g : Game) (f : Frame) (fs : List Frame)
    (g' : Game) (ev : List Event) (h : runFrames dist g (f :: fs) = some (g', ev)) :
    ∃ g1 ev1 ev2, HandlePlayingInput dist g f = some (g1, ev1) ∧
      runFrames dist g1 fs = some (g', ev2) ∧ ev = ev1 ++ ev2 := by
  simp only [runFrames, Option.bind_eq_some, Option.map_eq_some', Prod.mk.injEq] at h
  obtain ⟨p, hp, q, hq, rfl, rfl⟩ := h
  exact ⟨p.1, p.2, q.2, hp, hq, rfl⟩

theorem gestureLatched_runFrames (dist : Vector2 → Vector2 → ℚ) (fs : List Frame) (g : Game)
    (g' : Game) (ev : List Event) (hp : runFrames dist g fs = some (g', ev))
    (h : gestureLatched g) : gestureLatched g' := by
  induction fs generalizing g ev with
  | nil =>
    simp only [runFrames, Option.some.injEq, Prod.mk.injEq] at hp
    rw [← hp.1]; exact h
  | cons f fs ih =>
    obtain ⟨g1, ev1, ev2, h1, h2, -⟩ := runFrames_cons dist g f fs g' ev hp
    exact ih g1 ev2 h2 (gestureLatched_HandlePlayingInput dist g f g1 ev1 h1 h)

theorem runFrames_pinch (dist : Vector2 → Vector2 → ℚ) (fs : List Frame) (g : Game)
    (g' : Game) (ev : List Event) (hp : runFrames dist g fs = some (g', ev))
    (hg : g.activeGesture = ActiveGesture.GESTURE_PINCH) (hd : g.gestureDecided = true)
    (hf : ∀ f ∈ fs, f.touchCount ≥ 1) :
    g'.activeGesture = ActiveGesture.GESTURE_PINCH ∧ ev = [] := by
  induction fs generalizing g ev with
  | nil =>
    simp only [runFrames, Option.some.injEq, Prod.mk.injEq] at hp
    rw [← hp.1, ← hp.2]; exact ⟨hg, rfl⟩
  | cons f fs ih =>
    obtain ⟨g1, ev1, ev2, h1, h2, rfl⟩ := runFrames_cons dist g f fs g' ev hp
    obtain ⟨a, b, c⟩ := HandlePlayingInput_pinch dist g f g1 ev1 h1 hg hd
      (hf f (List.mem_cons_self _ _))
    obtain ⟨d, e⟩ := ih g1 ev2 h2 a b (fun x hx => hf x (List.mem_cons_of_mem _ hx))
    exact ⟨d, by rw [c, e]; rfl⟩

theorem runFrames_pan (dist : Vector2 → Vector2 → ℚ) (fs : List Frame) (g : Game)
    (g' : Game) (ev : List Event) (hp : runFrames dist g fs = some (g', ev))
    (hg : g.activeGesture = ActiveGesture.GESTURE_PAN ∨
      g.activeGesture = ActiveGesture.GESTURE_PINCH) (hd : g.gestureDecided = true)
    (hf : ∀ f ∈ fs, f.touchCount ≥ 1) :
    (g'.activeGesture = ActiveGesture.GESTURE_PAN ∨
        g'.activeGesture = ActiveGesture.GESTURE_PINCH) ∧ ev = [] := by
  induction fs generalizing g ev with
  | nil =>
    simp only [runFrames, Option.some.injEq, Prod.mk.injEq] at hp
    rw [← hp.1, ← hp.2]; exact ⟨hg, rfl⟩
  | cons f fs ih =>
    obtain ⟨g1, ev1, ev2, h1, h2, rfl⟩ := runFrames_cons dist g f fs g' ev hp
    have hstep : (g1.activeGesture = ActiveGesture.GESTURE_PAN ∨
        g1.activeGesture = ActiveGesture.GESTURE_PINCH) ∧ g1.gestureDecided = true ∧ ev1 = [] := by
      rcases hg with hg | hg
      · exact HandlePlayingInput_pan dist g f g1 ev1 h1 hg hd (hf f (List.mem_cons_self _ _))
      · obtain ⟨a, b, c⟩ := HandlePlayingInput_pinch dist g f g1 ev1 h1 hg hd
          (hf f (List.mem_cons_self _ _))
        exact ⟨Or.inr a, b, c⟩
    obtain ⟨a, b, c⟩ := hstep
    obtain ⟨d, e⟩ := ih g1 ev2 h2 a b (fun x hx => hf x (List.mem_cons_of_mem _ hx))
    exact ⟨d, by rw [c, e]; rfl⟩

/-- The release frame of a pan or a pinch: the gesture state is reset and
nothing else happens. -/
theorem HandlePlayingInput_release_decided (dist : Vector2 → Vector2 → ℚ) (g : Game) (f : Frame)
    (hg : g.activeGesture = ActiveGesture.GESTURE_PAN ∨
      g.activeGesture = ActiveGesture.GESTURE_PINCH)
    (hf : f.touchCount = 0) :
    HandlePlayingInput dist g f =
      some ({ g with
              activeGesture := ActiveGesture.TOUCH_NONE
              gestureDecided := false
              longPressTriggered := false }, []) := by
  have hne : g.activeGesture ≠ ActiveGesture.TOUCH_NONE := by
    rcases hg with h | h <;> rw [h] <;> decide
  have hnt : g.activeGesture ≠ ActiveGesture.TAP_OR_HOLD := by
    rcases hg with h | h <;> rw [h] <;> decide
  unfold HandlePlayingInput
  dsimp only
  rw [handleTouchStart_of_released dist g f hf]
  unfold handleTouchHeld
  rw [if_neg (fun hc => by have := hc.1; omega)]
  unfold handleTouchReleased
  dsimp only
  rw [if_pos ⟨hf, hne⟩, if_neg (fun hc => hnt hc.1)]
  rfl

/-- An undecided single contact that is more than 12 px from its start while
the camera is zoomed in: the frame turns the gesture into a pan. -/
theorem HandlePlayingInput_to_pan (dist : Vector2 → Vector2 → ℚ) (g : Game) (f : Frame)
    (hg : g.activeGesture = ActiveGesture.TAP_OR_HOLD) (hd : g.gestureDecided = false)
    (hf : f.touchCount = 1) (hm : dist f.touch0 g.touchStart > 12)
    (hz : g.camera.zoom > g.minZoom + 1 / 100) :
    HandlePlayingInput dist g f = some (heldMotion dist g f, []) ∧
      (heldMotion dist g f).activeGesture = ActiveGesture.GESTURE_PAN ∧
      (heldMotion dist g f).gestureDecided = true := by
  have hne : g.activeGesture ≠ ActiveGesture.TOUCH_NONE := by rw [hg]; decide
  have ha : (heldMotion dist g f).activeGesture = ActiveGesture.GESTURE_PAN := by
    rw [heldMotion_activeGesture, if_neg (fun hc => by have := hc.2; omega),
      if_pos ⟨hd, hf, hm, hz⟩]
  have hdd : (heldMotion dist g f).gestureDecided = true := by
    rw [heldMotion_gestureDecided, if_neg (fun hc => by have := hc.2; omega),
      if_pos ⟨hd, hf, hm, hz⟩]
  refine ⟨?_, ha, hdd⟩
  unfold HandlePlayingInput
  dsimp only
  rw [handleTouchStart_of_active dist g f hne]
  unfold handleTouchHeld
  rw [if_pos ⟨by omega, hne⟩, longPressDetect_of_not_hold _ (by rw [ha]; decide),
    handleTouchReleased_of_touch _ f (by omega)]
  rfl

theorem runFrames_decided_total (dist : Vector2 → Vector2 → ℚ) (fs : List Frame) (g : Game)
    (hg : g.activeGesture = ActiveGesture.GESTURE_PAN ∨
      g.activeGesture = ActiveGesture.GESTURE_PINCH)
    (hf : ∀ f ∈ fs, f.touchCount ≥ 1) :
    ∃ g', runFrames dist g fs = some (g', []) := by
  induction fs generalizing g with
  | nil => exact ⟨g, rfl⟩
  | cons f fs ih =>
    have h1 := HandlePlayingInput_decided dist g f hg (hf f (List.mem_cons_self _ _))
    have h2 : (heldMotion dist g f).activeGesture = ActiveGesture.GESTURE_PAN ∨
        (heldMotion dist g f).activeGesture = ActiveGesture.GESTURE_PINCH := by
      rw [heldMotion_activeGesture]
      split_ifs
      · exact Or.inr rfl
      · exact Or.inl rfl
      · exact hg
    obtain ⟨g', h3⟩ := ih (heldMotion dist g f) h2 (fun x hx => hf x (List.mem_cons_of_mem _ hx))
    refine ⟨g', ?_⟩
    simp only [runFrames, h1, Option.some_bind, h3, Option.map_some', List.append_nil]

/-! ### Taps -/

theorem handleTouchStart_activeGesture (dist : Vector2 → Vector2 → ℚ) (g : Game) (f : Frame)
    (hf : f.touchCount ≥ 1) :
    (handleTouchStart dist g f).activeGesture ≠ ActiveGesture.TOUCH_NONE := by
  unfold handleTouchStart
  dsimp only
  split_ifs with h1 h2
  · intro hc; cases hc
  · intro hc; cases hc
  · intro hc; exact h1 ⟨by omega, hc⟩

theorem handleTouchStart_idem (dist : Vector2 → Vector2 → ℚ) (g : Game) (f : Frame)
    (hf : f.touchCount ≥ 1) :
    handleTouchStart dist (handleTouchStart dist g f) f = handleTouchStart dist g f :=
  handleTouchStart_of_active dist _ f (handleTouchStart_activeGesture dist g f hf)

/-- A frame with a contact: the start block, then the held block; the release
block does not run. -/
theorem HandlePlayingInput_touch (dist : Vector2 → Vector2 → ℚ) (g : Game) (f : Frame)
    (hf : f.touchCount ≥ 1) :
    HandlePlayingInput dist g f =
      some (longPressDetect (heldMotion dist (handleTouchStart dist g f) f)) := by
  unfold HandlePlayingInput
  dsimp only
  unfold handleTouchHeld
  rw [if_pos ⟨by omega, handleTouchStart_activeGesture dist g f hf⟩,
    handleTouchReleased_of_touch _ f hf]
  simp

/-- A frame without a contact: only the release block can run. -/
theorem HandlePlayingInput_release (dist : Vector2 → Vector2 → ℚ) (g : Game) (f : Frame)
    (hf : f.touchCount = 0) : HandlePlayingInput dist g f = handleTouchReleased g f := by
  unfold HandlePlayingInput
  dsimp only
  rw [handleTouchStart_of_released dist g f hf]
  unfold handleTouchHeld
  rw [if_neg (fun hc => by have := hc.1; omega)]
  cases handleTouchReleased g f <;> simp

theorem longPressDetect_fields (g : Game) :
    (longPressDetect g).1.touchStart = g.touchStart ∧
      (longPressDetect g).1.gestureMoveDist = g.gestureMoveDist := by
  unfold longPressDetect
  dsimp only
  split_ifs
  · exact ⟨ToggleFlag_proj Game.touchStart (fun _ _ _ => rfl) _ _ _,
      ToggleFlag_proj Game.gestureMoveDist (fun _ _ _ => rfl) _ _ _⟩
  · exact ⟨rfl, rfl⟩
  · exact ⟨rfl, rfl⟩

theorem heldMotion_fields (dist : Vector2 → Vector2 → ℚ) (g : Game) (f : Frame) :
    (heldMotion dist g f).touchStart = g.touchStart ∧
      (heldMotion dist g f).gestureMoveDist = dist f.touch0 g.touchStart := by
  unfold heldMotion
  dsimp only
  rw [HandleCameraInput_proj Game.touchStart (fun _ _ => rfl),
    HandleCameraInput_proj Game.gestureMoveDist (fun _ _ => rfl)]
  split_ifs <;> exact ⟨rfl, rfl⟩

theorem tapAction_cases (g : Game) (f : Frame) :
    (restartHit g ∧
        tapAction g f = some ({ g with state := GameState.MENU }, [Event.tap, Event.restart])) ∨
      (¬ restartHit g ∧
        tapAction g f =
          (tapCell g (startCell g).1 (startCell g).2 f.draws).map
            (fun g1 => (g1, Event.tap :: tapEvents g (startCell g).1 (startCell g).2))) := by
  unfold tapAction restartHit
  dsimp only
  split_ifs with h
  · exact Or.inl ⟨h, rfl⟩
  · exact Or.inr ⟨h, rfl⟩

theorem handleTouchReleased_cases (g : Game) (f : Frame) (hf : f.touchCount = 0)
    (ha : g.activeGesture ≠ ActiveGesture.TOUCH_NONE) :
    (tapCondition g ∧
        handleTouchReleased g f =
          (tapAction g f).map
            (fun p =>
              ({ p.1 with
                  activeGesture := ActiveGesture.TOUCH_NONE
                  gestureDecided := false
                  longPressTriggered := false }, p.2))) ∨
      (¬ tapCondition g ∧
        handleTouchReleased g f =
          some ({ g with
                  activeGesture := ActiveGesture.TOUCH_NONE
                  gestureDecided := false
                  longPressTriggered := false }, [])) := by
  unfold handleTouchReleased tapCondition
  dsimp only
  rw [if_pos ⟨hf, ha⟩]
  split_ifs with h
  · exact Or.inl ⟨h, rfl⟩
  · exact Or.inr ⟨h, rfl⟩

/-- The pan test of the held block. -/
theorem heldMotion_hold (dist : Vector2 → Vector2 → ℚ) (g : Game) (f : Frame)
    (hg : g.activeGesture = ActiveGesture.TAP_OR_HOLD) (hf : f.touchCount = 1)
    (hnp : ¬ (g.gestureDecided = false ∧ f.touchCount = 1 ∧
      dist f.touch0 g.touchStart > 12 ∧ g.camera.zoom > g.minZoom + 1 / 100)) :
    heldMotion dist g f =
      { g with
        touchTimer := g.touchTimer + f.frameTime
        gestureMoveDist := dist f.touch0 g.touchStart } := by
  have h1 : ¬ (g.activeGesture ≠ ActiveGesture.GESTURE_PINCH ∧ f.touchCount ≥ 2) :=
    fun hc => by have := hc.2; omega
  have h2 : ¬ g.activeGesture = ActiveGesture.GESTURE_PINCH := by rw [hg]; decide
  have h3 : ¬ g.activeGesture = ActiveGesture.GESTURE_PAN := by rw [hg]; decide
  unfold heldMotion
  dsimp only
  rw [if_neg h1]
  dsimp only
  rw [if_neg hnp]
  unfold HandleCameraInput
  dsimp only
  rw [if_neg h2]
  dsimp only
  rw [if_neg h3]

theorem longPressDetect_early (g : Game) (h : g.touchTimer < 1 / 2) :
    longPressDetect g = (g, []) := by
  unfold longPressDetect
  rw [if_neg (fun hc => by have := hc.2.2.1; linarith)]

/-- A frame of a single contact that is neither a pan nor a long press: the
frame only updates the timer and the distance from the start position. -/
theorem HandlePlayingInput_quiet (dist : Vector2 → Vector2 → ℚ) (g : Game) (f : Frame)
    (hf : f.touchCount = 1)
    (hs : (handleTouchStart dist g f).activeGesture = ActiveGesture.TAP_OR_HOLD)
    (hz : (handleTouchStart dist g f).camera.zoom ≤ (handleTouchStart dist g f).minZoom + 1 / 100)
    (ht : (handleTouchStart dist g f).touchTimer + f.frameTime < 1 / 2) :
    HandlePlayingInput dist g f =
      some ({ handleTouchStart dist g f with
              touchTimer := (handleTouchStart dist g f).touchTimer + f.frameTime
              gestureMoveDist := dist f.touch0 (handleTouchStart dist g f).touchStart }, []) := by
  rw [HandlePlayingInput_touch dist g f (by omega),
    heldMotion_hold dist _ f hs hf (fun hc => by have := hc.2.2.2; linarith),
    longPressDetect_early _ ht]

/-- The first frame of a quiet single contact. -/
theorem HandlePlayingInput_quiet_start (dist : Vector2 → Vector2 → ℚ) (g : Game) (f : Frame)
    (hf : f.touchCount = 1) (hg : g.activeGesture = ActiveGesture.TOUCH_NONE)
    (hz : g.camera.zoom ≤ g.minZoom + 1 / 100) (ht : f.frameTime < 1 / 2) :
    HandlePlayingInput dist g f =
      some ({ g with
              touchStart := f.touch0
              touchTimer := 0 + f.frameTime
              longPressTriggered := false
              gestureDecided := false
              gestureMoveDist := dist f.touch0 f.touch0
              activeGesture := ActiveGesture.TAP_OR_HOLD }, []) := by
  have e0 : handleTouchStart dist g f =
      { g with
        touchStart := f.touch0
        touchTimer := 0
        longPressTriggered := false
        gestureDecided := false
        gestureMoveDist := 0
        activeGesture := ActiveGesture.TAP_OR_HOLD } := by
    unfold handleTouchStart
    dsimp only
    rw [if_pos ⟨by omega, hg⟩, if_neg (by omega)]
  have s1 := HandlePlayingInput_quiet dist g f hf (by rw [e0]) (by rw [e0]; exact hz)
    (by rw [e0]; dsimp only; linarith)
  rw [e0] at s1
  exact s1

/-- The release of a tap on the restart button. -/
theorem HandlePlayingInput_restart (dist : Vector2 → Vector2 → ℚ) (g : Game) (f : Frame)
    (hf : f.touchCount = 0) (hc : tapCondition g) (hh : restartHit g) :
    HandlePlayingInput dist g f =
      some ({ g with
              state := GameState.MENU
              activeGesture := ActiveGesture.TOUCH_NONE
              gestureDecided := false
              longPressTriggered := false }, [Event.tap, Event.restart]) := by
  rw [HandlePlayingInput_release dist g f hf]
  rcases handleTouchReleased_cases g f hf (by rw [hc.1]; decide) with ⟨-, he⟩ | ⟨hn, -⟩
  · rcases tapAction_cases g f with ⟨-, ht⟩ | ⟨hn, -⟩
    · rw [he, ht]; rfl
    · exact absurd hh hn
  · exact absurd hc hn

theorem phoneGame_fields :
    phoneGame.activeGesture = ActiveGesture.TOUCH_NONE ∧ phoneGame.camera.zoom = 1 ∧
      phoneGame.minZoom = 1 ∧ phoneGame.headerHeight = 160 ∧ phoneGame.screenWidth = 900 ∧
      phoneGame.state = GameState.PLAYING :=
  ⟨rfl, rfl, rfl, rfl, rfl, rfl⟩

theorem runFrames_append (dist : Vector2 → Vector2 → ℚ) (a b : List Frame) (g : Game) :
    runFrames dist g (a ++ b) =
      (runFrames dist g a).bind
        (fun p => (runFrames dist p.1 b).map (fun q => (q.1, p.2 ++ q.2))) := by
  induction a generalizing g with
  | nil =>
    simp only [List.nil_append, runFrames, Option.some_bind, List.nil_append]
    cases runFrames dist g b <;> simp
  | cons f a ih =>
    simp only [List.cons_append, runFrames]
    cases h : HandlePlayingInput dist g f with
    | none => simp
    | some p =>
      simp only [Option.some_bind]
      have e := ih p.1
      simp only [List.append_eq] at e ⊢
      rw [e]
      cases h2 : runFrames dist p.1 a with
      | none => simp
      | some q =>
        simp only [Option.some_bind, Option.map_some']
        cases runFrames dist q.1 b <;> simp [List.append_assoc]

theorem longPressDetect_fire (g : Game) (hc : longPressCondition g) :
    (longPressDetect g).2 = longPressEvents g ∧ pressedPhase (longPressDetect g).1 := by
  unfold longPressCondition at hc
  unfold longPressDetect longPressEvents pressedPhase
  rw [if_pos hc]
  dsimp only
  split_ifs with h1 h2 h2
  · exact ⟨rfl,
      (ToggleFlag_proj Game.activeGesture (fun _ _ _ => rfl) _ _ _).trans hc.1,
      ToggleFlag_proj Game.longPressTriggered (fun _ _ _ => rfl) _ _ _,
      ToggleFlag_proj Game.gestureDecided (fun _ _ _ => rfl) _ _ _⟩
  · exact absurd h1 h2
  · exact absurd h2 h1
  · exact ⟨rfl, hc.1, rfl, rfl⟩

theorem longPressDetect_skip (g : Game) (hn : ¬ longPressCondition g) :
    longPressDetect g = (g, []) := by
  unfold longPressCondition at hn
  unfold longPressDetect
  rw [if_neg hn]

/-- A frame of a single contact in the hold phase: the frame stays in the hold
phase, or the long press fires, or the contact becomes a pan. -/
theorem HandlePlayingInput_hold (dist : Vector2 → Vector2 → ℚ) (g : Game) (f : Frame)
    (hg : holdPhase g) (hf : f.touchCount = 1) :
    ∃ g' ev, HandlePlayingInput dist g f = some (g', ev) ∧
      ((holdPhase g' ∧ ev = [] ∧ longPressEvents g' = longPressEvents g ∧
          ¬ longPressCondition (heldMotion dist g f)) ∨
        (pressedPhase g' ∧ ev = longPressEvents g) ∨
        (g'.activeGesture = ActiveGesture.GESTURE_PAN ∧ ev = [] ∧
          (heldMotion dist g f).activeGesture = ActiveGesture.GESTURE_PAN)) := by
  have hne : g.activeGesture ≠ ActiveGesture.TOUCH_NONE := by rw [hg.1]; decide
  have e0 := HandlePlayingInput_touch dist g f (by omega)
  rw [handleTouchStart_of_active dist g f hne] at e0
  by_cases hp : g.gestureDecided = false ∧ f.touchCount = 1 ∧
      dist f.touch0 g.touchStart > 12 ∧ g.camera.zoom > g.minZoom + 1 / 100
  · have ha : (heldMotion dist g f).activeGesture = ActiveGesture.GESTURE_PAN := by
      rw [heldMotion_activeGesture, if_neg (fun hc => by have := hc.2; omega), if_pos hp]
    rw [longPressDetect_of_not_hold _ (by rw [ha]; decide)] at e0
    exact ⟨_, _, e0, Or.inr (Or.inr ⟨ha, rfl, ha⟩)⟩
  · have hm := heldMotion_hold dist g f hg.1 hf hp
    by_cases hc : longPressCondition (heldMotion dist g f)
    · obtain ⟨h1, h2⟩ := longPressDetect_fire _ hc
      refine ⟨(longPressDetect (heldMotion dist g f)).1, (longPressDetect (heldMotion dist g f)).2,
        e0, Or.inr (Or.inl ⟨h2, ?_⟩)⟩
      rw [h1, hm]
      rfl
    · rw [longPressDetect_skip _ hc] at e0
      refine ⟨_, _, e0, Or.inl ⟨?_, rfl, ?_, hc⟩⟩
      · rw [hm]; exact hg
      · rw [hm]; rfl

/-- A frame of a single contact after the long press: nothing happens. -/
theorem HandlePlayingInput_pressed (dist : Vector2 → Vector2 → ℚ) (g : Game) (f : Frame)
    (hg : pressedPhase g) (hf : f.touchCount = 1) :
    ∃ g', HandlePlayingInput dist g f = some (g', []) ∧ pressedPhase g' ∧
      ¬ (heldMotion dist g f).longPressTriggered = false := by
  have hne : g.activeGesture ≠ ActiveGesture.TOUCH_NONE := by rw [hg.1]; decide
  have e0 := HandlePlayingInput_touch dist g f (by omega)
  rw [handleTouchStart_of_active dist g f hne] at e0
  have hm := heldMotion_hold dist g f hg.1 hf (fun hc => by rw [hg.2.2] at hc; cases hc.1)
  have hl : (heldMotion dist g f).longPressTriggered = true := by rw [hm]; exact hg.2.1
  rw [longPressDetect_skip _ (fun hc => by have h2 := hc.2.1; rw [hl] at h2; cases h2)] at e0
  refine ⟨_, e0, ?_, by rw [hl]; decide⟩
  rw [hm]; exact hg

theorem runFrames_pressed (dist : Vector2 → Vector2 → ℚ) (fs : List Frame) (g : Game)
    (hg : pressedPhase g) (hf : ∀ f ∈ fs, f.touchCount = 1) :
    ∃ g', runFrames dist g fs = some (g', []) ∧ pressedPhase g' := by
  induction fs generalizing g with
  | nil => exact ⟨g, rfl, hg⟩
  | cons f fs ih =>
    obtain ⟨g1, h1, h2, -⟩ := HandlePlayingInput_pressed dist g f hg (hf f (List.mem_cons_self _ _))
    obtain ⟨g', h3, h4⟩ := ih g1 h2 (fun x hx => hf x (List.mem_cons_of_mem _ hx))
    refine ⟨g', ?_, h4⟩
    simp only [runFrames, h1, Option.some_bind, h3, Option.map_some', List.append_nil]

/-- A pan with a single contact stays a pan. -/
theorem runFrames_pan_single (dist : Vector2 → Vector2 → ℚ) (fs : List Frame) (g : Game)
    (hg : g.activeGesture = ActiveGesture.GESTURE_PAN) (hf : ∀ f ∈ fs, f.touchCount = 1) :
    ∃ g', runFrames dist g fs = some (g', []) ∧ g'.activeGesture = ActiveGesture.GESTURE_PAN := by
  induction fs generalizing g with
  | nil => exact ⟨g, rfl, hg⟩
  | cons f fs ih =>
    have hf1 := hf f (List.mem_cons_self _ _)
    have h1 := HandlePlayingInput_decided dist g f (Or.inl hg) (by omega)
    have h2 : (heldMotion dist g f).activeGesture = ActiveGesture.GESTURE_PAN := by
      rw [heldMotion_activeGesture, if_neg (fun hc => by have := hc.2; omega)]
      split_ifs
      · rfl
      · exact hg
    obtain ⟨g', h3, h4⟩ := ih _ h2 (fun x hx => hf x (List.mem_cons_of_mem _ hx))
    refine ⟨g', ?_, h4⟩
    simp only [runFrames, h1, Option.some_bind, h3, Option.map_some', List.append_nil]

/-- The frames of a single contact from the hold phase on. -/
theorem runFrames_hold (dist : Vector2 → Vector2 → ℚ) (fs : List Frame) (g : Game)
    (hg : holdPhase g) (hf : ∀ f ∈ fs, f.touchCount = 1) :
    ∃ g' ev, runFrames dist g fs = some (g', ev) ∧
      ((holdPhase g' ∧ ev = [] ∧ longPressEvents g' = longPressEvents g) ∨
        (pressedPhase g' ∧ ev = longPressEvents g) ∨
        (g'.activeGesture = ActiveGesture.GESTURE_PAN ∧ ev = [])) := by
  induction fs generalizing g with
  | nil => exact ⟨g, [], rfl, Or.inl ⟨hg, rfl, rfl⟩⟩
  | cons f fs ih =>
    have hfs : ∀ x ∈ fs, x.touchCount = 1 := fun x hx => hf x (List.mem_cons_of_mem _ hx)
    obtain ⟨g1, ev1, h1, hc⟩ := HandlePlayingInput_hold dist g f hg (hf f (List.mem_cons_self _ _))
    rcases hc with ⟨ha, rfl, he, -⟩ | ⟨hb, rfl⟩ | ⟨hp, rfl, -⟩
    · obtain ⟨g', ev, h2, hc2⟩ := ih g1 ha hfs
      refine ⟨g', ev, ?_, ?_⟩
      · simp only [runFrames, h1, Option.some_bind, h2, Option.map_some', List.nil_append]
      · rw [he] at hc2; exact hc2
    · obtain ⟨g', h2, h3⟩ := runFrames_pressed dist fs g1 hb hfs
      refine ⟨g', longPressEvents g, ?_, Or.inr (Or.inl ⟨h3, rfl⟩)⟩
      simp only [runFrames, h1, Option.some_bind, h2, Option.map_some', List.append_nil]
    · obtain ⟨g', h2, h3⟩ := runFrames_pan_single dist fs g1 hp hfs
      refine ⟨g', [], ?_, Or.inr (Or.inr ⟨h3, rfl⟩)⟩
      simp only [runFrames, h1, Option.some_bind, h2, Option.map_some', List.append_nil]

theorem heldMotion_timer (dist : Vector2 → Vector2 → ℚ) (g : Game) (f : Frame) :
    (heldMotion dist g f).touchTimer = g.touchTimer + f.frameTime ∧
      (heldMotion dist g f).longPressTriggered = g.longPressTriggered ∧
      (heldMotion dist g f).state = g.state := by
  unfold heldMotion
  dsimp only
  rw [HandleCameraInput_proj Game.touchTimer (fun _ _ => rfl),
    HandleCameraInput_proj Game.longPressTriggered (fun _ _ => rfl),
    HandleCameraInput_proj Game.state (fun _ _ => rfl)]
  split_ifs <;> exact ⟨rfl, rfl, rfl⟩

theorem longPressDetect_timer (g : Game) :
    (longPressDetect g).1.touchTimer = g.touchTimer ∧ (longPressDetect g).1.state = g.state := by
  unfold longPressDetect
  dsimp only
  split_ifs
  · exact ⟨ToggleFlag_proj Game.touchTimer (fun _ _ _ => rfl) _ _ _,
      ToggleFlag_proj Game.state (fun _ _ _ => rfl) _ _ _⟩
  · exact ⟨rfl, rfl⟩
  · exact ⟨rfl, rfl⟩

/-- What the frames of a contact that stays down keep: the start position and
the phase; the timer adds up the frame times. -/
theorem runFrames_touch_fields (dist : Vector2 → Vector2 → ℚ) (fs : List Frame) (g : Game)
    (g' : Game) (ev : List Event) (ha : g.activeGesture ≠ ActiveGesture.TOUCH_NONE)
    (hf : ∀ f ∈ fs, f.touchCount ≥ 1) (h : runFrames dist g fs = some (g', ev)) :
    g'.activeGesture ≠ ActiveGesture.TOUCH_NONE ∧ g'.touchStart = g.touchStart ∧
      g'.touchTimer = g.touchTimer + (fs.map Frame.frameTime).sum ∧ g'.state = g.state := by
  induction fs generalizing g ev with
  | nil =>
    simp only [runFrames, Option.some.injEq, Prod.mk.injEq] at h
    rw [← h.1]
    exact ⟨ha, rfl, by simp, rfl⟩
  | cons f fs ih =>
    obtain ⟨g1, ev1, ev2, h1, h2, -⟩ := runFrames_cons dist g f fs g' ev h
    rw [HandlePlayingInput_touch dist g f (hf f (List.mem_cons_self _ _)),
      handleTouchStart_of_active dist g f ha] at h1
    simp only [Option.some.injEq] at h1
    have e1 : g1 = (longPressDetect (heldMotion dist g f)).1 := by rw [h1]
    have a1 : g1.activeGesture ≠ ActiveGesture.TOUCH_NONE := by
      rw [e1, longPressDetect_activeGesture, heldMotion_activeGesture]
      split_ifs
      · intro hc; cases hc
      · intro hc; cases hc
      · exact ha
    obtain ⟨b1, b2, b3, b4⟩ := ih g1 ev2 a1 (fun x hx => hf x (List.mem_cons_of_mem _ hx)) h2
    refine ⟨b1, ?_, ?_, ?_⟩
    · rw [b2, e1, (longPressDetect_fields _).1, (heldMotion_fields dist g f).1]
    · rw [b3, e1, (longPressDetect_timer _).1, (heldMotion_timer dist g f).1]
      simp only [List.map_cons, List.sum_cons]
      ring
    · rw [b4, e1, (longPressDetect_timer _).2, (heldMotion_timer dist g f).2.2]

/-- The frame in which the long press condition holds, after frames of a
single contact that started in the hold phase: the long press has fired, in
this frame or before, and it is the only thing that has happened. -/
theorem runFrames_long_press (dist : Vector2 → Vector2 → ℚ) (gs : Game) (pre : List Frame)
    (f : Frame) (hg : holdPhase gs) (hpre : ∀ x ∈ pre, x.touchCount = 1)
    (hf : f.touchCount = 1) (g1 : Game) (ev1 : List Event)
    (h1 : runFrames dist gs pre = some (g1, ev1))
    (hold : (heldMotion dist g1 f).activeGesture = ActiveGesture.TAP_OR_HOLD)
    (htime : (heldMotion dist g1 f).touchTimer ≥ 1 / 2)
    (hdist : (heldMotion dist g1 f).gestureMoveDist < 15) :
    ∃ g2, runFrames dist gs (pre ++ [f]) = some (g2, longPressEvents gs) ∧ pressedPhase g2 := by
  obtain ⟨g1', ev1', h1', hc⟩ := runFrames_hold dist pre gs hg hpre
  rw [h1] at h1'
  simp only [Option.some.injEq, Prod.mk.injEq] at h1'
  obtain ⟨rfl, rfl⟩ := h1'
  rw [runFrames_append, h1]
  simp only [Option.some_bind, runFrames]
  rcases hc with ⟨ha, rfl, he⟩ | ⟨hb, rfl⟩ | ⟨hp, rfl⟩
  · obtain ⟨g2, ev2, h2, hc2⟩ := HandlePlayingInput_hold dist g1 f ha hf
    rcases hc2 with ⟨-, -, -, hn⟩ | ⟨hb, rfl⟩ | ⟨-, -, hpan⟩
    · exact absurd ⟨hold, by rw [(heldMotion_timer dist g1 f).2.1]; exact ha.2.1, htime, hdist⟩ hn
    · refine ⟨g2, ?_, hb⟩
      rw [h2, he]
      simp
    · rw [hpan] at hold; cases hold
  · obtain ⟨g2, h2, h3, -⟩ := HandlePlayingInput_pressed dist g1 f hb hf
    refine ⟨g2, ?_, h3⟩
    rw [h2]
    simp
  · have : (heldMotion dist g1 f).activeGesture = ActiveGesture.GESTURE_PAN := by
      rw [heldMotion_activeGesture, if_neg (fun hc => by have := hc.2; omega)]
      split_ifs
      · rfl
      · exact hp
    rw [this] at hold; cases hold

/-- The release after a long press only resets the gesture state. -/
theorem HandlePlayingInput_release_pressed (dist : Vector2 → Vector2 → ℚ) (g : Game) (r : Frame)
    (hg : pressedPhase g) (hr : r.touchCount = 0) :
    HandlePlayingInput dist g r =
      some ({ g with
              activeGesture := ActiveGesture.TOUCH_NONE
              gestureDecided := false
              longPressTriggered := false }, []) := by
  rw [HandlePlayingInput_release dist g r hr]
  rcases handleTouchReleased_cases g r hr (by rw [hg.1]; decide) with ⟨hc, -⟩ | ⟨-, he⟩
  · have h1 := hc.2.1
    rw [hg.2.1] at h1
    cases h1
  · exact he

theorem HandlePlayingInput_start_eq (dist : Vector2 → Vector2 → ℚ) (g : Game) (f : Frame)
    (hf : f.touchCount ≥ 1) :
    HandlePlayingInput dist (handleTouchStart dist g f) f = HandlePlayingInput dist g f := by
  rw [HandlePlayingInput_touch dist _ f hf, HandlePlayingInput_touch dist g f hf,
    handleTouchStart_idem dist g f hf]

theorem handleTouchStart_single (dist : Vector2 → Vector2 → ℚ) (g : Game) (f : Frame)
    (hg : g.activeGesture = ActiveGesture.TOUCH_NONE) (hf : f.touchCount = 1) :
    handleTouchStart dist g f =
      { g with
        touchStart := f.touch0
        touchTimer := 0
        longPressTriggered := false
        gestureDecided := false
        gestureMoveDist := 0
        activeGesture := ActiveGesture.TAP_OR_HOLD } := by
  unfold handleTouchStart
  dsimp only
  rw [if_pos ⟨by omega, hg⟩, if_neg (by omega)]

/-- The frames of a single contact up to its release, as consecutive frames of
`HandlePlayingInput` from an idle recogniser: if in the frame `f` the frame
times since the first frame add up to 0.5 s, the contact is less than 15 px
from the start position and the gesture is still `TAP_OR_HOLD`, then all that
has happened after the frames `pre`, `f` and `post` is one long press. -/
theorem runFrames_press_phase (dist : Vector2 → Vector2 → ℚ) (g0 : Game) (pre : List Frame)
    (f : Frame) (post : List Frame)
    (h0 : g0.activeGesture = ActiveGesture.TOUCH_NONE)
    (hpre : ∀ x ∈ pre, x.touchCount = 1) (hf : f.touchCount = 1)
    (hpost : ∀ x ∈ post, x.touchCount = 1)
    (g1 : Game) (ev1 : List Event) (h1 : runFrames dist g0 pre = some (g1, ev1))
    (hold : (heldMotion dist (handleTouchStart dist g1 f) f).activeGesture
      = ActiveGesture.TAP_OR_HOLD)
    (htime : ((pre ++ [f]).map Frame.frameTime).sum ≥ 1 / 2)
    (hdist : dist f.touch0 (pre.headD f).touch0 < 15) :
    ∃ g3, runFrames dist g0 (pre ++ f :: post)
        = some (g3, longPressEvents { g0 with touchStart := (pre.headD f).touch0 }) ∧
      pressedPhase g3 ∧ g3.state = g0.state := by
  have hf0 : (pre.headD f).touchCount = 1 := by
    cases pre with
    | nil => exact hf
    | cons a l => exact hpre a (List.mem_cons_self _ _)
  have hgs := handleTouchStart_single dist g0 (pre.headD f) h0 hf0
  have hhold : holdPhase (handleTouchStart dist g0 (pre.headD f)) := by
    rw [hgs]; exact ⟨rfl, rfl, rfl⟩
  have hact : (handleTouchStart dist g0 (pre.headD f)).activeGesture
      ≠ ActiveGesture.TOUCH_NONE := by rw [hhold.1]; decide
  -- the session, run from the state after the start block of its first frame
  have hrun : ∀ rest : List Frame,
      runFrames dist g0 (pre ++ f :: rest)
        = runFrames dist (handleTouchStart dist g0 (pre.headD f)) (pre ++ f :: rest) := by
    intro rest
    cases pre with
    | nil =>
      simp only [List.nil_append, runFrames, List.headD_nil,
        HandlePlayingInput_start_eq dist g0 f (by omega)]
    | cons a l =>
      have ha := hpre a (List.mem_cons_self _ _)
      simp only [List.cons_append, runFrames, List.headD_cons,
        HandlePlayingInput_start_eq dist g0 a (by omega)]
  obtain ⟨g1', ev1', h1', hgm⟩ : ∃ g1' ev1',
      runFrames dist (handleTouchStart dist g0 (pre.headD f)) pre = some (g1', ev1') ∧
        heldMotion dist (handleTouchStart dist g1 f) f = heldMotion dist g1' f := by
    cases pre with
    | nil =>
      simp only [runFrames, Option.some.injEq, Prod.mk.injEq] at h1
      refine ⟨_, _, rfl, ?_⟩
      rw [← h1.1]
      rfl
    | cons a l =>
      have ha := hpre a (List.mem_cons_self _ _)
      have e : runFrames dist (handleTouchStart dist g0 ((a :: l).headD f)) (a :: l)
          = runFrames dist g0 (a :: l) := by
        simp only [runFrames, List.headD_cons, HandlePlayingInput_start_eq dist g0 a (by omega)]
      refine ⟨g1, ev1, by rw [e, h1], ?_⟩
      have hfld := runFrames_touch_fields dist (a :: l) _ g1 ev1 hact
        (fun x hx => by have := hpre x hx; omega) (by rw [e, h1])
      rw [handleTouchStart_of_active dist g1 f hfld.1]
  rw [hgm] at hold
  have hfld := runFrames_touch_fields dist pre _ g1' ev1' hact
    (fun x hx => by have := hpre x hx; omega) h1'
  have htime2 : (heldMotion dist g1' f).touchTimer ≥ 1 / 2 := by
    rw [(heldMotion_timer dist g1' f).1, hfld.2.2.1, hgs]
    simp only [List.map_append, List.sum_append, List.map_cons, List.map_nil, List.sum_cons,
      List.sum_nil, add_zero] at htime
    simp only [zero_add]
    exact htime
  have hdist2 : (heldMotion dist g1' f).gestureMoveDist < 15 := by
    rw [(heldMotion_fields dist g1' f).2, hfld.2.1, hgs]
    exact hdist
  obtain ⟨g2, h2, hp2⟩ := runFrames_long_press dist _ pre f hhold hpre hf g1' ev1' h1'
    hold htime2 hdist2
  obtain ⟨g3, h3, hp3⟩ := runFrames_pressed dist post g2 hp2 hpost
  have hs2 := (runFrames_touch_fields dist (pre ++ [f]) _ g2 _ hact
    (fun x hx => by
      rcases List.mem_append.mp hx with hx | hx
      · have := hpre x hx; omega
      · rw [List.mem_singleton.mp hx]; omega) h2).2.2.2
  have hs3 := (runFrames_touch_fields dist post g2 g3 _ (by rw [hp2.1]; decide)
    (fun x hx => by have := hpost x hx; omega) h3).2.2.2
  have hev : longPressEvents (handleTouchStart dist g0 (pre.headD f))
      = longPressEvents { g0 with touchStart := (pre.headD f).touch0 } := by
    rw [hgs]; rfl
  have hlist : pre ++ f :: post = (pre ++ [f]) ++ post := by simp
  refine ⟨g3, ?_, hp3, by rw [hs3, hs2, hgs]⟩
  rw [hrun, hlist, runFrames_append, h2]
  simp only [Option.some_bind, h3, Option.map_some', List.append_nil, hev]

/-! ### The flag counter -/

theorem flaggedCells_congr (g g' : Game) (hr : g'.rows = g.rows) (hc : g'.cols = g.cols)
    (h : ∀ p ∈ cells g, (cellOf g' p).isFlagged = (cellOf g p).isFlagged) :
    flaggedCells g' = flaggedCells g := by
  have hcells : cells g' = cells g := by unfold cells; rw [hr, hc]
  unfold flaggedCells
  rw [hcells]
  apply Finset.filter_congr
  intro p hp
  rw [h p hp]

theorem FlagCountInv_congr {g g' : Game} (h : FlagCountInv g) (hwf : g'.WF)
    (hr : g'.rows = g.rows) (hc : g'.cols = g.cols) (hf : g'.flagCount = g.flagCount)
    (hcell : ∀ p ∈ cells g, (cellOf g' p).isFlagged = (cellOf g p).isFlagged) :
    FlagCountInv g' := by
  refine ⟨hwf, by rw [hr]; exact h.2.1, by rw [hc]; exact h.2.2.1, ?_⟩
  rw [hf, flaggedCells_congr g g' hr hc hcell]
  exact h.2.2.2

theorem FlagCountInv_bounds {g : Game} (h : FlagCountInv g) :
    0 ≤ g.flagCount ∧ g.flagCount ≤ g.rows * g.cols := by
  obtain ⟨-, hr, hc, hf⟩ := h
  rw [hf, ← card_cells_int g hr hc]
  refine ⟨Int.natCast_nonneg _, ?_⟩
  exact_mod_cast Finset.card_filter_le _ _

theorem FlagCountInv_InitBoard (g0 : Game) (r c m : Int) (hr : 0 ≤ r) (hc : 0 ≤ c) :
    FlagCountInv (InitBoard g0 r c m) := by
  refine ⟨InitBoard_WF _ _ _ _, hr, hc, ?_⟩
  have he : flaggedCells (InitBoard g0 r c m) = ∅ := by
    unfold flaggedCells
    apply Finset.filter_eq_empty_iff.mpr
    intro p _
    unfold cellOf
    rw [InitBoard_cellAt]
    decide
  rw [he]
  rfl

theorem FlagCountInv_sameLogic {g g' : Game} (h : FlagCountInv g) (hl : sameLogic g g') :
    FlagCountInv g' := by
  obtain ⟨hb, hr, hc, -, -, hf, -, -⟩ := hl
  refine FlagCountInv_congr h ?_ hr hc hf ?_
  · unfold Game.WF; rw [hb, hr, hc]; exact h.1
  · intro p _; unfold cellOf; rw [hb]

theorem FlagCountInv_ToggleFlag {g : Game} (h : FlagCountInv g) (row col : Int) :
    FlagCountInv (ToggleFlag g row col) := by
  rcases ToggleFlag_cases g row col with he | ⟨hv, -, he⟩
  · rw [he]; exact h
  · obtain ⟨hwf, hr, hc, hf⟩ := h
    have hv2 := (IsValidCell_iff g row col).mp hv
    have hmem : (row, col) ∈ cells g := (mem_cells g (row, col)).mpr hv
    have hcell : ∀ p ∈ cells g, cellOf (ToggleFlag g row col) p =
        if p = (row, col) then
          { cellAt g.board row col with isFlagged := !(cellAt g.board row col).isFlagged }
        else cellOf g p := by
      intro p hp
      have hp2 := (IsValidCell_iff g p.1 p.2).mp ((mem_cells g p).mp hp)
      unfold cellOf
      rw [he]
      dsimp only
      rw [cellAt_setCell hwf ⟨hv2.1, hv2.2.1⟩ ⟨hv2.2.2.1, hv2.2.2.2⟩ hp2.1 hp2.2.2.1]
      have e : (p.1 = row ∧ p.2 = col) ↔ p = (row, col) := by
        constructor
        · intro hh; exact Prod.ext hh.1 hh.2
        · intro hh; rw [hh]; exact ⟨rfl, rfl⟩
      by_cases hpp : p = (row, col)
      · rw [if_pos (e.mpr hpp), if_pos hpp]
      · rw [if_neg (fun hh => hpp (e.mp hh)), if_neg hpp]
    have hrows : (ToggleFlag g row col).rows = g.rows := by rw [he]
    have hcols : (ToggleFlag g row col).cols = g.cols := by rw [he]
    have hcells : cells (ToggleFlag g row col) = cells g := by unfold cells; rw [hrows, hcols]
    have hwf2 : (ToggleFlag g row col).WF := by
      rw [he]; exact BoardWF.of_setCell hwf _ _ _
    refine ⟨hwf2, by rw [hrows]; exact hr, by rw [hcols]; exact hc, ?_⟩
    by_cases hfl : (cellAt g.board row col).isFlagged = true
    · -- the flag is taken away
      have hset : flaggedCells (ToggleFlag g row col) = (flaggedCells g).erase (row, col) := by
        ext p
        unfold flaggedCells
        rw [hcells]
        simp only [Finset.mem_filter, Finset.mem_erase]
        constructor
        · rintro ⟨hp, hpf⟩
          rw [hcell p hp] at hpf
          by_cases hpp : p = (row, col)
          · rw [if_pos hpp] at hpf
            simp only [hfl, Bool.not_true] at hpf
            cases hpf
          · rw [if_neg hpp] at hpf
            exact ⟨hpp, hp, hpf⟩
        · rintro ⟨hpp, hp, hpf⟩
          refine ⟨hp, ?_⟩
          rw [hcell p hp, if_neg hpp]
          exact hpf
      have hin : (row, col) ∈ flaggedCells g := by
        unfold flaggedCells
        simp only [Finset.mem_filter]
        exact ⟨hmem, hfl⟩
      have hcard := Finset.card_erase_add_one hin
      have hfc : (ToggleFlag g row col).flagCount = g.flagCount - 1 := by
        rw [he]
        dsimp only
        rw [hfl]
        simp only [Bool.not_true, Bool.false_eq_true, if_false]
        ring
      rw [hfc, hset, hf]
      omega
    · -- the flag is set
      have hfl2 : (cellAt g.board row col).isFlagged = false := by
        simpa using hfl
      have hset : flaggedCells (ToggleFlag g row col) = insert (row, col) (flaggedCells g) := by
        ext p
        unfold flaggedCells
        rw [hcells]
        simp only [Finset.mem_filter, Finset.mem_insert]
        constructor
        · rintro ⟨hp, hpf⟩
          by_cases hpp : p = (row, col)
          · exact Or.inl hpp
          · rw [hcell p hp, if_neg hpp] at hpf
            exact Or.inr ⟨hp, hpf⟩
        · rintro (hpp | ⟨hp, hpf⟩)
          · subst hpp
            refine ⟨hmem, ?_⟩
            rw [hcell _ hmem, if_pos rfl]
            simp only [hfl2, Bool.not_false]
          · refine ⟨hp, ?_⟩
            by_cases hpp : p = (row, col)
            · subst hpp
              unfold cellOf at hpf
              rw [hfl2] at hpf
              cases hpf
            · rw [hcell p hp, if_neg hpp]
              exact hpf
      have hnin : (row, col) ∉ flaggedCells g := by
        unfold flaggedCells
        simp only [Finset.mem_filter, not_and]
        intro _
        unfold cellOf
        rw [hfl2]
        decide
      have hcard := Finset.card_insert_of_not_mem hnin
      have hfc : (ToggleFlag g row col).flagCount = g.flagCount + 1 := by
        rw [he]
        dsimp only
        rw [hfl2]
        simp only [Bool.not_false, if_true]
      rw [hfc, hset, hf, hcard]
      push_cast
      ring

theorem FlagCountInv_RevealCell {g g' : Game} (h : FlagCountInv g) (row col : Int)
    (hr : RevealCell g row col = some g') : FlagCountInv g' := by
  have hwf := h.1
  rcases RevealCell_cases g hwf row col with ⟨-, he⟩ | ⟨hv, hrev, hfl, hm, he⟩ | ⟨-, g2, heff, -, he⟩
  · rw [he] at hr
    simp only [Option.some.injEq] at hr
    rw [← hr]; exact h
  · have hcell := RevealCell_mine_cellAt g g' row col hv hrev hfl hm hr
    rw [he] at hr
    simp only [Option.some.injEq] at hr
    have hwf1 : Game.WF { g with
        board := setCell g.board row col { cellAt g.board row col with isRevealed := true }
        revealedCount := g.revealedCount + 1 } := BoardWF.of_setCell hwf _ _ _
    have hwf2 := RevealAllMines_WF _ hwf1
    refine FlagCountInv_congr h ?_ (by rw [← hr]; rfl) (by rw [← hr]; rfl) (by rw [← hr]; rfl) ?_
    · rw [← hr]; exact hwf2
    · intro p hp
      have hp2 := (IsValidCell_iff g p.1 p.2).mp ((mem_cells g p).mp hp)
      unfold cellOf
      rw [hcell p.1 p.2 hp2.1 hp2.2.2.1]
      split_ifs <;> rfl
  · rw [he] at hr
    simp only [Option.some.injEq] at hr
    have hrows := heff.eff_rows_eq
    have hcols := heff.eff_cols_eq
    have hfc := heff.flagCount_eq
    have hinv2 : FlagCountInv g2 := by
      refine FlagCountInv_congr h ?_ hrows hcols hfc (fun p hp => (heff.other p hp).2.1)
      unfold Game.WF
      rw [hrows, hcols]
      exact heff.wf
    rw [← hr]
    split_ifs
    · exact FlagCountInv_congr hinv2 hinv2.1 rfl rfl rfl (fun _ _ => rfl)
    · exact hinv2

theorem PlaceMines_flags (g : Game) (hwf : g.WF) (safeRow safeCol : Int) (draws : List Nat)
    (g' : Game) (h : PlaceMines g safeRow safeCol draws = some g') :
    ∀ p ∈ cells g, (cellOf g' p).isFlagged = (cellOf g p).isFlagged := by
  obtain ⟨b', hb', rfl⟩ := PlaceMines_eq_some g safeRow safeCol draws g' h
  have h1 := placeLoop_WF g hwf safeRow safeCol draws b' hb'
  obtain ⟨-, -, c3⟩ := CountNeighborMines_spec { g with board := b' } h1
  obtain ⟨_, hkeep, _⟩ := placeLoop_invariant g safeRow safeCol
    (fun b _ => ∀ r c : Int, (cellAt b r c).isFlagged = (cellAt g.board r c).isFlagged)
    (fun b _ d1 d2 hb _ _ _ r c =>
      (cellAt_setCell_same_field b _ _ r c
          { cellAt b (Int.tmod (d1 : Int) g.rows) (Int.tmod (d2 : Int) g.cols) with
            hasMine := true } Cell.isFlagged rfl).trans (hb r c))
    draws g.board 0 b' (fun _ _ => rfl) hb'
  intro p hp
  have hv : IsValidCell { g with board := b' } p.1 p.2 = true := (mem_cells g p).mp hp
  have e := c3 p.1 p.2 hv
  have k := hkeep p.1 p.2
  unfold cellOf
  rw [e]
  split
  · exact k
  · exact k

theorem FlagCountInv_PlaceMines {g g' : Game} (h : FlagCountInv g) (row col : Int)
    (draws : List Nat) (hp : PlaceMines g row col draws = some g') : FlagCountInv g' := by
  obtain ⟨hwf', hfr⟩ := PlaceMines_WF g h.1 row col draws g' hp
  refine FlagCountInv_congr h hwf' ?_ ?_ ?_ (PlaceMines_flags g h.1 row col draws g' hp)
  · have := congrArg Game.rows hfr; exact this
  · have := congrArg Game.cols hfr; exact this
  · have := congrArg Game.flagCount hfr; exact this

theorem FlagCountInv_tapCell {g g' : Game} (h : FlagCountInv g) (row col : Int)
    (draws : List Nat) (ht : tapCell g row col draws = some g') : FlagCountInv g' := by
  unfold tapCell at ht
  split_ifs at ht with h1 h2
  · simp only [Option.bind_eq_some] at ht
    obtain ⟨g1, hp, hr⟩ := ht
    have h0 : FlagCountInv { g with firstClick := false } :=
      FlagCountInv_congr h h.1 rfl rfl rfl (fun _ _ => rfl)
    exact FlagCountInv_RevealCell (FlagCountInv_PlaceMines h0 row col draws hp) row col hr
  · exact FlagCountInv_RevealCell h row col ht
  · simp only [Option.some.injEq] at ht
    rw [← ht]; exact h

theorem CallReachable_flagCountInv {g : Game} (h : CallReachable g) : FlagCountInv g := by
  induction h with
  | init g0 r c m hr hc => exact FlagCountInv_InitBoard g0 r c m hr hc
  | placeMines row col draws _ _ _ h ih => exact FlagCountInv_PlaceMines ih row col draws h
  | revealCell row col _ h ih => exact FlagCountInv_RevealCell ih row col h
  | toggleFlag row col _ ih => exact FlagCountInv_ToggleFlag ih row col

theorem Reachable_flagCountInv {g : Game} (h : Reachable g) : FlagCountInv g := by
  induction h with
  | start g0 r c m hp =>
    have hpos := presets_pos hp
    exact FlagCountInv_InitBoard g0 r c m (by have := hpos.1; omega) (by have := hpos.2.1; omega)
  | tap row col draws _ _ ht ih => exact FlagCountInv_tapCell ih row col draws ht
  | longPress row col _ _ ih => exact FlagCountInv_ToggleFlag ih row col
  | toMenu _ ih => exact FlagCountInv_congr ih ih.1 rfl rfl rfl (fun _ _ => rfl)
  | view _ hl ih => exact FlagCountInv_sameLogic ih hl

/-- C21: in every game state reachable from `InitBoard` through calls of
`PlaceMines`, `RevealCell` and `ToggleFlag` with any arguments, and in every
state the program reaches through its handlers, `flagCount` is the number of
cells of the grid with `isFlagged = true`, and `0 ≤ flagCount ≤ rows * cols`. -/
theorem flagCount_counts_flags :
    (∀ g : Game, CallReachable g →
      0 ≤ g.flagCount ∧ g.flagCount ≤ g.rows * g.cols ∧
        g.flagCount = ((flaggedCells g).card : Int)) ∧
    (∀ g : Game, Reachable g →
      0 ≤ g.flagCount ∧ g.flagCount ≤ g.rows * g.cols ∧
        g.flagCount = ((flaggedCells g).card : Int)) :=
  ⟨fun _ h => ⟨(FlagCountInv_bounds (CallReachable_flagCountInv h)).1,
      (FlagCountInv_bounds (CallReachable_flagCountInv h)).2,
      (CallReachable_flagCountInv h).2.2.2⟩,
    fun _ h => ⟨(FlagCountInv_bounds (Reachable_flagCountInv h)).1,
      (FlagCountInv_bounds (Reachable_flagCountInv h)).2,
      (Reachable_flagCountInv h).2.2.2⟩⟩

set_option maxRecDepth 100000 in
theorem flagCount_counts_flags_witness :
    (CallReachable flaggedGame ∧ flaggedGame.flagCount = 1 ∧
        (flaggedCells flaggedGame).card = 1) ∧
      (Reachable minedFlaggedGame ∧ minedFlaggedGame.flagCount = 1 ∧
        (flaggedCells minedFlaggedGame).card = 1) := by
  have c1 : CallReachable flaggedGame :=
    CallReachable.toggleFlag 2 3 (CallReachable.init initialGame 9 9 10 (by decide) (by decide))
  have h1 := (flagCount_counts_flags.1 flaggedGame c1).2.2
  have h2 := (flagCount_counts_flags.2 minedFlaggedGame minedFlaggedGame_reachable).2.2
  have f1 : flaggedGame.flagCount = 1 := by decide
  have f2 : minedFlaggedGame.flagCount = 1 := by decide
  rw [f1] at h1
  rw [f2] at h2
  exact ⟨⟨c1, f1, by exact_mod_cast h1.symm⟩, minedFlaggedGame_reachable, f2,
    by exact_mod_cast h2.symm⟩

/-! ### Frames after the end of a game -/

/-- The first part of `Update` leaves the game logic alone. -/
theorem updateScreen_sameLogic (g : Game) (f : Frame) : sameLogic g (updateScreen g f) := by
  unfold updateScreen sameLogic
  dsimp only
  split_ifs <;> exact ⟨rfl, rfl, rfl, rfl, rfl, rfl, rfl, rfl⟩

/-- C22: for every game state whose phase is `WON` or `LOST`, every input
frame and every distance function, `Update` has a result, calls nothing of
the game logic (no event), and leaves the board, `rows`, `cols`,
`revealedCount`, `flagCount`, `totalMines` and `firstClick` unchanged; the
phase becomes `MENU` if the frame reports a tap gesture and is unchanged
otherwise. -/
theorem Update_game_over (dist : Vector2 → Vector2 → ℚ) (g : Game) (f : Frame)
    (h : g.state = GameState.WON ∨ g.state = GameState.LOST) :
    ∃ g', Update dist g f = some (g', []) ∧
      g'.board = g.board ∧ (∀ r c : Int, cellAt g'.board r c = cellAt g.board r c) ∧
      g'.rows = g.rows ∧ g'.cols = g.cols ∧ g'.revealedCount = g.revealedCount ∧
      g'.flagCount = g.flagCount ∧ g'.totalMines = g.totalMines ∧
      g'.firstClick = g.firstClick ∧
      (f.tapGesture = true → g'.state = GameState.MENU) ∧
      (f.tapGesture = false → g'.state = g.state) := by
  obtain ⟨hb, hr, hc, ht, hrc, hfc, hs, hfl⟩ := updateScreen_sameLogic g f
  refine ⟨HandleGameOverInput (updateScreen g f) f, Update_gameOver dist g f h, ?_⟩
  have hfield : ∀ {α : Type} (π : Game → α),
      (∀ (x : Game) (s : GameState), π { x with state := s } = π x) →
      π (HandleGameOverInput (updateScreen g f) f) = π (updateScreen g f) := by
    intro α π hπ
    unfold HandleGameOverInput
    split_ifs
    · exact hπ _ _
    · rfl
  have hboard : (HandleGameOverInput (updateScreen g f) f).board = g.board :=
    (hfield Game.board (fun _ _ => rfl)).trans hb
  refine ⟨hboard, fun r c => by rw [hboard],
    (hfield Game.rows (fun _ _ => rfl)).trans hr,
    (hfield Game.cols (fun _ _ => rfl)).trans hc,
    (hfield Game.revealedCount (fun _ _ => rfl)).trans hrc,
    (hfield Game.flagCount (fun _ _ => rfl)).trans hfc,
    (hfield Game.totalMines (fun _ _ => rfl)).trans ht,
    (hfield Game.firstClick (fun _ _ => rfl)).trans hfl, ?_, ?_⟩
  · intro htap
    rw [HandleGameOverInput_state, if_pos htap]
  · intro htap
    rw [HandleGameOverInput_state, if_neg (by rw [htap]; decide)]
    exact hs

set_option maxRecDepth 100000 in
theorem Update_game_over_witness :
    lostFlaggedGame.state = GameState.LOST ∧ pinchFrame.tapGesture = false ∧
      ∃ g', Update axisDist lostFlaggedGame pinchFrame = some (g', []) ∧
        g'.board = lostFlaggedGame.board ∧ g'.flagCount = 1 ∧ g'.state = GameState.LOST := by
  have hs : lostFlaggedGame.state = GameState.LOST := by decide
  have hf : lostFlaggedGame.flagCount = 1 := by decide
  obtain ⟨g', h1, h2, -, -, -, -, h3, -, -, -, h4⟩ :=
    Update_game_over axisDist lostFlaggedGame pinchFrame (Or.inr hs)
  exact ⟨hs, rfl, g', h1, h2, h3.trans hf, (h4 rfl).trans hs⟩

/-! ### Sessions of `Update` -/

theorem handleTouchStart_withTimer (dist : Vector2 → Vector2 → ℚ) (g : Game) (f : Frame)
    (t : ℚ) :
    handleTouchStart dist (withTimer g t) f = withTimer (handleTouchStart dist g f) t := by
  unfold handleTouchStart withTimer
  dsimp only
  split_ifs <;> rfl

theorem pinchUpdate_withTimer (dist : Vector2 → Vector2 → ℚ) (g : Game) (f : Frame) (t : ℚ) :
    pinchUpdate dist (withTimer g t) f = withTimer (pinchUpdate dist g f) t := by
  unfold pinchUpdate withTimer
  dsimp only
  split_ifs <;> rfl

/-- The two branches of `HandleCameraInput` exclude each other. -/
theorem HandleCameraInput_eq (dist : Vector2 → Vector2 → ℚ) (g : Game) (f : Frame) :
    HandleCameraInput dist g f =
      if g.activeGesture = ActiveGesture.GESTURE_PINCH then ClampCamera (pinchUpdate dist g f)
      else if g.activeGesture = ActiveGesture.GESTURE_PAN then
        ClampCamera
          { g with
            camera :=
              { g.camera with
                target :=
                  { x := g.panStartTarget.x - (f.touch0.x - g.panStartPos.x) / g.camera.zoom
                    y := g.panStartTarget.y - (f.touch0.y - g.panStartPos.y) / g.camera.zoom } } }
      else g := by
  unfold HandleCameraInput
  dsimp only
  by_cases h1 : g.activeGesture = ActiveGesture.GESTURE_PINCH
  · have h2 : (ClampCamera (pinchUpdate dist g f)).activeGesture
        ≠ ActiveGesture.GESTURE_PAN := by
      rw [ClampCamera_proj Game.activeGesture (fun _ _ => rfl),
        pinchUpdate_proj Game.activeGesture (fun _ _ => rfl), h1]
      decide
    simp only [if_pos h1]
    rw [if_neg h2]
  · simp only [if_neg h1]

theorem HandleCameraInput_withTimer (dist : Vector2 → Vector2 → ℚ) (g : Game) (f : Frame)
    (t : ℚ) :
    HandleCameraInput dist (withTimer g t) f = withTimer (HandleCameraInput dist g f) t := by
  rw [HandleCameraInput_eq, HandleCameraInput_eq]
  by_cases h1 : g.activeGesture = ActiveGesture.GESTURE_PINCH
  · have h1t : (withTimer g t).activeGesture = ActiveGesture.GESTURE_PINCH := h1
    rw [if_pos h1, if_pos h1t, pinchUpdate_withTimer]
    rfl
  · have h1t : ¬ (withTimer g t).activeGesture = ActiveGesture.GESTURE_PINCH := h1
    rw [if_neg h1, if_neg h1t]
    by_cases h2 : g.activeGesture = ActiveGesture.GESTURE_PAN
    · have h2t : (withTimer g t).activeGesture = ActiveGesture.GESTURE_PAN := h2
      rw [if_pos h2, if_pos h2t]
      rfl
    · have h2t : ¬ (withTimer g t).activeGesture = ActiveGesture.GESTURE_PAN := h2
      rw [if_neg h2, if_neg h2t]

theorem heldMotion_withTimer (dist : Vector2 → Vector2 → ℚ) (g : Game) (f : Frame) (t : ℚ) :
    heldMotion dist (withTimer g t) f = withTimer (heldMotion dist g f) t := by
  unfold heldMotion
  dsimp only
  rw [← HandleCameraInput_withTimer]
  unfold withTimer
  dsimp only
  split_ifs <;> rfl

theorem ToggleFlag_withTimer (g : Game) (row col : Int) (t : ℚ) :
    ToggleFlag (withTimer g t) row col = withTimer (ToggleFlag g row col) t := by
  unfold ToggleFlag withTimer IsValidCell
  dsimp only
  split_ifs <;> rfl

theorem longPressDetect_eq_fire (g : Game) (hc : longPressCondition g) :
    longPressDetect g =
      if IsValidCell g (startCell g).1 (startCell g).2 = true then
        (ToggleFlag { g with longPressTriggered := true, gestureDecided := true }
          (startCell g).1 (startCell g).2,
          [Event.longPress, Event.toggleFlag (startCell g).1 (startCell g).2])
      else ({ g with longPressTriggered := true, gestureDecided := true }, [Event.longPress]) := by
  unfold longPressCondition at hc
  unfold longPressDetect
  rw [if_pos hc]
  rfl

theorem longPressDetect_withTimer (g : Game) (t : ℚ) :
    longPressDetect (withTimer g t)
      = (withTimer (longPressDetect g).1 t, (longPressDetect g).2) := by
  by_cases hc : longPressCondition g
  · have hct : longPressCondition (withTimer g t) := hc
    rw [longPressDetect_eq_fire g hc, longPressDetect_eq_fire _ hct]
    by_cases hv : IsValidCell g (startCell g).1 (startCell g).2 = true
    · have hvt : IsValidCell (withTimer g t) (startCell (withTimer g t)).1
          (startCell (withTimer g t)).2 = true := hv
      rw [if_pos hv, if_pos hvt]
      exact Prod.ext
        (ToggleFlag_withTimer { g with longPressTriggered := true, gestureDecided := true }
          (startCell g).1 (startCell g).2 t) rfl
    · have hvt : ¬ IsValidCell (withTimer g t) (startCell (withTimer g t)).1
          (startCell (withTimer g t)).2 = true := hv
      rw [if_neg hv, if_neg hvt]
      rfl
  · have hct : ¬ longPressCondition (withTimer g t) := hc
    rw [longPressDetect_skip g hc, longPressDetect_skip _ hct]

/-- A frame with a contact does not read the clock. -/
theorem HandlePlayingInput_withTimer (dist : Vector2 → Vector2 → ℚ) (g : Game) (f : Frame)
    (t : ℚ) (hf : f.touchCount ≥ 1) :
    HandlePlayingInput dist (withTimer g t) f =
      (HandlePlayingInput dist g f).map (fun p => (withTimer p.1 t, p.2)) := by
  rw [HandlePlayingInput_touch dist _ f hf, HandlePlayingInput_touch dist g f hf,
    handleTouchStart_withTimer, heldMotion_withTimer, longPressDetect_withTimer]
  rfl

theorem runFrames_withTimer (dist : Vector2 → Vector2 → ℚ) (fs : List Frame) (g : Game)
    (t : ℚ) (hf : ∀ f ∈ fs, f.touchCount ≥ 1) :
    runFrames dist (withTimer g t) fs =
      (runFrames dist g fs).map (fun p => (withTimer p.1 t, p.2)) := by
  induction fs generalizing g with
  | nil => rfl
  | cons f fs ih =>
    have hf1 := hf f (List.mem_cons_self _ _)
    have hfs : ∀ x ∈ fs, x.touchCount ≥ 1 := fun x hx => hf x (List.mem_cons_of_mem _ hx)
    simp only [runFrames]
    rw [HandlePlayingInput_withTimer dist g f t hf1, HandlePlayingInput_touch dist g f hf1]
    simp only [Option.map_some', Option.some_bind]
    rw [ih _ hfs]
    cases runFrames dist (longPressDetect (heldMotion dist (handleTouchStart dist g f) f)).1 fs
      <;> rfl

theorem updateScreen_same (g : Game) (f : Frame) (hw : f.screenWidth = g.screenWidth)
    (hh : f.screenHeight = g.screenHeight) : updateScreen g f = g := by
  unfold updateScreen
  rw [if_neg (fun hc => by rcases hc with hc | hc <;> contradiction)]

theorem updateScreen_resize (g : Game) (f : Frame)
    (hne : f.screenWidth ≠ g.screenWidth ∨ f.screenHeight ≠ g.screenHeight)
    (hs : g.state = GameState.PLAYING) :
    updateScreen g f =
      InitCamera (CalculateLayout
        { g with
          screenWidth := f.screenWidth
          screenHeight := f.screenHeight
          headerHeight := (f.screenHeight : ℚ) * (8 / 100) }) := by
  unfold updateScreen
  dsimp only
  rw [if_pos hne, if_pos (Or.inl hs)]

/-- A frame of `Update` in the phase `PLAYING` that brings no new screen size:
the clock advances and `HandlePlayingInput` runs. -/
theorem Update_noresize (dist : Vector2 → Vector2 → ℚ) (g : Game) (f : Frame)
    (hs : g.state = GameState.PLAYING) (hw : f.screenWidth = g.screenWidth)
    (hh : f.screenHeight = g.screenHeight) :
    Update dist g f = HandlePlayingInput dist (withTimer g (g.timer + f.frameTime)) f := by
  rw [Update_playing dist g f hs, updateScreen_same g f hw hh]
  rfl

theorem runUpdates_append (dist : Vector2 → Vector2 → ℚ) (a b : List Frame) (g : Game) :
    runUpdates dist g (a ++ b) =
      (runUpdates dist g a).bind
        (fun p => (runUpdates dist p.1 b).map (fun q => (q.1, p.2 ++ q.2))) := by
  induction a generalizing g with
  | nil =>
    simp only [List.nil_append, runUpdates, Option.some_bind, List.nil_append]
    cases runUpdates dist g b <;> simp
  | cons f a ih =>
    simp only [List.cons_append, runUpdates]
    cases h : Update dist g f with
    | none => simp
    | some p =>
      simp only [Option.some_bind]
      have e := ih p.1
      simp only [List.append_eq] at e ⊢
      rw [e]
      cases h2 : runUpdates dist p.1 a with
      | none => simp
      | some q =>
        simp only [Option.some_bind, Option.map_some']
        cases runUpdates dist q.1 b <;> simp [List.append_assoc]

/-- What frames with a contact keep, besides the fields of
`runFrames_touch_fields`: the screen size the game has stored. -/
theorem HandlePlayingInput_touch_screen (dist : Vector2 → Vector2 → ℚ) (g : Game) (f : Frame)
    (g' : Game) (ev : List Event) (h : HandlePlayingInput dist g f = some (g', ev)) :
    g'.screenWidth = g.screenWidth ∧ g'.screenHeight = g.screenHeight ∧
      g'.rows = g.rows ∧ g'.cols = g.cols :=
  ⟨HandlePlayingInput_proj Game.screenWidth (fun _ _ _ _ _ _ _ _ _ _ _ => rfl) (fun _ _ => rfl)
      (fun _ _ _ _ _ => rfl) (fun _ _ => rfl) dist g f g' ev h,
    HandlePlayingInput_proj Game.screenHeight (fun _ _ _ _ _ _ _ _ _ _ _ => rfl) (fun _ _ => rfl)
      (fun _ _ _ _ _ => rfl) (fun _ _ => rfl) dist g f g' ev h,
    HandlePlayingInput_proj Game.rows (fun _ _ _ _ _ _ _ _ _ _ _ => rfl) (fun _ _ => rfl)
      (fun _ _ _ _ _ => rfl) (fun _ _ => rfl) dist g f g' ev h,
    HandlePlayingInput_proj Game.cols (fun _ _ _ _ _ _ _ _ _ _ _ => rfl) (fun _ _ => rfl)
      (fun _ _ _ _ _ => rfl) (fun _ _ => rfl) dist g f g' ev h⟩

theorem runFrames_screen (dist : Vector2 → Vector2 → ℚ) (fs : List Frame) (g : Game)
    (g' : Game) (ev : List Event) (h : runFrames dist g fs = some (g', ev)) :
    g'.screenWidth = g.screenWidth ∧ g'.screenHeight = g.screenHeight ∧
      g'.rows = g.rows ∧ g'.cols = g.cols := by
  induction fs generalizing g ev with
  | nil =>
    simp only [runFrames, Option.some.injEq, Prod.mk.injEq] at h
    rw [← h.1]
    exact ⟨rfl, rfl, rfl, rfl⟩
  | cons f fs ih =>
    obtain ⟨g1, ev1, ev2, h1, h2, -⟩ := runFrames_cons dist g f fs g' ev h
    obtain ⟨a1, a2, a3, a4⟩ := HandlePlayingInput_touch_screen dist g f g1 ev1 h1
    obtain ⟨b1, b2, b3, b4⟩ := ih g1 ev2 h2
    exact ⟨b1.trans a1, b2.trans a2, b3.trans a3, b4.trans a4⟩

theorem HandlePlayingInput_touch_state (dist : Vector2 → Vector2 → ℚ) (g : Game) (f : Frame)
    (g' : Game) (ev : List Event) (hf : f.touchCount ≥ 1)
    (h : HandlePlayingInput dist g f = some (g', ev)) : g'.state = g.state := by
  rw [HandlePlayingInput_touch dist g f hf] at h
  simp only [Option.some.injEq] at h
  have e : g' = (longPressDetect (heldMotion dist (handleTouchStart dist g f) f)).1 := by rw [h]
  rw [e, (longPressDetect_timer _).2, (heldMotion_timer dist _ f).2.2]
  exact handleTouchStart_proj Game.state state_GestureBlind dist g f

theorem HandlePlayingInput_touch_some (dist : Vector2 → Vector2 → ℚ) (g : Game) (f : Frame)
    (hf : f.touchCount ≥ 1) : ∃ g' ev, HandlePlayingInput dist g f = some (g', ev) :=
  ⟨(longPressDetect (heldMotion dist (handleTouchStart dist g f) f)).1,
    (longPressDetect (heldMotion dist (handleTouchStart dist g f) f)).2,
    HandlePlayingInput_touch dist g f hf⟩

theorem withTimer_state (g : Game) (t : ℚ) :
    (withTimer g t).state = g.state ∧ (withTimer g t).screenWidth = g.screenWidth ∧
      (withTimer g t).screenHeight = g.screenHeight ∧
      (withTimer g t).activeGesture = g.activeGesture ∧ (withTimer g t).timer = t :=
  ⟨rfl, rfl, rfl, rfl, rfl⟩

theorem withTimer_withTimer (g : Game) (t u : ℚ) : withTimer (withTimer g t) u = withTimer g u :=
  rfl

/-- Frames of `Update` with a contact, in the phase `PLAYING` and without a
change of the screen size, are the frames of `HandlePlayingInput` with the
clock advanced. -/
theorem runUpdates_touch (dist : Vector2 → Vector2 → ℚ) (fs : List Frame) (g : Game)
    (hs : g.state = GameState.PLAYING)
    (hf : ∀ f ∈ fs, f.touchCount ≥ 1 ∧ f.screenWidth = g.screenWidth ∧
      f.screenHeight = g.screenHeight) :
    runUpdates dist g fs =
      (runFrames dist g fs).map
        (fun p => (withTimer p.1 (g.timer + (fs.map Frame.frameTime).sum), p.2)) := by
  induction fs generalizing g with
  | nil =>
    simp only [runUpdates, runFrames, Option.map_some', List.map_nil, List.sum_nil, add_zero]
    rfl
  | cons f fs ih =>
    obtain ⟨hf1, hw, hh⟩ := hf f (List.mem_cons_self _ _)
    obtain ⟨g1, ev1, htouch⟩ := HandlePlayingInput_touch_some dist g f hf1
    have hstep : Update dist g f = some (withTimer g1 (g.timer + f.frameTime), ev1) := by
      rw [Update_noresize dist g f hs hw hh, HandlePlayingInput_withTimer dist g f _ hf1, htouch]
      rfl
    obtain ⟨a1, a2, -, -⟩ := HandlePlayingInput_touch_screen dist g f g1 ev1 htouch
    have hst := HandlePlayingInput_touch_state dist g f g1 ev1 hf1 htouch
    have hfs : ∀ x ∈ fs, x.touchCount ≥ 1 := fun x hx => (hf x (List.mem_cons_of_mem _ hx)).1
    obtain ⟨w1, w2, w3, -, w5⟩ := withTimer_state g1 (g.timer + f.frameTime)
    have hih := ih (withTimer g1 (g.timer + f.frameTime)) (w1.trans (hst.trans hs))
      (fun x hx => by
        obtain ⟨b1, b2, b3⟩ := hf x (List.mem_cons_of_mem _ hx)
        exact ⟨b1, b2.trans (a1.symm.trans w2.symm), b3.trans (a2.symm.trans w3.symm)⟩)
    simp only [runUpdates, runFrames, hstep, htouch, Option.some_bind]
    rw [hih, runFrames_withTimer dist fs g1 _ hfs, w5]
    cases runFrames dist g1 fs with
    | none => rfl
    | some q =>
      simp only [Option.map_some', List.map_cons, List.sum_cons, withTimer_withTimer,
        add_assoc]

theorem pressedPhase_withTimer (g : Game) (t : ℚ) (h : pressedPhase g) :
    pressedPhase (withTimer g t) := h

/-- C12, amended: a touch session of frames of `Update` in the phase `PLAYING`
in which no frame brings a new screen size: the recogniser is idle
(`TOUCH_NONE`), the frames `pre`, `f` and `post` have one contact, the frame
`r` has none.  If in the frame `f` the frame times since the first frame of
the session add up to at least 0.5 s (in exact arithmetic), the contact is
less than 15 px from the start position (the position in the first frame),
and the gesture is still `TAP_OR_HOLD` (it has not become a pan), then the
session has a result, and all it does is one long press: the event list is
`longPress` followed by one `ToggleFlag` on the cell index of the start
position if that index is valid, and nothing else, so the release fires no
tap (no `RevealCell`, no `PlaceMines`, no restart); the phase is unchanged
and the recogniser is idle again. -/
theorem long_press_session (dist : Vector2 → Vector2 → ℚ) (g0 : Game) (pre : List Frame)
    (f : Frame) (post : List Frame) (r : Frame)
    (hs : g0.state = GameState.PLAYING)
    (h0 : g0.activeGesture = ActiveGesture.TOUCH_NONE)
    (hpre : ∀ x ∈ pre, x.touchCount = 1) (hf : f.touchCount = 1)
    (hpost : ∀ x ∈ post, x.touchCount = 1) (hr : r.touchCount = 0)
    (hsize : ∀ x ∈ pre ++ f :: (post ++ [r]),
      x.screenWidth = g0.screenWidth ∧ x.screenHeight = g0.screenHeight)
    (g1 : Game) (ev1 : List Event) (h1 : runUpdates dist g0 pre = some (g1, ev1))
    (hold : (heldMotion dist (handleTouchStart dist g1 f) f).activeGesture
      = ActiveGesture.TAP_OR_HOLD)
    (htime : ((pre ++ [f]).map Frame.frameTime).sum ≥ 1 / 2)
    (hdist : dist f.touch0 (pre.headD f).touch0 < 15) :
    ∃ g' ev, runUpdates dist g0 (pre ++ f :: (post ++ [r])) = some (g', ev) ∧
      ev.count Event.longPress = 1 ∧ Event.tap ∉ ev ∧
      ((IsValidCell g0 (startCell { g0 with touchStart := (pre.headD f).touch0 }).1
            (startCell { g0 with touchStart := (pre.headD f).touch0 }).2 = true ∧
          ev = [Event.longPress,
            Event.toggleFlag (startCell { g0 with touchStart := (pre.headD f).touch0 }).1
              (startCell { g0 with touchStart := (pre.headD f).touch0 }).2]) ∨
        (IsValidCell g0 (startCell { g0 with touchStart := (pre.headD f).touch0 }).1
            (startCell { g0 with touchStart := (pre.headD f).touch0 }).2 = false ∧
          ev = [Event.longPress])) ∧
      g'.state = g0.state ∧ g'.activeGesture = ActiveGesture.TOUCH_NONE := by
  have hsz : ∀ l : List Frame, (∀ x ∈ l, x ∈ pre ++ f :: (post ++ [r])) →
      (∀ x ∈ l, x.touchCount = 1) →
      ∀ x ∈ l, x.touchCount ≥ 1 ∧ x.screenWidth = g0.screenWidth ∧
        x.screenHeight = g0.screenHeight := by
    intro l hl hc x hx
    have := hc x hx
    exact ⟨by omega, hsize x (hl x hx)⟩
  -- the frames before `f`, as frames of `HandlePlayingInput`
  have e1 := runUpdates_touch dist pre g0 hs
    (hsz pre (fun x hx => List.mem_append_left _ hx) hpre)
  rw [h1] at e1
  obtain ⟨p1, hp1, hp1e⟩ := Option.map_eq_some'.mp e1.symm
  simp only [Prod.mk.injEq] at hp1e
  obtain ⟨hg1, hev1⟩ := hp1e
  have hold2 : (heldMotion dist (handleTouchStart dist p1.1 f) f).activeGesture
      = ActiveGesture.TAP_OR_HOLD := by
    rw [← hg1, handleTouchStart_withTimer, heldMotion_withTimer] at hold
    exact hold
  -- the contact up to its release
  have htouchAll : ∀ x ∈ pre ++ f :: post, x.touchCount = 1 := by
    intro x hx
    rcases List.mem_append.mp hx with hx | hx
    · exact hpre x hx
    · rcases List.mem_cons.mp hx with hx | hx
      · rw [hx]; exact hf
      · exact hpost x hx
  obtain ⟨g3, h3, hp3, hst3⟩ := runFrames_press_phase dist g0 pre f post h0 hpre hf hpost
    p1.1 p1.2 (by rw [hp1]) hold2 htime hdist
  have e3 := runUpdates_touch dist (pre ++ f :: post) g0 hs
    (hsz _ (fun x hx => by
      rcases List.mem_append.mp hx with hx | hx
      · exact List.mem_append_left _ hx
      · rcases List.mem_cons.mp hx with hx | hx
        · rw [hx]; simp
        · simp [hx]) htouchAll)
  rw [h3] at e3
  simp only [Option.map_some'] at e3
  obtain ⟨c1, c2, -, -⟩ := runFrames_screen dist _ g0 g3 _ h3
  -- the release
  obtain ⟨hrw, hrh⟩ := hsize r (by simp)
  obtain ⟨w1, w2, w3, -, -⟩ :=
    withTimer_state g3 (g0.timer + ((pre ++ f :: post).map Frame.frameTime).sum)
  have e4 := Update_noresize dist
    (withTimer g3 (g0.timer + ((pre ++ f :: post).map Frame.frameTime).sum)) r
    (w1.trans (hst3.trans hs)) (hrw.trans (c1.symm.trans w2.symm))
    (hrh.trans (c2.symm.trans w3.symm))
  rw [HandlePlayingInput_release_pressed dist _ r
    (pressedPhase_withTimer _ _ (pressedPhase_withTimer _ _ hp3)) hr] at e4
  have hlist : pre ++ f :: (post ++ [r]) = (pre ++ f :: post) ++ [r] := by simp
  obtain ⟨gfin, e5, hfin1, hfin2⟩ : ∃ x,
      Update dist (withTimer g3 (g0.timer + ((pre ++ f :: post).map Frame.frameTime).sum)) r
        = some (x, []) ∧ x.state = g3.state ∧ x.activeGesture = ActiveGesture.TOUCH_NONE :=
    ⟨_, e4, rfl, rfl⟩
  refine ⟨gfin, longPressEvents { g0 with touchStart := (pre.headD f).touch0 },
    ?_, ?_, ?_, ?_, ?_, ?_⟩
  · rw [hlist, runUpdates_append, e3]
    simp only [Option.some_bind, runUpdates, e5, Option.map_some', List.append_nil]
  · unfold longPressEvents
    split_ifs <;> simp
  · unfold longPressEvents
    split_ifs <;> simp
  · unfold longPressEvents
    by_cases hv : IsValidCell { g0 with touchStart := (pre.headD f).touch0 }
        (startCell { g0 with touchStart := (pre.headD f).touch0 }).1
        (startCell { g0 with touchStart := (pre.headD f).touch0 }).2 = true
    · rw [if_pos hv]; exact Or.inl ⟨hv, rfl⟩
    · rw [if_neg hv]
      refine Or.inr ⟨?_, rfl⟩
      simp only [Bool.not_eq_true] at hv
      exact hv
  · exact hfin1.trans hst3
  · exact hfin2

/-- The first frame of a contact that has been down long enough at once: the
long press fires in that frame. -/
theorem HandlePlayingInput_press (dist : Vector2 → Vector2 → ℚ) (g : Game) (f : Frame)
    (hg : g.activeGesture = ActiveGesture.TOUCH_NONE) (hf : f.touchCount = 1)
    (hz : g.camera.zoom ≤ g.minZoom + 1 / 100) (ht : f.frameTime ≥ 1 / 2)
    (hd : dist f.touch0 f.touch0 < 15) :
    ∃ g', HandlePlayingInput dist g f
        = some (g', longPressEvents { g with touchStart := f.touch0 }) ∧
      pressedPhase g' ∧ g'.state = g.state ∧ g'.screenWidth = g.screenWidth ∧
      g'.screenHeight = g.screenHeight ∧ g'.rows = g.rows ∧ g'.cols = g.cols := by
  have hold : (heldMotion dist (handleTouchStart dist g f) f).activeGesture
      = ActiveGesture.TAP_OR_HOLD := by
    rw [heldMotion_activeGesture, handleTouchStart_single dist g f hg hf]
    dsimp only
    rw [if_neg (fun hc => by have := hc.2; omega),
      if_neg (fun hc => by have := hc.2.2.2; linarith)]
  obtain ⟨g3, h3, hp3, hst3⟩ := runFrames_press_phase dist g [] f [] hg (by simp) hf (by simp)
    g [] rfl hold (by simpa using ht) (by simpa using hd)
  simp only [List.nil_append, runFrames, Option.bind_eq_some, Option.map_some',
    Option.some.injEq, Prod.mk.injEq, List.append_nil, List.headD_nil] at h3
  obtain ⟨p, hp, hp1, hp2⟩ := h3
  have hp' : HandlePlayingInput dist g f
      = some (g3, longPressEvents { g with touchStart := f.touch0 }) := by
    rw [hp, ← hp1, ← hp2]
  obtain ⟨a1, a2, a3, a4⟩ := HandlePlayingInput_touch_screen dist g f _ _ hp'
  exact ⟨g3, hp', hp3, hst3, a1, a2, a3, a4⟩

theorem longPressEvents_of_cell (g : Game) (row col : Int) (hc : startCell g = (row, col))
    (hv : IsValidCell g row col = true) :
    longPressEvents g = [Event.longPress, Event.toggleFlag row col] := by
  unfold longPressEvents
  rw [hc]
  dsimp only
  rw [if_pos hv]

/-- The start cell while the camera shows the whole board: zoom 1 and the
target at the camera offset. -/
theorem startCell_unzoomed (g : Game) (hz : g.camera.zoom = 1)
    (ho : g.camera.offset = g.camera.target) :
    startCell g =
      (floatToInt ((g.touchStart.y - g.offsetY) / g.cellSize),
        floatToInt ((g.touchStart.x - g.offsetX) / g.cellSize)) := by
  unfold startCell ScreenToBoard GetScreenToWorld2D GetCellRow GetCellCol
  dsimp only
  rw [hz, ho]
  simp only [div_one, sub_add_cancel]

/-- The first part of `Update` when the screen of a 9 x 9 game in the phase
`PLAYING` has become 900 x 2100: the layout and the camera are those of the
new screen, and the recogniser is idle. -/
theorem updateScreen_to_2100 (g : Game) (f : Frame) (hw : f.screenWidth = 900)
    (hh : f.screenHeight = 2100) (hr : g.rows = 9) (hc : g.cols = 9)
    (hs : g.state = GameState.PLAYING) (hne : g.screenHeight ≠ 2100) :
    ∃ G, updateScreen g f = G ∧ G.activeGesture = ActiveGesture.TOUCH_NONE ∧
      G.state = GameState.PLAYING ∧ G.rows = 9 ∧ G.cols = 9 ∧
      G.screenWidth = 900 ∧ G.screenHeight = 2100 ∧ G.headerHeight = 168 ∧
      G.camera.zoom = 1 ∧ G.minZoom = 1 ∧ G.camera.offset = G.camera.target ∧
      G.cellSize = 100 ∧ G.offsetX = 0 ∧ G.offsetY = 684 := by
  refine ⟨_, updateScreen_resize g f (Or.inr (by rw [hh]; exact fun h => hne h.symm)) hs,
    rfl, hs, hr, hc, hw, hh, ?_, rfl, rfl, ?_, ?_, ?_, ?_⟩
  · show (f.screenHeight : ℚ) * (8 / 100) = 168
    rw [hh]; norm_num
  · unfold InitCamera CalculateLayout
    dsimp only
    rw [hw, hh, hr, hc]
    norm_num
  · unfold InitCamera CalculateLayout
    dsimp only
    rw [hw, hh, hr, hc]
    norm_num
  · unfold InitCamera CalculateLayout
    dsimp only
    rw [hw, hh, hr, hc]
    norm_num
  · unfold InitCamera CalculateLayout
    dsimp only
    rw [hw, hh, hr, hc]
    norm_num

theorem floatToInt_cell (y o : ℚ) (n : Int) (h1 : (n : ℚ) * 100 ≤ y - o)
    (h2 : y - o < ((n : ℚ) + 1) * 100) (hn : 0 ≤ n) : floatToInt ((y - o) / 100) = n := by
  have hq : 0 ≤ (y - o) / 100 := by
    have : (0 : ℚ) ≤ (n : ℚ) := by exact_mod_cast hn
    apply div_nonneg _ (by norm_num)
    nlinarith
  rw [floatToInt_of_nonneg hq, Int.floor_eq_iff]
  constructor
  · rw [le_div_iff₀ (by norm_num)]; exact h1
  · rw [div_lt_iff₀ (by norm_num)]; exact h2

/-- The start cell of a contact at `(450, 1000)` on a board of cell size 100
whose rows start at `offsetY`, with the camera showing the whole board: the
cell `(3, 4)` if the rows start between 601 and 700. -/
theorem startCell_3_4 (g : Game) (hz : g.camera.zoom = 1)
    (ho : g.camera.offset = g.camera.target) (hcs : g.cellSize = 100) (hox : g.offsetX = 0)
    (hoy1 : 600 < g.offsetY) (hoy2 : g.offsetY ≤ 700)
    (ht : g.touchStart = { x := 450, y := 1000 }) : startCell g = (3, 4) := by
  rw [startCell_unzoomed g hz ho, hcs, hox, ht]
  dsimp only
  rw [floatToInt_cell 1000 g.offsetY 3 (by push_cast; linarith) (by push_cast; linarith)
    (by decide),
    floatToInt_cell 450 0 4 (by norm_num) (by norm_num) (by decide)]

theorem longPressEvents_3_4 (g : Game) (hz : g.camera.zoom = 1)
    (ho : g.camera.offset = g.camera.target) (hcs : g.cellSize = 100) (hox : g.offsetX = 0)
    (hoy1 : 600 < g.offsetY) (hoy2 : g.offsetY ≤ 700) (hr : g.rows = 9) (hc : g.cols = 9)
    (ht : g.touchStart = { x := 450, y := 1000 }) :
    longPressEvents g = [Event.longPress, Event.toggleFlag 3 4] := by
  apply longPressEvents_of_cell g 3 4 (startCell_3_4 g hz ho hcs hox hoy1 hoy2 ht)
  rw [IsValidCell_iff, hr, hc]
  decide

theorem phoneGame_camera_centred : phoneGame.camera.offset = phoneGame.camera.target := by
  norm_num [phoneGame, InitBoard, InitCamera, CalculateLayout]

/-- C12, counterexample: one touch session of three frames of `Update` on the
phone game.  The contact goes down at `(450, 1000)` and the long press fires
(`ToggleFlag(3, 4)`); in the second frame the screen is 900 x 2100 instead of
900 x 2000, so `Update` runs `InitCamera`, which resets the recogniser, the
contact starts a new gesture and the long press fires again, on the same cell;
the third frame lifts the contact.  The session has two long presses and two
calls of `ToggleFlag`. -/
theorem long_press_twice_after_resize :
    phoneGame.state = GameState.PLAYING ∧
      phoneGame.activeGesture = ActiveGesture.TOUCH_NONE ∧
      pressFrame.touchCount = 1 ∧ resizedPressFrame.touchCount = 1 ∧
      resizedReleaseFrame.touchCount = 0 ∧
      ∃ g', runUpdates axisDist phoneGame [pressFrame, resizedPressFrame, resizedReleaseFrame]
        = some (g', [Event.longPress, Event.toggleFlag 3 4,
            Event.longPress, Event.toggleFlag 3 4]) := by
  obtain ⟨ha, hz, hmin, hh, hw, hst⟩ := phoneGame_fields
  obtain ⟨l1, l2, l3⟩ := phoneGame_layout
  have hzz : phoneGame.camera.zoom ≤ phoneGame.minZoom + 1 / 100 := by
    rw [hz, hmin]; norm_num
  -- first frame: the long press fires
  have u1 := Update_noresize axisDist phoneGame pressFrame hst rfl rfl
  obtain ⟨g1, h1, -, s1, w1, hh1, r1, c1⟩ :=
    HandlePlayingInput_press axisDist
      (withTimer phoneGame (phoneGame.timer + pressFrame.frameTime)) pressFrame ha rfl hzz
      (by norm_num [pressFrame]) (by norm_num [axisDist, pressFrame])
  have e1 : longPressEvents
      { withTimer phoneGame (phoneGame.timer + pressFrame.frameTime) with
        touchStart := pressFrame.touch0 } = [Event.longPress, Event.toggleFlag 3 4] :=
    longPressEvents_3_4 _ hz phoneGame_camera_centred l2 l3
      (by show (600 : ℚ) < phoneGame.offsetY; rw [l1]; norm_num)
      (by show phoneGame.offsetY ≤ 700; rw [l1]; norm_num) rfl rfl rfl
  rw [e1] at h1
  rw [h1] at u1
  -- second frame: the new screen size resets the recogniser, the long press fires again
  obtain ⟨G, hG, a1, a2, a3, a4, a5, a6, -, a8, a9, a10, a11, a12, a13⟩ :=
    updateScreen_to_2100 g1 resizedPressFrame rfl rfl (r1.trans rfl) (c1.trans rfl)
      (s1.trans hst) (by rw [hh1]; decide)
  have u2 : Update axisDist g1 resizedPressFrame
      = HandlePlayingInput axisDist (withTimer G (G.timer + resizedPressFrame.frameTime))
          resizedPressFrame := by
    rw [Update_playing axisDist g1 resizedPressFrame (s1.trans hst), hG]
    rfl
  obtain ⟨g2, h2, hp2, s2, w2, hh2, -, -⟩ :=
    HandlePlayingInput_press axisDist
      (withTimer G (G.timer + resizedPressFrame.frameTime)) resizedPressFrame a1 rfl
      (by show G.camera.zoom ≤ G.minZoom + 1 / 100; rw [a8, a9]; norm_num)
      (by norm_num [resizedPressFrame]) (by norm_num [axisDist, resizedPressFrame])
  have e2 : longPressEvents
      { withTimer G (G.timer + resizedPressFrame.frameTime) with
        touchStart := resizedPressFrame.touch0 } = [Event.longPress, Event.toggleFlag 3 4] :=
    longPressEvents_3_4 _ a8 a10 a11 a12
      (by show (600 : ℚ) < G.offsetY; rw [a13]; norm_num)
      (by show G.offsetY ≤ 700; rw [a13]; norm_num) a3 a4 rfl
  rw [e2] at h2
  rw [h2] at u2
  -- third frame: the contact is lifted
  have u3 := Update_noresize axisDist g2 resizedReleaseFrame (s2.trans a2)
    (by rw [w2]; exact a5.symm) (by rw [hh2]; exact a6.symm)
  rw [HandlePlayingInput_release_pressed axisDist _ resizedReleaseFrame
    (pressedPhase_withTimer _ _ hp2) rfl] at u3
  obtain ⟨g3, u3'⟩ : ∃ x, Update axisDist g2 resizedReleaseFrame = some (x, []) := ⟨_, u3⟩
  refine ⟨hst, ha, rfl, rfl, rfl, g3, ?_⟩
  simp only [runUpdates, u1, u2, u3', Option.some_bind, Option.map_some', List.append_nil,
    List.cons_append, List.nil_append]

theorem long_press_session_witness :
    phoneGame.state = GameState.PLAYING ∧
      phoneGame.activeGesture = ActiveGesture.TOUCH_NONE ∧ pressFrame.touchCount = 1 ∧
      releaseFrame.touchCount = 0 ∧ pressFrame.frameTime ≥ 1 / 2 ∧
      ∃ g', runUpdates axisDist phoneGame [pressFrame, releaseFrame]
          = some (g', [Event.longPress, Event.toggleFlag 3 4]) ∧
        g'.state = GameState.PLAYING := by
  obtain ⟨ha, hz, hmin, hh, hw, hst⟩ := phoneGame_fields
  obtain ⟨l1, l2, l3⟩ := phoneGame_layout
  have hold : (heldMotion axisDist (handleTouchStart axisDist phoneGame pressFrame)
      pressFrame).activeGesture = ActiveGesture.TAP_OR_HOLD := by
    rw [heldMotion_activeGesture, handleTouchStart_single axisDist phoneGame pressFrame ha rfl]
    dsimp only
    rw [if_neg (by decide), if_neg (fun hc => by
      have := hc.2.2.2
      rw [hz, hmin] at this
      norm_num at this)]
  obtain ⟨g', ev, hrun, -, -, hc, hs, -⟩ :=
    long_press_session axisDist phoneGame [] pressFrame [] releaseFrame hst ha (by simp) rfl
      (by simp) rfl
      (by
        intro x hx
        simp only [List.nil_append, List.mem_cons, List.mem_singleton, List.not_mem_nil,
          or_false] at hx
        rcases hx with hx | hx <;> rw [hx] <;> exact ⟨rfl, rfl⟩)
      phoneGame [] rfl hold (by norm_num [pressFrame]) (by norm_num [axisDist, pressFrame])
  have hcell : startCell
      { phoneGame with touchStart := (([] : List Frame).headD pressFrame).touch0 } = (3, 4) :=
    startCell_3_4 _ hz phoneGame_camera_centred l2 l3
      (by show (600 : ℚ) < phoneGame.offsetY; rw [l1]; norm_num)
      (by show phoneGame.offsetY ≤ 700; rw [l1]; norm_num) rfl
  rw [hcell] at hc
  refine ⟨hst, ha, rfl, rfl, by norm_num [pressFrame], g', ?_, by rw [hs, hst]⟩
  rcases hc with ⟨-, he⟩ | ⟨hv, -⟩
  · rw [← he]; exact hrun
  · exact absurd hv (by decide)

theorem gestureLatched_withTimer (g : Game) (t : ℚ) (h : gestureLatched g) :
    gestureLatched (withTimer g t) := h

theorem gestureLatched_of_idle (g : Game) (h : g.activeGesture = ActiveGesture.TOUCH_NONE) :
    gestureLatched g := by
  intro hc
  rcases hc with hc | hc <;> rw [h] at hc <;> cases hc

theorem gestureLatched_updateScreen (g : Game) (f : Frame) (h : gestureLatched g) :
    gestureLatched (updateScreen g f) := by
  unfold updateScreen
  dsimp only
  split_ifs
  · exact gestureLatched_of_idle _ rfl
  · exact h
  · exact h

theorem gestureLatched_HandleMenuInput (g : Game) (f : Frame) (h : gestureLatched g) :
    gestureLatched (HandleMenuInput g f) := by
  unfold HandleMenuInput
  dsimp only
  split_ifs <;> first | exact h | exact gestureLatched_of_idle _ rfl

theorem gestureLatched_Update (dist : Vector2 → Vector2 → ℚ) (g : Game) (f : Frame)
    (g' : Game) (ev : List Event) (hp : Update dist g f = some (g', ev))
    (h : gestureLatched g) : gestureLatched g' := by
  have h1 := gestureLatched_updateScreen g f h
  unfold Update at hp
  dsimp only at hp
  split at hp
  · simp only [Option.some.injEq, Prod.mk.injEq] at hp
    rw [← hp.1]; exact gestureLatched_HandleMenuInput _ f h1
  · exact gestureLatched_HandlePlayingInput dist _ f g' ev hp h1
  · simp only [Option.some.injEq, Prod.mk.injEq] at hp
    rw [← hp.1]; unfold HandleGameOverInput; split_ifs <;> exact h1
  · simp only [Option.some.injEq, Prod.mk.injEq] at hp
    rw [← hp.1]; unfold HandleGameOverInput; split_ifs <;> exact h1

theorem gestureLatched_runUpdates (dist : Vector2 → Vector2 → ℚ) (fs : List Frame) (g : Game)
    (g' : Game) (ev : List Event) (hp : runUpdates dist g fs = some (g', ev))
    (h : gestureLatched g) : gestureLatched g' := by
  induction fs generalizing g ev with
  | nil =>
    simp only [runUpdates, Option.some.injEq, Prod.mk.injEq] at hp
    rw [← hp.1]; exact h
  | cons f fs ih =>
    simp only [runUpdates, Option.bind_eq_some, Option.map_eq_some', Prod.mk.injEq] at hp
    obtain ⟨p, hp1, q, hq, hq1, -⟩ := hp
    subst hq1
    exact ih p.1 q.2 hq (gestureLatched_Update dist g f p.1 p.2 hp1 h)

/-- C14, amended: for frames of `Update` from an idle recogniser
(`activeGesture = TOUCH_NONE`): once `activeGesture` is `GESTURE_PINCH` in the
phase `PLAYING`, it is `GESTURE_PINCH` after every further run of frames that
have a touch count of at least 1 and bring no new screen size, and once it is
`GESTURE_PAN`, it is `GESTURE_PAN` or `GESTURE_PINCH` after such a run; these
runs have a result and call nothing of the game logic.  The release frame
(touch count 0, no new screen size) of a pan or a pinch advances the clock,
resets the gesture state and does nothing else: no `RevealCell`, no
`ToggleFlag`, the phase is unchanged.  A single contact in `TAP_OR_HOLD` with
`gestureDecided = false` that is more than 12 px from its start while
`zoom > minZoom + 0.01` is a pan after that frame. -/
theorem gesture_transitions (dist : Vector2 → Vector2 → ℚ) :
    (∀ (g0 : Game) (fs1 fs2 : List Frame) (g1 : Game) (ev1 : List Event),
      g0.activeGesture = ActiveGesture.TOUCH_NONE →
      runUpdates dist g0 fs1 = some (g1, ev1) →
      g1.state = GameState.PLAYING →
      (∀ f ∈ fs2, f.touchCount ≥ 1 ∧ f.screenWidth = g1.screenWidth ∧
        f.screenHeight = g1.screenHeight) →
      (g1.activeGesture = ActiveGesture.GESTURE_PINCH →
        ∃ g2, runUpdates dist g1 fs2 = some (g2, []) ∧
          g2.activeGesture = ActiveGesture.GESTURE_PINCH) ∧
      (g1.activeGesture = ActiveGesture.GESTURE_PAN →
        ∃ g2, runUpdates dist g1 fs2 = some (g2, []) ∧
          (g2.activeGesture = ActiveGesture.GESTURE_PAN ∨
            g2.activeGesture = ActiveGesture.GESTURE_PINCH))) ∧
    (∀ (g : Game) (f : Frame), g.state = GameState.PLAYING →
      (g.activeGesture = ActiveGesture.GESTURE_PAN ∨
        g.activeGesture = ActiveGesture.GESTURE_PINCH) →
      f.touchCount = 0 → f.screenWidth = g.screenWidth → f.screenHeight = g.screenHeight →
      Update dist g f =
        some ({ g with
                timer := g.timer + f.frameTime
                activeGesture := ActiveGesture.TOUCH_NONE
                gestureDecided := false
                longPressTriggered := false }, [])) ∧
    (∀ (g : Game) (f : Frame), g.state = GameState.PLAYING →
      g.activeGesture = ActiveGesture.TAP_OR_HOLD →
      g.gestureDecided = false → f.touchCount = 1 → dist f.touch0 g.touchStart > 12 →
      g.camera.zoom > g.minZoom + 1 / 100 →
      f.screenWidth = g.screenWidth → f.screenHeight = g.screenHeight →
      ∃ g', Update dist g f = some (g', []) ∧
        g'.activeGesture = ActiveGesture.GESTURE_PAN) := by
  refine ⟨?_, ?_, ?_⟩
  · intro g0 fs1 fs2 g1 ev1 h0 hrun hs hf
    have hl : gestureLatched g1 :=
      gestureLatched_runUpdates dist fs1 g0 g1 ev1 hrun (gestureLatched_of_idle g0 h0)
    have hf1 : ∀ f ∈ fs2, f.touchCount ≥ 1 := fun f hx => (hf f hx).1
    have e := runUpdates_touch dist fs2 g1 hs hf
    constructor
    · intro hg
      obtain ⟨g2, h2⟩ := runFrames_decided_total dist fs2 g1 (Or.inr hg) hf1
      refine ⟨withTimer g2 (g1.timer + (fs2.map Frame.frameTime).sum), ?_, ?_⟩
      · rw [e, h2]; rfl
      · exact (runFrames_pinch dist fs2 g1 g2 [] h2 hg (hl (Or.inr hg)) hf1).1
    · intro hg
      obtain ⟨g2, h2⟩ := runFrames_decided_total dist fs2 g1 (Or.inl hg) hf1
      refine ⟨withTimer g2 (g1.timer + (fs2.map Frame.frameTime).sum), ?_, ?_⟩
      · rw [e, h2]; rfl
      · exact (runFrames_pan dist fs2 g1 g2 [] h2 (Or.inl hg) (hl (Or.inl hg)) hf1).1
  · intro g f hs hg hf hw hh
    rw [Update_noresize dist g f hs hw hh,
      HandlePlayingInput_release_decided dist (withTimer g (g.timer + f.frameTime)) f hg hf]
    rfl
  · intro g f hs hg hd hf hm hz hw hh
    rw [Update_noresize dist g f hs hw hh]
    obtain ⟨h1, h2, -⟩ := HandlePlayingInput_to_pan dist
      (withTimer g (g.timer + f.frameTime)) f hg hd hf hm hz
    exact ⟨_, h1, h2⟩

/-- The first frame of two contacts: the gesture is a pinch at once. -/
theorem HandlePlayingInput_pinch_start (dist : Vector2 → Vector2 → ℚ) (g : Game) (f : Frame)
    (hg : g.activeGesture = ActiveGesture.TOUCH_NONE) (hf : f.touchCount ≥ 2) :
    ∃ g', HandlePlayingInput dist g f = some (g', []) ∧
      g'.activeGesture = ActiveGesture.GESTURE_PINCH ∧ g'.state = g.state ∧
      g'.screenWidth = g.screenWidth ∧ g'.screenHeight = g.screenHeight ∧
      g'.rows = g.rows ∧ g'.cols = g.cols := by
  have hgs : (handleTouchStart dist g f).activeGesture = ActiveGesture.GESTURE_PINCH ∧
      (handleTouchStart dist g f).gestureDecided = true := by
    unfold handleTouchStart
    dsimp only
    rw [if_pos ⟨by omega, hg⟩, if_pos hf]
    exact ⟨rfl, rfl⟩
  have h1 := HandlePlayingInput_decided dist (handleTouchStart dist g f) f (Or.inr hgs.1)
    (by omega)
  rw [HandlePlayingInput_start_eq dist g f (by omega)] at h1
  have h2 : HandlePlayingInput dist (handleTouchStart dist g f) f
      = some (heldMotion dist (handleTouchStart dist g f) f, []) := by
    rw [HandlePlayingInput_start_eq dist g f (by omega)]; exact h1
  obtain ⟨a1, a2, a3, a4⟩ := HandlePlayingInput_touch_screen dist g f _ _ h1
  exact ⟨_, h1, (HandlePlayingInput_pinch dist _ f _ _ h2 hgs.1 hgs.2 (by omega)).1,
    HandlePlayingInput_touch_state dist g f _ _ (by omega) h1, a1, a2, a3, a4⟩

/-- C14, counterexample: one touch session of three frames of `Update` on the
phone game.  Two contacts go down, the first one on the restart button: a
pinch.  In the second frame the screen is 900 x 2100 instead of 900 x 2000
and one contact is still down: `Update` runs `InitCamera`, which resets the
recogniser, and the contact starts a new gesture, `TAP_OR_HOLD`.  The third
frame lifts the contact: the tap fires and the game returns to the menu. -/
theorem pinch_lost_after_resize :
    phoneGame.state = GameState.PLAYING ∧
      phoneGame.activeGesture = ActiveGesture.TOUCH_NONE ∧
      resizedTouchFrame.touchCount = 1 ∧ resizedReleaseFrame.touchCount = 0 ∧
      ∃ g1 g2 g3,
        runUpdates axisDist phoneGame [twoFingerFrame] = some (g1, []) ∧
        g1.activeGesture = ActiveGesture.GESTURE_PINCH ∧
        runUpdates axisDist phoneGame [twoFingerFrame, resizedTouchFrame] = some (g2, []) ∧
        g2.activeGesture = ActiveGesture.TAP_OR_HOLD ∧
        runUpdates axisDist phoneGame [twoFingerFrame, resizedTouchFrame, resizedReleaseFrame]
          = some (g3, [Event.tap, Event.restart]) ∧
        g3.state = GameState.MENU := by
  obtain ⟨ha, hz, hmin, hh, hw, hst⟩ := phoneGame_fields
  -- first frame: two contacts, a pinch
  have u1 := Update_noresize axisDist phoneGame twoFingerFrame hst rfl rfl
  obtain ⟨g1, h1, p1, s1, w1, hh1, r1, c1⟩ :=
    HandlePlayingInput_pinch_start axisDist
      (withTimer phoneGame (phoneGame.timer + twoFingerFrame.frameTime)) twoFingerFrame ha
      (by decide)
  rw [h1] at u1
  -- second frame: the new screen size resets the recogniser
  obtain ⟨G, hG, a1, a2, a3, a4, a5, a6, a7, a8, a9, -, -, -, -⟩ :=
    updateScreen_to_2100 g1 resizedTouchFrame rfl rfl (r1.trans rfl) (c1.trans rfl)
      (s1.trans hst) (by rw [hh1]; decide)
  have u2 : Update axisDist g1 resizedTouchFrame
      = HandlePlayingInput axisDist (withTimer G (G.timer + resizedTouchFrame.frameTime))
          resizedTouchFrame := by
    rw [Update_playing axisDist g1 resizedTouchFrame (s1.trans hst), hG]
    rfl
  rw [HandlePlayingInput_quiet_start axisDist
    (withTimer G (G.timer + resizedTouchFrame.frameTime)) resizedTouchFrame rfl a1
    (by show G.camera.zoom ≤ G.minZoom + 1 / 100; rw [a8, a9]; norm_num)
    (by norm_num [resizedTouchFrame])] at u2
  obtain ⟨S, hS⟩ : ∃ S : Game, S =
      { withTimer G (G.timer + resizedTouchFrame.frameTime) with
        touchStart := resizedTouchFrame.touch0
        touchTimer := 0 + resizedTouchFrame.frameTime
        longPressTriggered := false
        gestureDecided := false
        gestureMoveDist := axisDist resizedTouchFrame.touch0 resizedTouchFrame.touch0
        activeGesture := ActiveGesture.TAP_OR_HOLD } := ⟨_, rfl⟩
  rw [← hS] at u2
  have b1 : S.activeGesture = ActiveGesture.TAP_OR_HOLD := by rw [hS]
  have b2 : S.state = GameState.PLAYING := by rw [hS]; exact a2
  have b3 : S.screenWidth = 900 := by rw [hS]; exact a5
  have b4 : S.screenHeight = 2100 := by rw [hS]; exact a6
  have b5 : S.headerHeight = 168 := by rw [hS]; exact a7
  have b6 : S.touchStart = { x := 450, y := 80 } := by rw [hS]; rfl
  have b7 : S.gestureMoveDist = 0 := by
    rw [hS]; norm_num [axisDist, resizedTouchFrame]
  have b8 : S.longPressTriggered = false := by rw [hS]
  -- third frame: the contact is lifted and the tap fires
  have u3 := Update_noresize axisDist S resizedReleaseFrame b2 (by rw [b3]; rfl)
    (by rw [b4]; rfl)
  have hc : tapCondition (withTimer S (S.timer + resizedReleaseFrame.frameTime)) := by
    refine ⟨b1, b8, ?_⟩
    show S.gestureMoveDist < 12
    rw [b7]; norm_num
  have hr : restartHit (withTimer S (S.timer + resizedReleaseFrame.frameTime)) := by
    unfold restartHit withTimer
    dsimp only
    rw [b3, b5, b6]
    norm_num
  rw [HandlePlayingInput_restart axisDist _ resizedReleaseFrame rfl hc hr] at u3
  obtain ⟨g3, u3', hg3⟩ : ∃ x, Update axisDist S resizedReleaseFrame
      = some (x, [Event.tap, Event.restart]) ∧ x.state = GameState.MENU := ⟨_, u3, rfl⟩
  refine ⟨hst, ha, rfl, rfl, g1, S, g3, ?_, p1, ?_, b1, ?_, hg3⟩
  · simp only [runUpdates, u1, Option.some_bind, Option.map_some', List.append_nil]
  · simp only [runUpdates, u1, u2, Option.some_bind, Option.map_some', List.append_nil]
  · simp only [runUpdates, u1, u2, u3', Option.some_bind, Option.map_some', List.append_nil,
      List.nil_append]

theorem gesture_transitions_witness :
    (phoneGame.activeGesture = ActiveGesture.TOUCH_NONE ∧ wiggleFrame1.touchCount = 1 ∧
      ∃ g1, runUpdates axisDist phoneGame [twoFingerFrame] = some (g1, []) ∧
        g1.state = GameState.PLAYING ∧ g1.activeGesture = ActiveGesture.GESTURE_PINCH ∧
        ∃ g2, runUpdates axisDist g1 [wiggleFrame1] = some (g2, []) ∧
          g2.activeGesture = ActiveGesture.GESTURE_PINCH) ∧
    (holdGame.activeGesture = ActiveGesture.TAP_OR_HOLD ∧ holdGame.gestureDecided = false ∧
      holdGame.state = GameState.PLAYING ∧
      dragFrame.touchCount = 1 ∧ axisDist dragFrame.touch0 holdGame.touchStart = 30 ∧
      holdGame.camera.zoom > holdGame.minZoom + 1 / 100 ∧
      ∃ g', Update axisDist holdGame dragFrame = some (g', []) ∧
        g'.activeGesture = ActiveGesture.GESTURE_PAN) := by
  obtain ⟨ha, -, -, -, -, hst⟩ := phoneGame_fields
  have hm : axisDist dragFrame.touch0 holdGame.touchStart = 30 := by
    norm_num [axisDist, dragFrame, holdGame]
  have hz : holdGame.camera.zoom > holdGame.minZoom + 1 / 100 := by
    norm_num [holdGame, hardPhoneGame, InitBoard, InitCamera]
  have u1 := Update_noresize axisDist phoneGame twoFingerFrame hst rfl rfl
  obtain ⟨g1, h1, p1, s1, w1, hh1, -, -⟩ :=
    HandlePlayingInput_pinch_start axisDist
      (withTimer phoneGame (phoneGame.timer + twoFingerFrame.frameTime)) twoFingerFrame ha
      (by decide)
  rw [h1] at u1
  have hrun : runUpdates axisDist phoneGame [twoFingerFrame] = some (g1, []) := by
    simp only [runUpdates, u1, Option.some_bind, Option.map_some', List.append_nil]
  have hlatch := ((gesture_transitions axisDist).1 phoneGame [twoFingerFrame] [wiggleFrame1]
    g1 [] ha hrun (s1.trans hst)
    (by
      intro f hf
      rw [List.mem_singleton.mp hf]
      exact ⟨by decide, by rw [w1]; rfl, by rw [hh1]; rfl⟩)).1 p1
  exact ⟨⟨ha, rfl, g1, hrun, s1.trans hst, p1, hlatch⟩, rfl, rfl, rfl, rfl, hm, hz,
    (gesture_transitions axisDist).2.2 holdGame dragFrame rfl rfl rfl rfl
      (by rw [hm]; norm_num) hz rfl rfl⟩

end Minesweeper
